import Mathlib

/-!
# codenames.plus: the session / room / turn synchronisation core of `app.js`

A shallow embedding of the server state of `src/app.js` and of its handlers.

* The five registries (`SOCKET_LIST`, `ROOM_LIST`, `PLAYER_LIST`,
  `DELETE_SESSION_LIST`, `DELETE_ROOM_LIST`) are JavaScript objects used as
  dictionaries; they are embedded as association lists in insertion order.
* `Player` objects are shared between `PLAYER_LIST` and the `players` object of a
  room, so they live in a heap (`State.heap`) and both tables hold references.
* `setTimeout` / `clearTimeout` are embedded as a table of pending timers.
* `socket.emit` appends to an output log, calls into `server/game.js` append to a
  call log; `logStats` only writes a log line and is left out.
* A handler that throws (a property read on `undefined`) returns `none`.
-/

namespace Codenames

/-! ## JavaScript objects used as dictionaries -/

/-- Own properties of a JavaScript object, in insertion order. -/
abbrev Obj (α : Type) := List (String × α)

namespace Obj

/-- Own-property read `o[k]`. -/
def get {α : Type} : Obj α → String → Option α
  | [], _ => none
  | (k', v) :: t, k => if k' = k then some v else get t k

/-- Assignment `o[k] = v`: an existing key keeps its position, a new key goes last. -/
def set {α : Type} : Obj α → String → α → Obj α
  | [], k, v => [(k, v)]
  | (k', v') :: t, k, v => if k' = k then (k, v) :: t else (k', v') :: set t k v

/-- Removal `delete o[k]`. -/
def del {α : Type} (o : Obj α) (k : String) : Obj α :=
  o.filter (fun e => decide (e.1 ≠ k))

/-- Enumeration `Object.keys(o)` (also the order of `for (k in o)`). -/
def keys {α : Type} (o : Obj α) : List String :=
  o.map Prod.fst

end Obj

/-- Property names that every object literal inherits from `Object.prototype`: a read
`o[k]` of one of them on `o = {}` yields a built-in value, which is truthy. -/
def objectPrototypeKeys : List String :=
  ["constructor", "__defineGetter__", "__defineSetter__", "hasOwnProperty",
   "__lookupGetter__", "__lookupSetter__", "isPrototypeOf", "propertyIsEnumerable",
   "toString", "valueOf", "__proto__", "toLocaleString"]

/-- Truthiness of the read `o[k]` when the stored values are objects: the key is an own
property, or it is inherited from `Object.prototype`. -/
def truthyAt {α : Type} (o : Obj α) (k : String) : Bool :=
  (o.get k).isSome || decide (k ∈ objectPrototypeKeys)

/-- The operator `k in o` on an object literal: the key is an own property, or it is
inherited from `Object.prototype`. -/
def hasProperty {α : Type} (o : Obj α) (k : String) : Bool :=
  (o.get k).isSome || decide (k ∈ objectPrototypeKeys)

/-! ## Strings -/

/-- White space and line terminators removed by `String.prototype.trim`. -/
def isWhiteSpace (c : Char) : Bool :=
  let n := c.toNat
  n = 9 || n = 10 || n = 11 || n = 12 || n = 13 || n = 32 || n = 160 || n = 5760 ||
  (8192 ≤ n && n ≤ 8202) || n = 8232 || n = 8233 || n = 8239 || n = 8287 ||
  n = 12288 || n = 65279

/-- The method `String.prototype.trim`. -/
def trim (s : String) : String :=
  String.mk ((s.data.dropWhile isWhiteSpace).reverse.dropWhile isWhiteSpace).reverse

/-- The name tried after `counter` collisions: `nickname + "(" + counter + ")"`. -/
def suffixed (nickname : String) (counter : Nat) : String :=
  nickname ++ "(" ++ toString counter ++ ")"

/-! ## Data model -/

/-- Class `Player` (lines 98-136). -/
structure Player where
  id : String
  nickname : String
  room : String
  team : String
  role : String
  guessProposal : Option String
  timeout : Int
  afktimer : Int
deriving DecidableEq, Repr

/-- Modelled from the spec: a tile of the board of `server/game.js`, of which the core reads
only `word`. -/
structure Tile where
  word : String
deriving DecidableEq, Repr

/-- Modelled from the spec: the fields of a `Game` of `server/game.js` that the core reads
or writes (section 6), and the engine's private state, which the core never touches. -/
structure Game where
  turn : String
  over : Bool
  board : List (List Tile)
  timer : Int
  timerAmount : Int
  base : Bool
  duet : Bool
  undercover : Bool
  custom : Bool
  nsfw : Bool
  engine : List Nat
deriving DecidableEq, Repr

/-- Modelled from the spec: the operations of `server/game.js` that the core calls
(section 6). Their bodies are not part of this repository's core and are a parameter
of every handler. -/
structure Engine where
  create : Game
  init : Game → Game
  flipTile : Game → Nat → Nat → Game
  switchTurn : Game → Option Bool → Game
  declareClue : Game → String → Game × Bool
  updateWordPool : Game → Game

/-- Class `Room` (lines 81-94); `players` maps a session id to a reference into the heap. -/
structure Room where
  room : String
  password : String
  players : Obj Nat
  game : Game
  difficulty : String
  mode : String
  consensus : String
deriving DecidableEq, Repr

/-- A socket.io connection; `sessionId` is assigned once, by the connection handler: a
token it mints, or the id of a known player. -/
structure Socket where
  conn : Nat
  sessionId : String
deriving DecidableEq, Repr

/-- The object built by `getGameState` (lines 681-691), with `team` as `gameUpdate` sets it. -/
structure GameState where
  room : String
  players : Obj Player
  game : Game
  difficulty : String
  mode : String
  consensus : String
  team : Option String
deriving DecidableEq, Repr

/-- Outbound events and their payloads. -/
inductive Msg where
  | serverStats (players rooms : Nat) (sessionId : String) (isExistingPlayer : Bool)
      (gameState : Option GameState)
  | createResponse (success : Bool) (msg : String)
  | joinResponse (success : Bool) (msg : String)
  | leaveResponse (success : Bool)
  | switchRoleResponse (success : Bool) (role : Option String)
  | newGameResponse (success : Bool)
  | gameState (gs : GameState)
  | timerUpdate (timer : Int)
  | afkWarning
  | afkKicked
deriving DecidableEq, Repr

/-- One call `socket.emit(event, payload)` on the connection `conn`. -/
structure Emit where
  conn : Nat
  msg : Msg
deriving DecidableEq, Repr

/-- A call into the game engine. -/
inductive EngineCall where
  | init
  | flipTile (i j : Nat)
  | switchTurn (forced : Option Bool)
  | declareClue (clue : String)
  | updateWordPool
deriving DecidableEq, Repr

/-- The callback of a pending `setTimeout`: the disconnect grace timer of lines 225-228
(it closes over the socket) or the room deletion timer of lines 821-825. -/
inductive TimerAction where
  | session (socket : Socket)
  | room (name : String)
deriving DecidableEq, Repr

/-- The server state. -/
structure State where
  SOCKET_LIST : Obj Socket
  ROOM_LIST : Obj Room
  PLAYER_LIST : Obj Nat
  DELETE_SESSION_LIST : Obj Nat
  DELETE_ROOM_LIST : Obj Nat
  heap : List Player
  timers : List (Nat × TimerAction)
  nextTimer : Nat
  conns : List Socket
  nextConn : Nat
  out : List Emit
  calls : List (String × EngineCall)
deriving DecidableEq, Repr

/-- The state at process start (lines 73-77). -/
def State.init : State :=
  { SOCKET_LIST := [], ROOM_LIST := [], PLAYER_LIST := [], DELETE_SESSION_LIST := [],
    DELETE_ROOM_LIST := [], heap := [], timers := [], nextTimer := 0, conns := [],
    nextConn := 0, out := [], calls := [] }

/-- The call `socket.emit(...)`. -/
def State.emit (S : State) (conn : Nat) (m : Msg) : State :=
  { S with out := S.out ++ [{ conn := conn, msg := m }] }

/-- Write to the `Player` object behind a reference. -/
def State.setPlayer (S : State) (ref : Nat) (p : Player) : State :=
  { S with heap := S.heap.set ref p }

/-- Write to the room stored under a name. -/
def State.setRoom (S : State) (name : String) (R : Room) : State :=
  { S with ROOM_LIST := S.ROOM_LIST.set name R }

/-- The `Player` object that `PLAYER_LIST[k]` refers to. -/
def State.player (S : State) (k : String) : Option Player :=
  match S.PLAYER_LIST.get k with
  | none => none
  | some ref => S.heap[ref]?

/-! ## The `Player` class -/

/-- Dereference every entry of a `players` object. -/
def derefPlayers (heap : List Player) : Obj Nat → Option (Obj Player)
  | [] => some []
  | (k, ref) :: t =>
    match heap[ref]?, derefPlayers heap t with
    | some p, some rest => some ((k, p) :: rest)
    | _, _ => none

/-- The nicknames read by the inner loop of the constructor (lines 110-113):
`ROOM_LIST[room].players[i].nickname` for every member `i`. -/
def memberNicknames (S : State) (R : Room) : Option (List String) :=
  (derefPlayers S.heap R.players).map (fun ps => ps.map (fun e => e.2.nickname))

/-- The `while (!nameAvailable)` loop of the constructor (lines 107-117): `tempName` is
tried; on a collision the counter is incremented and `nickname(counter)` is tried next.
The member set does not change during the loop, so its nicknames are read once. -/
def nameSearch (taken : List String) (nickname : String) : Nat → String → Nat → Option String
  | 0, _, _ => none
  | fuel + 1, tempName, counter =>
    if tempName ∈ taken then nameSearch taken nickname fuel (suffixed nickname (counter + 1)) (counter + 1)
    else some tempName

/-- The constructor of class `Player` (lines 99-128): `new Player(nickname, room, socket)`.
Returns the new state and the reference of the new object. When `ROOM_LIST[room]` is not
a room the source loop never exits; the two call sites only pass an existing room. -/
def newPlayer (S : State) (nickname room : String) (socket : Socket) : Option (State × Nat) :=
  match S.ROOM_LIST.get room with
  | none => none
  | some R =>
    match memberNicknames S R with
    | none => none
    | some taken =>
      match nameSearch taken nickname (taken.length + 1) nickname 0 with
      | none => none
      | some tempName =>
        let p : Player :=
          { id := socket.sessionId, nickname := tempName, room := room, team := "undecided",
            role := "guesser", guessProposal := none, timeout := 10800, afktimer := 10800 }
        some ({ S with heap := S.heap ++ [p],
                       PLAYER_LIST := S.PLAYER_LIST.set socket.sessionId S.heap.length },
              S.heap.length)

/-- The method `joinTeam` of class `Player` (lines 131-135), on the object behind `ref`. -/
def Player.joinTeam (S : State) (ref : Nat) : Option State :=
  match S.heap[ref]? with
  | none => none
  | some p =>
    match S.ROOM_LIST.get p.room with
    | none => none
    | some R =>
      let numInRoom := R.players.keys.length
      if numInRoom % 2 = 0 then some (S.setPlayer ref { p with team := "blue" })
      else some (S.setPlayer ref { p with team := "red" })

/-! ## The state broadcaster -/

/-- The function `getGameState` (lines 681-691); the member objects are read when the
payload is emitted. Reading `ROOM_LIST[room].players` of a missing room throws. -/
def getGameState (S : State) (room : String) : Option GameState :=
  match S.ROOM_LIST.get room with
  | none => none
  | some R =>
    match derefPlayers S.heap R.players with
    | none => none
    | some ps =>
      some { room := room, players := ps, game := R.game, difficulty := R.difficulty,
             mode := R.mode, consensus := R.consensus, team := none }

/-- The loop of `gameUpdate` (lines 672-678): one `gameState` per member that has a
registered connection, with `team` overwritten by `PLAYER_LIST[player].team`. -/
def gameStateEmits (S : State) (gs : GameState) : List String → Option (List Emit)
  | [] => some []
  | player :: rest =>
    match S.SOCKET_LIST.get player with
    | none => gameStateEmits S gs rest
    | some sock =>
      match S.player player, gameStateEmits S gs rest with
      | some p, some es =>
        some ({ conn := sock.conn, msg := Msg.gameState { gs with team := some p.team } } :: es)
      | _, _ => none

/-- The function `gameUpdate` (lines 669-679). -/
def gameUpdate (S : State) (room : String) : Option State :=
  match getGameState S room, S.ROOM_LIST.get room with
  | some gs, some R =>
    match gameStateEmits S gs R.players.keys with
    | none => none
    | some es => some { S with out := S.out ++ es }
  | _, _ => none

/-! ## Room lifecycle -/

/-- The payload of `createRoom` and `joinRoom`. -/
structure RoomData where
  room : String
  password : String
  nickname : String
deriving DecidableEq, Repr

/-- The constructor of class `Room` (lines 82-93): `new Room(name, pass)`. -/
def newRoom (E : Engine) (S : State) (name pass : String) : State :=
  S.setRoom name
    { room := name, password := pass, players := [], game := E.create,
      difficulty := "normal", mode := "casual", consensus := "single" }

/-- The assignment `ROOM_LIST[roomName].players[sessionId] = player`. -/
def addMember (S : State) (roomName sessionId : String) (ref : Nat) : Option State :=
  match S.ROOM_LIST.get roomName with
  | none => none
  | some R => some (S.setRoom roomName { R with players := R.players.set sessionId ref })

/-- The call `clearTimeout(id)`. -/
def clearTimeout (S : State) (id : Nat) : State :=
  { S with timers := S.timers.filter (fun t => decide (t.1 ≠ id)) }

/-- The call `setTimeout(callback, delay)`; returns the state and the new timer. -/
def setTimeout (S : State) (a : TimerAction) : State × Nat :=
  ({ S with timers := S.timers ++ [(S.nextTimer, a)], nextTimer := S.nextTimer + 1 },
   S.nextTimer)

/-- The function `deleteRoom` (lines 816-828): schedules the deferred deletion unless
`DELETE_ROOM_LIST[room]` is truthy. -/
def deleteRoom (S : State) (room : String) : State :=
  if truthyAt S.DELETE_ROOM_LIST room then S
  else
    let r := setTimeout S (TimerAction.room room)
    { r.1 with DELETE_ROOM_LIST := r.1.DELETE_ROOM_LIST.set room r.2 }

/-- The three statements shared by `createRoom` (lines 396-398) and `joinRoom` (lines
455-457): `let player = new Player(userName, roomName, socket)`, then
`ROOM_LIST[roomName].players[socket.sessionId] = player`, then `player.joinTeam()`. -/
def enterRoom (S : State) (userName roomName : String) (socket : Socket) : Option State :=
  match newPlayer S userName roomName socket with
  | none => none
  | some (S1, player) =>
    match addMember S1 roomName socket.sessionId player with
    | none => none
    | some S2 => Player.joinTeam S2 player

/-- The function `createRoom` (lines 367-414). -/
def createRoom (E : Engine) (S : State) (socket : Socket) (data : RoomData) : Option State :=
  let roomName := trim data.room
  let passName := trim data.password
  let userName := trim data.nickname
  if truthyAt S.ROOM_LIST roomName then
    some (S.emit socket.conn (Msg.createResponse false "Room Already Exists"))
  else if roomName = "" then
    some (S.emit socket.conn (Msg.createResponse false "Enter A Valid Room Name"))
  else if userName = "" then
    some (S.emit socket.conn (Msg.createResponse false "Enter A Valid Nickname"))
  else
    match enterRoom (newRoom E S roomName passName) userName roomName socket with
    | none => none
    | some S3 => gameUpdate (S3.emit socket.conn (Msg.createResponse true "")) roomName

/-- The cancellation of a pending room deletion in `joinRoom` (lines 444-454):
`if (DELETE_ROOM_LIST[roomName])` then `clearTimeout` and `delete`. -/
def cancelDeletion (S : State) (roomName : String) : State :=
  match S.DELETE_ROOM_LIST.get roomName with
  | none => S
  | some id =>
    let Sc := clearTimeout S id
    { Sc with DELETE_ROOM_LIST := Sc.DELETE_ROOM_LIST.del roomName }

/-- The function `joinRoom` (lines 419-474). When `ROOM_LIST[roomName]` is a property
inherited from `Object.prototype`, its `password` is `undefined` and differs from `pass`. -/
def joinRoom (S : State) (socket : Socket) (data : RoomData) : Option State :=
  let roomName := trim data.room
  let pass := trim data.password
  let userName := trim data.nickname
  if !truthyAt S.ROOM_LIST roomName then
    some (S.emit socket.conn (Msg.joinResponse false "Room Not Found"))
  else
    match S.ROOM_LIST.get roomName with
    | none => some (S.emit socket.conn (Msg.joinResponse false "Incorrect Password"))
    | some R =>
      if R.password ≠ pass then
        some (S.emit socket.conn (Msg.joinResponse false "Incorrect Password"))
      else if userName = "" then
        some (S.emit socket.conn (Msg.joinResponse false "Enter A Valid Nickname"))
      else
        match enterRoom (cancelDeletion S roomName) userName roomName socket with
        | none => none
        | some S3 => gameUpdate (S3.emit socket.conn (Msg.joinResponse true "")) roomName

/-- The statement `delete ROOM_LIST[room].players[key]`; throws when the room is missing. -/
def removeMember (S : State) (room key : String) : Option State :=
  match S.ROOM_LIST.get room with
  | none => none
  | some R => some (S.setRoom room { R with players := R.players.del key })

/-- The test `Object.keys(ROOM_LIST[room].players).length === 0` followed by `deleteRoom`. -/
def deleteRoomIfEmpty (S : State) (room : String) : Option State :=
  match S.ROOM_LIST.get room with
  | none => none
  | some R => if R.players.keys.length = 0 then some (deleteRoom S room) else some S

/-- The function `leaveRoom` (lines 478-501). The guard `if (!PLAYER_LIST[socket.sessionId])
return` of every player-scoped handler is a truthiness test: it also lets a session id
through that names a property inherited from `Object.prototype`. The handler then runs on a
built-in object, whose `room` is `undefined` (it throws unless a room is named
"undefined"); that path is outside this embedding and is reported as `none`. -/
def leaveRoom (S : State) (socket : Socket) : Option State :=
  if !truthyAt S.PLAYER_LIST socket.sessionId then some S
  else
    match S.PLAYER_LIST.get socket.sessionId with
    | none => none
    | some ref =>
      match S.heap[ref]? with
      | none => none
      | some player =>
        let S1 := { S with PLAYER_LIST := S.PLAYER_LIST.del player.id }
        match removeMember S1 player.room player.id with
        | none => none
        | some S2 =>
          match gameUpdate S2 player.room with
          | none => none
          | some S3 =>
            match deleteRoomIfEmpty S3 player.room with
            | none => none
            | some S4 => some (S4.emit socket.conn (Msg.leaveResponse true))

/-- The function `socketDisconnect` (lines 786-814). Its two call sites pass a session id
that does not name an inherited property: line 219 is reached when `socket.sessionId in
PLAYER_LIST` is false, and the timer of line 225 is started only when
`DELETE_SESSION_LIST[socket.sessionId]` is falsy. The test `if (player)` is therefore a
test for an own property. -/
def socketDisconnect (S : State) (socket : Socket) : Option State :=
  let player := S.PLAYER_LIST.get socket.sessionId
  let S1 := { S with SOCKET_LIST := S.SOCKET_LIST.del socket.sessionId,
                     PLAYER_LIST := S.PLAYER_LIST.del socket.sessionId }
  match player with
  | none => some S1
  | some ref =>
    match S1.heap[ref]? with
    | none => none
    | some p =>
      match removeMember S1 p.room socket.sessionId with
      | none => none
      | some S2 =>
        match gameUpdate S2 p.room with
        | none => none
        | some S3 => deleteRoomIfEmpty S3 p.room

/-! ## Connections and timers -/

/-- The shape of a session id minted by `crypto.randomBytes(16).toString("hex")`. -/
def isToken (s : String) : Bool :=
  decide (s.length = 32) && s.data.all (fun c => c.isDigit || (decide ('a' ≤ c) && decide (c ≤ 'f')))

/-- The connection handler (lines 140-181) for a client whose query carries `query` as
`sessionId` (`none` when absent), `fresh` being the random token minted on the new-session
path. Returns the state and the new socket. A `query` that names a property inherited from
`Object.prototype` passes the `in` test of line 143 and makes the handler read properties of
a built-in object: `getGameState(undefined)` throws unless a room is named "undefined", and
the connection is registered under that session id when such a room exists. That path is
outside this embedding and is reported as `none`; a connection of this kind is given as a
state of its own (`exIntruder`). -/
def connection (S : State) (query : Option String) (fresh : String) : Option (State × Socket) :=
  let existingSessionId := query.getD "undefined"
  if existingSessionId ∈ objectPrototypeKeys then none
  else
    let isExistingPlayer := (S.PLAYER_LIST.get existingSessionId).isSome
    if query = some "null" || !isExistingPlayer then
      let socket : Socket := { conn := S.nextConn, sessionId := fresh }
      let S1 := { S with SOCKET_LIST := S.SOCKET_LIST.set fresh socket,
                         conns := S.conns ++ [socket], nextConn := S.nextConn + 1 }
      some (S1.emit socket.conn
              (Msg.serverStats S1.PLAYER_LIST.keys.length S1.ROOM_LIST.keys.length fresh
                isExistingPlayer none), socket)
    else
      let socket : Socket := { conn := S.nextConn, sessionId := existingSessionId }
      let S0 :=
        match S.DELETE_SESSION_LIST.get existingSessionId with
        | none => S
        | some id =>
          let Sc := clearTimeout S id
          { Sc with DELETE_SESSION_LIST := Sc.DELETE_SESSION_LIST.del existingSessionId }
      let S1 := { S0 with SOCKET_LIST := S0.SOCKET_LIST.set existingSessionId socket,
                          conns := S0.conns ++ [socket], nextConn := S0.nextConn + 1 }
      match S1.player existingSessionId with
      | none => none
      | some p =>
        match getGameState S1 p.room with
        | none => none
        | some gs =>
          some (S1.emit socket.conn
                  (Msg.serverStats S1.PLAYER_LIST.keys.length S1.ROOM_LIST.keys.length
                    existingSessionId true (some { gs with team := some p.team })), socket)

/-- The `disconnect` handler (lines 204-232); the connection is closed afterwards. The test
of line 205 is `socket.sessionId in PLAYER_LIST`, and the test of line 222 is the truthiness
of `DELETE_SESSION_LIST[socket.sessionId]`: both hold for a session id that names a property
inherited from `Object.prototype`, whether the session has a `Player` or not. The read of
`nickname` in lines 206-208 yields `undefined` on a built-in object and does not throw. -/
def onDisconnect (S : State) (socket : Socket) : Option State :=
  let S0 := { S with conns := S.conns.filter (fun c => decide (c ≠ socket)) }
  let isExistingPlayer := hasProperty S0.PLAYER_LIST socket.sessionId
  if !isExistingPlayer then socketDisconnect S0 socket
  else
    if !truthyAt S0.DELETE_SESSION_LIST socket.sessionId then
      let r := setTimeout S0 (TimerAction.session socket)
      some { r.1 with DELETE_SESSION_LIST := r.1.DELETE_SESSION_LIST.set socket.sessionId r.2 }
    else some S0

/-- The callback of a timer (lines 225-228 and 821-825). -/
def runTimer (S : State) : TimerAction → Option State
  | TimerAction.session socket =>
    match socketDisconnect S socket with
    | none => none
    | some S1 =>
      some { S1 with DELETE_SESSION_LIST := S1.DELETE_SESSION_LIST.del socket.sessionId }
  | TimerAction.room room =>
    some { S with ROOM_LIST := S.ROOM_LIST.del room,
                  DELETE_ROOM_LIST := S.DELETE_ROOM_LIST.del room }

/-- The action of the pending timer `id`, if any. -/
def pendingAction : List (Nat × TimerAction) → Nat → Option TimerAction
  | [], _ => none
  | (i, a) :: t, id => if i = id then some a else pendingAction t id

/-- Expiry of the pending timer `id`: it leaves the timer table and its callback runs. -/
def fireTimer (S : State) (id : Nat) : Option State :=
  match pendingAction S.timers id with
  | none => none
  | some a => runTimer (clearTimeout S id) a

/-! ## The consensus guess coordinator -/

/-- The function `clearGuessProsposals` (lines 662-666), as a loop over the member keys. -/
def clearLoop (S : State) : List String → Option State
  | [] => some S
  | player :: rest =>
    match S.PLAYER_LIST.get player with
    | none => none
    | some ref =>
      match S.heap[ref]? with
      | none => none
      | some p => clearLoop (S.setPlayer ref { p with guessProposal := none }) rest

/-- The function `clearGuessProsposals` (lines 662-666). -/
def clearGuessProsposals (S : State) (room : String) : Option State :=
  match S.ROOM_LIST.get room with
  | none => none
  | some R => clearLoop S R.players.keys

/-- The agreement loop of `clickTile` (lines 620-629): `some false` at the first member
who is a non-spymaster on the team in turn and whose proposal is not `guess`. -/
def allAgree (S : State) (turn guess : String) : List String → Option Bool
  | [] => some true
  | player :: rest =>
    match S.player player with
    | none => none
    | some p =>
      if p.guessProposal ≠ some guess ∧ p.role ≠ "spymaster" ∧ p.team = turn then some false
      else allAgree S turn guess rest

/-- The read `game.board[i][j].word`; throws when the tile does not exist. -/
def Game.word (g : Game) (i j : Nat) : Option String :=
  match g.board[i]? with
  | none => none
  | some row => (row[j]?).map Tile.word

/-- The tail of `clickTile` (lines 631-635): flip when `doFlip`, then broadcast. -/
def flipAndUpdate (E : Engine) (S : State) (room : String) (i j : Nat) (doFlip : Bool) :
    Option State :=
  if doFlip then
    match S.ROOM_LIST.get room with
    | none => none
    | some R =>
      let S1 := { S.setRoom room { R with game := E.flipTile R.game i j } with
                  calls := S.calls ++ [(room, EngineCall.flipTile i j)] }
      match clearGuessProsposals S1 room with
      | none => none
      | some S2 => gameUpdate S2 room
  else gameUpdate S room

/-- The function `clickTile` (lines 599-639). -/
def clickTile (E : Engine) (S : State) (socket : Socket) (i j : Nat) : Option State :=
  if !truthyAt S.PLAYER_LIST socket.sessionId then some S
  else
    match S.PLAYER_LIST.get socket.sessionId with
    | none => none
    | some ref =>
      match S.heap[ref]? with
      | none => none
      | some p =>
        match S.ROOM_LIST.get p.room with
        | none => none
        | some R =>
          if p.team = R.game.turn then
            if !R.game.over then
              if p.role ≠ "spymaster" then
                if R.consensus = "consensus" then
                  match R.game.word i j with
                  | none => none
                  | some guess =>
                    if p.guessProposal = some guess then
                      gameUpdate (S.setPlayer ref { p with guessProposal := none }) p.room
                    else
                      let S1 := S.setPlayer ref { p with guessProposal := some guess }
                      match allAgree S1 R.game.turn guess R.players.keys with
                      | none => none
                      | some doFlip => flipAndUpdate E S1 p.room i j doFlip
                else flipAndUpdate E S p.room i j true
              else some S
            else some S
          else some S

/-! ## The game handlers -/

/-- The `joinTeam` handler (lines 239-244). -/
def joinTeam (S : State) (socket : Socket) (team : String) : Option State :=
  if !truthyAt S.PLAYER_LIST socket.sessionId then some S
  else
    match S.PLAYER_LIST.get socket.sessionId with
    | none => none
    | some ref =>
      match S.heap[ref]? with
      | none => none
      | some player => gameUpdate (S.setPlayer ref { player with team := team }) player.room

/-- The sampling loop of `randomizeTeams` (lines 516-519). Each element of the list of draws
is one value of `Math.floor(Math.random() * keys.length)`; the loop ends when every key is
placed. The result is `none` when the draws given do not complete the loop. -/
def placeLoop (keys : List String) : List Nat → List String → Option (List String)
  | [], placed => if placed.length < keys.length then none else some placed
  | i :: picks, placed =>
    if placed.length < keys.length then
      match keys[i]? with
      | none => none
      | some selection =>
        placeLoop keys picks (if selection ∈ placed then placed else placed ++ [selection])
    else some placed

/-- The placement loop of `randomizeTeams` (lines 522-531): the members are read from the
`players` object of the room, and the teams alternate from the starting colour. -/
def assignLoop (S : State) (players : Obj Nat) : List String → Nat → Option State
  | [], _ => some S
  | k :: rest, color =>
    match players.get k with
    | none => none
    | some ref =>
      match S.heap[ref]? with
      | none => none
      | some player =>
        if color = 0 then
          assignLoop (S.setPlayer ref { player with team := "red" }) players rest 1
        else assignLoop (S.setPlayer ref { player with team := "blue" }) players rest 0

/-- The function `randomizeTeams` (lines 505-533); `coin` tells whether the first draw of
`Math.random()` is below 0.5, `picks` are the draws of the sampling loop. -/
def randomizeTeams (S : State) (socket : Socket) (coin : Bool) (picks : List Nat) :
    Option State :=
  if !truthyAt S.PLAYER_LIST socket.sessionId then some S
  else
    match S.PLAYER_LIST.get socket.sessionId with
    | none => none
    | some ref =>
      match S.heap[ref]? with
      | none => none
      | some p =>
        match S.ROOM_LIST.get p.room with
        | none => none
        | some R =>
          let color := if coin then 1 else 0
          match placeLoop R.players.keys picks [] with
          | none => none
          | some placed =>
            match assignLoop S R.players placed color with
            | none => none
            | some S1 => gameUpdate S1 p.room

/-- The loop of `newGame` (lines 543-551): every member becomes a guesser without a
proposal and is told so on its registered connection; the two `emit` calls are unguarded. -/
def newGameLoop (S : State) : List String → Option State
  | [] => some S
  | player :: rest =>
    match S.PLAYER_LIST.get player with
    | none => none
    | some ref =>
      match S.heap[ref]? with
      | none => none
      | some p =>
        match S.SOCKET_LIST.get player with
        | none => none
        | some sock =>
          newGameLoop
            (((S.setPlayer ref { p with role := "guesser", guessProposal := none }).emit
                sock.conn (Msg.switchRoleResponse true (some "guesser"))).emit
              sock.conn (Msg.newGameResponse true))
            rest

/-- The function `newGame` (lines 537-553). -/
def newGame (E : Engine) (S : State) (socket : Socket) : Option State :=
  if !truthyAt S.PLAYER_LIST socket.sessionId then some S
  else
    match S.PLAYER_LIST.get socket.sessionId with
    | none => none
    | some ref =>
      match S.heap[ref]? with
      | none => none
      | some p =>
        match S.ROOM_LIST.get p.room with
        | none => none
        | some R =>
          let S1 := { S.setRoom p.room { R with game := E.init R.game } with
                      calls := S.calls ++ [(p.room, EngineCall.init)] }
          match newGameLoop S1 R.players.keys with
          | none => none
          | some S2 => gameUpdate S2 p.room

/-- The function `switchRole` (lines 557-595). -/
def switchRole (S : State) (socket : Socket) (role : String) : Option State :=
  if !truthyAt S.PLAYER_LIST socket.sessionId then some S
  else
    match S.PLAYER_LIST.get socket.sessionId with
    | none => none
    | some ref =>
      match S.heap[ref]? with
      | none => none
      | some currentPlayer =>
        if currentPlayer.team = "undecided" then
          some (S.emit socket.conn (Msg.switchRoleResponse false none))
        else if currentPlayer.role = "spymaster" then
          some (S.emit socket.conn (Msg.switchRoleResponse false none))
        else
          gameUpdate
            ((S.setPlayer ref { currentPlayer with role := role }).emit socket.conn
              (Msg.switchRoleResponse true (some role)))
            currentPlayer.room

/-- The `switchDifficulty` handler (lines 264-269). -/
def switchDifficulty (S : State) (socket : Socket) (difficulty : String) : Option State :=
  if !truthyAt S.PLAYER_LIST socket.sessionId then some S
  else
    match S.PLAYER_LIST.get socket.sessionId with
    | none => none
    | some ref =>
      match S.heap[ref]? with
      | none => none
      | some p =>
        match S.ROOM_LIST.get p.room with
        | none => none
        | some R => gameUpdate (S.setRoom p.room { R with difficulty := difficulty }) p.room

/-- The `switchMode` handler (lines 273-279). -/
def switchMode (S : State) (socket : Socket) (mode : String) : Option State :=
  if !truthyAt S.PLAYER_LIST socket.sessionId then some S
  else
    match S.PLAYER_LIST.get socket.sessionId with
    | none => none
    | some ref =>
      match S.heap[ref]? with
      | none => none
      | some p =>
        match S.ROOM_LIST.get p.room with
        | none => none
        | some R =>
          gameUpdate
            (S.setRoom p.room
              { R with mode := mode, game := { R.game with timer := R.game.timerAmount } })
            p.room

/-- The `switchConsensus` handler (lines 283-289). -/
def switchConsensus (S : State) (socket : Socket) (consensus : String) : Option State :=
  if !truthyAt S.PLAYER_LIST socket.sessionId then some S
  else
    match S.PLAYER_LIST.get socket.sessionId with
    | none => none
    | some ref =>
      match S.heap[ref]? with
      | none => none
      | some p =>
        match clearGuessProsposals S p.room with
        | none => none
        | some S1 =>
          match S1.ROOM_LIST.get p.room with
          | none => none
          | some R => gameUpdate (S1.setRoom p.room { R with consensus := consensus }) p.room

/-- The `endTurn` handler (lines 292-298). -/
def endTurn (E : Engine) (S : State) (socket : Socket) : Option State :=
  if !truthyAt S.PLAYER_LIST socket.sessionId then some S
  else
    match S.PLAYER_LIST.get socket.sessionId with
    | none => none
    | some ref =>
      match S.heap[ref]? with
      | none => none
      | some p =>
        match S.ROOM_LIST.get p.room with
        | none => none
        | some R =>
          let S1 := { S.setRoom p.room { R with game := E.switchTurn R.game (some true) } with
                      calls := S.calls ++ [(p.room, EngineCall.switchTurn (some true))] }
          match clearGuessProsposals S1 p.room with
          | none => none
          | some S2 => gameUpdate S2 p.room

/-- The function `declareClue` (lines 643-660). -/
def declareClue (E : Engine) (S : State) (socket : Socket) (clue : String) : Option State :=
  if !truthyAt S.PLAYER_LIST socket.sessionId then some S
  else
    match S.PLAYER_LIST.get socket.sessionId with
    | none => none
    | some ref =>
      match S.heap[ref]? with
      | none => none
      | some p =>
        match S.ROOM_LIST.get p.room with
        | none => none
        | some R =>
          if p.team = R.game.turn then
            if !R.game.over then
              if p.role = "spymaster" then
                let S1 := { S.setRoom p.room { R with game := (E.declareClue R.game clue).1 } with
                            calls := S.calls ++ [(p.room, EngineCall.declareClue clue)] }
                if (E.declareClue R.game clue).2 then gameUpdate S1 p.room else some S1
              else some S
            else some S
          else some S

/-- The pack toggle of `changeCards` (lines 322-333). -/
def togglePack (g : Game) (pack : String) : Game :=
  if pack = "base" then { g with base := !g.base }
  else if pack = "duet" then { g with duet := !g.duet }
  else if pack = "undercover" then { g with undercover := !g.undercover }
  else if pack = "custom" then { g with custom := !g.custom }
  else if pack = "nsfw" then { g with nsfw := !g.nsfw }
  else g

/-- The fallback of `changeCards` (lines 335-342): the base pack is enabled again when all
five packs are disabled. -/
def ensurePack (g : Game) : Game :=
  if !g.base && !g.duet && !g.undercover && !g.custom && !g.nsfw then { g with base := true }
  else g

/-- The `changeCards` handler (lines 318-346). -/
def changeCards (E : Engine) (S : State) (socket : Socket) (pack : String) : Option State :=
  if !truthyAt S.PLAYER_LIST socket.sessionId then some S
  else
    match S.PLAYER_LIST.get socket.sessionId with
    | none => none
    | some ref =>
      match S.heap[ref]? with
      | none => none
      | some p =>
        match S.ROOM_LIST.get p.room with
        | none => none
        | some R =>
          gameUpdate
            { S.setRoom p.room
                { R with game := E.updateWordPool (ensurePack (togglePack R.game pack)) } with
              calls := S.calls ++ [(p.room, EngineCall.updateWordPool)] }
            p.room

/-- The `timerSlider` handler (lines 349-361); `value` is the slider position in minutes. -/
def timerSlider (S : State) (socket : Socket) (value : Int) : Option State :=
  if !truthyAt S.PLAYER_LIST socket.sessionId then some S
  else
    match S.PLAYER_LIST.get socket.sessionId with
    | none => none
    | some ref =>
      match S.heap[ref]? with
      | none => none
      | some p =>
        match S.ROOM_LIST.get p.room with
        | none => none
        | some R =>
          let currentAmount := R.game.timerAmount - 1
          let seconds := value * 60 + 1
          if currentAmount ≠ seconds then
            gameUpdate
              (S.setRoom p.room
                { R with game := { R.game with timerAmount := seconds, timer := seconds } })
              p.room
          else some S

/-- The wildcard handler (lines 311-315), run for every inbound event of a connection: it
resets the AFK countdown of the player. For a session id that names an inherited property
and has no `Player`, the source writes the field on the built-in object and returns; the
built-in objects are not part of the state, and that path is outside this embedding: it is
reported as `none`, as in `leaveRoom`. -/
def wildcard (S : State) (socket : Socket) : Option State :=
  if !truthyAt S.PLAYER_LIST socket.sessionId then some S
  else
    match S.PLAYER_LIST.get socket.sessionId with
    | none => none
    | some ref =>
      match S.heap[ref]? with
      | none => none
      | some p => some (S.setPlayer ref { p with afktimer := p.timeout })

/-! ## The clock -/

/-- The wall-clock time read by the tick (`getHours`, `getMinutes`, `getSeconds`). -/
structure Time where
  hours : Nat
  minutes : Nat
  seconds : Nat
deriving DecidableEq, Repr

/-- The daily restart time (lines 59-61). -/
def restartHour : Nat := 11

/-- The minute of the daily restart. -/
def restartMinute : Nat := 0

/-- The width in seconds of the restart window. -/
def restartSecond : Nat := 5

/-- The time of the restart warning (lines 63-65). -/
def restartWarningHour : Nat := 10

/-- The minute of the restart warning. -/
def restartWarningMinute : Nat := 50

/-- The width in seconds of the warning window. -/
def restartWarningSecond : Nat := 2

/-- The loop `for (let player in PLAYER_LIST)` of lines 739-759. A key deleted before it is
visited is not visited. The `emit` calls are unguarded, and the log line of the kick reads
the room of the player. -/
def afkLoop (S : State) : List String → Option State
  | [] => some S
  | player :: rest =>
    match S.PLAYER_LIST.get player with
    | none => afkLoop S rest
    | some ref =>
      match S.heap[ref]? with
      | none => none
      | some p =>
        let S1 := S.setPlayer ref { p with afktimer := p.afktimer - 1 }
        match (if p.afktimer - 1 < 300 then
                 (S1.SOCKET_LIST.get player).map (fun sock => S1.emit sock.conn Msg.afkWarning)
               else some S1) with
        | none => none
        | some S2 =>
          if p.afktimer - 1 < 0 then
            match S2.SOCKET_LIST.get player, S2.ROOM_LIST.get p.room with
            | some sock, some _ =>
              match leaveRoom (S2.emit sock.conn Msg.afkKicked) sock with
              | none => none
              | some S3 => afkLoop S3 rest
            | _, _ => none
          else afkLoop S2 rest

/-- The loop of lines 775-779: the countdown is sent to every member of the room; the
`emit` is unguarded. -/
def timerUpdates (S : State) (timer : Int) : List String → Option State
  | [] => some S
  | player :: rest =>
    match S.SOCKET_LIST.get player with
    | none => none
    | some sock => timerUpdates (S.emit sock.conn (Msg.timerUpdate timer)) timer rest

/-- The body of the loop `for (let room in ROOM_LIST)` of lines 761-781, for one room. The
turn switch of line 770 is the call `switchTurn()`, without an argument. -/
def sweepRoom (E : Engine) (S : State) (room : String) : Option State :=
  match S.ROOM_LIST.get room with
  | none => none
  | some R =>
    if R.mode = "timed" ∧ R.game.over = false then
      let S1 := S.setRoom room { R with game := { R.game with timer := R.game.timer - 1 } }
      match (if R.game.timer - 1 < 0 then
               gameUpdate
                 { S1.setRoom room
                     { R with game :=
                         E.switchTurn { R.game with timer := R.game.timer - 1 } none } with
                   calls := S1.calls ++ [(room, EngineCall.switchTurn none)] }
                 room
             else some S1) with
      | none => none
      | some S2 =>
        match S2.ROOM_LIST.get room with
        | none => none
        | some R2 => timerUpdates S2 R2.game.timer R2.players.keys
    else some S

/-- The loop `for (let room in ROOM_LIST)` of lines 761-781. The rooms are visited in the
order of the keys given; `for ... in` visits names that are array indices first, which
changes the order of the messages of different rooms, not the rooms visited. -/
def timedLoop (E : Engine) (S : State) : List String → Option State
  | [] => some S
  | room :: rest =>
    match sweepRoom E S room with
    | none => none
    | some S1 => timedLoop E S1 rest

/-- The callback of `setInterval` (lines 721-782), run every second. The two `if`
statements of lines 725-736 have no braces: the second is the body of the first, and the
loop over `PLAYER_LIST` is the body of the second. The loop over `ROOM_LIST` follows as
a statement of its own. -/
def tick (E : Engine) (S : State) (time : Time) : Option State :=
  let afk :=
    if time.hours = restartWarningHour ∧ time.minutes = restartWarningMinute ∧
        time.seconds < restartWarningSecond then
      if time.hours = restartHour ∧ time.minutes = restartMinute ∧
          time.seconds < restartSecond then
        afkLoop S S.PLAYER_LIST.keys
      else some S
    else some S
  match afk with
  | none => none
  | some S1 => timedLoop E S1 S1.ROOM_LIST.keys

/-! ## Runs of the server -/

/-- One `joinRoom` per socket of the list, in order, all with the same room name and
password. -/
def joinAll (S : State) (room password : String) : List (Socket × String) → Option State
  | [] => some S
  | (socket, nickname) :: rest =>
    match joinRoom S socket { room := room, password := password, nickname := nickname } with
    | none => none
    | some S' => joinAll S' room password rest

/-- A room is created by `creator` and the sockets of `rest` join it one after another. -/
def createAndJoin (E : Engine) (S : State) (room password : String)
    (creator : Socket × String) (rest : List (Socket × String)) : Option State :=
  match createRoom E S creator.1
      { room := room, password := password, nickname := creator.2 } with
  | none => none
  | some S' => joinAll S' room password rest

/-- The part of the state that decides who is a member of which room: the names,
passwords and member sets of the rooms, the player table, the id and room of every player
object, the connections and the timers. The handlers that are not constructors of `Step`
(team, role, option, game and clock events) rewrite none of it. -/
def sameMembership (S S' : State) : Prop :=
  S'.ROOM_LIST.map (fun e => (e.1, e.2.room, e.2.password, e.2.players)) =
      S.ROOM_LIST.map (fun e => (e.1, e.2.room, e.2.password, e.2.players)) ∧
  S'.PLAYER_LIST = S.PLAYER_LIST ∧
  S'.heap.map (fun p => (p.id, p.room)) = S.heap.map (fun p => (p.id, p.room)) ∧
  S'.SOCKET_LIST = S.SOCKET_LIST ∧
  S'.DELETE_SESSION_LIST = S.DELETE_SESSION_LIST ∧
  S'.DELETE_ROOM_LIST = S.DELETE_ROOM_LIST ∧
  S'.timers = S.timers ∧ S'.nextTimer = S.nextTimer ∧
  S'.conns = S.conns ∧ S'.nextConn = S.nextConn

/-- One event of the server: a client connects, an open connection sends `createRoom`,
`joinRoom` or `leaveRoom` or closes, a pending timer expires, or one of the remaining
handlers runs. `guard S socket` restricts which sessions may send `createRoom` and
`joinRoom`. A handler that throws ends the process and yields no successor state. -/
inductive Step (E : Engine) (guard : State → Socket → Prop) : State → State → Prop where
  | connect {S S' : State} (query : Option String) (fresh : String) (socket : Socket) :
      isToken fresh = true → connection S query fresh = some (S', socket) → Step E guard S S'
  | disconnect {S S' : State} (socket : Socket) :
      socket ∈ S.conns → onDisconnect S socket = some S' → Step E guard S S'
  | createRoom {S S' : State} (socket : Socket) (data : RoomData) :
      socket ∈ S.conns → guard S socket → createRoom E S socket data = some S' →
      Step E guard S S'
  | joinRoom {S S' : State} (socket : Socket) (data : RoomData) :
      socket ∈ S.conns → guard S socket → joinRoom S socket data = some S' →
      Step E guard S S'
  | leaveRoom {S S' : State} (socket : Socket) :
      socket ∈ S.conns → leaveRoom S socket = some S' → Step E guard S S'
  | timeout {S S' : State} (id : Nat) : fireTimer S id = some S' → Step E guard S S'
  | other {S S' : State} : sameMembership S S' → Step E guard S S'

/-- States reachable from process start, in runs where no client connects with the name of
an inherited property as session id (see `connection`). -/
inductive Reachable (E : Engine) (guard : State → Socket → Prop) : State → Prop where
  | init : Reachable E guard State.init
  | step {S S' : State} : Reachable E guard S → Step E guard S S' → Reachable E guard S'

/-- No restriction: any open connection may send `createRoom` and `joinRoom`. -/
def anySession : State → Socket → Prop :=
  fun _ _ => True

/-- Only a session without a `Player` sends `createRoom` and `joinRoom`. -/
def lobbySession : State → Socket → Prop :=
  fun S socket => S.PLAYER_LIST.get socket.sessionId = none

/-! ## Properties of states used in the statements -/

/-- The session `k` is a key of the member set of the room stored under `name`. -/
def isMemberOf (S : State) (k name : String) : Prop :=
  ∃ R, S.ROOM_LIST.get name = some R ∧ k ∈ R.players.keys

/-- The number of pending deletion timers of the room `name`. -/
def pendingRoomTimers (S : State) (name : String) : Nat :=
  (S.timers.filter (fun t => decide (t.2 = TimerAction.room name))).length

/-- Every member key of the room `R` has a `Player` object in `PLAYER_LIST`. -/
def membersKnown (S : State) (R : Room) : Prop :=
  ∀ k ∈ R.players.keys, (S.player k).isSome = true

/-- Every non-spymaster member of `R` on the team `turn` proposes `guess`, members being
read through `PLAYER_LIST` as the agreement loop does. -/
def teamAgrees (S : State) (R : Room) (turn guess : String) : Prop :=
  ∀ k ∈ R.players.keys, ∀ p, S.player k = some p →
    p.team = turn → p.role ≠ "spymaster" → p.guessProposal = some guess

/-! ## Predicates and closed forms used in the statements -/

/-- The name tried by the constructor after `c` collisions. -/
def candidate (nickname : String) (c : Nat) : String :=
  if c = 0 then nickname else suffixed nickname c

/-- Every reference stored in the member set of `R` points into the heap. -/
def roomRefsValid (S : State) (R : Room) : Prop :=
  ∀ e ∈ R.players, e.2 < S.heap.length

/-- The `Player` object built by the constructor for the nickname `name`. -/
def freshPlayer (socket : Socket) (name room : String) : Player :=
  { id := socket.sessionId, nickname := name, room := room, team := "undecided",
    role := "guesser", guessProposal := none, timeout := 10800, afktimer := 10800 }

/-- The room built by the constructor of `Room`. -/
def freshRoom (E : Engine) (name pass : String) : Room :=
  { room := name, password := pass, players := [], game := E.create,
    difficulty := "normal", mode := "casual", consensus := "single" }

/-- The team chosen by `joinTeam` for a room of `n` members. -/
def parityTeam (n : Nat) : String :=
  if n % 2 = 0 then "blue" else "red"

/-- The state after `enterRoom` has added a player to the room `n`, whose record was `R`
before: the room gains the member, the player table the session, the heap the new object,
with the team of the parity of the member count. -/
def joinedState (S : State) (socket : Socket) (n : String) (R : Room) (name : String) : State :=
  { S with
    ROOM_LIST := S.ROOM_LIST.set n
      { R with players := R.players.set socket.sessionId S.heap.length }
    PLAYER_LIST := S.PLAYER_LIST.set socket.sessionId S.heap.length
    heap := S.heap ++
      [{ freshPlayer socket name n with
         team := parityTeam (R.players.set socket.sessionId S.heap.length).keys.length }] }

/-- The `Player` object of the creator of a room, after `joinTeam`. -/
def creatorPlayer (socket : Socket) (name room : String) : Player :=
  { freshPlayer socket name room with team := "red" }

/-- The snapshot broadcast by `createRoom` on its success path. -/
def createdSnapshot (E : Engine) (socket : Socket) (name room : String) : GameState :=
  { room := room, players := [(socket.sessionId, creatorPlayer socket name room)],
    game := E.create, difficulty := "normal", mode := "casual", consensus := "single",
    team := none }

/-- The sessions `ks` are, in this order, the members of the room `n`, whose password is
`pw`; the room is well formed and the member at position `i` (from 0) is in that room on
the team of the parity of `i + 1`. -/
def seated (S : State) (n pw : String) (ks : List String) : Prop :=
  ∃ R, S.ROOM_LIST.get n = some R ∧ R.password = pw ∧ R.players.keys = ks ∧
    roomRefsValid S R ∧ membersKnown S R ∧
    ∀ i k, ks[i]? = some k →
      ∃ p, S.player k = some p ∧ p.room = n ∧ p.team = parityTeam (i + 1)

/-- The invariant of the registries and the timer table kept by every event: a session
with a `Player` is a member, with that same object, of the room the object names; a pending
room timer belongs to an existing empty room and is the one recorded in
`DELETE_ROOM_LIST`; no room bears a name inherited from `Object.prototype`; a recorded
room timer is pending; timer handles are distinct and below the next handle; a recorded
session timer is not a room timer. -/
structure Inv (S : State) : Prop where
  player_room : ∀ k r, S.PLAYER_LIST.get k = some r →
    ∃ p R, S.heap[r]? = some p ∧ p.id = k ∧ S.ROOM_LIST.get p.room = some R ∧
      R.players.get k = some r
  timer_room : ∀ id n, (id, TimerAction.room n) ∈ S.timers →
    ∃ R, S.ROOM_LIST.get n = some R ∧ R.players = [] ∧ S.DELETE_ROOM_LIST.get n = some id
  room_names : ∀ n R, S.ROOM_LIST.get n = some R → n ∉ objectPrototypeKeys
  marker_timer : ∀ n id, S.DELETE_ROOM_LIST.get n = some id →
    (id, TimerAction.room n) ∈ S.timers
  timer_nodup : (S.timers.map Prod.fst).Nodup
  timer_lt : ∀ t ∈ S.timers, t.1 < S.nextTimer
  session_marker : ∀ k id, S.DELETE_SESSION_LIST.get k = some id →
    id < S.nextTimer ∧ ∀ n, (id, TimerAction.room n) ∉ S.timers

/-- Every member of every room is the `Player` that `PLAYER_LIST` holds for its session,
and that object names the room. -/
def MemberInv (S : State) : Prop :=
  ∀ n R k r, S.ROOM_LIST.get n = some R → R.players.get k = some r →
    S.PLAYER_LIST.get k = some r ∧ ∃ p, S.heap[r]? = some p ∧ p.room = n

/-- The registries after the player of session `k` has left the room stored under `room`,
whose record was `R`. -/
def departed (S : State) (k room : String) (R : Room) : State :=
  { S with PLAYER_LIST := S.PLAYER_LIST.del k,
           ROOM_LIST := S.ROOM_LIST.set room { R with players := R.players.del k } }

/-- The states `S` and `S'` have the same registries of players and rooms, the same heap
and the same timers; they may differ in the connections and in the logs. -/
def sameCore (S S' : State) : Prop :=
  S'.PLAYER_LIST = S.PLAYER_LIST ∧ S'.heap = S.heap ∧ S'.ROOM_LIST = S.ROOM_LIST ∧
  S'.timers = S.timers ∧ S'.DELETE_ROOM_LIST = S.DELETE_ROOM_LIST ∧
  S'.DELETE_SESSION_LIST = S.DELETE_SESSION_LIST ∧ S'.nextTimer = S.nextTimer

/-- The state after the grace timer of the session of `socket` has been started. -/
def graceStarted (S : State) (socket : Socket) : State :=
  { (setTimeout S (TimerAction.session socket)).1 with
    DELETE_SESSION_LIST :=
      (setTimeout S (TimerAction.session socket)).1.DELETE_SESSION_LIST.set
        socket.sessionId (setTimeout S (TimerAction.session socket)).2 }

/-- The state after the recorded grace timer `id` of session `k` has been cancelled. -/
def graceCancelled (S : State) (k : String) (id : Nat) : State :=
  { clearTimeout S id with DELETE_SESSION_LIST := (clearTimeout S id).DELETE_SESSION_LIST.del k }

/-- The state after the deletion timer `id` of room `n` has expired. -/
def roomPurged (S : State) (id : Nat) (n : String) : State :=
  { clearTimeout S id with ROOM_LIST := (clearTimeout S id).ROOM_LIST.del n,
                           DELETE_ROOM_LIST := (clearTimeout S id).DELETE_ROOM_LIST.del n }

/-- The part of the invariant that concerns the room timers alone: pending room timers and
the entries of `DELETE_ROOM_LIST` correspond one to one, and timer handles are distinct. -/
structure TimerInv (S : State) : Prop where
  recorded : ∀ id n, (id, TimerAction.room n) ∈ S.timers →
    S.DELETE_ROOM_LIST.get n = some id
  pending : ∀ n id, S.DELETE_ROOM_LIST.get n = some id →
    (id, TimerAction.room n) ∈ S.timers
  distinct : (S.timers.map Prod.fst).Nodup
  bounded : ∀ t ∈ S.timers, t.1 < S.nextTimer

/-- Every room has pairwise distinct member keys and member references into the heap. -/
def RefsInv (S : State) : Prop :=
  ∀ n R, S.ROOM_LIST.get n = some R → R.players.keys.Nodup ∧ roomRefsValid S R

/-! ## Predicates on rooms used in the statements about the clock and the game handlers -/

/-- Every member of the room `R` has a registered connection. -/
def membersConnected (S : State) (R : Room) : Prop :=
  ∀ k ∈ R.players.keys, (S.SOCKET_LIST.get k).isSome = true

/-- Every member of the room `R` is the object that `PLAYER_LIST` holds for its session. -/
def membersAliased (S : State) (R : Room) : Prop :=
  ∀ e ∈ R.players, S.PLAYER_LIST.get e.1 = some e.2

/-- The guess proposal of every member of the room stored under `room` is null. -/
def proposalsCleared (S : State) (room : String) : Prop :=
  ∃ R, S.ROOM_LIST.get room = some R ∧
    ∀ e ∈ R.players, ∃ q, S.heap[e.2]? = some q ∧ q.guessProposal = none

/-- The countdown of the room runs: the mode is "timed" and the game is not over. -/
def countsDown (R : Room) : Prop :=
  R.mode = "timed" ∧ R.game.over = false

/-- The rooms that the timed-mode sweep touches can be swept: each member of a room whose
countdown runs has a registered connection, and where the countdown expires the room can
be broadcast (its member references are valid and its members have a `Player`). -/
def sweepReady (S : State) : Prop :=
  ∀ e ∈ S.ROOM_LIST, countsDown e.2 →
    membersConnected S e.2 ∧ (e.2.game.timer - 1 < 0 → roomRefsValid S e.2 ∧ membersKnown S e.2)

/-- The room `R` after one tick of the clock. -/
def sweptRoom (E : Engine) (R : Room) : Room :=
  if R.mode = "timed" ∧ R.game.over = false then
    if R.game.timer - 1 < 0 then
      { R with game := E.switchTurn { R.game with timer := R.game.timer - 1 } none }
    else { R with game := { R.game with timer := R.game.timer - 1 } }
  else R

/-- The engine calls made by one tick of the clock for the room `R` stored under `n`. -/
def sweptCalls (n : String) (R : Room) : List (String × EngineCall) :=
  if R.mode = "timed" ∧ R.game.over = false ∧ R.game.timer - 1 < 0 then
    [(n, EngineCall.switchTurn none)]
  else []

/-- The invariant of the session ids and the grace timers kept by every event: the session
id of every open connection, of every player and of every grace timer is a minted token; a
pending grace timer is the one recorded in `DELETE_SESSION_LIST` for its session, and a
recorded grace timer is pending. -/
structure SessionInv (S : State) : Prop where
  ses_conn : ∀ s ∈ S.conns, isToken s.sessionId = true
  ses_player : ∀ k r, S.PLAYER_LIST.get k = some r → isToken k = true
  ses_timer : ∀ id s, (id, TimerAction.session s) ∈ S.timers → isToken s.sessionId = true
  ses_recorded : ∀ id s, (id, TimerAction.session s) ∈ S.timers →
    S.DELETE_SESSION_LIST.get s.sessionId = some id
  ses_pending : ∀ k id, S.DELETE_SESSION_LIST.get k = some id →
    ∃ s, s.sessionId = k ∧ (id, TimerAction.session s) ∈ S.timers

/-- A disconnect grace timer of the session `k` is pending. -/
def pendingGrace (S : State) (k : String) : Prop :=
  ∃ id s, (id, TimerAction.session s) ∈ S.timers ∧ s.sessionId = k

/-- At least one of the five packs is enabled. -/
def anyPack (g : Game) : Bool :=
  g.base || g.duet || g.undercover || g.custom || g.nsfw

/-- The message that `gameUpdate` sends to the member `k` of a room with snapshot `gs`: the
snapshot with the team of `k`, on the connection registered for `k`; none when no
connection is registered for `k`. -/
def memberMessage (S : State) (gs : GameState) (k : String) : Option Emit :=
  match S.SOCKET_LIST.get k, S.player k with
  | some sock, some p =>
    some { conn := sock.conn, msg := Msg.gameState { gs with team := some p.team } }
  | _, _ => none

/-- The teams given by the placement loop of `randomizeTeams` to the positions 0, 1, ... of
the placed order: they alternate from the starting colour (0 is red). -/
def alternating (color : Nat) : Nat → List String
  | 0 => []
  | n + 1 =>
    (if color = 0 then "red" else "blue") :: alternating (if color = 0 then 1 else 0) n

/-- The number of members of the room `R` whose object is on the team `team`. -/
def teamCount (S : State) (R : Room) (team : String) : Nat :=
  R.players.countP (fun e => decide ((S.heap[e.2]?).map (fun q => q.team) = some team))

/-! ## Example data -/

/-- A game engine used to evaluate the handlers on concrete inputs. -/
def exEngine : Engine :=
  { create :=
      { turn := "red", over := false, board := [[{ word := "apple" }, { word := "pear" }]],
        timer := 0, timerAmount := 0, base := true, duet := false, undercover := false,
        custom := false, nsfw := false, engine := [] }
    init := fun g => g
    flipTile := fun g i j => { g with engine := g.engine ++ [i, j] }
    switchTurn := fun g _ => { g with turn := if g.turn = "red" then "blue" else "red" }
    declareClue := fun g _ => (g, true)
    updateWordPool := fun g => g }

/-- A session token, of the shape minted by the connection handler. -/
def tokA : String := "0000000000000000000000000000000a"

/-- A second session token. -/
def tokB : String := "0000000000000000000000000000000b"

/-- A third session token. -/
def tokC : String := "0000000000000000000000000000000c"

/-- The connection of session `tokA`. -/
def sockA : Socket := { conn := 0, sessionId := tokA }

/-- The connection of session `tokB`. -/
def sockB : Socket := { conn := 1, sessionId := tokB }

/-- The connection of session `tokC`. -/
def sockC : Socket := { conn := 2, sessionId := tokC }

/-- The result of a run that is known not to throw. -/
def orInit (r : Option State) : State :=
  r.getD State.init

/-- The client of session `tokA` has connected. -/
def exConn1 : State :=
  orInit ((connection State.init none tokA).map Prod.fst)

/-- The client of session `tokB` has connected as well. -/
def exConn2 : State :=
  orInit ((connection exConn1 none tokB).map Prod.fst)

/-- Three clients have connected. -/
def exLobby : State :=
  orInit ((connection exConn2 none tokC).map Prod.fst)

/-- Session `tokA` has created room "R" as "Alice". -/
def exOne : State :=
  orInit (createRoom exEngine exLobby sockA { room := " R ", password := "p", nickname := "Alice" })

/-- Session `tokB` has joined room "R", also as "Alice". -/
def exTwo : State :=
  orInit (joinRoom exOne sockB { room := "R", password := "p", nickname := "Alice" })

/-- A room named "R" with the two members `tokA` and `tokB`. -/
def exAliceRoom : Room :=
  { room := "R", password := "p", players := [(tokA, 0), (tokB, 1)],
    game := exEngine.create, difficulty := "normal", mode := "casual",
    consensus := "single" }

/-- A state whose room "R" has two members, named "Alice" and "Alice(1)". -/
def exAlice : State :=
  { State.init with
    ROOM_LIST := [("R", exAliceRoom)]
    PLAYER_LIST := [(tokA, 0), (tokB, 1)]
    heap := [{ id := tokA, nickname := "Alice", room := "R", team := "red", role := "guesser",
               guessProposal := none, timeout := 10800, afktimer := 10800 },
             { id := tokB, nickname := "Alice(1)", room := "R", team := "blue",
               role := "guesser", guessProposal := none, timeout := 10800,
               afktimer := 10800 }] }

/-- The room of `exVote`: consensus policy, red's turn, three members. -/
def exVoteRoom : Room :=
  { room := "R", password := "p", players := [(tokA, 0), (tokB, 1), (tokC, 2)],
    game := exEngine.create, difficulty := "normal", mode := "casual",
    consensus := "consensus" }

/-- The first member of the room of `exVote`: a red guesser without a proposal. -/
def exVoterA : Player :=
  { id := tokA, nickname := "Alice", room := "R", team := "red", role := "guesser",
    guessProposal := none, timeout := 10800, afktimer := 10800 }

/-- The second member of the room of `exVote`: a red guesser who proposes "apple". -/
def exVoterB : Player :=
  { id := tokB, nickname := "Bob", room := "R", team := "red", role := "guesser",
    guessProposal := some "apple", timeout := 10800, afktimer := 10800 }

/-- A state in which red guessers `tokA` and `tokB` and blue guesser `tokC` play in the
consensus room "R"; `tokB` proposes "apple", the word of tile (0, 0). -/
def exVote : State :=
  { State.init with
    SOCKET_LIST := [(tokA, sockA), (tokB, sockB), (tokC, sockC)]
    ROOM_LIST := [("R", exVoteRoom)]
    PLAYER_LIST := [(tokA, 0), (tokB, 1), (tokC, 2)]
    heap := [exVoterA, exVoterB,
             { id := tokC, nickname := "Carol", room := "R", team := "blue", role := "guesser",
               guessProposal := none, timeout := 10800, afktimer := 10800 }]
    conns := [sockA, sockB, sockC]
    nextConn := 3 }

/-- Session `tokA` has left room "R" again: the room is empty and its deletion pending. -/
def exLeft : State :=
  orInit (leaveRoom exOne sockA)

/-- Session `tokA`, already in room "R", has also created room "B". -/
def exDouble : State :=
  orInit (createRoom exEngine exOne sockA { room := "B", password := "", nickname := "Alice" })

/-- The room "R" of the state `exOne`. -/
def exOneRoom : Room :=
  { freshRoom exEngine "R" "p" with players := [(tokA, 0)] }

/-! ## Example data for the game handlers and the clock -/

/-- The third member of the room of `exVote`: a blue guesser without a proposal. -/
def exVoterC : Player :=
  { id := tokC, nickname := "Carol", room := "R", team := "blue", role := "guesser",
    guessProposal := none, timeout := 10800, afktimer := 10800 }

/-- The state `exVote` with `tokA` as spymaster of the red team. -/
def exSpy : State :=
  exVote.setPlayer 0 { exVoterA with role := "spymaster" }

/-- The state `exVote` with the AFK countdown of `tokA` at 0. -/
def exIdle : State :=
  exVote.setPlayer 0 { exVoterA with afktimer := 0 }

/-- The room of `exTimed`: timed mode, countdown at 0, game not over. -/
def exTimedRoom : Room :=
  { exVoteRoom with mode := "timed" }

/-- The state `exVote` with its room in timed mode and the countdown at 0. -/
def exTimed : State :=
  { exVote with ROOM_LIST := [("R", exTimedRoom)] }

/-- A connection whose session id is the name of a property inherited from
`Object.prototype`. -/
def sockIntruder : Socket := { conn := 0, sessionId := "constructor" }

/-- A server without rooms and players on which `sockIntruder` is connected. The source
registers such a connection when a client connects with the query `sessionId=constructor`
while a room is named "undefined" (lines 143-162); `exIntruder` keeps that connection
alone, as after the deletion of that room. -/
def exIntruder : State :=
  { State.init with SOCKET_LIST := [("constructor", sockIntruder)], conns := [sockIntruder],
                    nextConn := 1 }

/-- The connection `sockIntruder` has created room "R" on `exIntruder`: the session
"constructor" has a `Player`. -/
def exIntruderRoom : State :=
  orInit (createRoom exEngine exIntruder sockIntruder
    { room := "R", password := "", nickname := "Eve" })

/-- Noon. -/
def exNoon : Time := { hours := 12, minutes := 0, seconds := 0 }

/-- Session `tokA`, the only member of room "R", has lost its connection: its grace timer
is pending. -/
def exGrace : State :=
  orInit (onDisconnect exOne sockA)

/-- A second connection of the session `tokA`. -/
def sockA2 : Socket := { conn := 1, sessionId := tokA }

/-- Session `tokA` has created room "R" on the server `exConn1`. -/
def exShared1 : State :=
  orInit (createRoom exEngine exConn1 sockA { room := "R", password := "", nickname := "Alice" })

/-- A second client has connected with the session id `tokA`: `sockA2` is now the
connection registered for the session, and `sockA` is still open. -/
def exShared2 : State :=
  orInit ((connection exShared1 (some tokA) tokB).map Prod.fst)

/-- The first connection has sent `leaveRoom`: the session has no `Player` any more. -/
def exShared3 : State :=
  orInit (leaveRoom exShared2 sockA)

/-- The first connection has closed: the entry of the session in `SOCKET_LIST` is deleted,
although `sockA2` is still open. -/
def exShared4 : State :=
  orInit (onDisconnect exShared3 sockA)

/-- The second connection has created room "B": the session `tokA` has a `Player` and no
registered connection. -/
def exShared5 : State :=
  orInit (createRoom exEngine exShared4 sockA2 { room := "B", password := "", nickname := "Bob" })

/-- The room "B" of `exShared5` has been switched to timed mode. -/
def exShared6 : State :=
  orInit (switchMode exShared5 sockA2 "timed")

/-- The state `exVote` with the configured duration of room "R" at `amount` seconds and the
countdown at 7. -/
def exSlider (amount : Int) : State :=
  { exVote with
    ROOM_LIST := [("R", { exVoteRoom with
      game := { exVoteRoom.game with timerAmount := amount, timer := 7 } })] }

end Codenames

/-! # Theorems -/

namespace Codenames

/-! ## Dictionaries -/

theorem Obj.get_set_self {α : Type} (o : Obj α) (k : String) (v : α) :
    (o.set k v).get k = some v := by
  induction o with
  | nil => simp [Obj.set, Obj.get]
  | cons e t ih =>
    obtain ⟨k', v'⟩ := e
    by_cases h : k' = k
    · simp [Obj.set, Obj.get, h]
    · simp [Obj.set, Obj.get, h, ih]

theorem Obj.get_set_ne {α : Type} (o : Obj α) (k k' : String) (v : α) (h : k' ≠ k) :
    (o.set k v).get k' = o.get k' := by
  induction o with
  | nil => simp [Obj.set, Obj.get, Ne.symm h]
  | cons e t ih =>
    obtain ⟨k2, v2⟩ := e
    by_cases h2 : k2 = k
    · subst h2
      simp [Obj.set, Obj.get, Ne.symm h]
    · by_cases h3 : k2 = k'
      · subst h3
        simp [Obj.set, Obj.get, h2]
      · simp [Obj.set, Obj.get, h2, h3, ih]

theorem Obj.get_del_self {α : Type} (o : Obj α) (k : String) : (o.del k).get k = none := by
  induction o with
  | nil => simp [Obj.del, Obj.get]
  | cons e t ih =>
    obtain ⟨k2, v2⟩ := e
    by_cases h2 : k2 = k
    · simpa [Obj.del, List.filter, h2] using ih
    · have : (Obj.del ((k2, v2) :: t) k) = (k2, v2) :: Obj.del t k := by
        simp [Obj.del, List.filter, h2]
      rw [this]
      simp [Obj.get, h2, ih]

theorem Obj.get_del_ne {α : Type} (o : Obj α) (k k' : String) (h : k' ≠ k) :
    (o.del k).get k' = o.get k' := by
  induction o with
  | nil => simp [Obj.del, Obj.get]
  | cons e t ih =>
    obtain ⟨k2, v2⟩ := e
    by_cases h2 : k2 = k
    · have h3 : k2 ≠ k' := fun h4 => h (h4 ▸ h2)
      have : (Obj.del ((k2, v2) :: t) k) = Obj.del t k := by
        simp [Obj.del, List.filter, h2]
      rw [this, ih]
      simp [Obj.get, h3]
    · have : (Obj.del ((k2, v2) :: t) k) = (k2, v2) :: Obj.del t k := by
        simp [Obj.del, List.filter, h2]
      rw [this]
      by_cases h3 : k2 = k'
      · simp [Obj.get, h3]
      · simp [Obj.get, h3, ih]

theorem Obj.get_eq_none_iff {α : Type} (o : Obj α) (k : String) :
    o.get k = none ↔ k ∉ o.keys := by
  induction o with
  | nil => simp [Obj.get, Obj.keys]
  | cons e t ih =>
    obtain ⟨k2, v2⟩ := e
    by_cases h2 : k2 = k
    · simp [Obj.get, Obj.keys, h2]
    · have ih2 : Obj.get t k = none ↔ k ∉ List.map Prod.fst t := ih
      simp [Obj.get, Obj.keys, h2, ih2, Ne.symm h2]

theorem Obj.mem_keys_iff {α : Type} (o : Obj α) (k : String) :
    k ∈ o.keys ↔ ∃ v, o.get k = some v := by
  constructor
  · intro h
    cases hg : o.get k with
    | none => exact absurd h ((Obj.get_eq_none_iff o k).1 hg)
    | some v => exact ⟨v, rfl⟩
  · rintro ⟨v, hv⟩
    by_contra hk
    rw [(Obj.get_eq_none_iff o k).2 hk] at hv
    cases hv

theorem Obj.keys_set_of_not_mem {α : Type} (o : Obj α) (k : String) (v : α)
    (h : k ∉ o.keys) : (o.set k v).keys = o.keys ++ [k] := by
  induction o with
  | nil => simp [Obj.set, Obj.keys]
  | cons e t ih =>
    obtain ⟨k2, v2⟩ := e
    have h2 : k2 ≠ k := by
      intro h3
      apply h
      simp [Obj.keys, h3]
    have h4 : k ∉ Obj.keys t := by
      intro h5
      apply h
      simp only [Obj.keys, List.map_cons, List.mem_cons]
      exact Or.inr h5
    have ih2 := ih h4
    simp only [Obj.keys] at ih2
    simp [Obj.set, Obj.keys, h2, ih2]

theorem Obj.keys_set_of_mem {α : Type} (o : Obj α) (k : String) (v : α)
    (h : k ∈ o.keys) : (o.set k v).keys = o.keys := by
  induction o with
  | nil => simp [Obj.keys] at h
  | cons e t ih =>
    obtain ⟨k2, v2⟩ := e
    by_cases h2 : k2 = k
    · simp [Obj.set, Obj.keys, h2]
    · have h4 : k ∈ Obj.keys t := by
        simp only [Obj.keys, List.map_cons, List.mem_cons] at h
        rcases h with h | h
        · exact absurd h.symm h2
        · exact h
      have ih2 := ih h4
      simp only [Obj.keys] at ih2
      simp [Obj.set, Obj.keys, h2, ih2]

theorem Obj.mem_keys_del {α : Type} (o : Obj α) (k k' : String) :
    k' ∈ (o.del k).keys ↔ k' ∈ o.keys ∧ k' ≠ k := by
  rw [Obj.mem_keys_iff, Obj.mem_keys_iff]
  by_cases h : k' = k
  · subst h
    simp [Obj.get_del_self]
  · simp [Obj.get_del_ne o k k' h, h]

/-! ## Decimal numerals -/

theorem digitChar_value (d : Nat) (h : d < 10) : (Nat.digitChar d).toNat - 48 = d := by
  interval_cases d <;> rfl

theorem toDigitsCore_value (fuel : Nat) : ∀ (n : Nat) (ds : List Char), n < fuel →
    (Nat.toDigitsCore 10 fuel n ds).foldl (fun a c => a * 10 + (c.toNat - 48)) 0 =
      ds.foldl (fun a c => a * 10 + (c.toNat - 48)) n := by
  induction fuel with
  | zero => intro n ds h; omega
  | succ f ih =>
    intro n ds h
    simp only [Nat.toDigitsCore]
    by_cases h0 : n / 10 = 0
    · have hn : n < 10 := by omega
      simp only [h0, if_true, List.foldl_cons, Nat.zero_mul, Nat.zero_add]
      rw [digitChar_value (n % 10) (Nat.mod_lt _ (by decide))]
      rw [Nat.mod_eq_of_lt hn]
    · simp only [h0, if_false]
      rw [ih (n / 10) _ (by omega)]
      simp only [List.foldl_cons]
      rw [digitChar_value (n % 10) (Nat.mod_lt _ (by decide))]
      congr 1
      omega

theorem toString_nat_injective (a b : Nat) (h : (toString a : String) = toString b) : a = b := by
  have h1 : Nat.toDigits 10 a = Nat.toDigits 10 b := by
    have h2 : (Nat.repr a).data = (Nat.repr b).data := congrArg String.data h
    simpa [Nat.repr, List.asString] using h2
  have ha := toDigitsCore_value (a + 1) a [] (by omega)
  have hb := toDigitsCore_value (b + 1) b [] (by omega)
  simp only [Nat.toDigits] at h1
  rw [h1] at ha
  rw [ha] at hb
  simpa using hb

/-! ## C1: nickname collisions -/

theorem suffixed_ne_self (nickname : String) (k : Nat) : suffixed nickname k ≠ nickname := by
  intro h
  have h1 := congrArg String.length h
  simp [suffixed, String.length_append] at h1
  have : ("(" : String).length = 1 := rfl
  omega

theorem suffixed_injective (nickname : String) (j k : Nat)
    (h : suffixed nickname j = suffixed nickname k) : j = k := by
  have h1 := congrArg String.data h
  simp only [suffixed, String.data_append, List.append_assoc] at h1
  have h2 := List.append_cancel_left h1
  have h3 := List.append_cancel_left h2
  have h4 := List.append_cancel_right h3
  exact toString_nat_injective j k (String.ext h4)

theorem candidate_injective (nickname : String) (j k : Nat)
    (h : candidate nickname j = candidate nickname k) : j = k := by
  unfold candidate at h
  by_cases hj : j = 0 <;> by_cases hk : k = 0
  · omega
  · simp only [hj, hk, if_true, if_false] at h
    exact absurd h.symm (suffixed_ne_self nickname k)
  · simp only [hj, hk, if_true, if_false] at h
    exact absurd h (suffixed_ne_self nickname j)
  · simp only [hj, hk, if_false] at h
    exact suffixed_injective nickname j k h

/-- Among the first `taken.length + 1` candidates one is free. -/
theorem exists_free_candidate (taken : List String) (nickname : String) :
    ∃ k, k ≤ taken.length ∧ candidate nickname k ∉ taken := by
  by_contra hcon
  push_neg at hcon
  have hnd : ((List.range (taken.length + 1)).map (candidate nickname)).Nodup :=
    (List.nodup_range _).map (fun j k h => candidate_injective nickname j k h)
  have hsub : (List.range (taken.length + 1)).map (candidate nickname) ⊆ taken := by
    intro x hx
    rcases List.mem_map.1 hx with ⟨k, hk, rfl⟩
    exact hcon k (by have := List.mem_range.1 hk; omega)
  have hlen := (List.subperm_of_subset hnd hsub).length_le
  simp at hlen

/-- The search started at candidate `c` returns the first free candidate from `c` on,
when one lies within the fuel. -/
theorem nameSearch_first_free (taken : List String) (nickname : String) (fuel : Nat) :
    ∀ c k, c ≤ k → k < c + fuel → candidate nickname k ∉ taken →
      (∀ j, c ≤ j → j < k → candidate nickname j ∈ taken) →
      nameSearch taken nickname fuel (candidate nickname c) c = some (candidate nickname k) := by
  induction fuel with
  | zero => intro c k h1 h2; omega
  | succ f ih =>
    intro c k h1 h2 hfree hbelow
    by_cases hc : candidate nickname c ∈ taken
    · have hck : c ≠ k := fun h => hfree (h ▸ hc)
      have hstep : suffixed nickname (c + 1) = candidate nickname (c + 1) := by
        simp [candidate]
      simp only [nameSearch, hc, if_true]
      rw [hstep]
      exact ih (c + 1) k (by omega) (by omega) hfree (fun j hj1 hj2 => hbelow j (by omega) hj2)
    · have hck : c = k := by
        by_contra hne
        exact hc (hbelow c (Nat.le_refl c) (by omega))
      subst hck
      simp [nameSearch, hc]

/-- The name search of the constructor always ends, on the first free candidate. -/
theorem nameSearch_total (taken : List String) (nickname : String) :
    ∃ k, nameSearch taken nickname (taken.length + 1) nickname 0 = some (candidate nickname k) ∧
      candidate nickname k ∉ taken ∧ ∀ j, j < k → candidate nickname j ∈ taken := by
  classical
  have hex := exists_free_candidate taken nickname
  have hex2 : ∃ k, candidate nickname k ∉ taken := by
    obtain ⟨k, _, hk⟩ := hex
    exact ⟨k, hk⟩
  refine ⟨Nat.find hex2, ?_, Nat.find_spec hex2, ?_⟩
  · have hle : Nat.find hex2 ≤ taken.length := by
      obtain ⟨k, hk1, hk2⟩ := hex
      exact le_trans (Nat.find_min' hex2 hk2) hk1
    have h0 : candidate nickname 0 = nickname := by simp [candidate]
    have := nameSearch_first_free taken nickname (taken.length + 1) 0 (Nat.find hex2)
      (Nat.zero_le _) (by omega) (Nat.find_spec hex2)
      (fun j _ hj => by
        by_contra hjn
        exact Nat.find_min hex2 hj hjn)
    rw [h0] at this
    exact this
  · intro j hj
    by_contra hjn
    exact Nat.find_min hex2 hj hjn

/-- The result of the constructor once the name search has returned `name`. -/
theorem newPlayer_eq (S : State) (nickname room : String) (socket : Socket) (R : Room)
    (taken : List String) (name : String) (hR : S.ROOM_LIST.get room = some R)
    (ht : memberNicknames S R = some taken)
    (hs : nameSearch taken nickname (taken.length + 1) nickname 0 = some name) :
    newPlayer S nickname room socket =
      some ({ S with
                heap := S.heap ++
                  [{ id := socket.sessionId, nickname := name, room := room,
                     team := "undecided", role := "guesser", guessProposal := none,
                     timeout := 10800, afktimer := 10800 }],
                PLAYER_LIST := S.PLAYER_LIST.set socket.sessionId S.heap.length },
            S.heap.length) := by
  simp only [newPlayer, hR, ht, hs]

/-- C1. The constructor of `Player` returns, and the new player's nickname is the requested
nickname `n` when no current member of the room bears it, and otherwise `n(k)` for the
least `k ≥ 1` such that no current member is named `n(k)`; in either case it differs from
the nickname of every current member. -/
theorem C1_nickname_first_available (S : State) (nickname room : String) (socket : Socket)
    (R : Room) (taken : List String) (hR : S.ROOM_LIST.get room = some R)
    (ht : memberNicknames S R = some taken) :
    ∃ S' ref p, newPlayer S nickname room socket = some (S', ref) ∧
      S'.heap[ref]? = some p ∧ S'.PLAYER_LIST.get socket.sessionId = some ref ∧
      (nickname ∉ taken → p.nickname = nickname) ∧
      (nickname ∈ taken → ∃ k, 1 ≤ k ∧ p.nickname = suffixed nickname k ∧
        suffixed nickname k ∉ taken ∧ ∀ j, 1 ≤ j → j < k → suffixed nickname j ∈ taken) ∧
      p.nickname ∉ taken := by
  obtain ⟨k, hk, hfree, hbelow⟩ := nameSearch_total taken nickname
  refine ⟨_, _,
    { id := socket.sessionId, nickname := candidate nickname k, room := room,
      team := "undecided", role := "guesser", guessProposal := none, timeout := 10800,
      afktimer := 10800 },
    newPlayer_eq S nickname room socket R taken _ hR ht hk, by simp, ?_, ?_, ?_, hfree⟩
  · simp [Obj.get_set_self]
  · intro hn
    have hk0 : k = 0 := by
      by_contra hne
      have := hbelow 0 (by omega)
      simp [candidate] at this
      exact hn this
    simp [hk0, candidate]
  · intro hn
    have hk0 : k ≠ 0 := by
      intro h0
      apply hfree
      simpa [h0, candidate] using hn
    refine ⟨k, by omega, by simp [candidate, hk0], by simpa [candidate, hk0] using hfree, ?_⟩
    intro j hj1 hj2
    have := hbelow j hj2
    have hj0 : j ≠ 0 := by omega
    simpa [candidate, hj0] using this

/-- C1 at a room whose members are "Alice" and "Alice(1)": a third "Alice" is handled. -/
theorem C1_nickname_first_available_witness :
    exAlice.ROOM_LIST.get "R" = some exAliceRoom ∧
      memberNicknames exAlice exAliceRoom = some ["Alice", "Alice(1)"] ∧
      ∃ S' ref p, newPlayer exAlice "Alice" "R" sockC = some (S', ref) ∧
        S'.heap[ref]? = some p ∧ S'.PLAYER_LIST.get sockC.sessionId = some ref ∧
        ("Alice" ∉ ["Alice", "Alice(1)"] → p.nickname = "Alice") ∧
        ("Alice" ∈ ["Alice", "Alice(1)"] → ∃ k, 1 ≤ k ∧ p.nickname = suffixed "Alice" k ∧
          suffixed "Alice" k ∉ ["Alice", "Alice(1)"] ∧
          ∀ j, 1 ≤ j → j < k → suffixed "Alice" j ∈ ["Alice", "Alice(1)"]) ∧
        p.nickname ∉ ["Alice", "Alice(1)"] :=
  ⟨by decide, by decide,
    C1_nickname_first_available exAlice "Alice" "R" sockC exAliceRoom ["Alice", "Alice(1)"]
      (by decide) (by decide)⟩

/-- With "Alice" and "Alice(1)" present, a third "Alice" is named "Alice(2)". -/
theorem newPlayer_third_alice :
    (newPlayer exAlice "Alice" "R" sockC).map (fun r => r.1.heap[r.2]?.map Player.nickname)
      = some (some "Alice(2)") := by decide

/-! ## The broadcaster never throws on a well-formed room -/

theorem derefPlayers_some (heap : List Player) (ps : Obj Nat)
    (h : ∀ e ∈ ps, e.2 < heap.length) : ∃ l, derefPlayers heap ps = some l := by
  induction ps with
  | nil => exact ⟨[], rfl⟩
  | cons e t ih =>
    obtain ⟨k, r⟩ := e
    obtain ⟨l, hl⟩ := ih (fun e he => h e (List.mem_cons_of_mem _ he))
    have hr : r < heap.length := h (k, r) (List.mem_cons_self _ _)
    refine ⟨(k, heap[r]) :: l, ?_⟩
    simp [derefPlayers, hl, List.getElem?_eq_getElem hr]

theorem gameStateEmits_some (S : State) (gs : GameState) (ks : List String)
    (h : ∀ k ∈ ks, (S.player k).isSome = true) : ∃ es, gameStateEmits S gs ks = some es := by
  induction ks with
  | nil => exact ⟨[], rfl⟩
  | cons k t ih =>
    obtain ⟨es, hes⟩ := ih (fun k hk => h k (List.mem_cons_of_mem _ hk))
    have hk := h k (List.mem_cons_self _ _)
    obtain ⟨p, hp⟩ := Option.isSome_iff_exists.1 hk
    cases hs : S.SOCKET_LIST.get k with
    | none => exact ⟨es, by simp [gameStateEmits, hs, hes]⟩
    | some sock =>
      exact ⟨{ conn := sock.conn, msg := Msg.gameState { gs with team := some p.team } } :: es,
        by simp only [gameStateEmits, hs, hp, hes]⟩

/-- Every message of a broadcast is the snapshot with the team of a member, sent on the
registered connection of that member. -/
theorem gameStateEmits_mem (S : State) (gs : GameState) (ks : List String) :
    ∀ es, gameStateEmits S gs ks = some es → ∀ e ∈ es, ∃ k ∈ ks, ∃ sock p,
      S.SOCKET_LIST.get k = some sock ∧ S.player k = some p ∧
      e = { conn := sock.conn, msg := Msg.gameState { gs with team := some p.team } } := by
  induction ks with
  | nil =>
    intro es h e he
    simp only [gameStateEmits, Option.some.injEq] at h
    subst h
    cases he
  | cons k t ih =>
    intro es h e he
    cases hs : S.SOCKET_LIST.get k with
    | none =>
      simp only [gameStateEmits, hs] at h
      obtain ⟨k', hk', rest⟩ := ih es h e he
      exact ⟨k', List.mem_cons_of_mem _ hk', rest⟩
    | some sock =>
      cases hp : S.player k with
      | none => simp [gameStateEmits, hs, hp] at h
      | some p =>
        cases ht : gameStateEmits S gs t with
        | none => simp [gameStateEmits, hs, hp, ht] at h
        | some es' =>
          simp only [gameStateEmits, hs, hp, ht, Option.some.injEq] at h
          subst h
          rcases List.mem_cons.1 he with rfl | he'
          · exact ⟨k, List.mem_cons_self _ _, sock, p, hs, hp, rfl⟩
          · obtain ⟨k', hk', rest⟩ := ih es' ht e he'
            exact ⟨k', List.mem_cons_of_mem _ hk', rest⟩

/-- Every member with a registered connection receives the snapshot with its own team. -/
theorem gameStateEmits_complete (S : State) (gs : GameState) (ks : List String) :
    ∀ es, gameStateEmits S gs ks = some es → ∀ k ∈ ks, ∀ sock p,
      S.SOCKET_LIST.get k = some sock → S.player k = some p →
      ({ conn := sock.conn, msg := Msg.gameState { gs with team := some p.team } } : Emit)
        ∈ es := by
  induction ks with
  | nil => intro es _ k hk; cases hk
  | cons k0 t ih =>
    intro es h k hk sock p hs hp
    cases hs0 : S.SOCKET_LIST.get k0 with
    | none =>
      simp only [gameStateEmits, hs0] at h
      rcases List.mem_cons.1 hk with rfl | hk'
      · rw [hs0] at hs; cases hs
      · exact ih es h k hk' sock p hs hp
    | some sock0 =>
      cases hp0 : S.player k0 with
      | none => simp [gameStateEmits, hs0, hp0] at h
      | some p0 =>
        cases ht : gameStateEmits S gs t with
        | none => simp [gameStateEmits, hs0, hp0, ht] at h
        | some es' =>
          simp only [gameStateEmits, hs0, hp0, ht, Option.some.injEq] at h
          subst h
          rcases List.mem_cons.1 hk with rfl | hk'
          · rw [hs0] at hs; rw [hp0] at hp
            cases hs; cases hp
            exact List.mem_cons_self _ _
          · exact List.mem_cons_of_mem _ (ih es' ht k hk' sock p hs hp)

/-- On a room whose member references are valid and whose members all have a `Player`,
`gameUpdate` returns and only extends the output log, by the broadcast of the snapshot. -/
theorem gameUpdate_some (S : State) (room : String) (R : Room)
    (hR : S.ROOM_LIST.get room = some R) (hv : roomRefsValid S R) (hk : membersKnown S R) :
    ∃ gs es, getGameState S room = some gs ∧ gs.room = room ∧
      gameStateEmits S gs R.players.keys = some es ∧
      gameUpdate S room = some { S with out := S.out ++ es } := by
  obtain ⟨l, hl⟩ := derefPlayers_some S.heap R.players hv
  obtain ⟨es, hes⟩ := gameStateEmits_some S
    { room := room, players := l, game := R.game, difficulty := R.difficulty,
      mode := R.mode, consensus := R.consensus, team := none } R.players.keys hk
  exact ⟨_, es, by simp only [getGameState, hR, hl], rfl, hes,
    by simp only [gameUpdate, getGameState, hR, hl, hes]⟩

theorem player_isSome_iff (S : State) (k : String) :
    (S.player k).isSome = true ↔ ∃ r, S.PLAYER_LIST.get k = some r ∧ r < S.heap.length := by
  unfold State.player
  cases hg : S.PLAYER_LIST.get k with
  | none => simp
  | some r =>
    by_cases hr : r < S.heap.length
    · simp [hr, List.getElem?_eq_getElem hr]
    · simp [hr, List.getElem?_eq_none (Nat.le_of_not_lt hr)]

theorem membersKnown_of_eq (S S' : State) (R R' : Room) (h : membersKnown S R)
    (hP : S'.PLAYER_LIST = S.PLAYER_LIST) (hH : S'.heap.length = S.heap.length)
    (hR : R'.players = R.players) : membersKnown S' R' := by
  intro k hk
  rw [hR] at hk
  obtain ⟨r, hr1, hr2⟩ := (player_isSome_iff S k).1 (h k hk)
  exact (player_isSome_iff S' k).2 ⟨r, by rw [hP]; exact hr1, by rw [hH]; exact hr2⟩

theorem roomRefsValid_of_eq (S S' : State) (R R' : Room) (h : roomRefsValid S R)
    (hH : S'.heap.length = S.heap.length) (hR : R'.players = R.players) :
    roomRefsValid S' R' := by
  intro e he
  rw [hR] at he
  rw [hH]
  exact h e he

/-! ## C2 and C3: the consensus guess coordinator -/

theorem allAgree_spec (S : State) (turn guess : String) (ks : List String)
    (h : ∀ k ∈ ks, (S.player k).isSome = true) :
    ∃ b, allAgree S turn guess ks = some b ∧
      (b = true ↔ ∀ k ∈ ks, ∀ p, S.player k = some p →
        p.team = turn → p.role ≠ "spymaster" → p.guessProposal = some guess) := by
  induction ks with
  | nil => exact ⟨true, rfl, by simp⟩
  | cons k t ih =>
    obtain ⟨b, hb, hiff⟩ := ih (fun k hk => h k (List.mem_cons_of_mem _ hk))
    obtain ⟨p, hp⟩ := Option.isSome_iff_exists.1 (h k (List.mem_cons_self _ _))
    by_cases hc : p.guessProposal ≠ some guess ∧ p.role ≠ "spymaster" ∧ p.team = turn
    · refine ⟨false, by simp only [allAgree, hp]; exact if_pos hc, ?_⟩
      constructor
      · intro hf; cases hf
      · intro hall
        exact absurd (hall k (List.mem_cons_self _ _) p hp hc.2.2 hc.2.1) hc.1
    · refine ⟨b, by simp only [allAgree, hp]; rw [if_neg hc]; exact hb, ?_⟩
      rw [hiff]
      constructor
      · intro hall k' hk' p' hp' h1 h2
        rcases List.mem_cons.1 hk' with rfl | hk'
        · rw [hp] at hp'
          cases hp'
          by_contra h3
          exact hc ⟨h3, h2, h1⟩
        · exact hall k' hk' p' hp' h1 h2
      · intro hall k' hk'
        exact hall k' (List.mem_cons_of_mem _ hk')

theorem clearLoop_some (ks : List String) : ∀ (S : State),
    (∀ k ∈ ks, ∃ r, S.PLAYER_LIST.get k = some r ∧ r < S.heap.length) →
    ∃ h', clearLoop S ks = some { S with heap := h' } ∧ h'.length = S.heap.length := by
  induction ks with
  | nil => intro S _; exact ⟨S.heap, rfl, rfl⟩
  | cons k t ih =>
    intro S h
    obtain ⟨r, hr1, hr2⟩ := h k (List.mem_cons_self _ _)
    obtain ⟨h', h1, h2⟩ := ih (S.setPlayer r { S.heap[r] with guessProposal := none })
      (fun k' hk' => by
        obtain ⟨r', hr1', hr2'⟩ := h k' (List.mem_cons_of_mem _ hk')
        exact ⟨r', hr1', by simpa [State.setPlayer] using hr2'⟩)
    refine ⟨h', ?_, by simpa [State.setPlayer] using h2⟩
    simp only [clearLoop, hr1, List.getElem?_eq_getElem hr2]
    rw [h1]
    rfl

/-- An accepted click under the consensus policy reduces to the toggle test and the
agreement loop. -/
theorem clickTile_accepted (E : Engine) (S : State) (socket : Socket) (i j ref : Nat)
    (p : Player) (R : Room) (w : String)
    (hp : S.PLAYER_LIST.get socket.sessionId = some ref) (hh : S.heap[ref]? = some p)
    (hR : S.ROOM_LIST.get p.room = some R) (hturn : p.team = R.game.turn)
    (hover : R.game.over = false) (hrole : p.role ≠ "spymaster")
    (hcons : R.consensus = "consensus") (hw : R.game.word i j = some w) :
    clickTile E S socket i j =
      if p.guessProposal = some w then
        gameUpdate (S.setPlayer ref { p with guessProposal := none }) p.room
      else
        match allAgree (S.setPlayer ref { p with guessProposal := some w }) R.game.turn w
            R.players.keys with
        | none => none
        | some doFlip =>
          flipAndUpdate E (S.setPlayer ref { p with guessProposal := some w }) p.room i j
            doFlip := by
  have hg : truthyAt S.PLAYER_LIST socket.sessionId = true := by simp [truthyAt, hp]
  simp only [clickTile, hg, Bool.not_true, Bool.false_eq_true, if_false, hp, hh, hR,
    if_pos hturn, hover, Bool.not_false, if_true, if_pos hrole, if_pos hcons, hw]

/-- C3. Under the consensus policy an accepted click on the word the actor already proposes
clears the actor's proposal and broadcasts the room once: the result is that of one
`gameUpdate` on the state with the proposal set to null, so no tile flip is invoked
(whatever the other members propose), the rooms are unchanged and every other player
object is unchanged. -/
theorem C3_toggle_own_proposal_off (E : Engine) (S : State) (socket : Socket) (i j ref : Nat)
    (p : Player) (R : Room) (w : String)
    (hp : S.PLAYER_LIST.get socket.sessionId = some ref) (hh : S.heap[ref]? = some p)
    (hR : S.ROOM_LIST.get p.room = some R) (hturn : p.team = R.game.turn)
    (hover : R.game.over = false) (hrole : p.role ≠ "spymaster")
    (hcons : R.consensus = "consensus") (hw : R.game.word i j = some w)
    (hprop : p.guessProposal = some w)
    (hv : roomRefsValid S R) (hk : membersKnown S R) :
    ∃ S', clickTile E S socket i j = some S' ∧
      gameUpdate (S.setPlayer ref { p with guessProposal := none }) p.room = some S' ∧
      S'.heap[ref]? = some { p with guessProposal := none } ∧
      (∀ r, r ≠ ref → S'.heap[r]? = S.heap[r]?) ∧
      S'.calls = S.calls ∧ S'.ROOM_LIST = S.ROOM_LIST ∧ S'.PLAYER_LIST = S.PLAYER_LIST ∧
      ∃ es, S'.out = S.out ++ es ∧ ∀ e ∈ es, ∃ gs, e.msg = Msg.gameState gs := by
  have hlen : ref < S.heap.length := (List.getElem?_eq_some.1 hh).1
  obtain ⟨gs, es, _, _, hem, hes⟩ :=
    gameUpdate_some (S.setPlayer ref { p with guessProposal := none }) p.room R
      hR (roomRefsValid_of_eq S _ R R hv (by simp [State.setPlayer]) rfl)
      (membersKnown_of_eq S _ R R hk rfl (by simp [State.setPlayer]) rfl)
  refine ⟨_, ?_, hes, ?_, ?_, rfl, rfl, rfl, es, rfl, ?_⟩
  · rw [clickTile_accepted E S socket i j ref p R w hp hh hR hturn hover hrole hcons hw,
      if_pos hprop]
    exact hes
  · simp [State.setPlayer, List.getElem?_set, hlen]
  · intro r hr
    simp [State.setPlayer, List.getElem?_set, Ne.symm hr]
  · intro e he
    obtain ⟨k, _, sock, q, _, _, rfl⟩ := gameStateEmits_mem _ gs _ es hem e he
    exact ⟨_, rfl⟩

/-- C3 on the state `exVote`: `tokB` clicks tile (0, 0), whose word it already proposes. -/
theorem C3_toggle_own_proposal_off_witness :
    (exVote.PLAYER_LIST.get sockB.sessionId = some 1 ∧ exVote.heap[1]? = some exVoterB ∧
      exVote.ROOM_LIST.get exVoterB.room = some exVoteRoom ∧
      exVoterB.team = exVoteRoom.game.turn ∧ exVoteRoom.game.over = false ∧
      exVoterB.role ≠ "spymaster" ∧ exVoteRoom.consensus = "consensus" ∧
      exVoteRoom.game.word 0 0 = some "apple" ∧ exVoterB.guessProposal = some "apple" ∧
      roomRefsValid exVote exVoteRoom ∧ membersKnown exVote exVoteRoom) ∧
    ∃ S', clickTile exEngine exVote sockB 0 0 = some S' ∧
      gameUpdate (exVote.setPlayer 1 { exVoterB with guessProposal := none }) exVoterB.room
        = some S' ∧
      S'.heap[1]? = some { exVoterB with guessProposal := none } ∧
      (∀ r, r ≠ 1 → S'.heap[r]? = exVote.heap[r]?) ∧
      S'.calls = exVote.calls ∧ S'.ROOM_LIST = exVote.ROOM_LIST ∧
      S'.PLAYER_LIST = exVote.PLAYER_LIST ∧
      ∃ es, S'.out = exVote.out ++ es ∧ ∀ e ∈ es, ∃ gs, e.msg = Msg.gameState gs :=
  ⟨⟨by decide, by decide, by decide, by decide, by decide, by decide, by decide, by decide,
      by decide, by unfold roomRefsValid; decide, by unfold membersKnown; decide⟩,
    C3_toggle_own_proposal_off exEngine exVote sockB 0 0 1 exVoterB exVoteRoom "apple"
      (by decide) (by decide) (by decide) (by decide) (by decide) (by decide) (by decide)
      (by decide) (by decide) (by unfold roomRefsValid; decide)
      (by unfold membersKnown; decide)⟩

theorem player_setPlayer_self (S : State) (k : String) (ref : Nat) (q : Player)
    (hp : S.PLAYER_LIST.get k = some ref) (hlen : ref < S.heap.length) :
    (S.setPlayer ref q).player k = some q := by
  simp [State.player, State.setPlayer, hp, List.getElem?_set, hlen]

/-- With a flip decided, `flipAndUpdate` calls the engine once, clears the proposals of the
members and broadcasts. -/
theorem flipAndUpdate_true (E : Engine) (S : State) (room : String) (i j : Nat) (R : Room)
    (hR : S.ROOM_LIST.get room = some R) (hv : roomRefsValid S R) (hk : membersKnown S R) :
    ∃ S', flipAndUpdate E S room i j true = some S' ∧
      S'.calls = S.calls ++ [(room, EngineCall.flipTile i j)] ∧
      S'.ROOM_LIST.get room = some { R with game := E.flipTile R.game i j } := by
  have hkeys : ∀ k ∈ R.players.keys,
      ∃ r, S.PLAYER_LIST.get k = some r ∧ r < S.heap.length :=
    fun k hk' => (player_isSome_iff S k).1 (hk k hk')
  obtain ⟨h', h1, h2⟩ := clearLoop_some R.players.keys
    { S.setRoom room { R with game := E.flipTile R.game i j } with
      calls := S.calls ++ [(room, EngineCall.flipTile i j)] } hkeys
  have hget : (S.ROOM_LIST.set room { R with game := E.flipTile R.game i j }).get room
      = some { R with game := E.flipTile R.game i j } := Obj.get_set_self _ _ _
  obtain ⟨gs, es, _, _, _, hes⟩ := gameUpdate_some
    { S with ROOM_LIST := S.ROOM_LIST.set room { R with game := E.flipTile R.game i j },
             calls := S.calls ++ [(room, EngineCall.flipTile i j)], heap := h' }
    room { R with game := E.flipTile R.game i j } hget
    (roomRefsValid_of_eq S _ R _ hv h2 rfl) (membersKnown_of_eq S _ R _ hk rfl h2 rfl)
  refine ⟨{ S with ROOM_LIST := S.ROOM_LIST.set room { R with game := E.flipTile R.game i j },
                   calls := S.calls ++ [(room, EngineCall.flipTile i j)], heap := h',
                   out := S.out ++ es }, ?_, rfl, hget⟩
  simp only [flipAndUpdate, if_true, hR, clearGuessProsposals, State.setRoom, hget]
  simp only [State.setRoom] at h1
  rw [h1]
  exact hes

/-- C2. Under the consensus policy an accepted click on a word other than the actor's
current proposal returns; the actor's proposal is first set to the word, and `flipTile` is
invoked (once, on the room's game) if and only if every member of the room who is on the
team in turn and is not a spymaster then proposes that word. When some such member
disagrees or has no proposal, no engine call is made, the rooms are unchanged, the actor
proposes the word and no other player object changes. -/
theorem C2_consensus_flip_iff_all_agree (E : Engine) (S : State) (socket : Socket)
    (i j ref : Nat) (p : Player) (R : Room) (w : String)
    (hp : S.PLAYER_LIST.get socket.sessionId = some ref) (hh : S.heap[ref]? = some p)
    (hR : S.ROOM_LIST.get p.room = some R) (hturn : p.team = R.game.turn)
    (hover : R.game.over = false) (hrole : p.role ≠ "spymaster")
    (hcons : R.consensus = "consensus") (hw : R.game.word i j = some w)
    (hprop : p.guessProposal ≠ some w)
    (hv : roomRefsValid S R) (hk : membersKnown S R) :
    (S.setPlayer ref { p with guessProposal := some w }).player socket.sessionId
        = some { p with guessProposal := some w } ∧
    ∃ S', clickTile E S socket i j = some S' ∧
      (S'.calls = S.calls ++ [(p.room, EngineCall.flipTile i j)] ↔
        teamAgrees (S.setPlayer ref { p with guessProposal := some w }) R R.game.turn w) ∧
      (teamAgrees (S.setPlayer ref { p with guessProposal := some w }) R R.game.turn w →
        S'.ROOM_LIST.get p.room = some { R with game := E.flipTile R.game i j }) ∧
      (¬ teamAgrees (S.setPlayer ref { p with guessProposal := some w }) R R.game.turn w →
        S'.calls = S.calls ∧ S'.ROOM_LIST = S.ROOM_LIST ∧
        S'.heap[ref]? = some { p with guessProposal := some w } ∧
        ∀ r, r ≠ ref → S'.heap[r]? = S.heap[r]?) := by
  have hlen : ref < S.heap.length := (List.getElem?_eq_some.1 hh).1
  have hv1 : roomRefsValid (S.setPlayer ref { p with guessProposal := some w }) R :=
    roomRefsValid_of_eq S _ R R hv (by simp [State.setPlayer]) rfl
  have hk1 : membersKnown (S.setPlayer ref { p with guessProposal := some w }) R :=
    membersKnown_of_eq S _ R R hk rfl (by simp [State.setPlayer]) rfl
  refine ⟨player_setPlayer_self S _ ref _ hp hlen, ?_⟩
  obtain ⟨b, hb, hiff⟩ := allAgree_spec (S.setPlayer ref { p with guessProposal := some w })
    R.game.turn w R.players.keys hk1
  rw [clickTile_accepted E S socket i j ref p R w hp hh hR hturn hover hrole hcons hw,
    if_neg hprop, hb]
  dsimp only
  cases b with
  | true =>
    have hag : teamAgrees (S.setPlayer ref { p with guessProposal := some w }) R R.game.turn w :=
      hiff.1 rfl
    obtain ⟨S', h1, h2, h3⟩ := flipAndUpdate_true E
      (S.setPlayer ref { p with guessProposal := some w }) p.room i j R hR hv1 hk1
    exact ⟨S', h1, ⟨fun _ => hag, fun _ => h2⟩, fun _ => h3, fun hn => absurd hag hn⟩
  | false =>
    have hag : ¬ teamAgrees (S.setPlayer ref { p with guessProposal := some w }) R
        R.game.turn w := fun h => Bool.noConfusion (hiff.2 h)
    obtain ⟨gs, es, _, _, _, hes⟩ := gameUpdate_some
      (S.setPlayer ref { p with guessProposal := some w }) p.room R hR hv1 hk1
    have hfl : flipAndUpdate E (S.setPlayer ref { p with guessProposal := some w }) p.room
        i j false = gameUpdate (S.setPlayer ref { p with guessProposal := some w }) p.room := by
      simp [flipAndUpdate]
    rw [hfl]
    refine ⟨{ S.setPlayer ref { p with guessProposal := some w } with
              out := (S.setPlayer ref { p with guessProposal := some w }).out ++ es },
      hes, ⟨?_, fun h => absurd h hag⟩, fun h => absurd h hag, fun _ => ⟨rfl, rfl, ?_, ?_⟩⟩
    · intro hc
      have := congrArg List.length hc
      simp [State.setPlayer] at this
    · simp [State.setPlayer, List.getElem?_set, hlen]
    · intro r hr
      simp [State.setPlayer, List.getElem?_set, Ne.symm hr]

/-- C2 on the state `exVote`: `tokA`, without a proposal, clicks tile (0, 0). -/
theorem C2_consensus_flip_iff_all_agree_witness :
    (exVote.PLAYER_LIST.get sockA.sessionId = some 0 ∧ exVote.heap[0]? = some exVoterA ∧
      exVote.ROOM_LIST.get exVoterA.room = some exVoteRoom ∧
      exVoterA.team = exVoteRoom.game.turn ∧ exVoteRoom.game.over = false ∧
      exVoterA.role ≠ "spymaster" ∧ exVoteRoom.consensus = "consensus" ∧
      exVoteRoom.game.word 0 0 = some "apple" ∧ exVoterA.guessProposal ≠ some "apple" ∧
      roomRefsValid exVote exVoteRoom ∧ membersKnown exVote exVoteRoom) ∧
    ((exVote.setPlayer 0 { exVoterA with guessProposal := some "apple" }).player
        sockA.sessionId = some { exVoterA with guessProposal := some "apple" } ∧
    ∃ S', clickTile exEngine exVote sockA 0 0 = some S' ∧
      (S'.calls = exVote.calls ++ [(exVoterA.room, EngineCall.flipTile 0 0)] ↔
        teamAgrees (exVote.setPlayer 0 { exVoterA with guessProposal := some "apple" })
          exVoteRoom exVoteRoom.game.turn "apple") ∧
      (teamAgrees (exVote.setPlayer 0 { exVoterA with guessProposal := some "apple" })
          exVoteRoom exVoteRoom.game.turn "apple" →
        S'.ROOM_LIST.get exVoterA.room =
          some { exVoteRoom with game := exEngine.flipTile exVoteRoom.game 0 0 }) ∧
      (¬ teamAgrees (exVote.setPlayer 0 { exVoterA with guessProposal := some "apple" })
          exVoteRoom exVoteRoom.game.turn "apple" →
        S'.calls = exVote.calls ∧ S'.ROOM_LIST = exVote.ROOM_LIST ∧
        S'.heap[0]? = some { exVoterA with guessProposal := some "apple" } ∧
        ∀ r, r ≠ 0 → S'.heap[r]? = exVote.heap[r]?)) :=
  ⟨⟨by decide, by decide, by decide, by decide, by decide, by decide, by decide, by decide,
      by decide, by unfold roomRefsValid; decide, by unfold membersKnown; decide⟩,
    C2_consensus_flip_iff_all_agree exEngine exVote sockA 0 0 0 exVoterA exVoteRoom "apple"
      (by decide) (by decide) (by decide) (by decide) (by decide) (by decide) (by decide)
      (by decide) (by decide) (by unfold roomRefsValid; decide)
      (by unfold membersKnown; decide)⟩

/-- On `exVote` the click of `tokA` on "apple" completes the agreement and flips the tile,
whereas a click on "pear" is only recorded. -/
theorem clickTile_exVote :
    ((clickTile exEngine exVote sockA 0 0).map (fun S => S.calls)
        = some [("R", EngineCall.flipTile 0 0)]) ∧
      ((clickTile exEngine exVote sockA 0 1).map (fun S => (S.calls, S.player tokA))
        = some ([], some { exVoterA with guessProposal := some "pear" })) := by
  constructor <;> decide

/-! ## Shape of the results of the room handlers -/

theorem Obj.set_set {α : Type} (o : Obj α) (k : String) (v v' : α) :
    (o.set k v).set k v' = o.set k v' := by
  induction o with
  | nil => simp [Obj.set]
  | cons e t ih =>
    obtain ⟨k2, v2⟩ := e
    by_cases h2 : k2 = k
    · simp [Obj.set, h2]
    · simp [Obj.set, h2, ih]

theorem Obj.del_of_get_none {α : Type} (o : Obj α) (k : String) (h : o.get k = none) :
    o.del k = o := by
  induction o with
  | nil => rfl
  | cons e t ih =>
    obtain ⟨k2, v2⟩ := e
    by_cases h2 : k2 = k
    · simp [Obj.get, h2] at h
    · have h3 : Obj.get t k = none := by simpa [Obj.get, h2] using h
      have ih2 := ih h3
      simp only [Obj.del] at ih2
      show List.filter _ ((k2, v2) :: t) = _
      rw [List.filter_cons_of_pos (by simpa using h2), ih2]

theorem truthyAt_false_iff {α : Type} (o : Obj α) (k : String) :
    truthyAt o k = false ↔ o.get k = none ∧ k ∉ objectPrototypeKeys := by
  unfold truthyAt
  cases h : o.get k <;> simp

theorem hasProperty_false_iff {α : Type} (o : Obj α) (k : String) :
    hasProperty o k = false ↔ o.get k = none ∧ k ∉ objectPrototypeKeys := by
  unfold hasProperty
  cases h : o.get k <;> simp

theorem gameUpdate_inv (S S' : State) (room : String) (h : gameUpdate S room = some S') :
    ∃ es, S' = { S with out := S.out ++ es } := by
  unfold gameUpdate at h
  cases hg : getGameState S room with
  | none => simp [hg] at h
  | some gs =>
    cases hR : S.ROOM_LIST.get room with
    | none => simp [hg, hR] at h
    | some R =>
      cases he : gameStateEmits S gs R.players.keys with
      | none => simp [hg, hR, he] at h
      | some es =>
        simp only [hg, hR, he, Option.some.injEq] at h
        exact ⟨es, h.symm⟩

/-- The result of `enterRoom` on an existing room, in closed form. -/
theorem enterRoom_eq (S : State) (userName n : String) (socket : Socket) (R : Room)
    (hR : S.ROOM_LIST.get n = some R) :
    enterRoom S userName n socket =
      match memberNicknames S R with
      | none => none
      | some taken =>
        (nameSearch taken userName (taken.length + 1) userName 0).map
          (joinedState S socket n R) := by
  cases ht : memberNicknames S R with
  | none => simp [enterRoom, newPlayer, hR, ht]
  | some taken =>
    cases hs : nameSearch taken userName (taken.length + 1) userName 0 with
    | none => simp [enterRoom, newPlayer, hR, ht, hs]
    | some name =>
      have hget : (S.ROOM_LIST.set n
          { R with players := R.players.set socket.sessionId S.heap.length }).get n
          = some { R with players := R.players.set socket.sessionId S.heap.length } :=
        Obj.get_set_self _ _ _
      simp only [enterRoom, newPlayer, hR, ht, hs, addMember, State.setRoom, Player.joinTeam,
        List.getElem?_concat_length, hget, Option.map_some', joinedState, freshPlayer, parityTeam,
        State.setPlayer]
      split <;> simp [List.set_append_right, *]

theorem Obj.mem_set {α : Type} (o : Obj α) (k : String) (v : α) (e : String × α)
    (h : e ∈ o.set k v) : e ∈ o ∨ e = (k, v) := by
  induction o with
  | nil =>
    simp only [Obj.set, List.mem_singleton] at h
    exact Or.inr h
  | cons e0 t ih =>
    obtain ⟨k2, v2⟩ := e0
    by_cases h2 : k2 = k
    · simp only [Obj.set, h2, if_true, List.mem_cons] at h
      rcases h with h | h
      · exact Or.inr h
      · exact Or.inl (List.mem_cons_of_mem _ h)
    · simp only [Obj.set, h2, if_false, List.mem_cons] at h
      rcases h with h | h
      · exact Or.inl (h ▸ List.mem_cons_self _ _)
      · rcases ih h with h' | h'
        · exact Or.inl (List.mem_cons_of_mem _ h')
        · exact Or.inr h'

theorem Obj.mem_keys_set {α : Type} (o : Obj α) (k k' : String) (v : α)
    (h : k' ∈ (o.set k v).keys) : k' ∈ o.keys ∨ k' = k := by
  rcases (Obj.mem_keys_iff _ _).1 h with ⟨v', hv'⟩
  by_cases hk : k' = k
  · exact Or.inr hk
  · rw [Obj.get_set_ne o k k' v hk] at hv'
    exact Or.inl ((Obj.mem_keys_iff _ _).2 ⟨v', hv'⟩)

theorem memberNicknames_some (S : State) (R : Room) (hv : roomRefsValid S R) :
    ∃ taken, memberNicknames S R = some taken := by
  obtain ⟨l, hl⟩ := derefPlayers_some S.heap R.players hv
  exact ⟨l.map (fun e => e.2.nickname), by simp only [memberNicknames, hl, Option.map_some']⟩

/-- After `enterRoom` the room is well formed when it was before. -/
theorem joinedState_valid (S : State) (socket : Socket) (n : String) (R : Room) (name : String)
    (hv : roomRefsValid S R) (hk : membersKnown S R) :
    roomRefsValid (joinedState S socket n R name)
        { R with players := R.players.set socket.sessionId S.heap.length } ∧
      membersKnown (joinedState S socket n R name)
        { R with players := R.players.set socket.sessionId S.heap.length } := by
  constructor
  · intro e he
    simp only [joinedState, List.length_append, List.length_singleton]
    rcases Obj.mem_set _ _ _ _ he with h | h
    · exact Nat.lt_succ_of_lt (hv e h)
    · rw [h]; exact Nat.lt_succ_self _
  · intro k hk'
    apply (player_isSome_iff _ _).2
    simp only [joinedState, List.length_append, List.length_singleton]
    rcases Obj.mem_keys_set _ _ _ _ hk' with h | h
    · by_cases hks : k = socket.sessionId
      · exact ⟨S.heap.length, by rw [hks]; exact Obj.get_set_self _ _ _, Nat.lt_succ_self _⟩
      · obtain ⟨r, hr1, hr2⟩ := (player_isSome_iff S k).1 (hk k h)
        exact ⟨r, by rw [Obj.get_set_ne _ _ _ _ hks]; exact hr1, Nat.lt_succ_of_lt hr2⟩
    · exact ⟨S.heap.length, by rw [h]; exact Obj.get_set_self _ _ _, Nat.lt_succ_self _⟩

/-! ## C4: createRoom -/

/-- The three failure replies of `createRoom`, in the order of the source; each leaves the
state as it was but for the one response on the requesting connection. -/
theorem createRoom_validation (E : Engine) (S : State) (socket : Socket) (data : RoomData) :
    (truthyAt S.ROOM_LIST (trim data.room) = true →
      createRoom E S socket data =
        some (S.emit socket.conn (Msg.createResponse false "Room Already Exists"))) ∧
    (truthyAt S.ROOM_LIST (trim data.room) = false → trim data.room = "" →
      createRoom E S socket data =
        some (S.emit socket.conn (Msg.createResponse false "Enter A Valid Room Name"))) ∧
    (truthyAt S.ROOM_LIST (trim data.room) = false → trim data.room ≠ "" →
      trim data.nickname = "" →
      createRoom E S socket data =
        some (S.emit socket.conn (Msg.createResponse false "Enter A Valid Nickname"))) := by
  refine ⟨fun h => ?_, fun h1 h2 => ?_, fun h1 h2 h3 => ?_⟩
  · simp [createRoom, h]
  · simp only [createRoom]
    rw [h1]
    simp [h2]
  · simp only [createRoom]
    rw [h1]
    simp [h2, h3]

/-- On the success path `createRoom` adds the room and the creator and broadcasts. -/
theorem createRoom_success_eq (E : Engine) (S : State) (socket : Socket) (data : RoomData)
    (h1 : truthyAt S.ROOM_LIST (trim data.room) = false) (h2 : trim data.room ≠ "")
    (h3 : trim data.nickname ≠ "") :
    createRoom E S socket data =
      gameUpdate
        ((joinedState (newRoom E S (trim data.room) (trim data.password)) socket
            (trim data.room) (freshRoom E (trim data.room) (trim data.password))
            (trim data.nickname)).emit socket.conn (Msg.createResponse true ""))
        (trim data.room) := by
  have hget : (newRoom E S (trim data.room) (trim data.password)).ROOM_LIST.get (trim data.room)
      = some (freshRoom E (trim data.room) (trim data.password)) := Obj.get_set_self _ _ _
  have hm : memberNicknames (newRoom E S (trim data.room) (trim data.password))
      (freshRoom E (trim data.room) (trim data.password)) = some [] := rfl
  simp only [createRoom, h1, h2, h3, enterRoom_eq _ _ _ _ _ hget, hm]
  simp [nameSearch]

/-- On the success path `createRoom` returns: the new room holds the trimmed name and
password and the creator as its only member, the creator is on team red, and the
acknowledgement is followed by the broadcast to the registered connection of the session. -/
theorem createRoom_success (E : Engine) (S : State) (socket : Socket) (data : RoomData)
    (h1 : truthyAt S.ROOM_LIST (trim data.room) = false) (h2 : trim data.room ≠ "")
    (h3 : trim data.nickname ≠ "") :
    createRoom E S socket data =
      some { S with
        ROOM_LIST := S.ROOM_LIST.set (trim data.room)
          { freshRoom E (trim data.room) (trim data.password) with
            players := [(socket.sessionId, S.heap.length)] }
        PLAYER_LIST := S.PLAYER_LIST.set socket.sessionId S.heap.length
        heap := S.heap ++ [creatorPlayer socket (trim data.nickname) (trim data.room)]
        out := S.out ++ { conn := socket.conn, msg := Msg.createResponse true "" } ::
          match S.SOCKET_LIST.get socket.sessionId with
          | none => []
          | some sock =>
            [{ conn := sock.conn,
               msg := Msg.gameState
                 { createdSnapshot E socket (trim data.nickname) (trim data.room) with
                   team := some "red" } }] } := by
  rw [createRoom_success_eq E S socket data h1 h2 h3]
  cases hs : S.SOCKET_LIST.get socket.sessionId with
  | none =>
    simp [gameUpdate, getGameState, joinedState, newRoom, State.setRoom, State.emit, freshRoom,
      Obj.set, Obj.keys, parityTeam, derefPlayers, gameStateEmits, hs, Obj.set_set,
      Obj.get_set_self, creatorPlayer, freshPlayer]
  | some sock =>
    simp [gameUpdate, getGameState, joinedState, newRoom, State.setRoom, State.emit, freshRoom,
      Obj.set, Obj.keys, parityTeam, derefPlayers, gameStateEmits, hs, Obj.set_set,
      Obj.get_set_self, State.player, creatorPlayer, freshPlayer, createdSnapshot]

/-- C4. The code departs from the claim on a room name that no room bears but that every
object literal inherits from `Object.prototype`: with no room at all, a non-empty name and
a non-empty nickname, `createRoom` for the name "constructor" answers "Room Already Exists"
and creates nothing. -/
theorem C4_createRoom_inherited_name_refused :
    exLobby.ROOM_LIST = [] ∧ trim "constructor" ≠ "" ∧ trim "Alice" ≠ "" ∧
      createRoom exEngine exLobby sockA
          { room := "constructor", password := "p", nickname := "Alice" } =
        some (exLobby.emit sockA.conn (Msg.createResponse false "Room Already Exists")) := by
  decide

/-- On `exLobby` a `createRoom` for " R " creates room "R" with the creator on team red. -/
theorem createRoom_exLobby :
    exOne.ROOM_LIST.get "R" = some { freshRoom exEngine "R" "p" with players := [(tokA, 0)] } ∧
      exOne.player tokA = some (creatorPlayer sockA "Alice" "R") := by
  decide

/-! ## C5: joinRoom -/

theorem cancelDeletion_fields (S : State) (n : String) :
    (cancelDeletion S n).ROOM_LIST = S.ROOM_LIST ∧
      (cancelDeletion S n).PLAYER_LIST = S.PLAYER_LIST ∧
      (cancelDeletion S n).heap = S.heap ∧
      (cancelDeletion S n).SOCKET_LIST = S.SOCKET_LIST ∧
      (cancelDeletion S n).out = S.out ∧
      (cancelDeletion S n).calls = S.calls ∧
      (cancelDeletion S n).DELETE_SESSION_LIST = S.DELETE_SESSION_LIST ∧
      (cancelDeletion S n).conns = S.conns := by
  unfold cancelDeletion
  cases S.DELETE_ROOM_LIST.get n <;> simp [clearTimeout]

/-- The failure replies of `joinRoom`, in the order of the source; each leaves the state as
it was but for the one response on the requesting connection. -/
theorem joinRoom_validation (S : State) (socket : Socket) (data : RoomData) :
    (truthyAt S.ROOM_LIST (trim data.room) = false →
      joinRoom S socket data =
        some (S.emit socket.conn (Msg.joinResponse false "Room Not Found"))) ∧
    (∀ R, S.ROOM_LIST.get (trim data.room) = some R → R.password ≠ trim data.password →
      joinRoom S socket data =
        some (S.emit socket.conn (Msg.joinResponse false "Incorrect Password"))) ∧
    (∀ R, S.ROOM_LIST.get (trim data.room) = some R → R.password = trim data.password →
      trim data.nickname = "" →
      joinRoom S socket data =
        some (S.emit socket.conn (Msg.joinResponse false "Enter A Valid Nickname"))) ∧
    (S.ROOM_LIST.get (trim data.room) = none → trim data.room ∈ objectPrototypeKeys →
      joinRoom S socket data =
        some (S.emit socket.conn (Msg.joinResponse false "Incorrect Password"))) := by
  refine ⟨fun h => ?_, fun R hR hp => ?_, fun R hR hp hn => ?_, fun hR hk => ?_⟩
  · simp only [joinRoom]
    rw [h]
    simp
  · have ht : truthyAt S.ROOM_LIST (trim data.room) = true := by simp [truthyAt, hR]
    simp only [joinRoom]
    rw [ht, hR]
    simp [hp]
  · have ht : truthyAt S.ROOM_LIST (trim data.room) = true := by simp [truthyAt, hR]
    simp only [joinRoom]
    rw [ht, hR]
    simp [hp, hn]
  · have ht : truthyAt S.ROOM_LIST (trim data.room) = true := by simp [truthyAt, hk]
    simp only [joinRoom]
    rw [ht, hR]
    simp

/-- On the success path `joinRoom` cancels the pending deletion, adds the player and
broadcasts. -/
theorem joinRoom_success_eq (S : State) (socket : Socket) (data : RoomData) (R : Room)
    (hR : S.ROOM_LIST.get (trim data.room) = some R) (hp : R.password = trim data.password)
    (hn : trim data.nickname ≠ "") :
    joinRoom S socket data =
      match enterRoom (cancelDeletion S (trim data.room)) (trim data.nickname)
          (trim data.room) socket with
      | none => none
      | some S3 =>
        gameUpdate (S3.emit socket.conn (Msg.joinResponse true "")) (trim data.room) := by
  have ht : truthyAt S.ROOM_LIST (trim data.room) = true := by simp [truthyAt, hR]
  simp only [joinRoom]
  rw [ht, hR]
  simp [hp, hn]

theorem gameStateEmits_congr (S S' : State) (gs : GameState) (ks : List String)
    (hS : S'.SOCKET_LIST = S.SOCKET_LIST) (hP : S'.PLAYER_LIST = S.PLAYER_LIST)
    (hH : S'.heap = S.heap) : gameStateEmits S' gs ks = gameStateEmits S gs ks := by
  induction ks with
  | nil => rfl
  | cons k t ih => simp only [gameStateEmits, State.player, hS, hP, hH, ih]

/-- On a well-formed room the success path of `joinRoom` returns: the joiner gets the first
free nickname, is added to the room and to the player table with the team of the parity of
the new member count, and the acknowledgement is followed by the broadcast `es` of the
snapshot `gs` of the room. -/
theorem joinRoom_success (S : State) (socket : Socket) (data : RoomData) (R : Room)
    (hR : S.ROOM_LIST.get (trim data.room) = some R) (hp : R.password = trim data.password)
    (hn : trim data.nickname ≠ "") (hv : roomRefsValid S R) (hk : membersKnown S R) :
    ∃ taken k gs es, memberNicknames S R = some taken ∧
      candidate (trim data.nickname) k ∉ taken ∧
      (∀ j, j < k → candidate (trim data.nickname) j ∈ taken) ∧
      joinRoom S socket data =
        some { joinedState (cancelDeletion S (trim data.room)) socket (trim data.room) R
                 (candidate (trim data.nickname) k) with
               out := S.out ++ { conn := socket.conn, msg := Msg.joinResponse true "" } :: es } ∧
      gs.room = trim data.room ∧
      gameStateEmits
        (joinedState (cancelDeletion S (trim data.room)) socket (trim data.room) R
          (candidate (trim data.nickname) k)) gs
        (R.players.set socket.sessionId S.heap.length).keys = some es := by
  obtain ⟨hc1, hc2, hc3, hc4, hc5, _, _, _⟩ := cancelDeletion_fields S (trim data.room)
  obtain ⟨taken, ht⟩ := memberNicknames_some S R hv
  obtain ⟨k, hk1, hk2, hk3⟩ := nameSearch_total taken (trim data.nickname)
  have hR0 : (cancelDeletion S (trim data.room)).ROOM_LIST.get (trim data.room) = some R := by
    rw [hc1]; exact hR
  have ht0 : memberNicknames (cancelDeletion S (trim data.room)) R = some taken := by
    simpa [memberNicknames, hc3] using ht
  have hv0 : roomRefsValid (cancelDeletion S (trim data.room)) R :=
    roomRefsValid_of_eq S _ R R hv (by rw [hc3]) rfl
  have hk0 : membersKnown (cancelDeletion S (trim data.room)) R :=
    membersKnown_of_eq S _ R R hk hc2 (by rw [hc3]) rfl
  obtain ⟨hv1, hk1'⟩ := joinedState_valid (cancelDeletion S (trim data.room)) socket
    (trim data.room) R (candidate (trim data.nickname) k) hv0 hk0
  rw [hc3] at hv1 hk1'
  have hget : ((joinedState (cancelDeletion S (trim data.room)) socket (trim data.room) R
      (candidate (trim data.nickname) k)).emit socket.conn
        (Msg.joinResponse true "")).ROOM_LIST.get (trim data.room)
      = some { R with players := R.players.set socket.sessionId S.heap.length } := by
    simp only [joinedState, State.emit, hc3]
    exact Obj.get_set_self _ _ _
  obtain ⟨gs, es, _, hgs, hem, hes⟩ := gameUpdate_some _ (trim data.room) _ hget
    (roomRefsValid_of_eq _ _ _ _ hv1 rfl rfl) (membersKnown_of_eq _ _ _ _ hk1' rfl rfl rfl)
  have hem2 : gameStateEmits
      (joinedState (cancelDeletion S (trim data.room)) socket (trim data.room) R
        (candidate (trim data.nickname) k)) gs
      (R.players.set socket.sessionId S.heap.length).keys = some es :=
    (gameStateEmits_congr
      (joinedState (cancelDeletion S (trim data.room)) socket (trim data.room) R
        (candidate (trim data.nickname) k))
      ((joinedState (cancelDeletion S (trim data.room)) socket (trim data.room) R
        (candidate (trim data.nickname) k)).emit socket.conn (Msg.joinResponse true ""))
      gs _ rfl rfl rfl).symm.trans hem
  refine ⟨taken, k, gs, es, ht, hk2, hk3, ?_, hgs, hem2⟩
  rw [joinRoom_success_eq S socket data R hR hp hn, enterRoom_eq _ _ _ _ R hR0]
  simp only [ht0, hk1, Option.map_some']
  rw [hes]
  simp [State.emit, joinedState, hc5]

/-- C5. The code departs from the claim on a room name that no room bears but that every
object literal inherits from `Object.prototype`: with no room at all, `joinRoom` for the
name "constructor" answers "Incorrect Password" instead of "Room Not Found". -/
theorem C5_joinRoom_inherited_name_bad_password :
    exLobby.ROOM_LIST = [] ∧
      joinRoom exLobby sockA { room := "constructor", password := "p", nickname := "Alice" } =
        some (exLobby.emit sockA.conn (Msg.joinResponse false "Incorrect Password")) := by
  decide

/-! ## C7: team parity -/

theorem player_joinedState_old (S : State) (socket : Socket) (n : String) (R : Room)
    (name k : String) (hk : k ≠ socket.sessionId) (hs : (S.player k).isSome = true) :
    (joinedState S socket n R name).player k = S.player k := by
  obtain ⟨r, hr1, hr2⟩ := (player_isSome_iff S k).1 hs
  simp only [State.player, joinedState, Obj.get_set_ne _ _ _ _ hk, hr1]
  exact List.getElem?_append_left hr2

theorem player_joinedState_new (S : State) (socket : Socket) (n : String) (R : Room)
    (name : String) :
    (joinedState S socket n R name).player socket.sessionId =
      some { freshPlayer socket name n with
             team := parityTeam (R.players.set socket.sessionId S.heap.length).keys.length } := by
  simp [State.player, joinedState, Obj.get_set_self]

/-- One `joinRoom` by a session that is not yet a member seats it after the others. -/
theorem seated_joinRoom (S : State) (socket : Socket) (data : RoomData) (ks : List String)
    (hs : seated S (trim data.room) (trim data.password) ks)
    (hn : trim data.nickname ≠ "") (hnew : socket.sessionId ∉ ks) :
    ∃ S', joinRoom S socket data = some S' ∧
      seated S' (trim data.room) (trim data.password) (ks ++ [socket.sessionId]) := by
  obtain ⟨R, hR, hp, hkeys, hv, hk, hteam⟩ := hs
  obtain ⟨taken, k, gs, es, _, _, _, hj, _, _⟩ :=
    joinRoom_success S socket data R hR hp hn hv hk
  obtain ⟨hc1, hc2, hc3, _, _, _, _, _⟩ := cancelDeletion_fields S (trim data.room)
  have hv0 : roomRefsValid (cancelDeletion S (trim data.room)) R :=
    roomRefsValid_of_eq S _ R R hv (by rw [hc3]) rfl
  have hk0 : membersKnown (cancelDeletion S (trim data.room)) R :=
    membersKnown_of_eq S _ R R hk hc2 (by rw [hc3]) rfl
  obtain ⟨hv1, hk1⟩ := joinedState_valid (cancelDeletion S (trim data.room)) socket
    (trim data.room) R (candidate (trim data.nickname) k) hv0 hk0
  have hnk : socket.sessionId ∉ R.players.keys := by rw [hkeys]; exact hnew
  have hkeys' : (R.players.set socket.sessionId
      (cancelDeletion S (trim data.room)).heap.length).keys = ks ++ [socket.sessionId] := by
    rw [Obj.keys_set_of_not_mem _ _ _ hnk, hkeys]
  refine ⟨_, hj,
    { R with players := R.players.set socket.sessionId (cancelDeletion S (trim data.room)).heap.length },
    ?_, hp, hkeys',
    roomRefsValid_of_eq _ _ _ _ hv1 rfl rfl, membersKnown_of_eq _ _ _ _ hk1 rfl rfl rfl, ?_⟩
  · simp only [joinedState]
    exact Obj.get_set_self _ _ _
  · intro i k' hi
    have hpl : ∀ x, State.player
        { joinedState (cancelDeletion S (trim data.room)) socket (trim data.room) R
            (candidate (trim data.nickname) k) with
          out := S.out ++ { conn := socket.conn, msg := Msg.joinResponse true "" } :: es } x =
        (joinedState (cancelDeletion S (trim data.room)) socket (trim data.room) R
            (candidate (trim data.nickname) k)).player x := fun _ => rfl
    rw [hpl]
    by_cases hlt : i < ks.length
    · rw [List.getElem?_append_left hlt] at hi
      have hmem : k' ∈ ks := List.getElem?_mem hi
      have hne : k' ≠ socket.sessionId := fun h => hnew (h ▸ hmem)
      have hsome : ((cancelDeletion S (trim data.room)).player k').isSome = true :=
        hk0 k' (by rw [hkeys]; exact hmem)
      rw [player_joinedState_old _ _ _ _ _ _ hne hsome]
      obtain ⟨p, hp1, hp2, hp3⟩ := hteam i k' hi
      refine ⟨p, ?_, hp2, hp3⟩
      simpa [State.player, hc2, hc3] using hp1
    · have hi' : i = ks.length := by
        by_contra hne
        have : ks.length + 1 ≤ i := by omega
        rw [List.getElem?_eq_none (by simpa using this)] at hi
        cases hi
      subst hi'
      simp only [List.getElem?_concat_length, Option.some.injEq] at hi
      subst hi
      rw [player_joinedState_new]
      refine ⟨_, rfl, rfl, ?_⟩
      simp only [hkeys']
      simp

/-- A run of `joinRoom`s by pairwise distinct new sessions seats them all. -/
theorem seated_joinAll (room password : String) (rest : List (Socket × String)) :
    ∀ (S : State) (ks : List String), seated S (trim room) (trim password) ks →
      (∀ x ∈ rest, trim x.2 ≠ "") →
      (ks ++ rest.map (fun x => x.1.sessionId)).Nodup →
      ∃ S', joinAll S room password rest = some S' ∧
        seated S' (trim room) (trim password) (ks ++ rest.map (fun x => x.1.sessionId)) := by
  induction rest with
  | nil =>
    intro S ks hs _ _
    exact ⟨S, rfl, by simpa using hs⟩
  | cons x t ih =>
    intro S ks hs hn hd
    obtain ⟨socket, nickname⟩ := x
    have hnew : socket.sessionId ∉ ks := by
      intro hmem
      have := (List.nodup_append.1 hd).2.2
      exact this hmem (by simp)
    obtain ⟨S1, h1, hs1⟩ := seated_joinRoom S socket
      { room := room, password := password, nickname := nickname } ks hs
      (hn (socket, nickname) (List.mem_cons_self _ _)) hnew
    obtain ⟨S2, h2, hs2⟩ := ih S1 (ks ++ [socket.sessionId]) hs1
      (fun y hy => hn y (List.mem_cons_of_mem _ hy)) (by simpa using hd)
    refine ⟨S2, by simp only [joinAll, h1, h2], by simpa using hs2⟩

/-- After a successful `createRoom` the creator is seated alone. -/
theorem seated_createRoom (E : Engine) (S : State) (socket : Socket) (data : RoomData)
    (h1 : truthyAt S.ROOM_LIST (trim data.room) = false) (h2 : trim data.room ≠ "")
    (h3 : trim data.nickname ≠ "") :
    ∃ S', createRoom E S socket data = some S' ∧
      seated S' (trim data.room) (trim data.password) [socket.sessionId] := by
  refine ⟨_, createRoom_success E S socket data h1 h2 h3, _, Obj.get_set_self _ _ _, rfl, rfl,
    ?_, ?_, ?_⟩
  · intro e he
    simp only [List.mem_singleton] at he
    subst he
    simp
  · intro k hk
    simp only [Obj.keys, List.map_cons, List.map_nil, List.mem_singleton] at hk
    subst hk
    simp [State.player, Obj.get_set_self]
  · intro i k hi
    have hi0 : i = 0 := by
      by_contra hne
      rw [List.getElem?_eq_none (by simp; omega)] at hi
      cases hi
    subst hi0
    simp only [List.getElem?_cons_zero, Option.some.injEq] at hi
    subst hi
    exact ⟨creatorPlayer socket (trim data.nickname) (trim data.room),
      by simp [State.player, Obj.get_set_self], rfl, rfl⟩

/-- The team assigned by `joinTeam` is blue exactly when the room of the player has an even
number of members at the call. -/
theorem joinTeam_parity (T : State) (ref : Nat) (p : Player) (R : Room)
    (hp : T.heap[ref]? = some p) (hR : T.ROOM_LIST.get p.room = some R) :
    ∃ T' p', Player.joinTeam T ref = some T' ∧ T'.heap[ref]? = some p' ∧
      (p'.team = "blue" ↔ R.players.keys.length % 2 = 0) ∧
      (p'.team = "red" ↔ R.players.keys.length % 2 ≠ 0) := by
  have hlen : ref < T.heap.length := (List.getElem?_eq_some.1 hp).1
  by_cases hpar : R.players.keys.length % 2 = 0
  · refine ⟨T.setPlayer ref { p with team := "blue" }, { p with team := "blue" }, ?_, ?_, ?_, ?_⟩
    · simp [Player.joinTeam, hp, hR, hpar]
    · simp [State.setPlayer, List.getElem?_set, hlen]
    · simp [hpar]
    · simp [hpar]
  · refine ⟨T.setPlayer ref { p with team := "red" }, { p with team := "red" }, ?_, ?_, ?_, ?_⟩
    · simp [Player.joinTeam, hp, hR, hpar]
    · simp [State.setPlayer, List.getElem?_set, hlen]
    · simp [hpar]
    · simp [hpar]

/-- C7. When a room is created by one session and then joined by further, pairwise distinct
sessions one after another (valid room name and nicknames, same password), the run returns
and the Nth player added (the creator being N = 1) is in that room on team "blue" if N is
even and on team "red" otherwise; and `joinTeam` assigns "blue" exactly when the member
count of the player's room, read after the player was added, is even. -/
theorem C7_team_parity (E : Engine) (S : State) (room password : String)
    (creator : Socket × String) (rest : List (Socket × String))
    (h1 : truthyAt S.ROOM_LIST (trim room) = false) (h2 : trim room ≠ "")
    (hn : ∀ x ∈ creator :: rest, trim x.2 ≠ "")
    (hd : ((creator :: rest).map (fun x => x.1.sessionId)).Nodup) :
    (∃ S', createAndJoin E S room password creator rest = some S' ∧
      ∀ N x, (creator :: rest)[N]? = some x →
        ∃ p, S'.player x.1.sessionId = some p ∧ p.room = trim room ∧
          p.team = if (N + 1) % 2 = 0 then "blue" else "red") ∧
    (∀ (T : State) (ref : Nat) (p : Player) (R : Room), T.heap[ref]? = some p →
      T.ROOM_LIST.get p.room = some R →
      ∃ T' p', Player.joinTeam T ref = some T' ∧ T'.heap[ref]? = some p' ∧
        (p'.team = "blue" ↔ R.players.keys.length % 2 = 0) ∧
        (p'.team = "red" ↔ R.players.keys.length % 2 ≠ 0)) := by
  refine ⟨?_, joinTeam_parity⟩
  obtain ⟨S1, hc, hs1⟩ := seated_createRoom E S creator.1
    { room := room, password := password, nickname := creator.2 } h1 h2
    (hn creator (List.mem_cons_self _ _))
  obtain ⟨S2, hj, hs2⟩ := seated_joinAll room password rest S1 [creator.1.sessionId] hs1
    (fun y hy => hn y (List.mem_cons_of_mem _ hy)) (by simpa using hd)
  refine ⟨S2, by simp only [createAndJoin, hc, hj], ?_⟩
  obtain ⟨R, _, _, _, _, _, hteam⟩ := hs2
  intro N x hx
  have hx' : ([creator.1.sessionId] ++ rest.map (fun x => x.1.sessionId))[N]?
      = some x.1.sessionId := by
    have : ((creator :: rest).map (fun x => x.1.sessionId))[N]? = some x.1.sessionId := by
      rw [List.getElem?_map, hx]
      rfl
    simpa using this
  obtain ⟨p, hp1, hp2, hp3⟩ := hteam N x.1.sessionId hx'
  exact ⟨p, hp1, hp2, by simpa [parityTeam] using hp3⟩

/-- C7 on the lobby `exLobby`: `tokA` creates room "R", then `tokB` and `tokC` join. -/
theorem C7_team_parity_witness :
    (truthyAt exLobby.ROOM_LIST (trim " R ") = false ∧ trim " R " ≠ "" ∧
      (∀ x ∈ (sockA, "Alice") :: [(sockB, "Alice"), (sockC, "Bob")], trim x.2 ≠ "") ∧
      (((sockA, "Alice") :: [(sockB, "Alice"), (sockC, "Bob")]).map
        (fun x => x.1.sessionId)).Nodup) ∧
    ((∃ S', createAndJoin exEngine exLobby " R " "p" (sockA, "Alice")
          [(sockB, "Alice"), (sockC, "Bob")] = some S' ∧
      ∀ N x, ((sockA, "Alice") :: [(sockB, "Alice"), (sockC, "Bob")])[N]? = some x →
        ∃ p, S'.player x.1.sessionId = some p ∧ p.room = trim " R " ∧
          p.team = if (N + 1) % 2 = 0 then "blue" else "red") ∧
    (∀ (T : State) (ref : Nat) (p : Player) (R : Room), T.heap[ref]? = some p →
      T.ROOM_LIST.get p.room = some R →
      ∃ T' p', Player.joinTeam T ref = some T' ∧ T'.heap[ref]? = some p' ∧
        (p'.team = "blue" ↔ R.players.keys.length % 2 = 0) ∧
        (p'.team = "red" ↔ R.players.keys.length % 2 ≠ 0))) :=
  ⟨⟨by decide, by decide, by decide, by decide⟩,
    C7_team_parity exEngine exLobby " R " "p" (sockA, "Alice")
      [(sockB, "Alice"), (sockC, "Bob")] (by decide) (by decide) (by decide) (by decide)⟩

/-- The nicknames and teams after `tokA` created room "R" and `tokB`, `tokC` joined it. -/
theorem createAndJoin_exLobby :
    (createAndJoin exEngine exLobby " R " "p" (sockA, "Alice")
        [(sockB, "Alice"), (sockC, "Bob")]).map
      (fun S => [tokA, tokB, tokC].map (fun k => (S.player k).map (fun p => (p.nickname, p.team))))
      = some [some ("Alice", "red"), some ("Alice(1)", "blue"), some ("Bob", "red")] := by
  decide

/-! ## C6: create then join -/

/-- C6. The code departs from the claim on a room name that is non-empty and not in use but
that every object literal inherits from `Object.prototype`: for the name "toString", on a
server without any room, `createRoom` by one session answers success false ("Room Already
Exists") and the `joinRoom` of another session with the same name and password answers
success false ("Incorrect Password"); no room comes to exist. -/
theorem C6_round_trip_fails_on_inherited_name :
    trim "toString" ≠ "" ∧ exLobby.ROOM_LIST.get (trim "toString") = none ∧
      trim "A" ≠ "" ∧ trim "B" ≠ "" ∧ sockA.sessionId ≠ sockB.sessionId ∧
      createRoom exEngine exLobby sockA { room := "toString", password := "p", nickname := "A" } =
        some (exLobby.emit sockA.conn (Msg.createResponse false "Room Already Exists")) ∧
      joinRoom (exLobby.emit sockA.conn (Msg.createResponse false "Room Already Exists")) sockB
          { room := "toString", password := "p", nickname := "B" } =
        some ((exLobby.emit sockA.conn (Msg.createResponse false "Room Already Exists")).emit
          sockB.conn (Msg.joinResponse false "Incorrect Password")) := by
  decide

/-- The fields of the state after a successful `createRoom`. -/
theorem createRoom_success_fields (E : Engine) (S : State) (socket : Socket) (data : RoomData)
    (h1 : truthyAt S.ROOM_LIST (trim data.room) = false) (h2 : trim data.room ≠ "")
    (h3 : trim data.nickname ≠ "") :
    ∃ S1 es, createRoom E S socket data = some S1 ∧
      S1.ROOM_LIST.get (trim data.room) = some
        { freshRoom E (trim data.room) (trim data.password) with
          players := [(socket.sessionId, S.heap.length)] } ∧
      S1.PLAYER_LIST = S.PLAYER_LIST.set socket.sessionId S.heap.length ∧
      S1.heap = S.heap ++ [creatorPlayer socket (trim data.nickname) (trim data.room)] ∧
      S1.SOCKET_LIST = S.SOCKET_LIST ∧
      S1.out = S.out ++ ({ conn := socket.conn, msg := Msg.createResponse true "" } : Emit) :: es ∧
      ∀ e ∈ es, ∃ gs, e.msg = Msg.gameState gs ∧ gs.room = trim data.room := by
  refine ⟨_, _, createRoom_success E S socket data h1 h2 h3, Obj.get_set_self _ _ _, rfl, rfl,
    rfl, rfl, ?_⟩
  intro e he
  cases hs : S.SOCKET_LIST.get socket.sessionId with
  | none => simp [hs] at he
  | some sock =>
    simp only [hs, List.mem_singleton] at he
    subst he
    exact ⟨_, rfl, rfl⟩

/-- The round trip for every room name that is non-empty, not in use and not inherited from
`Object.prototype`: `createRoom` by one session and `joinRoom` by another with the same
name and password both acknowledge success; the room then has exactly these two members,
with distinct nicknames; every `gameState` sent by the two broadcasts carries the trimmed
room name, and the broadcast of the join reaches every member that has a registered
connection. -/
theorem createRoom_joinRoom_round_trip (E : Engine) (S : State) (a b : Socket)
    (room password nickA nickB : String)
    (h1 : truthyAt S.ROOM_LIST (trim room) = false) (h2 : trim room ≠ "")
    (hA : trim nickA ≠ "") (hB : trim nickB ≠ "") (hab : a.sessionId ≠ b.sessionId) :
    ∃ S1 S2 esA esB R pA pB,
      createRoom E S a { room := room, password := password, nickname := nickA } = some S1 ∧
      S1.out = S.out ++ ({ conn := a.conn, msg := Msg.createResponse true "" } : Emit) :: esA ∧
      joinRoom S1 b { room := room, password := password, nickname := nickB } = some S2 ∧
      S2.out = S1.out ++ ({ conn := b.conn, msg := Msg.joinResponse true "" } : Emit) :: esB ∧
      S2.ROOM_LIST.get (trim room) = some R ∧ R.room = trim room ∧
      R.password = trim password ∧ R.players.keys = [a.sessionId, b.sessionId] ∧
      S2.player a.sessionId = some pA ∧ S2.player b.sessionId = some pB ∧
      pA.nickname ≠ pB.nickname ∧
      (∀ e ∈ esA ++ esB, ∃ gs, e.msg = Msg.gameState gs ∧ gs.room = trim room) ∧
      (∀ k ∈ [a.sessionId, b.sessionId], ∀ sock, S.SOCKET_LIST.get k = some sock →
        ∃ gs, gs.room = trim room ∧
          ({ conn := sock.conn, msg := Msg.gameState gs } : Emit) ∈ esB) := by
  obtain ⟨S1, esA, hc', hR1, hpl, hheap, hsock, hout, hesA⟩ := createRoom_success_fields E S a
    { room := room, password := password, nickname := nickA } h1 h2 hA
  simp only at hR1 hheap hout hesA
  have hpA1 : S1.player a.sessionId = some (creatorPlayer a (trim nickA) (trim room)) := by
    simp [State.player, hpl, hheap, Obj.get_set_self]
  have hv1 : roomRefsValid S1
      { freshRoom E (trim room) (trim password) with players := [(a.sessionId, S.heap.length)] } := by
    intro e he
    simp only [List.mem_singleton] at he
    subst he
    simp [hheap]
  have hk1 : membersKnown S1
      { freshRoom E (trim room) (trim password) with players := [(a.sessionId, S.heap.length)] } := by
    intro k hk
    simp only [Obj.keys, List.map_cons, List.map_nil, List.mem_singleton] at hk
    subst hk
    simp [hpA1]
  obtain ⟨taken, k, gs, es, htk, hfree, _, hj, hgs, hem⟩ := joinRoom_success S1 b
    { room := room, password := password, nickname := nickB } _ hR1 rfl hB hv1 hk1
  have htaken : taken = [trim nickA] := by
    have : memberNicknames S1
        { freshRoom E (trim room) (trim password) with players := [(a.sessionId, S.heap.length)] }
        = some [trim nickA] := by
      simp [memberNicknames, derefPlayers, hheap, creatorPlayer, freshPlayer]
    rw [this] at htk
    exact (Option.some.inj htk).symm
  obtain ⟨hc1, hc2, hc3, hc4, _, _, _, _⟩ := cancelDeletion_fields S1 (trim room)
  have hkeys : (Obj.set [(a.sessionId, S.heap.length)] b.sessionId S1.heap.length).keys
      = [a.sessionId, b.sessionId] := by
    simp [Obj.set, Obj.keys, hab]
  have hsomeA : ((cancelDeletion S1 (trim room)).player a.sessionId).isSome = true := by
    have : (cancelDeletion S1 (trim room)).player a.sessionId = S1.player a.sessionId := by
      simp [State.player, hc2, hc3]
    rw [this, hpA1]; rfl
  have hpA2 := player_joinedState_old (cancelDeletion S1 (trim room)) b (trim room)
    { freshRoom E (trim room) (trim password) with players := [(a.sessionId, S.heap.length)] }
    (candidate (trim nickB) k) a.sessionId hab hsomeA
  have hpA3 : (cancelDeletion S1 (trim room)).player a.sessionId
      = some (creatorPlayer a (trim nickA) (trim room)) := by
    simpa [State.player, hc2, hc3] using hpA1
  rw [hpA3] at hpA2
  have hpB2 := player_joinedState_new (cancelDeletion S1 (trim room)) b (trim room)
    { freshRoom E (trim room) (trim password) with players := [(a.sessionId, S.heap.length)] }
    (candidate (trim nickB) k)
  have hroom : ∃ R, (joinedState (cancelDeletion S1 (trim room)) b (trim room)
        { freshRoom E (trim room) (trim password) with players := [(a.sessionId, S.heap.length)] }
        (candidate (trim nickB) k)).ROOM_LIST.get (trim room) = some R ∧ R.room = trim room ∧
      R.password = trim password ∧ R.players.keys = [a.sessionId, b.sessionId] :=
    ⟨_, Obj.get_set_self _ _ _, rfl, rfl, by rw [hc3]; exact hkeys⟩
  obtain ⟨R, hRg, hRr, hRp, hRk⟩ := hroom
  refine ⟨S1, _, esA, es, R, _, _, hc', hout, hj, rfl, hRg, hRr, hRp, hRk, hpA2, hpB2, ?_,
    ?_, ?_⟩
  · intro hne
    apply hfree
    rw [htaken]
    simp only [List.mem_singleton]
    exact hne.symm
  · intro e he
    rcases List.mem_append.1 he with he | he
    · exact hesA e he
    · obtain ⟨_, _, sock, q, _, _, rfl⟩ := gameStateEmits_mem _ gs _ es hem e he
      exact ⟨_, rfl, hgs⟩
  · intro k' hk' sock hs
    have hkm : k' ∈ (Obj.set [(a.sessionId, S.heap.length)] b.sessionId S1.heap.length).keys := by
      rw [hkeys]
      exact hk'
    have hs' : (joinedState (cancelDeletion S1 (trim room)) b (trim room)
        { freshRoom E (trim room) (trim password) with players := [(a.sessionId, S.heap.length)] }
        (candidate (trim nickB) k)).SOCKET_LIST.get k' = some sock := by
      simp only [joinedState, hc4, hsock]
      exact hs
    simp only [List.mem_cons, List.mem_singleton, List.not_mem_nil, or_false] at hk'
    rcases hk' with rfl | rfl
    · refine ⟨_, ?_, gameStateEmits_complete _ gs _ es hem _ hkm sock _ hs' hpA2⟩
      exact hgs
    · refine ⟨_, ?_, gameStateEmits_complete _ gs _ es hem _ hkm sock _ hs' hpB2⟩
      exact hgs

/-! ## The invariant of the registries -/

theorem Inv.inv_congr {S S' : State} (h : Inv S) (e1 : S'.PLAYER_LIST = S.PLAYER_LIST)
    (e2 : S'.heap = S.heap) (e3 : S'.ROOM_LIST = S.ROOM_LIST) (e4 : S'.timers = S.timers)
    (e5 : S'.DELETE_ROOM_LIST = S.DELETE_ROOM_LIST)
    (e6 : S'.DELETE_SESSION_LIST = S.DELETE_SESSION_LIST)
    (e7 : S'.nextTimer = S.nextTimer) : Inv S' := by
  cases S
  cases S'
  simp only at e1 e2 e3 e4 e5 e6 e7
  subst e1 e2 e3 e4 e5 e6 e7
  exact ⟨h.1, h.2, h.3, h.4, h.5, h.6, h.7⟩

theorem MemberInv.mem_congr {S S' : State} (h : MemberInv S) (e1 : S'.PLAYER_LIST = S.PLAYER_LIST)
    (e2 : S'.heap = S.heap) (e3 : S'.ROOM_LIST = S.ROOM_LIST) : MemberInv S' := by
  intro n R k r hR hk
  rw [e3] at hR
  rw [e1, e2]
  exact h n R k r hR hk

theorem Inv.inv_init : Inv State.init := by
  refine ⟨?_, ?_, ?_, ?_, ?_, ?_, ?_⟩ <;> simp [State.init, Obj.get]

theorem MemberInv.mem_init : MemberInv State.init := by
  intro n R k r hR
  simp [State.init, Obj.get] at hR

theorem pendingAction_mem (ts : List (Nat × TimerAction)) (id : Nat) (a : TimerAction)
    (h : pendingAction ts id = some a) : (id, a) ∈ ts := by
  induction ts with
  | nil => simp [pendingAction] at h
  | cons t rest ih =>
    obtain ⟨i, b⟩ := t
    by_cases hi : i = id
    · simp only [pendingAction, hi, if_true, Option.some.injEq] at h
      subst hi h
      exact List.mem_cons_self _ _
    · simp only [pendingAction, hi, if_false] at h
      exact List.mem_cons_of_mem _ (ih h)

theorem timer_unique (ts : List (Nat × TimerAction)) (hn : (ts.map Prod.fst).Nodup)
    (id : Nat) (a b : TimerAction) (ha : (id, a) ∈ ts) (hb : (id, b) ∈ ts) : a = b := by
  induction ts with
  | nil => cases ha
  | cons t rest ih =>
    simp only [List.map_cons, List.nodup_cons] at hn
    rcases List.mem_cons.1 ha with ha | ha <;> rcases List.mem_cons.1 hb with hb | hb
    · rw [← ha] at hb
      exact (Prod.mk.inj hb).2.symm
    · exact absurd (List.mem_map.2 ⟨(id, b), hb, by rw [← ha]⟩) hn.1
    · exact absurd (List.mem_map.2 ⟨(id, a), ha, by rw [← hb]⟩) hn.1
    · exact ih hn.2 ha hb

theorem mem_clearTimeout (S : State) (id : Nat) (t : Nat × TimerAction) :
    t ∈ (clearTimeout S id).timers ↔ t ∈ S.timers ∧ t.1 ≠ id := by
  simp [clearTimeout]

/-- Cancelling a timer that is not a room timer keeps the invariant. -/
theorem Inv.inv_clearTimeout {S : State} (h : Inv S) (id : Nat)
    (hid : ∀ n, (id, TimerAction.room n) ∉ S.timers) : Inv (clearTimeout S id) := by
  refine ⟨h.1, ?_, h.3, ?_, ?_, ?_, ?_⟩
  · intro id' n hm
    exact h.2 id' n ((mem_clearTimeout S id _).1 hm).1
  · intro n id' hm
    have hin := h.4 n id' hm
    refine (mem_clearTimeout S id _).2 ⟨hin, ?_⟩
    intro he
    have he' : id' = id := he
    rw [he'] at hin
    exact hid n hin
  · exact (List.filter_sublist _).map _ |>.nodup h.5
  · intro t ht
    exact h.6 t ((mem_clearTimeout S id _).1 ht).1
  · intro k id' hk
    refine ⟨(h.7 k id' hk).1, fun n hm => ?_⟩
    exact (h.7 k id' hk).2 n ((mem_clearTimeout S id _).1 hm).1

theorem Inv.inv_no_timer_of_no_marker {S : State} (h : Inv S) (n : String)
    (hm : S.DELETE_ROOM_LIST.get n = none) : ∀ id, (id, TimerAction.room n) ∉ S.timers := by
  intro id hin
  obtain ⟨_, _, _, hmk⟩ := h.2 id n hin
  rw [hm] at hmk
  cases hmk

/-- The cancellation of `joinRoom` keeps the invariant and leaves no timer of the room. -/
theorem Inv.inv_cancelDeletion {S : State} (h : Inv S) (n : String) :
    Inv (cancelDeletion S n) ∧ ∀ id, (id, TimerAction.room n) ∉ (cancelDeletion S n).timers := by
  unfold Codenames.cancelDeletion
  cases hm : S.DELETE_ROOM_LIST.get n with
  | none => exact ⟨h, h.inv_no_timer_of_no_marker n hm⟩
  | some id =>
    have hmem : ∀ id' n', (id', TimerAction.room n') ∈ (Codenames.clearTimeout S id).timers →
        (id', TimerAction.room n') ∈ S.timers ∧ id' ≠ id ∧ n' ≠ n := by
      intro id' n' hin
      obtain ⟨hin1, hne⟩ := (mem_clearTimeout S id _).1 hin
      refine ⟨hin1, hne, fun hn => ?_⟩
      obtain ⟨_, _, _, hmk⟩ := h.2 id' n' hin1
      rw [hn, hm] at hmk
      exact hne (Option.some.inj hmk).symm
    refine ⟨⟨h.1, ?_, h.3, ?_, ?_, ?_, ?_⟩, ?_⟩
    · intro id' n' hin
      obtain ⟨hin1, _, hn⟩ := hmem id' n' hin
      obtain ⟨R, hR, he, hmk⟩ := h.2 id' n' hin1
      exact ⟨R, hR, he, by simpa [Codenames.clearTimeout, Obj.get_del_ne _ _ _ hn] using hmk⟩
    · intro n' id' hmk
      have hn : n' ≠ n := by
        intro hn
        simp [Codenames.clearTimeout, hn, Obj.get_del_self] at hmk
      have hmk' : S.DELETE_ROOM_LIST.get n' = some id' := by
        simpa [Codenames.clearTimeout, Obj.get_del_ne _ _ _ hn] using hmk
      have hin := h.4 n' id' hmk'
      refine (mem_clearTimeout S id _).2 ⟨hin, fun he => ?_⟩
      have he' : id' = id := he
      rw [he'] at hin
      have := timer_unique S.timers h.5 id _ _ hin (h.4 n id hm)
      exact hn (TimerAction.room.inj this)
    · exact (List.filter_sublist _).map _ |>.nodup h.5
    · intro t ht
      exact h.6 t ((mem_clearTimeout S id _).1 ht).1
    · intro k id' hk
      refine ⟨(h.7 k id' hk).1, fun n' hin => ?_⟩
      exact (h.7 k id' hk).2 n' ((mem_clearTimeout S id _).1 hin).1
    · intro id' hin
      exact (hmem id' n hin).2.2 rfl

/-- The constructor of `Room` keeps the invariant when the name is free and not inherited. -/
theorem Inv.inv_newRoom {S : State} (h : Inv S) (E : Engine) (n pw : String)
    (hfree : S.ROOM_LIST.get n = none) (hname : n ∉ objectPrototypeKeys) :
    Inv (newRoom E S n pw) ∧ ∀ id, (id, TimerAction.room n) ∉ (newRoom E S n pw).timers := by
  refine ⟨⟨?_, ?_, ?_, h.4, h.5, h.6, h.7⟩, ?_⟩
  · intro k r hk
    obtain ⟨p, R, hp, hid, hR, hm⟩ := h.1 k r hk
    have hne : p.room ≠ n := fun he => by rw [he, hfree] at hR; cases hR
    exact ⟨p, R, hp, hid, by simpa [Codenames.newRoom, State.setRoom, Obj.get_set_ne _ _ _ _ hne] using hR, hm⟩
  · intro id n' hin
    obtain ⟨R, hR, he, hmk⟩ := h.2 id n' hin
    have hne : n' ≠ n := fun he => by rw [he, hfree] at hR; cases hR
    exact ⟨R, by simpa [Codenames.newRoom, State.setRoom, Obj.get_set_ne _ _ _ _ hne] using hR, he, hmk⟩
  · intro n' R hR
    by_cases hne : n' = n
    · rw [hne]; exact hname
    · exact h.3 n' R (by simpa [Codenames.newRoom, State.setRoom, Obj.get_set_ne _ _ _ _ hne] using hR)
  · intro id hin
    obtain ⟨R, hR, _, _⟩ := h.2 id n hin
    rw [hfree] at hR
    cases hR

/-- Adding a player to a room without a pending deletion keeps the invariant. -/
theorem Inv.inv_joinedState {S : State} (h : Inv S) (socket : Socket) (n : String) (R : Room)
    (name : String) (hR : S.ROOM_LIST.get n = some R)
    (hno : ∀ id, (id, TimerAction.room n) ∉ S.timers) :
    Inv (joinedState S socket n R name) := by
  refine ⟨?_, ?_, ?_, h.4, h.5, h.6, h.7⟩
  · intro k r hk
    by_cases hks : k = socket.sessionId
    · subst hks
      have hr : r = S.heap.length := by
        simp only [Codenames.joinedState, Obj.get_set_self, Option.some.injEq] at hk
        exact hk.symm
      subst hr
      refine ⟨{ freshPlayer socket name n with team := parityTeam (R.players.set socket.sessionId S.heap.length).keys.length },
        { R with players := R.players.set socket.sessionId S.heap.length },
        by simp [Codenames.joinedState], rfl, ?_, ?_⟩
      · simp only [Codenames.joinedState, freshPlayer]
        exact Obj.get_set_self _ _ _
      · exact Obj.get_set_self _ _ _
    · have hk' : S.PLAYER_LIST.get k = some r := by
        simpa [Codenames.joinedState, Obj.get_set_ne _ _ _ _ hks] using hk
      obtain ⟨p, R', hp, hid, hR', hm⟩ := h.1 k r hk'
      have hlt : r < S.heap.length := (List.getElem?_eq_some.1 hp).1
      by_cases hroom : p.room = n
      · rw [hroom, hR] at hR'
        have hRR : R = R' := Option.some.inj hR'
        subst hRR
        refine ⟨p, { R with players := R.players.set socket.sessionId S.heap.length },
          ?_, hid, ?_, ?_⟩
        · simp only [Codenames.joinedState]
          rw [List.getElem?_append_left hlt]
          exact hp
        · simp only [Codenames.joinedState, hroom]
          exact Obj.get_set_self _ _ _
        · simp only [Obj.get_set_ne _ _ _ _ hks]
          exact hm
      · refine ⟨p, R', ?_, hid, ?_, hm⟩
        · simp only [Codenames.joinedState]
          rw [List.getElem?_append_left hlt]
          exact hp
        · simp only [Codenames.joinedState, Obj.get_set_ne _ _ _ _ hroom]
          exact hR'
  · intro id n' hin
    obtain ⟨R', hR', he, hmk⟩ := h.2 id n' hin
    have hne : n' ≠ n := fun he' => hno id (he' ▸ hin)
    exact ⟨R', by simpa [Codenames.joinedState, Obj.get_set_ne _ _ _ _ hne] using hR', he, hmk⟩
  · intro n' R' hR'
    by_cases hne : n' = n
    · rw [hne]; exact h.3 n R hR
    · exact h.3 n' R' (by simpa [Codenames.joinedState, Obj.get_set_ne _ _ _ _ hne] using hR')

theorem nodup_fst_append_fresh (ts : List (Nat × TimerAction)) (next : Nat) (a : TimerAction)
    (hn : (ts.map Prod.fst).Nodup) (hlt : ∀ t ∈ ts, t.1 < next) :
    ((ts ++ [(next, a)]).map Prod.fst).Nodup := by
  rw [List.map_append, List.nodup_append]
  refine ⟨hn, by simp, ?_⟩
  intro x hx hx'
  simp only [List.map_cons, List.map_nil, List.mem_singleton] at hx'
  obtain ⟨t, ht, rfl⟩ := List.mem_map.1 hx
  have := hlt t ht
  omega

/-- Scheduling the deletion of an existing empty room keeps the invariant. -/
theorem Inv.inv_deleteRoom {S : State} (h : Inv S) (n : String) (R : Room)
    (hR : S.ROOM_LIST.get n = some R) (he : R.players = []) : Inv (deleteRoom S n) := by
  unfold Codenames.deleteRoom
  cases ht : truthyAt S.DELETE_ROOM_LIST n with
  | true => simpa using h
  | false =>
    obtain ⟨hm, _⟩ := (truthyAt_false_iff _ _).1 ht
    simp only [Bool.false_eq_true, if_false, setTimeout]
    refine ⟨h.1, ?_, h.3, ?_, nodup_fst_append_fresh _ _ _ h.5 h.6, ?_, ?_⟩
    · intro id n' hin
      rcases List.mem_append.1 hin with hin | hin
      · obtain ⟨R', hR', he', hmk⟩ := h.2 id n' hin
        have hne : n' ≠ n := fun hn => by rw [hn, hm] at hmk; cases hmk
        exact ⟨R', hR', he', by rw [Obj.get_set_ne _ _ _ _ hne]; exact hmk⟩
      · simp only [List.mem_singleton, Prod.mk.injEq, TimerAction.room.injEq] at hin
        obtain ⟨rfl, rfl⟩ := hin
        exact ⟨R, hR, he, Obj.get_set_self _ _ _⟩
    · intro n' id hmk
      by_cases hne : n' = n
      · subst hne
        rw [Obj.get_set_self] at hmk
        cases hmk
        exact List.mem_append_right _ (List.mem_singleton_self _)
      · rw [Obj.get_set_ne _ _ _ _ hne] at hmk
        exact List.mem_append_left _ (h.4 n' id hmk)
    · intro t ht'
      rcases List.mem_append.1 ht' with ht' | ht'
      · exact Nat.lt_succ_of_lt (h.6 t ht')
      · simp only [List.mem_singleton] at ht'
        subst ht'
        exact Nat.lt_succ_self _
    · intro k id hk
      obtain ⟨hlt, hno⟩ := h.7 k id hk
      refine ⟨Nat.lt_succ_of_lt hlt, fun n' hin => ?_⟩
      rcases List.mem_append.1 hin with hin | hin
      · exact hno n' hin
      · simp only [List.mem_singleton, Prod.mk.injEq] at hin
        omega

/-- Starting the grace timer of a session keeps the invariant. -/
theorem Inv.inv_sessionTimer {S : State} (h : Inv S) (socket : Socket) :
    Inv { (setTimeout S (TimerAction.session socket)).1 with
          DELETE_SESSION_LIST :=
            (setTimeout S (TimerAction.session socket)).1.DELETE_SESSION_LIST.set
              socket.sessionId (setTimeout S (TimerAction.session socket)).2 } := by
  simp only [setTimeout]
  refine ⟨h.1, ?_, h.3, ?_, nodup_fst_append_fresh _ _ _ h.5 h.6, ?_, ?_⟩
  · intro id n hin
    rcases List.mem_append.1 hin with hin | hin
    · exact h.2 id n hin
    · simp at hin
  · intro n id hmk
    exact List.mem_append_left _ (h.4 n id hmk)
  · intro t ht'
    rcases List.mem_append.1 ht' with ht' | ht'
    · exact Nat.lt_succ_of_lt (h.6 t ht')
    · simp only [List.mem_singleton] at ht'
      subst ht'
      exact Nat.lt_succ_self _
  · intro k id hk
    by_cases hks : k = socket.sessionId
    · subst hks
      rw [Obj.get_set_self] at hk
      cases hk
      refine ⟨Nat.lt_succ_self _, fun n hin => ?_⟩
      rcases List.mem_append.1 hin with hin | hin
      · exact absurd (h.6 _ hin) (Nat.lt_irrefl _)
      · simp at hin
    · rw [Obj.get_set_ne _ _ _ _ hks] at hk
      obtain ⟨hlt, hno⟩ := h.7 k id hk
      refine ⟨Nat.lt_succ_of_lt hlt, fun n hin => ?_⟩
      rcases List.mem_append.1 hin with hin | hin
      · exact hno n hin
      · simp at hin

/-- Forgetting the recorded grace timer of a session keeps the invariant. -/
theorem Inv.inv_forgetSession {S : State} (h : Inv S) (k : String) :
    Inv { S with DELETE_SESSION_LIST := S.DELETE_SESSION_LIST.del k } := by
  refine ⟨h.1, h.2, h.3, h.4, h.5, h.6, ?_⟩
  intro k' id hk
  by_cases hks : k' = k
  · subst hks
    simp [Obj.get_del_self] at hk
  · exact h.7 k' id (by simpa [Obj.get_del_ne _ _ _ hks] using hk)

/-- Removing a player from the player table and from its room keeps the invariant. -/
theorem Inv.inv_departed {S : State} (h : Inv S) (k : String) (r : Nat) (p : Player) (R : Room)
    (hk : S.PLAYER_LIST.get k = some r) (hp : S.heap[r]? = some p)
    (hR : S.ROOM_LIST.get p.room = some R) : Inv (departed S k p.room R) := by
  obtain ⟨p0, R0, hp0, _, hR0, hm0⟩ := h.1 k r hk
  rw [hp] at hp0
  cases hp0
  rw [hR] at hR0
  cases hR0
  refine ⟨?_, ?_, ?_, h.4, h.5, h.6, h.7⟩
  · intro k' r' hk'
    have hne : k' ≠ k := by
      intro he
      simp [Codenames.departed, he, Obj.get_del_self] at hk'
    have hk'' : S.PLAYER_LIST.get k' = some r' := by
      simpa [Codenames.departed, Obj.get_del_ne _ _ _ hne] using hk'
    obtain ⟨p', R', hp', hid', hR', hm'⟩ := h.1 k' r' hk''
    by_cases hroom : p'.room = p.room
    · rw [hroom, hR] at hR'
      cases hR'
      refine ⟨p', { R with players := R.players.del k }, hp', hid', ?_, ?_⟩
      · simp only [Codenames.departed, hroom]
        exact Obj.get_set_self _ _ _
      · simp only [Obj.get_del_ne _ _ _ hne]
        exact hm'
    · exact ⟨p', R', hp', hid',
        by simpa [Codenames.departed, Obj.get_set_ne _ _ _ _ hroom] using hR', hm'⟩
  · intro id n hin
    obtain ⟨R', hR', he, hmk⟩ := h.2 id n hin
    have hne : n ≠ p.room := by
      intro hn
      rw [hn, hR] at hR'
      cases hR'
      rw [he] at hm0
      cases hm0
    exact ⟨R', by simpa [Codenames.departed, Obj.get_set_ne _ _ _ _ hne] using hR', he, hmk⟩
  · intro n R' hR'
    by_cases hne : n = p.room
    · rw [hne]; exact h.3 _ R hR
    · exact h.3 n R' (by simpa [Codenames.departed, Obj.get_set_ne _ _ _ _ hne] using hR')

/-! ## Shape of the result of each event -/

theorem sameCore.core_refl (S : State) : sameCore S S :=
  ⟨rfl, rfl, rfl, rfl, rfl, rfl, rfl⟩

theorem sameCore.core_trans {S T U : State} (h1 : sameCore S T) (h2 : sameCore T U) :
    sameCore S U := by
  obtain ⟨a1, a2, a3, a4, a5, a6, a7⟩ := h1
  obtain ⟨b1, b2, b3, b4, b5, b6, b7⟩ := h2
  exact ⟨b1.trans a1, b2.trans a2, b3.trans a3, b4.trans a4, b5.trans a5, b6.trans a6,
    b7.trans a7⟩

theorem Inv.inv_sameCore {S S' : State} (h : Inv S) (hs : sameCore S S') : Inv S' :=
  h.inv_congr hs.1 hs.2.1 hs.2.2.1 hs.2.2.2.1 hs.2.2.2.2.1 hs.2.2.2.2.2.1 hs.2.2.2.2.2.2

theorem MemberInv.mem_sameCore {S S' : State} (h : MemberInv S) (hs : sameCore S S') :
    MemberInv S' :=
  h.mem_congr hs.1 hs.2.1 hs.2.2.1

theorem emit_sameCore (S : State) (conn : Nat) (m : Msg) : sameCore S (S.emit conn m) :=
  ⟨rfl, rfl, rfl, rfl, rfl, rfl, rfl⟩

theorem gameUpdate_sameCore (S S' : State) (room : String) (h : gameUpdate S room = some S') :
    sameCore S S' := by
  obtain ⟨es, rfl⟩ := gameUpdate_inv S S' room h
  exact sameCore.core_refl _

theorem deleteRoom_sameCore (S T : State) (n : String) (h : sameCore S T) :
    sameCore (deleteRoom S n) (deleteRoom T n) := by
  obtain ⟨a1, a2, a3, a4, a5, a6, a7⟩ := h
  unfold deleteRoom
  rw [a5]
  cases truthyAt S.DELETE_ROOM_LIST n
  · simp only [Bool.false_eq_true, if_false, setTimeout, a4, a7, a5]
    exact ⟨a1, a2, a3, rfl, rfl, a6, rfl⟩
  · simp only [if_true]
    exact ⟨a1, a2, a3, a4, a5, a6, a7⟩

/-- The result of `createRoom`: a refusal, or the new room with its creator. -/
theorem createRoom_shape (E : Engine) (S S' : State) (socket : Socket) (data : RoomData)
    (h : createRoom E S socket data = some S') :
    sameCore S S' ∨
      (truthyAt S.ROOM_LIST (trim data.room) = false ∧
        sameCore
          (joinedState (newRoom E S (trim data.room) (trim data.password)) socket
            (trim data.room) (freshRoom E (trim data.room) (trim data.password))
            (trim data.nickname)) S') := by
  cases h1 : truthyAt S.ROOM_LIST (trim data.room) with
  | true =>
    rw [(createRoom_validation E S socket data).1 h1] at h
    cases h
    exact Or.inl (sameCore.core_refl _)
  | false =>
    by_cases h2 : trim data.room = ""
    · rw [(createRoom_validation E S socket data).2.1 h1 h2] at h
      cases h
      exact Or.inl (sameCore.core_refl _)
    · by_cases h3 : trim data.nickname = ""
      · rw [(createRoom_validation E S socket data).2.2 h1 h2 h3] at h
        cases h
        exact Or.inl (sameCore.core_refl _)
      · rw [createRoom_success_eq E S socket data h1 h2 h3] at h
        exact Or.inr ⟨rfl, (emit_sameCore _ _ _).core_trans (gameUpdate_sameCore _ _ _ h)⟩

/-- The result of `joinRoom`: a refusal, or the room with its new member. -/
theorem joinRoom_shape (S S' : State) (socket : Socket) (data : RoomData)
    (h : joinRoom S socket data = some S') :
    sameCore S S' ∨
      ∃ R name, S.ROOM_LIST.get (trim data.room) = some R ∧
        sameCore
          (joinedState (cancelDeletion S (trim data.room)) socket (trim data.room) R name)
          S' := by
  cases h1 : truthyAt S.ROOM_LIST (trim data.room) with
  | false =>
    rw [(joinRoom_validation S socket data).1 h1] at h
    cases h
    exact Or.inl (sameCore.core_refl _)
  | true =>
    cases hR : S.ROOM_LIST.get (trim data.room) with
    | none =>
      have hk : trim data.room ∈ objectPrototypeKeys := by
        simpa [truthyAt, hR] using h1
      rw [(joinRoom_validation S socket data).2.2.2 hR hk] at h
      cases h
      exact Or.inl (sameCore.core_refl _)
    | some R =>
      by_cases hp : R.password = trim data.password
      · by_cases hn : trim data.nickname = ""
        · rw [(joinRoom_validation S socket data).2.2.1 R hR hp hn] at h
          cases h
          exact Or.inl (sameCore.core_refl _)
        · rw [joinRoom_success_eq S socket data R hR hp hn] at h
          have hR0 : (cancelDeletion S (trim data.room)).ROOM_LIST.get (trim data.room)
              = some R := by
            rw [(cancelDeletion_fields S (trim data.room)).1]; exact hR
          rw [enterRoom_eq _ _ _ _ R hR0] at h
          cases ht : memberNicknames (cancelDeletion S (trim data.room)) R with
          | none => simp [ht] at h
          | some taken =>
            cases hs : nameSearch taken (trim data.nickname) (taken.length + 1)
                (trim data.nickname) 0 with
            | none => simp [ht, hs] at h
            | some name =>
              simp only [ht, hs, Option.map_some'] at h
              exact Or.inr ⟨R, name, rfl,
                (emit_sameCore _ _ _).core_trans (gameUpdate_sameCore _ _ _ h)⟩
      · rw [(joinRoom_validation S socket data).2.1 R hR hp] at h
        cases h
        exact Or.inl (sameCore.core_refl _)

/-- The result of the removal shared by `leaveRoom` and `socketDisconnect`: the player
leaves the table and the room, and the deletion of the room is scheduled when the room is
left empty. -/
theorem departure_shape (S0 S2 S3 S4 : State) (k room key : String) (R : Room)
    (hR : S0.ROOM_LIST.get room = some R)
    (h2 : removeMember S2 room key = some S3)
    (hS2 : S2.ROOM_LIST = S0.ROOM_LIST ∧ S2.PLAYER_LIST = S0.PLAYER_LIST.del k ∧
      S2.heap = S0.heap ∧ S2.timers = S0.timers ∧ S2.DELETE_ROOM_LIST = S0.DELETE_ROOM_LIST ∧
      S2.DELETE_SESSION_LIST = S0.DELETE_SESSION_LIST ∧ S2.nextTimer = S0.nextTimer)
    (hk : key = k)
    (h3 : ∃ S3', gameUpdate S3 room = some S3' ∧ deleteRoomIfEmpty S3' room = some S4) :
    sameCore (departed S0 k room R) S4 ∨
      ((R.players.del k) = [] ∧ sameCore (deleteRoom (departed S0 k room R) room) S4) := by
  subst hk
  obtain ⟨e1, e2, e3, e4, e5, e6, e7⟩ := hS2
  have hR2 : S2.ROOM_LIST.get room = some R := by rw [e1]; exact hR
  simp only [removeMember, hR2, Option.some.injEq] at h2
  subst h2
  have hdep : sameCore (departed S0 key room R)
      (S2.setRoom room { R with players := R.players.del key }) :=
    ⟨by simp [departed, State.setRoom, e2], by simp [departed, State.setRoom, e3],
      by simp [departed, State.setRoom, e1], by simp [departed, State.setRoom, e4],
      by simp [departed, State.setRoom, e5], by simp [departed, State.setRoom, e6],
      by simp [departed, State.setRoom, e7]⟩
  obtain ⟨S3', hg, hd⟩ := h3
  have hgc := gameUpdate_sameCore _ _ _ hg
  have hR3 : S3'.ROOM_LIST.get room = some { R with players := R.players.del key } := by
    rw [hgc.2.2.1]
    simp only [State.setRoom]
    exact Obj.get_set_self _ _ _
  simp only [deleteRoomIfEmpty, hR3] at hd
  by_cases hem : (R.players.del key).keys.length = 0
  · simp only [hem, if_true, Option.some.injEq] at hd
    subst hd
    refine Or.inr ⟨?_, deleteRoom_sameCore _ _ room (hdep.core_trans hgc)⟩
    have := List.length_eq_zero.1 hem
    simpa [Obj.keys] using this
  · simp only [hem, if_false, Option.some.injEq] at hd
    subst hd
    exact Or.inl (hdep.core_trans hgc)

/-- The result of `leaveRoom`: nothing for a session without a `Player`, else the departure
of the player. -/
theorem leaveRoom_shape (S S' : State) (socket : Socket) (h : leaveRoom S socket = some S') :
    S' = S ∨ ∃ r p R, S.PLAYER_LIST.get socket.sessionId = some r ∧ S.heap[r]? = some p ∧
      S.ROOM_LIST.get p.room = some R ∧
      (sameCore (departed S p.id p.room R) S' ∨
        ((R.players.del p.id) = [] ∧
          sameCore (deleteRoom (departed S p.id p.room R) p.room) S')) := by
  unfold leaveRoom at h
  cases hk : S.PLAYER_LIST.get socket.sessionId with
  | none =>
    by_cases hi : socket.sessionId ∈ objectPrototypeKeys
    · simp [truthyAt, hk, hi] at h
    · simp only [truthyAt, hk, Option.isSome_none, Bool.false_or, decide_eq_false hi, Bool.not_false,
        if_true, Option.some.injEq] at h
      exact Or.inl h.symm
  | some r =>
    have hg : truthyAt S.PLAYER_LIST socket.sessionId = true := by simp [truthyAt, hk]
    simp only [hg, Bool.not_true, Bool.false_eq_true, if_false] at h
    cases hp : S.heap[r]? with
    | none => simp [hk, hp] at h
    | some p =>
      cases hR : S.ROOM_LIST.get p.room with
      | none => simp [hk, hp, removeMember, hR] at h
      | some R =>
        simp only [hk, hp] at h
        cases h2 : removeMember { S with PLAYER_LIST := S.PLAYER_LIST.del p.id } p.room p.id with
        | none => simp [h2] at h
        | some S3 =>
          cases h3 : gameUpdate S3 p.room with
          | none => simp [h2, h3] at h
          | some S3' =>
            cases h4 : deleteRoomIfEmpty S3' p.room with
            | none => simp [h2, h3, h4] at h
            | some S4 =>
              simp only [h2, h3, h4, Option.some.injEq] at h
              subst h
              refine Or.inr ⟨r, p, R, rfl, hp, hR, ?_⟩
              rcases departure_shape S { S with PLAYER_LIST := S.PLAYER_LIST.del p.id } S3 S4
                p.id p.room p.id R hR h2 ⟨rfl, rfl, rfl, rfl, rfl, rfl, rfl⟩ rfl
                ⟨S3', h3, h4⟩ with hd | ⟨he, hd⟩
              · exact Or.inl (hd.core_trans (emit_sameCore _ _ _))
              · exact Or.inr ⟨he, hd.core_trans (emit_sameCore _ _ _)⟩

/-- The result of `socketDisconnect`: only the connection is forgotten for a session without
a `Player`, else the player departs as well. -/
theorem socketDisconnect_shape (S S' : State) (socket : Socket)
    (h : socketDisconnect S socket = some S') :
    (S.PLAYER_LIST.get socket.sessionId = none ∧ sameCore S S') ∨
      ∃ r p R, S.PLAYER_LIST.get socket.sessionId = some r ∧ S.heap[r]? = some p ∧
        S.ROOM_LIST.get p.room = some R ∧
        (sameCore (departed S socket.sessionId p.room R) S' ∨
          ((R.players.del socket.sessionId) = [] ∧
            sameCore (deleteRoom (departed S socket.sessionId p.room R) p.room) S')) := by
  unfold socketDisconnect at h
  cases hk : S.PLAYER_LIST.get socket.sessionId with
  | none =>
    simp only [hk, Option.some.injEq] at h
    subst h
    exact Or.inl ⟨rfl, Obj.del_of_get_none _ _ hk, rfl, rfl, rfl, rfl, rfl, rfl⟩
  | some r =>
    cases hp : S.heap[r]? with
    | none => simp [hk, hp] at h
    | some p =>
      cases hR : S.ROOM_LIST.get p.room with
      | none => simp [hk, hp, removeMember, hR] at h
      | some R =>
        simp only [hk, hp] at h
        cases h2 : removeMember
            { S with SOCKET_LIST := S.SOCKET_LIST.del socket.sessionId,
                     PLAYER_LIST := S.PLAYER_LIST.del socket.sessionId }
            p.room socket.sessionId with
        | none => simp [h2] at h
        | some S3 =>
          cases h3 : gameUpdate S3 p.room with
          | none => simp [h2, h3] at h
          | some S3' =>
            simp only [h2, h3] at h
            exact Or.inr ⟨r, p, R, rfl, hp, hR,
              departure_shape S _ S3 S' socket.sessionId p.room socket.sessionId R hR h2
                ⟨rfl, rfl, rfl, rfl, rfl, rfl, rfl⟩ rfl ⟨S3', h3, h⟩⟩

/-- The departure of a player keeps the invariant, also when it schedules the deletion of
the room it leaves empty. -/
theorem Inv.inv_departure {S S' : State} (h : Inv S) (k : String) (r : Nat) (p : Player)
    (R : Room) (hk : S.PLAYER_LIST.get k = some r) (hp : S.heap[r]? = some p)
    (hR : S.ROOM_LIST.get p.room = some R)
    (hs : Codenames.sameCore (Codenames.departed S k p.room R) S' ∨
      ((R.players.del k) = [] ∧
        Codenames.sameCore (Codenames.deleteRoom (Codenames.departed S k p.room R) p.room)
          S')) :
    Inv S' := by
  have hd := h.inv_departed k r p R hk hp hR
  rcases hs with hs | ⟨he, hs⟩
  · exact hd.inv_sameCore hs
  · refine (hd.inv_deleteRoom p.room { R with players := R.players.del k } ?_ he).inv_sameCore hs
    simp only [Codenames.departed]
    exact Obj.get_set_self _ _ _

theorem Inv.inv_leaveRoom {S S' : State} (h : Inv S) (socket : Socket)
    (hl : Codenames.leaveRoom S socket = some S') : Inv S' := by
  rcases leaveRoom_shape S S' socket hl with rfl | ⟨r, p, R, hk, hp, hR, hs⟩
  · exact h
  · obtain ⟨p0, _, hp0, hid, _, _⟩ := h.1 _ r hk
    rw [hp] at hp0
    cases hp0
    rw [hid] at hs
    exact h.inv_departure socket.sessionId r p R hk hp hR hs

theorem Inv.inv_socketDisconnect {S S' : State} (h : Inv S) (socket : Socket)
    (hl : Codenames.socketDisconnect S socket = some S') : Inv S' := by
  rcases socketDisconnect_shape S S' socket hl with ⟨_, hs⟩ | ⟨r, p, R, hk, hp, hR, hs⟩
  · exact h.inv_sameCore hs
  · exact h.inv_departure socket.sessionId r p R hk hp hR hs

theorem Inv.inv_createRoom {S S' : State} (h : Inv S) (E : Engine) (socket : Socket)
    (data : RoomData) (hc : Codenames.createRoom E S socket data = some S') : Inv S' := by
  rcases createRoom_shape E S S' socket data hc with hs | ⟨ht, hs⟩
  · exact h.inv_sameCore hs
  · obtain ⟨hfree, hname⟩ := (truthyAt_false_iff _ _).1 ht
    obtain ⟨hn, hno⟩ := h.inv_newRoom E (trim data.room) (trim data.password) hfree hname
    exact (hn.inv_joinedState socket _ _ _ (Obj.get_set_self _ _ _) hno).inv_sameCore hs

theorem Inv.inv_joinRoom {S S' : State} (h : Inv S) (socket : Socket) (data : RoomData)
    (hj : Codenames.joinRoom S socket data = some S') : Inv S' := by
  rcases joinRoom_shape S S' socket data hj with hs | ⟨R, name, hR, hs⟩
  · exact h.inv_sameCore hs
  · obtain ⟨hc, hno⟩ := h.inv_cancelDeletion (trim data.room)
    refine (hc.inv_joinedState socket _ R name ?_ hno).inv_sameCore hs
    rw [(cancelDeletion_fields S (trim data.room)).1]
    exact hR

/-- The result of the `disconnect` handler: nothing but the connections change, or the
grace timer of the session is started. -/
theorem onDisconnect_shape (S S' : State) (socket : Socket)
    (h : onDisconnect S socket = some S') :
    sameCore S S' ∨ sameCore (graceStarted S socket) S' := by
  unfold onDisconnect at h
  cases hk : hasProperty S.PLAYER_LIST socket.sessionId with
  | false =>
    simp only [hk, Bool.not_false, if_true] at h
    rcases socketDisconnect_shape _ S' socket h with ⟨_, hs⟩ | ⟨r, _, _, hk', _⟩
    · exact Or.inl (sameCore.core_trans ⟨rfl, rfl, rfl, rfl, rfl, rfl, rfl⟩ hs)
    · simp only [((hasProperty_false_iff _ _).1 hk).1] at hk'
      cases hk'
  | true =>
    simp only [hk, Bool.not_true, Bool.false_eq_true, if_false] at h
    cases ht : truthyAt S.DELETE_SESSION_LIST socket.sessionId with
    | true =>
      simp only [ht, Bool.not_true, Bool.false_eq_true, if_false, Option.some.injEq] at h
      subst h
      exact Or.inl ⟨rfl, rfl, rfl, rfl, rfl, rfl, rfl⟩
    | false =>
      simp only [ht, Bool.not_false, if_true, Option.some.injEq] at h
      subst h
      exact Or.inr ⟨rfl, rfl, rfl, rfl, rfl, rfl, rfl⟩

theorem Inv.inv_onDisconnect {S S' : State} (h : Inv S) (socket : Socket)
    (hd : Codenames.onDisconnect S socket = some S') : Inv S' := by
  rcases onDisconnect_shape S S' socket hd with hs | hs
  · exact h.inv_sameCore hs
  · exact (h.inv_sessionTimer socket).inv_sameCore hs

/-- The result of the connection handler: nothing but the connections change, or the
recorded grace timer of the session is cancelled as well. -/
theorem connection_shape (S S' : State) (query : Option String) (fresh : String)
    (socket : Socket) (h : connection S query fresh = some (S', socket)) :
    sameCore S S' ∨
      ∃ k id, S.DELETE_SESSION_LIST.get k = some id ∧ sameCore (graceCancelled S k id) S' := by
  unfold connection at h
  simp only at h
  split at h
  · cases h
  · split at h
    · simp only [Option.some.injEq, Prod.mk.injEq] at h
      obtain ⟨h, _⟩ := h
      subst h
      exact Or.inl ⟨rfl, rfl, rfl, rfl, rfl, rfl, rfl⟩
    · cases hm : S.DELETE_SESSION_LIST.get (query.getD "undefined") with
      | none =>
        simp only [hm] at h
        split at h
        · cases h
        · split at h
          · cases h
          · simp only [Option.some.injEq, Prod.mk.injEq] at h
            obtain ⟨h, _⟩ := h
            subst h
            exact Or.inl ⟨rfl, rfl, rfl, rfl, rfl, rfl, rfl⟩
      | some id =>
        simp only [hm] at h
        split at h
        · cases h
        · split at h
          · cases h
          · simp only [Option.some.injEq, Prod.mk.injEq] at h
            obtain ⟨h, _⟩ := h
            subst h
            exact Or.inr ⟨_, id, hm, rfl, rfl, rfl, rfl, rfl, rfl, rfl⟩

theorem Inv.inv_connection {S S' : State} (h : Inv S) (query : Option String) (fresh : String)
    (socket : Socket) (hc : Codenames.connection S query fresh = some (S', socket)) : Inv S' := by
  rcases connection_shape S S' query fresh socket hc with hs | ⟨k, id, hm, hs⟩
  · exact h.inv_sameCore hs
  · exact ((h.inv_clearTimeout id (h.7 k id hm).2).inv_forgetSession k).inv_sameCore hs

/-- The result of a timer expiry: a room is purged, or a session is disconnected and its
recorded grace timer forgotten. -/
theorem fireTimer_shape (S S' : State) (id : Nat) (h : fireTimer S id = some S') :
    (∃ n, (id, TimerAction.room n) ∈ S.timers ∧ S' = roomPurged S id n) ∨
      ∃ socket S1, (id, TimerAction.session socket) ∈ S.timers ∧
        socketDisconnect (clearTimeout S id) socket = some S1 ∧
        S' = { S1 with DELETE_SESSION_LIST := S1.DELETE_SESSION_LIST.del socket.sessionId } := by
  unfold fireTimer at h
  cases ha : pendingAction S.timers id with
  | none => simp [ha] at h
  | some a =>
    have hmem := pendingAction_mem S.timers id a ha
    cases a with
    | room n =>
      simp only [ha, runTimer, Option.some.injEq] at h
      exact Or.inl ⟨n, hmem, h.symm⟩
    | session socket =>
      simp only [ha, runTimer] at h
      cases hd : socketDisconnect (clearTimeout S id) socket with
      | none => simp [hd] at h
      | some S1 =>
        simp only [hd, Option.some.injEq] at h
        exact Or.inr ⟨socket, S1, hmem, hd, h.symm⟩

/-- The expiry of the deletion timer of a room keeps the invariant. -/
theorem Inv.inv_roomPurged {S : State} (h : Inv S) (id : Nat) (n : String)
    (hin : (id, TimerAction.room n) ∈ S.timers) : Inv (roomPurged S id n) := by
  obtain ⟨R, hR, he, hmk⟩ := h.2 id n hin
  have hmem : ∀ id' n', (id', TimerAction.room n') ∈ (Codenames.clearTimeout S id).timers →
      (id', TimerAction.room n') ∈ S.timers ∧ n' ≠ n := by
    intro id' n' hin'
    obtain ⟨hin1, hne⟩ := (mem_clearTimeout S id _).1 hin'
    refine ⟨hin1, fun hn => ?_⟩
    obtain ⟨_, _, _, hmk'⟩ := h.2 id' n' hin1
    rw [hn, hmk] at hmk'
    exact hne (Option.some.inj hmk').symm
  refine ⟨?_, ?_, ?_, ?_, ?_, ?_, ?_⟩
  · intro k r hk
    obtain ⟨p, R', hp, hid, hR', hm⟩ := h.1 k r hk
    have hne : p.room ≠ n := by
      intro hn
      rw [hn, hR] at hR'
      cases hR'
      rw [he] at hm
      cases hm
    exact ⟨p, R', hp, hid,
      by simpa [Codenames.roomPurged, Codenames.clearTimeout, Obj.get_del_ne _ _ _ hne] using hR', hm⟩
  · intro id' n' hin'
    obtain ⟨hin1, hne⟩ := hmem id' n' hin'
    obtain ⟨R', hR', he', hmk'⟩ := h.2 id' n' hin1
    exact ⟨R',
      by simpa [Codenames.roomPurged, Codenames.clearTimeout, Obj.get_del_ne _ _ _ hne] using hR', he',
      by simpa [Codenames.roomPurged, Codenames.clearTimeout, Obj.get_del_ne _ _ _ hne] using hmk'⟩
  · intro n' R' hR'
    by_cases hne : n' = n
    · subst hne
      simp [Codenames.roomPurged, Codenames.clearTimeout, Obj.get_del_self] at hR'
    · exact h.3 n' R'
        (by simpa [Codenames.roomPurged, Codenames.clearTimeout, Obj.get_del_ne _ _ _ hne] using hR')
  · intro n' id' hmk'
    have hne : n' ≠ n := by
      intro hn
      subst hn
      simp [Codenames.roomPurged, Codenames.clearTimeout, Obj.get_del_self] at hmk'
    have hmk'' : S.DELETE_ROOM_LIST.get n' = some id' := by
      simpa [Codenames.roomPurged, Codenames.clearTimeout, Obj.get_del_ne _ _ _ hne] using hmk'
    have hin' := h.4 n' id' hmk''
    refine (mem_clearTimeout S id _).2 ⟨hin', fun heq => ?_⟩
    have heq' : id' = id := heq
    rw [heq'] at hin'
    exact hne (TimerAction.room.inj (timer_unique S.timers h.5 id _ _ hin' hin))
  · exact (List.filter_sublist _).map _ |>.nodup h.5
  · intro t ht
    exact h.6 t ((mem_clearTimeout S id _).1 ht).1
  · intro k id' hk
    refine ⟨(h.7 k id' hk).1, fun n' hin' => ?_⟩
    exact (h.7 k id' hk).2 n' ((mem_clearTimeout S id _).1 hin').1

theorem Inv.inv_fireTimer {S S' : State} (h : Inv S) (id : Nat)
    (hf : Codenames.fireTimer S id = some S') : Inv S' := by
  rcases fireTimer_shape S S' id hf with ⟨n, hin, rfl⟩ | ⟨socket, S1, hin, hd, rfl⟩
  · exact h.inv_roomPurged id n hin
  · have hno : ∀ n, (id, TimerAction.room n) ∉ S.timers := by
      intro n hn
      have := timer_unique S.timers h.5 id _ _ hin hn
      cases this
    exact ((h.inv_clearTimeout id hno).inv_socketDisconnect socket hd).inv_forgetSession _

theorem Obj.get_map {α β : Type} (o : Obj α) (f : α → β) (k : String) :
    Obj.get (o.map (fun e => (e.1, f e.2))) k = (o.get k).map f := by
  induction o with
  | nil => rfl
  | cons e t ih =>
    obtain ⟨k', v⟩ := e
    by_cases hk : k' = k
    · simp [Obj.get, hk]
    · simp only [List.map_cons, Obj.get, hk, if_false]
      exact ih

theorem sameMembership_room (S S' : State) (h : sameMembership S S') (n : String) (R : Room)
    (hR : S.ROOM_LIST.get n = some R) :
    ∃ R', S'.ROOM_LIST.get n = some R' ∧ R'.players = R.players := by
  have hm := congrArg (fun o => Obj.get o n) h.1
  simp only [Obj.get_map _ (fun R : Room => (R.room, R.password, R.players)), hR,
    Option.map_some'] at hm
  cases hR' : S'.ROOM_LIST.get n with
  | none => simp [hR'] at hm
  | some R' =>
    simp only [hR', Option.map_some', Option.some.injEq, Prod.mk.injEq] at hm
    exact ⟨R', rfl, hm.2.2⟩

theorem sameMembership_room' (S S' : State) (h : sameMembership S S') (n : String) (R' : Room)
    (hR' : S'.ROOM_LIST.get n = some R') :
    ∃ R, S.ROOM_LIST.get n = some R ∧ R'.players = R.players := by
  have hm := congrArg (fun o => Obj.get o n) h.1
  simp only [Obj.get_map _ (fun R : Room => (R.room, R.password, R.players)), hR',
    Option.map_some'] at hm
  cases hR : S.ROOM_LIST.get n with
  | none => simp [hR] at hm
  | some R =>
    simp only [hR, Option.map_some', Option.some.injEq, Prod.mk.injEq] at hm
    exact ⟨R, rfl, hm.2.2⟩

theorem sameMembership_heap (S S' : State) (h : sameMembership S S') (r : Nat) (p : Player)
    (hp : S.heap[r]? = some p) :
    ∃ p', S'.heap[r]? = some p' ∧ p'.id = p.id ∧ p'.room = p.room := by
  have hm := congrArg (fun l => l[r]?) h.2.2.1
  simp only [List.getElem?_map, hp, Option.map_some'] at hm
  cases hp' : S'.heap[r]? with
  | none => simp [hp'] at hm
  | some p' =>
    simp only [hp', Option.map_some', Option.some.injEq, Prod.mk.injEq] at hm
    exact ⟨p', rfl, hm.1, hm.2⟩

/-- A handler that rewrites no membership keeps the invariant. -/
theorem Inv.inv_other {S S' : State} (h : Inv S) (hs : sameMembership S S') : Inv S' := by
  obtain ⟨_, e2, _, _, e5, e6, e7, e8, _, _⟩ := id hs
  refine ⟨?_, ?_, ?_, ?_, ?_, ?_, ?_⟩
  · intro k r hk
    rw [e2] at hk
    obtain ⟨p, R, hp, hid, hR, hm⟩ := h.1 k r hk
    obtain ⟨p', hp', hid', hroom'⟩ := sameMembership_heap S S' hs r p hp
    obtain ⟨R', hR', hpl⟩ := sameMembership_room S S' hs p.room R hR
    exact ⟨p', R', hp', hid'.trans hid, by rw [hroom']; exact hR', by rw [hpl]; exact hm⟩
  · intro id n hin
    rw [e7] at hin
    obtain ⟨R, hR, he, hmk⟩ := h.2 id n hin
    obtain ⟨R', hR', hpl⟩ := sameMembership_room S S' hs n R hR
    exact ⟨R', hR', by rw [hpl]; exact he, by rw [e6]; exact hmk⟩
  · intro n R' hR'
    obtain ⟨R, hR, _⟩ := sameMembership_room' S S' hs n R' hR'
    exact h.3 n R hR
  · intro n id hmk
    rw [e6] at hmk
    rw [e7]
    exact h.4 n id hmk
  · rw [e7]; exact h.5
  · rw [e7, e8]; exact h.6
  · intro k id hk
    rw [e5] at hk
    rw [e7, e8]
    exact h.7 k id hk

/-- Every event keeps the invariant. -/
theorem Inv.inv_step {E : Engine} {guard : State → Socket → Prop} {S S' : State} (h : Inv S)
    (hs : Step E guard S S') : Inv S' := by
  cases hs with
  | connect query fresh socket _ hc => exact h.inv_connection query fresh socket hc
  | disconnect socket _ hd => exact h.inv_onDisconnect socket hd
  | createRoom socket data _ _ hc => exact h.inv_createRoom E socket data hc
  | joinRoom socket data _ _ hj => exact h.inv_joinRoom socket data hj
  | leaveRoom socket _ hl => exact h.inv_leaveRoom socket hl
  | timeout id hf => exact h.inv_fireTimer id hf
  | other ho => exact h.inv_other ho

/-- The invariant holds in every reachable state. -/
theorem Reachable.reach_inv {E : Engine} {guard : State → Socket → Prop} {S : State}
    (h : Reachable E guard S) : Inv S := by
  induction h with
  | init => exact Inv.inv_init
  | step _ hs ih => exact ih.inv_step hs

/-! ## Members and the player table, when only lobby sessions create and join -/

theorem deleteRoom_fields (S : State) (n : String) :
    (deleteRoom S n).ROOM_LIST = S.ROOM_LIST ∧ (deleteRoom S n).PLAYER_LIST = S.PLAYER_LIST ∧
      (deleteRoom S n).heap = S.heap := by
  unfold deleteRoom
  cases truthyAt S.DELETE_ROOM_LIST n <;> simp [setTimeout]

theorem MemberInv.mem_newRoom {S : State} (h : MemberInv S) (E : Engine) (n pw : String) :
    MemberInv (newRoom E S n pw) := by
  intro n' R' k r hR' hk
  by_cases hne : n' = n
  · subst hne
    simp only [Codenames.newRoom, State.setRoom, Obj.get_set_self, Option.some.injEq] at hR'
    subst hR'
    simp [Obj.get] at hk
  · exact h n' R' k r
      (by simpa [Codenames.newRoom, State.setRoom, Obj.get_set_ne _ _ _ _ hne] using hR') hk

theorem MemberInv.mem_joinedState {S : State} (h : MemberInv S) (socket : Socket) (n : String)
    (R : Room) (name : String) (hR : S.ROOM_LIST.get n = some R)
    (hlobby : S.PLAYER_LIST.get socket.sessionId = none) :
    MemberInv (joinedState S socket n R name) := by
  intro n' R' k r hR' hk
  by_cases hks : k = socket.sessionId
  · subst hks
    by_cases hne : n' = n
    · subst hne
      simp only [Codenames.joinedState, Obj.get_set_self, Option.some.injEq] at hR'
      subst hR'
      simp only [Obj.get_set_self, Option.some.injEq] at hk
      subst hk
      exact ⟨Obj.get_set_self _ _ _,
        { freshPlayer socket name n' with team := parityTeam (R.players.set socket.sessionId S.heap.length).keys.length },
        by simp [Codenames.joinedState], rfl⟩
    · have hR'' : S.ROOM_LIST.get n' = some R' := by
        simpa [Codenames.joinedState, Obj.get_set_ne _ _ _ _ hne] using hR'
      have := (h n' R' _ r hR'' hk).1
      rw [hlobby] at this
      cases this
  · have hold : ∃ R0, S.ROOM_LIST.get n' = some R0 ∧ R0.players.get k = some r := by
      by_cases hne : n' = n
      · subst hne
        simp only [Codenames.joinedState, Obj.get_set_self, Option.some.injEq] at hR'
        subst hR'
        exact ⟨R, hR, by simpa [Obj.get_set_ne _ _ _ _ hks] using hk⟩
      · exact ⟨R', by simpa [Codenames.joinedState, Obj.get_set_ne _ _ _ _ hne] using hR', hk⟩
    obtain ⟨R0, hR0, hk0⟩ := hold
    obtain ⟨hpl, p, hp, hroom⟩ := h n' R0 k r hR0 hk0
    have hlt : r < S.heap.length := (List.getElem?_eq_some.1 hp).1
    refine ⟨by simpa [Codenames.joinedState, Obj.get_set_ne _ _ _ _ hks] using hpl, p, ?_, hroom⟩
    simp only [Codenames.joinedState]
    rw [List.getElem?_append_left hlt]
    exact hp

theorem MemberInv.mem_departed {S : State} (h : MemberInv S) (k : String) (r : Nat) (p : Player)
    (R : Room) (hk : S.PLAYER_LIST.get k = some r) (hp : S.heap[r]? = some p)
    (hR : S.ROOM_LIST.get p.room = some R) : MemberInv (departed S k p.room R) := by
  intro n' R' k' r' hR' hk'
  have hold : ∃ R0, S.ROOM_LIST.get n' = some R0 ∧ R0.players.get k' = some r' ∧ k' ≠ k := by
    by_cases hne : n' = p.room
    · subst hne
      simp only [Codenames.departed, Obj.get_set_self, Option.some.injEq] at hR'
      subst hR'
      have hkk : k' ≠ k := by
        intro he
        subst he
        simp [Obj.get_del_self] at hk'
      exact ⟨R, hR, by simpa [Obj.get_del_ne _ _ _ hkk] using hk', hkk⟩
    · have hR'' : S.ROOM_LIST.get n' = some R' := by
        simpa [Codenames.departed, Obj.get_set_ne _ _ _ _ hne] using hR'
      refine ⟨R', hR'', hk', fun he => ?_⟩
      subst he
      obtain ⟨hpl, p', hp', hroom'⟩ := h n' R' k' r' hR'' hk'
      rw [hk] at hpl
      cases hpl
      rw [hp] at hp'
      cases hp'
      exact hne hroom'.symm
  obtain ⟨R0, hR0, hk0, hkk⟩ := hold
  obtain ⟨hpl, p', hp', hroom'⟩ := h n' R0 k' r' hR0 hk0
  exact ⟨by simpa [Codenames.departed, Obj.get_del_ne _ _ _ hkk] using hpl, p', hp', hroom'⟩

theorem MemberInv.mem_departure {S S' : State} (h : MemberInv S) (k : String) (r : Nat)
    (p : Player) (R : Room) (hk : S.PLAYER_LIST.get k = some r) (hp : S.heap[r]? = some p)
    (hR : S.ROOM_LIST.get p.room = some R)
    (hs : Codenames.sameCore (Codenames.departed S k p.room R) S' ∨
      ((R.players.del k) = [] ∧
        Codenames.sameCore (Codenames.deleteRoom (Codenames.departed S k p.room R) p.room)
          S')) :
    MemberInv S' := by
  have hd := h.mem_departed k r p R hk hp hR
  rcases hs with hs | ⟨_, hs⟩
  · exact hd.mem_sameCore hs
  · obtain ⟨e1, e2, e3⟩ := deleteRoom_fields (Codenames.departed S k p.room R) p.room
    exact (hd.mem_congr e2 e3 e1).mem_sameCore hs

theorem MemberInv.mem_socketDisconnect {S S' : State} (h : MemberInv S) (socket : Socket)
    (hl : Codenames.socketDisconnect S socket = some S') : MemberInv S' := by
  rcases socketDisconnect_shape S S' socket hl with ⟨_, hs⟩ | ⟨r, p, R, hk, hp, hR, hs⟩
  · exact h.mem_sameCore hs
  · exact h.mem_departure socket.sessionId r p R hk hp hR hs

theorem MemberInv.mem_roomPurged {S : State} (h : MemberInv S) (id : Nat) (n : String) :
    MemberInv (roomPurged S id n) := by
  intro n' R' k r hR' hk
  by_cases hne : n' = n
  · subst hne
    simp [Codenames.roomPurged, Codenames.clearTimeout, Obj.get_del_self] at hR'
  · exact h n' R' k r
      (by simpa [Codenames.roomPurged, Codenames.clearTimeout, Obj.get_del_ne _ _ _ hne] using hR') hk

theorem MemberInv.mem_other {S S' : State} (h : MemberInv S) (hs : sameMembership S S') :
    MemberInv S' := by
  intro n R' k r hR' hk
  obtain ⟨R, hR, hpl⟩ := sameMembership_room' S S' hs n R' hR'
  rw [hpl] at hk
  obtain ⟨hp1, p, hp, hroom⟩ := h n R k r hR hk
  obtain ⟨p', hp', _, hroom'⟩ := sameMembership_heap S S' hs r p hp
  exact ⟨by rw [hs.2.1]; exact hp1, p', hp', hroom'.trans hroom⟩

/-- Every event keeps the agreement of the member sets with the player table, when only
sessions without a `Player` send `createRoom` and `joinRoom`. -/
theorem MemberInv.mem_step {E : Engine} {S S' : State} (hI : Inv S) (h : MemberInv S)
    (hs : Step E lobbySession S S') : MemberInv S' := by
  cases hs with
  | connect query fresh socket _ hc =>
    rcases connection_shape S S' query fresh socket hc with hs | ⟨k, id, _, hs⟩
    · exact h.mem_sameCore hs
    · exact (@MemberInv.mem_congr S (graceCancelled S k id) h rfl rfl rfl).mem_sameCore hs
  | disconnect socket _ hd =>
    rcases onDisconnect_shape S S' socket hd with hs | hs
    · exact h.mem_sameCore hs
    · exact (@MemberInv.mem_congr S (graceStarted S socket) h rfl rfl rfl).mem_sameCore hs
  | createRoom socket data _ hg hc =>
    rcases createRoom_shape E S S' socket data hc with hs | ⟨_, hs⟩
    · exact h.mem_sameCore hs
    · exact ((h.mem_newRoom E _ _).mem_joinedState socket _ _ _ (Obj.get_set_self _ _ _) hg).mem_sameCore hs
  | joinRoom socket data _ hg hj =>
    rcases joinRoom_shape S S' socket data hj with hs | ⟨R, name, hR, hs⟩
    · exact h.mem_sameCore hs
    · obtain ⟨e1, e2, e3, _⟩ := cancelDeletion_fields S (trim data.room)
      refine ((h.mem_congr e2 e3 e1).mem_joinedState socket _ R name ?_ ?_).mem_sameCore hs
      · rw [e1]; exact hR
      · rw [e2]; exact hg
  | leaveRoom socket _ hl =>
    rcases leaveRoom_shape S S' socket hl with rfl | ⟨r, p, R, hk, hp, hR, hs⟩
    · exact h
    · obtain ⟨p0, _, hp0, hid, _, _⟩ := hI.1 _ r hk
      rw [hp] at hp0
      cases hp0
      rw [hid] at hs
      exact h.mem_departure socket.sessionId r p R hk hp hR hs
  | timeout id hf =>
    rcases fireTimer_shape S S' id hf with ⟨n, _, rfl⟩ | ⟨socket, S1, _, hd, rfl⟩
    · exact h.mem_roomPurged id n
    · have h1 : MemberInv (clearTimeout S id) := h.mem_congr rfl rfl rfl
      exact (h1.mem_socketDisconnect socket hd).mem_congr rfl rfl rfl
  | other ho => exact h.mem_other ho

theorem Reachable.reach_memberInv {E : Engine} {S : State} (h : Reachable E lobbySession S) :
    MemberInv S := by
  induction h with
  | init => exact MemberInv.mem_init
  | step hr hs ih => exact ih.mem_step hr.reach_inv hs

/-! ## Reachable example states -/

theorem reachable_exLobby (guard : State → Socket → Prop) :
    Reachable exEngine guard exLobby :=
  Reachable.step
    (Reachable.step
      (Reachable.step Reachable.init
        (@Step.connect exEngine guard State.init exConn1 none tokA sockA (by decide)
          (by decide)))
      (@Step.connect exEngine guard exConn1 exConn2 none tokB sockB (by decide) (by decide)))
    (@Step.connect exEngine guard exConn2 exLobby none tokC sockC (by decide) (by decide))

theorem reachable_exOne (guard : State → Socket → Prop) (hg : guard exLobby sockA) :
    Reachable exEngine guard exOne :=
  Reachable.step (reachable_exLobby guard)
    (Step.createRoom sockA { room := " R ", password := "p", nickname := "Alice" }
      (by decide) hg (by decide))

theorem reachable_exTwo : Reachable exEngine lobbySession exTwo :=
  Reachable.step (reachable_exOne lobbySession (by unfold lobbySession; decide))
    (Step.joinRoom sockB { room := "R", password := "p", nickname := "Alice" }
      (by decide) (by unfold lobbySession; decide) (by decide))

theorem reachable_exLeft : Reachable exEngine anySession exLeft :=
  Reachable.step (reachable_exOne anySession trivial)
    (Step.leaveRoom sockA (by decide) (by decide))

theorem reachable_exDouble : Reachable exEngine anySession exDouble :=
  Reachable.step (reachable_exOne anySession trivial)
    (Step.createRoom sockA { room := "B", password := "", nickname := "Alice" }
      (by decide) trivial (by decide))

/-! ## C9: a room is deleted only when empty -/

theorem socketDisconnect_keeps_rooms (S S' : State) (socket : Socket)
    (h : socketDisconnect S socket = some S') (n : String) (R : Room)
    (hR : S.ROOM_LIST.get n = some R) : ∃ R', S'.ROOM_LIST.get n = some R' := by
  have hset : ∀ (m : String) (X : Room), ∃ R', (S.ROOM_LIST.set m X).get n = some R' := by
    intro m X
    by_cases hm : n = m
    · subst hm
      exact ⟨X, Obj.get_set_self _ _ _⟩
    · exact ⟨R, by rw [Obj.get_set_ne _ _ _ _ hm]; exact hR⟩
  rcases socketDisconnect_shape S S' socket h with ⟨_, hs⟩ | ⟨r, p, R0, _, _, _, hs | ⟨_, hs⟩⟩
  · exact ⟨R, by rw [hs.2.2.1]; exact hR⟩
  · rw [hs.2.2.1]
    exact hset _ _
  · rw [hs.2.2.1, (deleteRoom_fields _ _).1]
    exact hset _ _

/-- C9. In every reachable state a pending room-deletion timer belongs to a room that
exists and has an empty member set, a room recorded in `DELETE_ROOM_LIST` has no member,
and whenever a timer expires every room that the expiry removes from `ROOM_LIST` had zero
members; the same holds of the pending timers after any `joinRoom` (a successful join has
cancelled the timer of the room it fills) and after any `createRoom`. -/
theorem C9_room_deleted_only_when_empty (E : Engine) (S : State)
    (h : Reachable E anySession S) :
    (∀ id n, (id, TimerAction.room n) ∈ S.timers →
      ∃ R, S.ROOM_LIST.get n = some R ∧ R.players = []) ∧
    (∀ n id R, S.DELETE_ROOM_LIST.get n = some id → S.ROOM_LIST.get n = some R →
      R.players = []) ∧
    (∀ id S', fireTimer S id = some S' → ∀ n R, S.ROOM_LIST.get n = some R →
      S'.ROOM_LIST.get n = none → R.players = []) ∧
    (∀ socket data S', joinRoom S socket data = some S' →
      ∀ id n, (id, TimerAction.room n) ∈ S'.timers →
        ∃ R, S'.ROOM_LIST.get n = some R ∧ R.players = []) ∧
    (∀ socket data S', createRoom E S socket data = some S' →
      ∀ id n, (id, TimerAction.room n) ∈ S'.timers →
        ∃ R, S'.ROOM_LIST.get n = some R ∧ R.players = []) := by
  have hI := h.reach_inv
  refine ⟨?_, ?_, ?_, ?_, ?_⟩
  rotate_left 3
  · intro socket data S' hj id n hin
    obtain ⟨R, hR, he, _⟩ := (hI.inv_joinRoom socket data hj).2 id n hin
    exact ⟨R, hR, he⟩
  · intro socket data S' hc id n hin
    obtain ⟨R, hR, he, _⟩ := (hI.inv_createRoom E socket data hc).2 id n hin
    exact ⟨R, hR, he⟩
  · intro id n hin
    obtain ⟨R, hR, he, _⟩ := hI.2 id n hin
    exact ⟨R, hR, he⟩
  · intro n id R hm hR
    obtain ⟨R', hR', he, _⟩ := hI.2 id n (hI.4 n id hm)
    rw [hR] at hR'
    cases hR'
    exact he
  · intro id S' hf n R hR hnone
    rcases fireTimer_shape S S' id hf with ⟨n0, hin, rfl⟩ | ⟨socket, S1, _, hd, rfl⟩
    · obtain ⟨R0, hR0, he, _⟩ := hI.2 id n0 hin
      by_cases hne : n = n0
      · subst hne
        rw [hR] at hR0
        cases hR0
        exact he
      · simp only [roomPurged, clearTimeout, Obj.get_del_ne _ _ _ hne] at hnone
        rw [hR] at hnone
        cases hnone
    · obtain ⟨R', hR'⟩ := socketDisconnect_keeps_rooms (clearTimeout S id) S1 socket hd n R hR
      simp only at hnone
      rw [hR'] at hnone
      cases hnone

/-- C9 on the state `exLeft`, in which room "R" is empty and its deletion pending. -/
theorem C9_room_deleted_only_when_empty_witness :
    Reachable exEngine anySession exLeft ∧
    ((∀ id n, (id, TimerAction.room n) ∈ exLeft.timers →
      ∃ R, exLeft.ROOM_LIST.get n = some R ∧ R.players = []) ∧
    (∀ n id R, exLeft.DELETE_ROOM_LIST.get n = some id → exLeft.ROOM_LIST.get n = some R →
      R.players = []) ∧
    (∀ id S', fireTimer exLeft id = some S' → ∀ n R, exLeft.ROOM_LIST.get n = some R →
      S'.ROOM_LIST.get n = none → R.players = []) ∧
    (∀ socket data S', joinRoom exLeft socket data = some S' →
      ∀ id n, (id, TimerAction.room n) ∈ S'.timers →
        ∃ R, S'.ROOM_LIST.get n = some R ∧ R.players = []) ∧
    (∀ socket data S', createRoom exEngine exLeft socket data = some S' →
      ∀ id n, (id, TimerAction.room n) ∈ S'.timers →
        ∃ R, S'.ROOM_LIST.get n = some R ∧ R.players = [])) :=
  ⟨reachable_exLeft, C9_room_deleted_only_when_empty exEngine exLeft reachable_exLeft⟩

/-- On `exLeft` the deletion timer 0 of room "R" is pending, and its expiry purges the
room; a `joinRoom` before the expiry cancels the timer instead. -/
theorem exLeft_timer :
    exLeft.timers = [(0, TimerAction.room "R")] ∧
      (fireTimer exLeft 0).map (fun S => (S.ROOM_LIST.keys, S.DELETE_ROOM_LIST, S.timers))
        = some ([], [], []) ∧
      (joinRoom exLeft sockB { room := "R", password := "p", nickname := "Bob" }).map
        (fun S => (S.DELETE_ROOM_LIST, S.timers)) = some ([], []) := by
  decide

/-! ## C8: one room per player -/

/-- C8, refuted as stated. The state `exDouble` is reached by a connection, a `createRoom`
for "R" and a second `createRoom`, for "B", by the same session `tokA`; there the token is
a key of the member sets of both rooms, and the member of "R" is no longer the `Player`
that `PLAYER_LIST` holds for the token. -/
theorem C8_counterexample_two_rooms :
    Reachable exEngine anySession exDouble ∧
      isMemberOf exDouble tokA "R" ∧ isMemberOf exDouble tokA "B" ∧ "R" ≠ "B" ∧
      exDouble.PLAYER_LIST.get tokA = some 1 ∧
      (exDouble.heap[1]?).map Player.room = some "B" := by
  refine ⟨reachable_exDouble, ⟨_, rfl, by decide⟩, ⟨_, rfl, by decide⟩, by decide, by decide,
    by decide⟩

/-- C8, amended. In every state reachable when `createRoom` and `joinRoom` are only sent by
sessions that have no `Player`, each session token is a key of the member set of at most
one room, and a token that has a `Player` is a member of exactly the room named in that
object. -/
theorem C8_one_room_per_player (E : Engine) (S : State) (h : Reachable E lobbySession S) :
    (∀ k n m, isMemberOf S k n → isMemberOf S k m → n = m) ∧
    (∀ k r, S.PLAYER_LIST.get k = some r →
      ∃ p, S.heap[r]? = some p ∧ ∀ n, isMemberOf S k n ↔ n = p.room) := by
  have hI := h.reach_inv
  have hM := h.reach_memberInv
  have hroom : ∀ k n, isMemberOf S k n →
      ∃ r p, S.PLAYER_LIST.get k = some r ∧ S.heap[r]? = some p ∧ p.room = n := by
    intro k n ⟨R, hR, hk⟩
    obtain ⟨r, hr⟩ := (Obj.mem_keys_iff _ _).1 hk
    obtain ⟨hpl, p, hp, hpr⟩ := hM n R k r hR hr
    exact ⟨r, p, hpl, hp, hpr⟩
  refine ⟨?_, ?_⟩
  · intro k n m hn hm
    obtain ⟨r, p, hpl, hp, hpr⟩ := hroom k n hn
    obtain ⟨r', p', hpl', hp', hpr'⟩ := hroom k m hm
    rw [hpl] at hpl'
    cases hpl'
    rw [hp] at hp'
    cases hp'
    exact hpr.symm.trans hpr'
  · intro k r hk
    obtain ⟨p, R, hp, _, hR, hm⟩ := hI.1 k r hk
    refine ⟨p, hp, fun n => ⟨fun hn => ?_, fun hn => ?_⟩⟩
    · obtain ⟨r', p', hpl', hp', hpr'⟩ := hroom k n hn
      rw [hk] at hpl'
      cases hpl'
      rw [hp] at hp'
      cases hp'
      exact hpr'.symm
    · rw [hn]
      exact ⟨R, hR, (Obj.mem_keys_iff _ _).2 ⟨r, hm⟩⟩

/-- C8, amended, on the state `exTwo` (two lobby sessions have created and joined "R"). -/
theorem C8_one_room_per_player_witness :
    Reachable exEngine lobbySession exTwo ∧
    ((∀ k n m, isMemberOf exTwo k n → isMemberOf exTwo k m → n = m) ∧
    (∀ k r, exTwo.PLAYER_LIST.get k = some r →
      ∃ p, exTwo.heap[r]? = some p ∧ ∀ n, isMemberOf exTwo k n ↔ n = p.room)) :=
  ⟨reachable_exTwo, C8_one_room_per_player exEngine exTwo reachable_exTwo⟩

/-- Whoever sends `createRoom` and `joinRoom`, a token that has a `Player` is a member of
the room named in that object, with that same object. -/
theorem player_is_member_of_its_room (E : Engine) (S : State) (h : Reachable E anySession S)
    (k : String) (r : Nat) (hk : S.PLAYER_LIST.get k = some r) :
    ∃ p R, S.heap[r]? = some p ∧ p.id = k ∧ S.ROOM_LIST.get p.room = some R ∧
      R.players.get k = some r :=
  h.reach_inv.1 k r hk

/-! ## C10: scheduling the deletion of a room is idempotent -/

theorem Inv.inv_timerInv {S : State} (h : Inv S) : TimerInv S :=
  ⟨fun id n hin => (h.2 id n hin).choose_spec.2.2, h.4, h.5, h.6⟩

/-- The function `deleteRoom` keeps the correspondence of room timers and markers. -/
theorem TimerInv.tim_deleteRoom {S : State} (h : TimerInv S) (n : String) :
    TimerInv (deleteRoom S n) := by
  unfold Codenames.deleteRoom
  cases ht : truthyAt S.DELETE_ROOM_LIST n with
  | true => simpa using h
  | false =>
    obtain ⟨hm, _⟩ := (truthyAt_false_iff _ _).1 ht
    simp only [Bool.false_eq_true, if_false, setTimeout]
    refine ⟨?_, ?_, nodup_fst_append_fresh _ _ _ h.3 h.4, ?_⟩
    · intro id n' hin
      rcases List.mem_append.1 hin with hin | hin
      · have hmk := h.1 id n' hin
        have hne : n' ≠ n := fun hn => by rw [hn, hm] at hmk; cases hmk
        rw [Obj.get_set_ne _ _ _ _ hne]
        exact hmk
      · simp only [List.mem_singleton, Prod.mk.injEq, TimerAction.room.injEq] at hin
        obtain ⟨rfl, rfl⟩ := hin
        exact Obj.get_set_self _ _ _
    · intro n' id hmk
      by_cases hne : n' = n
      · subst hne
        rw [Obj.get_set_self] at hmk
        cases hmk
        exact List.mem_append_right _ (List.mem_singleton_self _)
      · rw [Obj.get_set_ne _ _ _ _ hne] at hmk
        exact List.mem_append_left _ (h.2 n' id hmk)
    · intro t ht'
      rcases List.mem_append.1 ht' with ht' | ht'
      · exact Nat.lt_succ_of_lt (h.4 t ht')
      · simp only [List.mem_singleton] at ht'
        subst ht'
        exact Nat.lt_succ_self _

theorem length_eq_one_of_all_eq {α : Type} (l : List α) (x : α) (hn : l.Nodup)
    (hall : ∀ y ∈ l, y = x) (hx : x ∈ l) : l.length = 1 := by
  cases l with
  | nil => cases hx
  | cons a t =>
    cases t with
    | nil => rfl
    | cons b t' =>
      have ha := hall a (List.mem_cons_self _ _)
      have hb := hall b (List.mem_cons_of_mem _ (List.mem_cons_self _ _))
      rw [List.nodup_cons] at hn
      exact absurd (by rw [ha, ← hb]; exact List.mem_cons_self _ _) hn.1

/-- A recorded room deletion has exactly one pending timer. -/
theorem TimerInv.tim_one_timer {S : State} (h : TimerInv S) (n : String) (id : Nat)
    (hm : S.DELETE_ROOM_LIST.get n = some id) : pendingRoomTimers S n = 1 := by
  unfold pendingRoomTimers
  apply length_eq_one_of_all_eq _ (id, TimerAction.room n)
  · exact (List.Nodup.of_map _ h.3).filter _
  · intro t ht
    obtain ⟨ht1, ht2⟩ := List.mem_filter.1 ht
    obtain ⟨i, a⟩ := t
    have ha : a = TimerAction.room n := by simpa using ht2
    subst ha
    have := h.1 i n ht1
    rw [hm] at this
    rw [Option.some.inj this]
  · exact List.mem_filter.2 ⟨h.2 n id hm, by simp⟩

theorem pendingAction_of_mem (ts : List (Nat × TimerAction)) (hn : (ts.map Prod.fst).Nodup)
    (id : Nat) (a : TimerAction) (h : (id, a) ∈ ts) : pendingAction ts id = some a := by
  cases hp : pendingAction ts id with
  | none =>
    exfalso
    induction ts with
    | nil => cases h
    | cons t rest ih =>
      obtain ⟨i, b⟩ := t
      by_cases hi : i = id
      · simp [pendingAction, hi] at hp
      · simp only [pendingAction, hi, if_false] at hp
        rcases List.mem_cons.1 h with h | h
        · exact hi (Prod.mk.inj h).1.symm
        · simp only [List.map_cons, List.nodup_cons] at hn
          exact ih hn.2 h hp
  | some b =>
    rw [timer_unique ts hn id a b h (pendingAction_mem ts id b hp)]

/-- The expiry of the recorded deletion timer of a room removes the room and the marker and
leaves no timer of the room. -/
theorem TimerInv.tim_fire {S : State} (h : TimerInv S) (n : String) (id : Nat)
    (hm : S.DELETE_ROOM_LIST.get n = some id) :
    ∃ S', fireTimer S id = some S' ∧ S'.ROOM_LIST.get n = none ∧
      S'.DELETE_ROOM_LIST.get n = none ∧ pendingRoomTimers S' n = 0 := by
  have hp := pendingAction_of_mem S.timers h.3 id _ (h.2 n id hm)
  refine ⟨roomPurged S id n, by simp only [fireTimer, hp, runTimer, roomPurged], ?_, ?_, ?_⟩
  · simp only [roomPurged]
    exact Obj.get_del_self _ _
  · simp only [roomPurged]
    exact Obj.get_del_self _ _
  · unfold pendingRoomTimers
    rw [List.length_eq_zero, List.filter_eq_nil_iff]
    intro t ht
    obtain ⟨ht1, ht2⟩ := (mem_clearTimeout S id t).1 ht
    obtain ⟨i, a⟩ := t
    intro ha
    have ha' : a = TimerAction.room n := by simpa using ha
    subst ha'
    have := h.1 i n ht1
    rw [hm] at this
    exact ht2 (Option.some.inj this).symm

/-- C10. For every room of a reachable state, a second `deleteRoom` while the deletion is
pending changes nothing: the state after two calls is the state after one, in which exactly
one deletion timer of the room is pending and recorded in `DELETE_ROOM_LIST`; when that
timer expires the room leaves `ROOM_LIST`, the marker is cleared and no timer of the room
remains. -/
theorem C10_deleteRoom_idempotent (E : Engine) (S : State) (n : String) (R : Room)
    (h : Reachable E anySession S) (hR : S.ROOM_LIST.get n = some R) :
    deleteRoom (deleteRoom S n) n = deleteRoom S n ∧
    (∀ id, S.DELETE_ROOM_LIST.get n = some id → deleteRoom S n = S) ∧
    pendingRoomTimers (deleteRoom S n) n = 1 ∧
    ∃ id, (deleteRoom S n).DELETE_ROOM_LIST.get n = some id ∧
      (id, TimerAction.room n) ∈ (deleteRoom S n).timers ∧
      ∃ S', fireTimer (deleteRoom S n) id = some S' ∧ S'.ROOM_LIST.get n = none ∧
        S'.DELETE_ROOM_LIST.get n = none ∧ pendingRoomTimers S' n = 0 := by
  have hI := h.reach_inv
  have hT : TimerInv (deleteRoom S n) := hI.inv_timerInv.tim_deleteRoom n
  have hname : n ∉ objectPrototypeKeys := hI.3 n R hR
  have hmark : ∃ id, (deleteRoom S n).DELETE_ROOM_LIST.get n = some id := by
    unfold deleteRoom
    cases ht : truthyAt S.DELETE_ROOM_LIST n with
    | true =>
      cases hg : S.DELETE_ROOM_LIST.get n with
      | none => simp [truthyAt, hg, hname] at ht
      | some id => exact ⟨id, by simpa using hg⟩
    | false =>
      simp only [Bool.false_eq_true, if_false, setTimeout]
      exact ⟨_, Obj.get_set_self _ _ _⟩
  obtain ⟨id, hid⟩ := hmark
  have hsame : ∀ (T : State) (i : Nat), T.DELETE_ROOM_LIST.get n = some i → deleteRoom T n = T := by
    intro T i hi
    have : truthyAt T.DELETE_ROOM_LIST n = true := by simp [truthyAt, hi]
    simp [deleteRoom, this]
  exact ⟨hsame _ id hid, fun i hi => hsame S i hi, hT.tim_one_timer n id hid, id, hid,
    hT.2 n id hid, hT.tim_fire n id hid⟩

/-- C10 on the state `exOne` and its room "R". -/
theorem C10_deleteRoom_idempotent_witness :
    (Reachable exEngine anySession exOne ∧ exOne.ROOM_LIST.get "R" = some exOneRoom) ∧
    (deleteRoom (deleteRoom exOne "R") "R" = deleteRoom exOne "R" ∧
    (∀ id, exOne.DELETE_ROOM_LIST.get "R" = some id → deleteRoom exOne "R" = exOne) ∧
    pendingRoomTimers (deleteRoom exOne "R") "R" = 1 ∧
    ∃ id, (deleteRoom exOne "R").DELETE_ROOM_LIST.get "R" = some id ∧
      (id, TimerAction.room "R") ∈ (deleteRoom exOne "R").timers ∧
      ∃ S', fireTimer (deleteRoom exOne "R") id = some S' ∧ S'.ROOM_LIST.get "R" = none ∧
        S'.DELETE_ROOM_LIST.get "R" = none ∧ pendingRoomTimers S' "R" = 0) :=
  ⟨⟨reachable_exOne anySession trivial, by decide⟩,
    C10_deleteRoom_idempotent exEngine exOne "R" exOneRoom (reachable_exOne anySession trivial)
      (by decide)⟩

/-! ## Rooms are well formed in reachable states -/

theorem Obj.keys_nodup_set {α : Type} (o : Obj α) (k : String) (v : α)
    (h : o.keys.Nodup) : (o.set k v).keys.Nodup := by
  by_cases hk : k ∈ o.keys
  · rw [Obj.keys_set_of_mem o k v hk]
    exact h
  · rw [Obj.keys_set_of_not_mem o k v hk]
    exact List.Nodup.append h (by simp) (by simpa using hk)

theorem Obj.keys_nodup_del {α : Type} (o : Obj α) (k : String) (h : o.keys.Nodup) :
    (o.del k).keys.Nodup :=
  ((List.filter_sublist _).map Prod.fst).nodup h

theorem Obj.mem_del {α : Type} (o : Obj α) (k : String) (e : String × α)
    (h : e ∈ o.del k) : e ∈ o :=
  (List.mem_filter.1 h).1

theorem RefsInv.refs_init : RefsInv State.init := by
  intro n R hR
  simp [State.init, Obj.get] at hR

theorem RefsInv.refs_congr {S S' : State} (h : RefsInv S) (e2 : S'.heap = S.heap)
    (e3 : S'.ROOM_LIST = S.ROOM_LIST) : RefsInv S' := by
  intro n R hR
  rw [e3] at hR
  obtain ⟨h1, h2⟩ := h n R hR
  exact ⟨h1, fun e he => by rw [e2]; exact h2 e he⟩

theorem RefsInv.refs_sameCore {S S' : State} (h : RefsInv S) (hs : sameCore S S') :
    RefsInv S' :=
  h.refs_congr hs.2.1 hs.2.2.1

theorem RefsInv.refs_newRoom {S : State} (h : RefsInv S) (E : Engine) (n pw : String) :
    RefsInv (newRoom E S n pw) := by
  intro n' R' hR'
  by_cases hne : n' = n
  · subst hne
    simp only [newRoom, State.setRoom, Obj.get_set_self, Option.some.injEq] at hR'
    subst hR'
    exact ⟨by simp [Obj.keys], fun e he => by cases he⟩
  · exact h n' R' (by simpa [newRoom, State.setRoom, Obj.get_set_ne _ _ _ _ hne] using hR')

theorem RefsInv.refs_joinedState {S : State} (h : RefsInv S) (socket : Socket) (n : String)
    (R : Room) (name : String) (hR : S.ROOM_LIST.get n = some R) :
    RefsInv (joinedState S socket n R name) := by
  intro n' R' hR'
  have hlen : (joinedState S socket n R name).heap.length = S.heap.length + 1 := by
    simp [joinedState]
  by_cases hne : n' = n
  · subst hne
    simp only [joinedState, Obj.get_set_self, Option.some.injEq] at hR'
    subst hR'
    obtain ⟨h1, h2⟩ := h n' R hR
    refine ⟨Obj.keys_nodup_set _ _ _ h1, fun e he => ?_⟩
    rw [hlen]
    rcases Obj.mem_set _ _ _ _ he with he | he
    · exact Nat.lt_succ_of_lt (h2 e he)
    · rw [he]
      exact Nat.lt_succ_self _
  · have hR'' : S.ROOM_LIST.get n' = some R' := by
      simpa [joinedState, Obj.get_set_ne _ _ _ _ hne] using hR'
    obtain ⟨h1, h2⟩ := h n' R' hR''
    exact ⟨h1, fun e he => by rw [hlen]; exact Nat.lt_succ_of_lt (h2 e he)⟩

theorem RefsInv.refs_departed {S : State} (h : RefsInv S) (k room : String) (R : Room)
    (hR : S.ROOM_LIST.get room = some R) : RefsInv (departed S k room R) := by
  intro n' R' hR'
  by_cases hne : n' = room
  · subst hne
    simp only [departed, Obj.get_set_self, Option.some.injEq] at hR'
    subst hR'
    obtain ⟨h1, h2⟩ := h n' R hR
    exact ⟨Obj.keys_nodup_del _ _ h1, fun e he => h2 e (Obj.mem_del _ _ _ he)⟩
  · exact h n' R' (by simpa [departed, Obj.get_set_ne _ _ _ _ hne] using hR')

theorem RefsInv.refs_departure {S S' : State} (h : RefsInv S) (k room : String) (R : Room)
    (hR : S.ROOM_LIST.get room = some R)
    (hs : sameCore (departed S k room R) S' ∨
      ((R.players.del k) = [] ∧ sameCore (deleteRoom (departed S k room R) room) S')) :
    RefsInv S' := by
  have hd := h.refs_departed k room R hR
  rcases hs with hs | ⟨_, hs⟩
  · exact hd.refs_sameCore hs
  · obtain ⟨e1, _, e3⟩ := deleteRoom_fields (departed S k room R) room
    exact (hd.refs_congr e3 e1).refs_sameCore hs

theorem RefsInv.refs_socketDisconnect {S S' : State} (h : RefsInv S) (socket : Socket)
    (hl : socketDisconnect S socket = some S') : RefsInv S' := by
  rcases socketDisconnect_shape S S' socket hl with ⟨_, hs⟩ | ⟨r, p, R, _, _, hR, hs⟩
  · exact h.refs_sameCore hs
  · exact h.refs_departure socket.sessionId p.room R hR hs

theorem RefsInv.refs_other {S S' : State} (h : RefsInv S) (hs : sameMembership S S') :
    RefsInv S' := by
  intro n R' hR'
  obtain ⟨R, hR, hpl⟩ := sameMembership_room' S S' hs n R' hR'
  obtain ⟨h1, h2⟩ := h n R hR
  have hlen : S'.heap.length = S.heap.length := by
    have := congrArg List.length hs.2.2.1
    simpa using this
  exact ⟨by rw [hpl]; exact h1, fun e he => by rw [hlen]; exact h2 e (by rw [← hpl]; exact he)⟩

/-- Every event keeps the rooms well formed. -/
theorem RefsInv.refs_step {E : Engine} {guard : State → Socket → Prop} {S S' : State}
    (h : RefsInv S) (hs : Step E guard S S') : RefsInv S' := by
  cases hs with
  | connect query fresh socket _ hc =>
    rcases connection_shape S S' query fresh socket hc with hs | ⟨k, id, _, hs⟩
    · exact h.refs_sameCore hs
    · exact (@RefsInv.refs_congr S (graceCancelled S k id) h rfl rfl).refs_sameCore hs
  | disconnect socket _ hd =>
    rcases onDisconnect_shape S S' socket hd with hs | hs
    · exact h.refs_sameCore hs
    · exact (@RefsInv.refs_congr S (graceStarted S socket) h rfl rfl).refs_sameCore hs
  | createRoom socket data _ _ hc =>
    rcases createRoom_shape E S S' socket data hc with hs | ⟨_, hs⟩
    · exact h.refs_sameCore hs
    · exact ((h.refs_newRoom E _ _).refs_joinedState socket _ _ _
        (Obj.get_set_self _ _ _)).refs_sameCore hs
  | joinRoom socket data _ _ hj =>
    rcases joinRoom_shape S S' socket data hj with hs | ⟨R, name, hR, hs⟩
    · exact h.refs_sameCore hs
    · obtain ⟨e1, _, e3, _⟩ := cancelDeletion_fields S (trim data.room)
      refine ((h.refs_congr e3 e1).refs_joinedState socket _ R name ?_).refs_sameCore hs
      rw [e1]
      exact hR
  | leaveRoom socket _ hl =>
    rcases leaveRoom_shape S S' socket hl with rfl | ⟨r, p, R, _, _, hR, hs⟩
    · exact h
    · exact h.refs_departure p.id p.room R hR hs
  | timeout id hf =>
    rcases fireTimer_shape S S' id hf with ⟨n, _, rfl⟩ | ⟨socket, S1, _, hd, rfl⟩
    · intro n' R' hR'
      by_cases hne : n' = n
      · subst hne
        simp [roomPurged, clearTimeout, Obj.get_del_self] at hR'
      · exact h n' R' (by simpa [roomPurged, clearTimeout, Obj.get_del_ne _ _ _ hne] using hR')
    · have h1 : RefsInv (clearTimeout S id) := h.refs_congr rfl rfl
      exact (h1.refs_socketDisconnect socket hd).refs_congr rfl rfl
  | other ho => exact h.refs_other ho

theorem Reachable.reach_refsInv {E : Engine} {guard : State → Socket → Prop} {S : State}
    (h : Reachable E guard S) : RefsInv S := by
  induction h with
  | init => exact RefsInv.refs_init
  | step _ hs ih => exact ih.refs_step hs

/-- The well-formedness assumed of a room by the statements on `clickTile` and `joinRoom`
holds of every room of every state reachable when only sessions without a `Player` send
`createRoom` and `joinRoom`; the validity of the member references holds whoever sends
them. -/
theorem reachable_rooms_well_formed (E : Engine) (S : State) (n : String) (R : Room)
    (hR : S.ROOM_LIST.get n = some R) :
    (Reachable E anySession S → roomRefsValid S R) ∧
    (Reachable E lobbySession S → roomRefsValid S R ∧ membersKnown S R) := by
  refine ⟨fun h => (h.reach_refsInv n R hR).2, fun h => ⟨(h.reach_refsInv n R hR).2, ?_⟩⟩
  intro k hk
  obtain ⟨r, hr⟩ := (Obj.mem_keys_iff _ _).1 hk
  obtain ⟨hpl, p, hp, _⟩ := h.reach_memberInv n R k r hR hr
  simp [State.player, hpl, hp]

/-! ## C14: the AFK sweep -/

/-- The hour of a tick cannot be both the warning hour and the restart hour: the loop over
`PLAYER_LIST` is never entered, and a tick is the loop over `ROOM_LIST` alone. -/
theorem tick_skips_afkLoop (E : Engine) (S : State) (time : Time) :
    tick E S time = timedLoop E S S.ROOM_LIST.keys := by
  unfold tick
  by_cases h1 : time.hours = restartWarningHour ∧ time.minutes = restartWarningMinute ∧
      time.seconds < restartWarningSecond
  · have h2 : ¬ (time.hours = restartHour ∧ time.minutes = restartMinute ∧
        time.seconds < restartSecond) := by
      intro h
      have h3 := h1.1
      rw [h.1] at h3
      exact absurd h3 (by decide)
    simp only []
    rw [if_pos h1, if_neg h2]
  · simp only []
    rw [if_neg h1]

/-- What the loop over `PLAYER_LIST` does when it is run on `exIdle`: the countdown of
`tokA` falls to -1, `tokA` is warned, kicked and removed through `leaveRoom`, and the two
remaining members are decremented to 10799. -/
theorem afkLoop_exIdle :
    (afkLoop exIdle exIdle.PLAYER_LIST.keys).map
        (fun S => (S.PLAYER_LIST.keys, S.heap.map (fun p => p.afktimer),
          (S.out.filter (fun e => decide (e.msg = Msg.afkKicked))).length)) =
      some ([tokB, tokC], [-1, 10799, 10799], 1) := by
  decide

/-- C14, failing input. A tick is the timed-mode loop alone, at every wall-clock time. On
`exOne` (one player, countdown 10800) and on `exIdle` (countdown of `tokA` at 0) a tick
changes nothing: no countdown is decremented, nobody is kicked, nothing is emitted. -/
theorem C14_afk_sweep_never_runs :
    (∀ (E : Engine) (S : State) (time : Time),
      tick E S time = timedLoop E S S.ROOM_LIST.keys) ∧
    (∀ time, tick exEngine exOne time = some exOne) ∧
    (exOne.player tokA).map (fun p => p.afktimer) = some 10800 ∧
    (∀ time, tick exEngine exIdle time = some exIdle) ∧
    (exIdle.player tokA).map (fun p => p.afktimer) = some 0 := by
  refine ⟨tick_skips_afkLoop, fun time => ?_, by decide, fun time => ?_, by decide⟩
  · rw [tick_skips_afkLoop]; decide
  · rw [tick_skips_afkLoop]; decide

/-! ## C15 and C16: the timed-mode sweep -/

theorem Obj.set_get_self {α : Type} (o : Obj α) (k : String) (v : α) (h : o.get k = some v) :
    o.set k v = o := by
  induction o with
  | nil => simp [Obj.get] at h
  | cons e t ih =>
    obtain ⟨k', v'⟩ := e
    by_cases hk : k' = k
    · simp only [Obj.get, hk, if_true, Option.some.injEq] at h
      simp [Obj.set, hk, h]
    · simp only [Obj.get, hk, if_false] at h
      simp [Obj.set, hk, ih h]

theorem Obj.mem_of_get {α : Type} (o : Obj α) (k : String) (v : α) (h : o.get k = some v) :
    (k, v) ∈ o := by
  induction o with
  | nil => simp [Obj.get] at h
  | cons e t ih =>
    obtain ⟨k', v'⟩ := e
    by_cases hk : k' = k
    · simp only [Obj.get, hk, if_true, Option.some.injEq] at h
      simp [hk, h]
    · simp only [Obj.get, hk, if_false] at h
      exact List.mem_cons_of_mem _ (ih h)

/-- The countdown is sent once to the registered connection of every member. -/
theorem timerUpdates_some (timer : Int) (ks : List String) : ∀ S : State,
    (∀ k ∈ ks, (S.SOCKET_LIST.get k).isSome = true) →
    ∃ es, timerUpdates S timer ks = some { S with out := S.out ++ es } ∧
      es.length = ks.length ∧ (∀ e ∈ es, e.msg = Msg.timerUpdate timer) ∧
      ∀ k ∈ ks, ∀ sock, S.SOCKET_LIST.get k = some sock →
        ({ conn := sock.conn, msg := Msg.timerUpdate timer } : Emit) ∈ es := by
  induction ks with
  | nil => intro S _; exact ⟨[], by simp [timerUpdates], rfl, by simp, by simp⟩
  | cons k t ih =>
    intro S h
    obtain ⟨sock, hs⟩ := Option.isSome_iff_exists.1 (h k (List.mem_cons_self _ _))
    obtain ⟨es, h1, h2, h3, h4⟩ := ih (S.emit sock.conn (Msg.timerUpdate timer))
      (fun k' hk' => h k' (List.mem_cons_of_mem _ hk'))
    refine ⟨{ conn := sock.conn, msg := Msg.timerUpdate timer } :: es, ?_, by simp [h2], ?_, ?_⟩
    · simp only [timerUpdates, hs]
      rw [h1]
      simp [State.emit]
    · intro e he
      rcases List.mem_cons.1 he with rfl | he
      · rfl
      · exact h3 e he
    · intro k' hk' sock' hs'
      rcases List.mem_cons.1 hk' with rfl | hk'
      · rw [hs] at hs'
        cases hs'
        exact List.mem_cons_self _ _
      · exact List.mem_cons_of_mem _ (h4 k' hk' sock' hs')

/-- The effect of the clock on one room, in closed form: the room becomes `sweptRoom`, the
engine is called as `sweptCalls` says, and the output log is extended. -/
theorem sweepRoom_spec (E : Engine) (S : State) (n : String) (R : Room)
    (hR : S.ROOM_LIST.get n = some R)
    (hc : countsDown R → membersConnected S R)
    (hw : countsDown R → R.game.timer - 1 < 0 → roomRefsValid S R ∧ membersKnown S R) :
    ∃ es, sweepRoom E S n =
      some { S with ROOM_LIST := S.ROOM_LIST.set n (sweptRoom E R),
                    calls := S.calls ++ sweptCalls n R, out := S.out ++ es } := by
  simp only [sweepRoom, hR]
  by_cases hcd : R.mode = "timed" ∧ R.game.over = false
  · have hcon := hc hcd
    by_cases ht : R.game.timer - 1 < 0
    · obtain ⟨hv, hk⟩ := hw hcd ht
      have hget : (S.ROOM_LIST.set n
          { R with game := E.switchTurn { R.game with timer := R.game.timer - 1 } none }).get n
          = some { R with game := E.switchTurn { R.game with timer := R.game.timer - 1 } none } :=
        Obj.get_set_self _ _ _
      obtain ⟨gs, es, _, _, _, hes⟩ := gameUpdate_some
        { S with ROOM_LIST := S.ROOM_LIST.set n
                   { R with game := E.switchTurn { R.game with timer := R.game.timer - 1 } none },
                 calls := S.calls ++ [(n, EngineCall.switchTurn none)] }
        n { R with game := E.switchTurn { R.game with timer := R.game.timer - 1 } none } hget
        (roomRefsValid_of_eq S _ R _ hv rfl rfl) (membersKnown_of_eq S _ R _ hk rfl rfl rfl)
      obtain ⟨ts, hts, _, _, _⟩ := timerUpdates_some
        (E.switchTurn { R.game with timer := R.game.timer - 1 } none).timer R.players.keys
        { S with ROOM_LIST := S.ROOM_LIST.set n
                   { R with game := E.switchTurn { R.game with timer := R.game.timer - 1 } none },
                 calls := S.calls ++ [(n, EngineCall.switchTurn none)],
                 out := S.out ++ es } hcon
      refine ⟨es ++ ts, ?_⟩
      dsimp only at hes hts hget
      rw [if_pos hcd]
      simp only [State.setRoom, Obj.set_set]
      rw [if_pos ht, hes]
      simp only [hget]
      rw [hts]
      have hs : sweptRoom E R =
          { R with game := E.switchTurn { R.game with timer := R.game.timer - 1 } none } := by
        simp only [sweptRoom]
        rw [if_pos hcd, if_pos ht]
      have hcl : sweptCalls n R = [(n, EngineCall.switchTurn none)] := by
        simp only [sweptCalls]
        rw [if_pos ⟨hcd.1, hcd.2, ht⟩]
      rw [hs, hcl]
      simp [List.append_assoc]
    · have hget : (S.ROOM_LIST.set n
          { R with game := { R.game with timer := R.game.timer - 1 } }).get n
          = some { R with game := { R.game with timer := R.game.timer - 1 } } :=
        Obj.get_set_self _ _ _
      obtain ⟨ts, hts, _, _, _⟩ := timerUpdates_some (R.game.timer - 1) R.players.keys
        { S with ROOM_LIST := S.ROOM_LIST.set n
                   { R with game := { R.game with timer := R.game.timer - 1 } } } hcon
      refine ⟨ts, ?_⟩
      dsimp only at hts hget
      rw [if_pos hcd]
      simp only [State.setRoom]
      rw [if_neg ht]
      simp only [hget]
      rw [hts]
      have hs : sweptRoom E R = { R with game := { R.game with timer := R.game.timer - 1 } } := by
        simp only [sweptRoom]
        rw [if_pos hcd, if_neg ht]
      have hcl : sweptCalls n R = [] := by
        simp only [sweptCalls]
        rw [if_neg (fun h => ht h.2.2)]
      rw [hs, hcl]
      simp
  · refine ⟨[], ?_⟩
    have hs : sweptRoom E R = R := by simp only [sweptRoom]; rw [if_neg hcd]
    have hcl : sweptCalls n R = [] := by
      simp only [sweptCalls]
      rw [if_neg (fun h => hcd ⟨h.1, h.2.1⟩)]
    rw [if_neg hcd, hs, hcl, Obj.set_get_self _ _ _ hR]
    simp

/-- The effect of the loop over the rooms, in closed form. -/
theorem timedLoop_spec (E : Engine) (ks : List String) (hn : ks.Nodup) : ∀ S : State,
    (∀ n ∈ ks, ∃ R, S.ROOM_LIST.get n = some R ∧ (countsDown R → membersConnected S R) ∧
      (countsDown R → R.game.timer - 1 < 0 → roomRefsValid S R ∧ membersKnown S R)) →
    ∃ rooms es, timedLoop E S ks =
        some { S with ROOM_LIST := rooms,
                      calls := S.calls ++ ks.flatMap (fun n =>
                        match S.ROOM_LIST.get n with
                        | some R => sweptCalls n R
                        | none => []),
                      out := S.out ++ es } ∧
      rooms.keys = S.ROOM_LIST.keys ∧
      (∀ n ∈ ks, rooms.get n = (S.ROOM_LIST.get n).map (sweptRoom E)) ∧
      (∀ n, n ∉ ks → rooms.get n = S.ROOM_LIST.get n) := by
  induction ks with
  | nil =>
    intro S _
    exact ⟨S.ROOM_LIST, [], by simp [timedLoop], rfl, by simp, by simp⟩
  | cons n t ih =>
    intro S h
    obtain ⟨hnt, hnd⟩ := List.nodup_cons.1 hn
    obtain ⟨R, hR, hc, hw⟩ := h n (List.mem_cons_self _ _)
    obtain ⟨es, hes⟩ := sweepRoom_spec E S n R hR hc hw
    have hrest : ∀ m ∈ t, (S.ROOM_LIST.set n (sweptRoom E R)).get m = S.ROOM_LIST.get m := by
      intro m hm
      exact Obj.get_set_ne _ _ _ _ (fun hmn => hnt (hmn ▸ hm))
    obtain ⟨rooms, es2, h1, h2, h3, h4⟩ := ih hnd
      { S with ROOM_LIST := S.ROOM_LIST.set n (sweptRoom E R),
               calls := S.calls ++ sweptCalls n R, out := S.out ++ es }
      (fun m hm => by
        obtain ⟨Rm, hRm, hcm, hwm⟩ := h m (List.mem_cons_of_mem _ hm)
        exact ⟨Rm, by rw [← hRm]; exact hrest m hm, hcm, hwm⟩)
    refine ⟨rooms, es ++ es2, ?_, ?_, ?_, ?_⟩
    · simp only [timedLoop, hes]
      rw [h1]
      have hfl : (t.flatMap fun m =>
            match (S.ROOM_LIST.set n (sweptRoom E R)).get m with
            | some R => sweptCalls m R
            | none => []) =
          t.flatMap fun m =>
            match S.ROOM_LIST.get m with
            | some R => sweptCalls m R
            | none => [] := by
        apply List.flatMap_congr
        intro m hm
        rw [hrest m hm]
      simp only [hfl, List.flatMap_cons, hR, List.append_assoc]
    · rw [h2]
      exact Obj.keys_set_of_mem _ _ _ ((Obj.mem_keys_iff _ _).2 ⟨R, hR⟩)
    · intro m hm
      rcases List.mem_cons.1 hm with rfl | hm
      · rw [h4 m hnt]
        simp only [Obj.get_set_self, hR, Option.map_some']
      · rw [h3 m hm, hrest m hm]
    · intro m hm
      have hmn : m ≠ n := fun h => hm (h ▸ List.mem_cons_self _ _)
      rw [h4 m (fun h => hm (List.mem_cons_of_mem _ h))]
      exact Obj.get_set_ne _ _ _ _ hmn

/-- The rooms of a tick, in closed form: under the hypotheses of `timedLoop_spec` for all
rooms, a tick returns, every room becomes `sweptRoom`, the engine calls are those of
`sweptCalls` in the order of the rooms, and nothing but the rooms, the call log and the
output log changes. -/
theorem tick_spec (E : Engine) (S : State) (time : Time) (hn : S.ROOM_LIST.keys.Nodup)
    (hr : sweepReady S) :
    ∃ rooms es, tick E S time =
        some { S with ROOM_LIST := rooms,
                      calls := S.calls ++ S.ROOM_LIST.keys.flatMap (fun n =>
                        match S.ROOM_LIST.get n with
                        | some R => sweptCalls n R
                        | none => []),
                      out := S.out ++ es } ∧
      rooms.keys = S.ROOM_LIST.keys ∧
      ∀ n, rooms.get n = (S.ROOM_LIST.get n).map (sweptRoom E) := by
  rw [tick_skips_afkLoop]
  obtain ⟨rooms, es, h1, h2, h3, h4⟩ := timedLoop_spec E S.ROOM_LIST.keys hn S (fun n hmem => by
    obtain ⟨R, hR⟩ := (Obj.mem_keys_iff _ _).1 hmem
    have hmemR := Obj.mem_of_get _ _ _ hR
    exact ⟨R, hR, fun hcd => (hr _ hmemR hcd).1, fun hcd ht => (hr _ hmemR hcd).2 ht⟩)
  refine ⟨rooms, es, h1, h2, fun n => ?_⟩
  by_cases hmem : n ∈ S.ROOM_LIST.keys
  · exact h3 n hmem
  · rw [h4 n hmem, (Obj.get_eq_none_iff _ _).2 hmem]
    rfl

/-- C15. When every member of a room whose countdown runs has a registered connection (and
a room whose countdown expires can be broadcast), a tick returns at every wall-clock time;
the countdown of each room in mode "timed" whose game is not over is decremented by exactly
1, the engine's turn switch receiving the decremented game when the countdown has fallen
below 0, and every other room is unchanged. -/
theorem C15_timed_sweep_decrements (E : Engine) (S : State) (time : Time)
    (hn : S.ROOM_LIST.keys.Nodup) (hr : sweepReady S) :
    ∃ S', tick E S time = some S' ∧ S'.ROOM_LIST.keys = S.ROOM_LIST.keys ∧
      S'.heap = S.heap ∧ S'.PLAYER_LIST = S.PLAYER_LIST ∧
      ∀ n R, S.ROOM_LIST.get n = some R →
        (R.mode = "timed" → R.game.over = false → 0 ≤ R.game.timer - 1 →
          S'.ROOM_LIST.get n =
            some { R with game := { R.game with timer := R.game.timer - 1 } }) ∧
        (R.mode = "timed" → R.game.over = false → R.game.timer - 1 < 0 →
          S'.ROOM_LIST.get n =
            some { R with game :=
                     E.switchTurn { R.game with timer := R.game.timer - 1 } none }) ∧
        (¬ (R.mode = "timed" ∧ R.game.over = false) → S'.ROOM_LIST.get n = some R) := by
  obtain ⟨rooms, es, h1, h2, h3⟩ := tick_spec E S time hn hr
  refine ⟨_, h1, h2, rfl, rfl, fun n R hR => ⟨fun hm ho ht => ?_, fun hm ho ht => ?_, fun hc => ?_⟩⟩
  · show rooms.get n = _
    rw [h3 n, hR]
    simp only [Option.map_some', sweptRoom]
    rw [if_pos ⟨hm, ho⟩, if_neg (not_lt.2 ht)]
  · show rooms.get n = _
    rw [h3 n, hR]
    simp only [Option.map_some', sweptRoom]
    rw [if_pos ⟨hm, ho⟩, if_pos ht]
  · show rooms.get n = _
    rw [h3 n, hR]
    simp only [Option.map_some', sweptRoom]
    rw [if_neg hc]

/-- C15 on the state `exTimed`, whose room "R" is in timed mode with the countdown at 0. -/
theorem C15_timed_sweep_decrements_witness :
    (exTimed.ROOM_LIST.keys.Nodup ∧ sweepReady exTimed) ∧
    ∃ S', tick exEngine exTimed exNoon = some S' ∧ S'.ROOM_LIST.keys = exTimed.ROOM_LIST.keys ∧
      S'.heap = exTimed.heap ∧ S'.PLAYER_LIST = exTimed.PLAYER_LIST ∧
      ∀ n R, exTimed.ROOM_LIST.get n = some R →
        (R.mode = "timed" → R.game.over = false → 0 ≤ R.game.timer - 1 →
          S'.ROOM_LIST.get n =
            some { R with game := { R.game with timer := R.game.timer - 1 } }) ∧
        (R.mode = "timed" → R.game.over = false → R.game.timer - 1 < 0 →
          S'.ROOM_LIST.get n =
            some { R with game :=
                     exEngine.switchTurn { R.game with timer := R.game.timer - 1 } none }) ∧
        (¬ (R.mode = "timed" ∧ R.game.over = false) → S'.ROOM_LIST.get n = some R) :=
  ⟨⟨by decide,
      by unfold sweepReady countsDown membersConnected roomRefsValid membersKnown; decide⟩,
    C15_timed_sweep_decrements exEngine exTimed exNoon (by decide)
      (by unfold sweepReady countsDown membersConnected roomRefsValid membersKnown; decide)⟩

/-- The tick on `exTimed`: the countdown of room "R" falls from 0 to -1, the turn passes
from red to blue, and each of the three members receives the broadcast and the countdown. -/
theorem tick_exTimed :
    (tick exEngine exTimed exNoon).map
        (fun S => (S.ROOM_LIST.map (fun e => (e.1, e.2.game.timer, e.2.game.turn)),
          S.out.map (fun e => e.conn))) =
      some ([("R", -1, "blue")], [0, 1, 2, 0, 1, 2]) := by
  decide

/-- C16, counterexample. On `exTimed` the tick drives the countdown of room "R" below 0
and calls the turn switch without an argument, whereas `endTurn` sent by the member `tokA`
calls it with `true`: the two calls are not the same call. -/
theorem C16_counterexample_unforced_switch :
    (tick exEngine exTimed exNoon).map (fun S => S.calls)
      = some [("R", EngineCall.switchTurn none)] ∧
    (endTurn exEngine exTimed sockA).map (fun S => S.calls)
      = some [("R", EngineCall.switchTurn (some true))] ∧
    EngineCall.switchTurn none ≠ EngineCall.switchTurn (some true) := by
  refine ⟨by decide, by decide, by decide⟩

/-- C16, amended. When the countdown of a room in timed mode whose game is not over falls
below 0, the sweep calls the engine's turn switch on the decremented game without an
argument (the `forced` parameter is left undefined), then broadcasts the room with the
switched game, then sends the countdown of the switched game to every member. -/
theorem C16_expired_countdown_switches_unforced (E : Engine) (S : State) (n : String)
    (R : Room) (hR : S.ROOM_LIST.get n = some R) (hm : R.mode = "timed")
    (ho : R.game.over = false) (ht : R.game.timer - 1 < 0)
    (hc : membersConnected S R) (hv : roomRefsValid S R) (hk : membersKnown S R) :
    ∃ es ts,
      gameUpdate
          { S with ROOM_LIST := S.ROOM_LIST.set n
                     { R with game :=
                         E.switchTurn { R.game with timer := R.game.timer - 1 } none },
                   calls := S.calls ++ [(n, EngineCall.switchTurn none)] } n =
        some { S with ROOM_LIST := S.ROOM_LIST.set n
                        { R with game :=
                            E.switchTurn { R.game with timer := R.game.timer - 1 } none },
                      calls := S.calls ++ [(n, EngineCall.switchTurn none)],
                      out := S.out ++ es } ∧
      sweepRoom E S n =
        some { S with ROOM_LIST := S.ROOM_LIST.set n
                        { R with game :=
                            E.switchTurn { R.game with timer := R.game.timer - 1 } none },
                      calls := S.calls ++ [(n, EngineCall.switchTurn none)],
                      out := S.out ++ es ++ ts } ∧
      ts.length = R.players.keys.length ∧
      ∀ e ∈ ts, e.msg =
        Msg.timerUpdate (E.switchTurn { R.game with timer := R.game.timer - 1 } none).timer := by
  have hget : (S.ROOM_LIST.set n
      { R with game := E.switchTurn { R.game with timer := R.game.timer - 1 } none }).get n
      = some { R with game := E.switchTurn { R.game with timer := R.game.timer - 1 } none } :=
    Obj.get_set_self _ _ _
  obtain ⟨gs, es, _, _, _, hes⟩ := gameUpdate_some
    { S with ROOM_LIST := S.ROOM_LIST.set n
               { R with game := E.switchTurn { R.game with timer := R.game.timer - 1 } none },
             calls := S.calls ++ [(n, EngineCall.switchTurn none)] }
    n { R with game := E.switchTurn { R.game with timer := R.game.timer - 1 } none } hget
    (roomRefsValid_of_eq S _ R _ hv rfl rfl) (membersKnown_of_eq S _ R _ hk rfl rfl rfl)
  obtain ⟨ts, hts, hlen, hmsg, _⟩ := timerUpdates_some
    (E.switchTurn { R.game with timer := R.game.timer - 1 } none).timer R.players.keys
    { S with ROOM_LIST := S.ROOM_LIST.set n
               { R with game := E.switchTurn { R.game with timer := R.game.timer - 1 } none },
             calls := S.calls ++ [(n, EngineCall.switchTurn none)],
             out := S.out ++ es } hc
  refine ⟨es, ts, hes, ?_, hlen, hmsg⟩
  dsimp only at hes hts hget
  simp only [sweepRoom, hR]
  rw [if_pos ⟨hm, ho⟩]
  simp only [State.setRoom, Obj.set_set]
  rw [if_pos ht, hes]
  simp only [hget]
  rw [hts]

/-- The amended C16 on the room "R" of `exTimed`. -/
theorem C16_expired_countdown_switches_unforced_witness :
    (exTimed.ROOM_LIST.get "R" = some exTimedRoom ∧ exTimedRoom.mode = "timed" ∧
      exTimedRoom.game.over = false ∧ exTimedRoom.game.timer - 1 < 0 ∧
      membersConnected exTimed exTimedRoom ∧ roomRefsValid exTimed exTimedRoom ∧
      membersKnown exTimed exTimedRoom) ∧
    ∃ S', sweepRoom exEngine exTimed "R" = some S' ∧
      S'.calls = exTimed.calls ++ [("R", EngineCall.switchTurn none)] ∧
      (S'.ROOM_LIST.get "R").map (fun R => R.game.turn) = some "blue" := by
  refine ⟨⟨by decide, by decide, by decide, by decide, by unfold membersConnected; decide,
    by unfold roomRefsValid; decide, by unfold membersKnown; decide⟩, ?_⟩
  obtain ⟨es, ts, _, h, _, _⟩ :=
    C16_expired_countdown_switches_unforced exEngine exTimed "R" exTimedRoom (by decide)
      (by decide) (by decide) (by decide) (by unfold membersConnected; decide)
      (by unfold roomRefsValid; decide) (by unfold membersKnown; decide)
  exact ⟨_, h, rfl, by simp only [Obj.get_set_self, Option.map_some']; decide⟩

/-! ## C17: the operations that clear the guess proposals -/

theorem membersKnown_of_aliased (S : State) (R : Room) (hv : roomRefsValid S R)
    (ha : membersAliased S R) : membersKnown S R := by
  intro k hk
  obtain ⟨e, he, rfl⟩ := List.mem_map.1 hk
  exact (player_isSome_iff S e.1).2 ⟨e.2, ha e he, hv e he⟩

/-- The loop of `clearGuessProsposals` returns; it touches nothing but the guess proposals
of player objects, and the object of every session of the list ends without a proposal. -/
theorem clearLoop_spec (ks : List String) : ∀ (S : State),
    (∀ k ∈ ks, ∃ r, S.PLAYER_LIST.get k = some r ∧ r < S.heap.length) →
    ∃ h', clearLoop S ks = some { S with heap := h' } ∧ h'.length = S.heap.length ∧
      (∀ (r : Nat) (q : Player), S.heap[r]? = some q →
        h'[r]? = some q ∨ h'[r]? = some { q with guessProposal := none }) ∧
      ∀ k ∈ ks, ∀ r, S.PLAYER_LIST.get k = some r →
        ∃ q, h'[r]? = some q ∧ q.guessProposal = none := by
  induction ks with
  | nil => intro S _; exact ⟨S.heap, rfl, rfl, fun r q h => Or.inl h, by simp⟩
  | cons k t ih =>
    intro S h
    obtain ⟨r, hr1, hr2⟩ := h k (List.mem_cons_self _ _)
    obtain ⟨h', h1, h2, h3, h4⟩ := ih (S.setPlayer r { S.heap[r] with guessProposal := none })
      (fun k' hk' => by
        obtain ⟨r', hr1', hr2'⟩ := h k' (List.mem_cons_of_mem _ hk')
        exact ⟨r', hr1', by simpa [State.setPlayer] using hr2'⟩)
    have hself : (S.setPlayer r { S.heap[r] with guessProposal := none }).heap[r]?
        = some { S.heap[r] with guessProposal := none } := by
      simp [State.setPlayer, List.getElem?_set, hr2]
    have hcl : ∃ q, h'[r]? = some q ∧ q.guessProposal = none := by
      rcases h3 r _ hself with h5 | h5
      · exact ⟨_, h5, rfl⟩
      · exact ⟨_, h5, rfl⟩
    refine ⟨h', ?_, by simpa [State.setPlayer] using h2, ?_, ?_⟩
    · simp only [clearLoop, hr1, List.getElem?_eq_getElem hr2]
      rw [h1]
      rfl
    · intro r' q hq
      by_cases hrr : r' = r
      · subst hrr
        have hq' : S.heap[r'] = q := by
          rw [List.getElem?_eq_getElem hr2] at hq
          exact Option.some.inj hq
        have h6 := h3 r' _ hself
        rw [hq'] at h6
        rcases h6 with h5 | h5
        · exact Or.inr h5
        · exact Or.inr h5
      · have hother : (S.setPlayer r { S.heap[r] with guessProposal := none }).heap[r']?
            = some q := by
          simp only [State.setPlayer, List.getElem?_set_ne (Ne.symm hrr)]
          exact hq
        exact h3 r' q hother
    · intro k' hk' r' hr'
      rcases List.mem_cons.1 hk' with rfl | hk'
      · rw [hr1] at hr'
        cases hr'
        exact hcl
      · exact h4 k' hk' r' hr'

/-- On a room whose member references are valid and whose members are the objects of
`PLAYER_LIST`, `clearGuessProsposals` returns and leaves every member without a proposal. -/
theorem clearGuessProsposals_spec (S : State) (n : String) (R : Room)
    (hR : S.ROOM_LIST.get n = some R) (hv : roomRefsValid S R) (ha : membersAliased S R) :
    ∃ h', clearGuessProsposals S n = some { S with heap := h' } ∧
      h'.length = S.heap.length ∧
      ∀ e ∈ R.players, ∃ q, h'[e.2]? = some q ∧ q.guessProposal = none := by
  obtain ⟨h', h1, h2, _, h4⟩ := clearLoop_spec R.players.keys S (fun k hk => by
    obtain ⟨e, he, rfl⟩ := List.mem_map.1 hk
    exact ⟨e.2, ha e he, hv e he⟩)
  refine ⟨h', by simp only [clearGuessProsposals, hR]; exact h1, h2, fun e he => ?_⟩
  exact h4 e.1 (List.mem_map.2 ⟨e, he, rfl⟩) e.2 (ha e he)

/-- The loop of `newGame` returns when every session of the list has a `Player` and a
registered connection; it touches nothing but the role and the guess proposal of player
objects and the output log, and the object of every session of the list ends as a guesser
without a proposal. -/
theorem newGameLoop_spec (ks : List String) : ∀ (S : State),
    (∀ k ∈ ks, ∃ r, S.PLAYER_LIST.get k = some r ∧ r < S.heap.length) →
    (∀ k ∈ ks, (S.SOCKET_LIST.get k).isSome = true) →
    ∃ h' es, newGameLoop S ks = some { S with heap := h', out := S.out ++ es } ∧
      h'.length = S.heap.length ∧
      (∀ (r : Nat) (q : Player), S.heap[r]? = some q →
        h'[r]? = some q ∨ h'[r]? = some { q with role := "guesser", guessProposal := none }) ∧
      ∀ k ∈ ks, ∀ r, S.PLAYER_LIST.get k = some r →
        ∃ q, h'[r]? = some q ∧ q.guessProposal = none ∧ q.role = "guesser" := by
  induction ks with
  | nil => intro S _ _; exact ⟨S.heap, [], by simp [newGameLoop], rfl, fun r q h => Or.inl h, by simp⟩
  | cons k t ih =>
    intro S h hs
    obtain ⟨r, hr1, hr2⟩ := h k (List.mem_cons_self _ _)
    obtain ⟨sock, hsock⟩ := Option.isSome_iff_exists.1 (hs k (List.mem_cons_self _ _))
    obtain ⟨h', es, h1, h2, h3, h4⟩ := ih
      (((S.setPlayer r { S.heap[r] with role := "guesser", guessProposal := none }).emit
          sock.conn (Msg.switchRoleResponse true (some "guesser"))).emit
        sock.conn (Msg.newGameResponse true))
      (fun k' hk' => by
        obtain ⟨r', hr1', hr2'⟩ := h k' (List.mem_cons_of_mem _ hk')
        exact ⟨r', hr1', by simpa [State.setPlayer, State.emit] using hr2'⟩)
      (fun k' hk' => hs k' (List.mem_cons_of_mem _ hk'))
    have hself : (((S.setPlayer r { S.heap[r] with role := "guesser", guessProposal := none }).emit
          sock.conn (Msg.switchRoleResponse true (some "guesser"))).emit
        sock.conn (Msg.newGameResponse true)).heap[r]?
        = some { S.heap[r] with role := "guesser", guessProposal := none } := by
      simp [State.setPlayer, State.emit, List.getElem?_set, hr2]
    have hcl : ∃ q, h'[r]? = some q ∧ q.guessProposal = none ∧ q.role = "guesser" := by
      rcases h3 r _ hself with h5 | h5
      · exact ⟨_, h5, rfl, rfl⟩
      · exact ⟨_, h5, rfl, rfl⟩
    refine ⟨h', { conn := sock.conn, msg := Msg.switchRoleResponse true (some "guesser") } ::
      { conn := sock.conn, msg := Msg.newGameResponse true } :: es, ?_, by simpa [State.setPlayer, State.emit] using h2, ?_, ?_⟩
    · simp only [newGameLoop, hr1, List.getElem?_eq_getElem hr2, hsock]
      rw [h1]
      simp [State.setPlayer, State.emit]
    · intro r' q hq
      by_cases hrr : r' = r
      · subst hrr
        have hq' : S.heap[r'] = q := by
          rw [List.getElem?_eq_getElem hr2] at hq
          exact Option.some.inj hq
        have h6 := h3 r' _ hself
        rw [hq'] at h6
        rcases h6 with h5 | h5
        · exact Or.inr h5
        · exact Or.inr h5
      · have hother : (((S.setPlayer r
              { S.heap[r] with role := "guesser", guessProposal := none }).emit
              sock.conn (Msg.switchRoleResponse true (some "guesser"))).emit
            sock.conn (Msg.newGameResponse true)).heap[r']? = some q := by
          simp only [State.setPlayer, State.emit, List.getElem?_set_ne (Ne.symm hrr)]
          exact hq
        exact h3 r' q hother
    · intro k' hk' r' hr'
      rcases List.mem_cons.1 hk' with rfl | hk'
      · rw [hr1] at hr'
        cases hr'
        exact hcl
      · exact h4 k' hk' r' hr'

/-- A committed flip: the engine is called once, every member of the room ends without a
proposal, and the room is broadcast. -/
theorem flipAndUpdate_commit (E : Engine) (S : State) (n : String) (i j : Nat) (R : Room)
    (hR : S.ROOM_LIST.get n = some R) (hv : roomRefsValid S R) (ha : membersAliased S R) :
    ∃ S', flipAndUpdate E S n i j true = some S' ∧
      S'.calls = S.calls ++ [(n, EngineCall.flipTile i j)] ∧ proposalsCleared S' n := by
  have hget : (S.ROOM_LIST.set n { R with game := E.flipTile R.game i j }).get n
      = some { R with game := E.flipTile R.game i j } := Obj.get_set_self _ _ _
  obtain ⟨h', h1, h2, h3⟩ := clearGuessProsposals_spec
    { S with ROOM_LIST := S.ROOM_LIST.set n { R with game := E.flipTile R.game i j },
             calls := S.calls ++ [(n, EngineCall.flipTile i j)] }
    n { R with game := E.flipTile R.game i j } hget hv ha
  obtain ⟨gs, es, _, _, _, hes⟩ := gameUpdate_some
    { S with ROOM_LIST := S.ROOM_LIST.set n { R with game := E.flipTile R.game i j },
             calls := S.calls ++ [(n, EngineCall.flipTile i j)], heap := h' }
    n { R with game := E.flipTile R.game i j } hget
    (roomRefsValid_of_eq S _ R _ hv h2 rfl)
    (membersKnown_of_eq S _ R _ (membersKnown_of_aliased S R hv ha) rfl h2 rfl)
  have hres : flipAndUpdate E S n i j true =
      some { S with ROOM_LIST := S.ROOM_LIST.set n { R with game := E.flipTile R.game i j },
                    calls := S.calls ++ [(n, EngineCall.flipTile i j)], heap := h',
                    out := S.out ++ es } := by
    simp only [flipAndUpdate, if_true, hR, State.setRoom]
    rw [h1]
    exact hes
  exact ⟨_, hres, rfl, ⟨{ R with game := E.flipTile R.game i j }, hget, h3⟩⟩

/-- The `endTurn` handler on a well-formed room: it returns, the turn switch is called
with `true`, and every member of the room ends without a proposal. -/
theorem endTurn_clears (E : Engine) (S : State) (socket : Socket) (ref : Nat) (p : Player)
    (R : Room) (hp : S.PLAYER_LIST.get socket.sessionId = some ref) (hh : S.heap[ref]? = some p)
    (hR : S.ROOM_LIST.get p.room = some R) (hv : roomRefsValid S R) (ha : membersAliased S R) :
    ∃ S', endTurn E S socket = some S' ∧
      S'.calls = S.calls ++ [(p.room, EngineCall.switchTurn (some true))] ∧
      proposalsCleared S' p.room := by
  have hg : truthyAt S.PLAYER_LIST socket.sessionId = true := by simp [truthyAt, hp]
  have hget : (S.ROOM_LIST.set p.room { R with game := E.switchTurn R.game (some true) }).get
      p.room = some { R with game := E.switchTurn R.game (some true) } := Obj.get_set_self _ _ _
  obtain ⟨h', h1, h2, h3⟩ := clearGuessProsposals_spec
    { S with ROOM_LIST := S.ROOM_LIST.set p.room
               { R with game := E.switchTurn R.game (some true) },
             calls := S.calls ++ [(p.room, EngineCall.switchTurn (some true))] }
    p.room { R with game := E.switchTurn R.game (some true) } hget hv ha
  obtain ⟨gs, es, _, _, _, hes⟩ := gameUpdate_some
    { S with ROOM_LIST := S.ROOM_LIST.set p.room
               { R with game := E.switchTurn R.game (some true) },
             calls := S.calls ++ [(p.room, EngineCall.switchTurn (some true))], heap := h' }
    p.room { R with game := E.switchTurn R.game (some true) } hget
    (roomRefsValid_of_eq S _ R _ hv h2 rfl)
    (membersKnown_of_eq S _ R _ (membersKnown_of_aliased S R hv ha) rfl h2 rfl)
  have hres : endTurn E S socket =
      some { S with ROOM_LIST := S.ROOM_LIST.set p.room
                      { R with game := E.switchTurn R.game (some true) },
                    calls := S.calls ++ [(p.room, EngineCall.switchTurn (some true))],
                    heap := h', out := S.out ++ es } := by
    simp only [endTurn, hg, Bool.not_true, Bool.false_eq_true, if_false, hp, hh, hR,
      State.setRoom]
    rw [h1]
    exact hes
  exact ⟨_, hres, rfl, ⟨{ R with game := E.switchTurn R.game (some true) }, hget, h3⟩⟩

/-- The `switchConsensus` handler on a well-formed room: it returns, whatever the new
policy, and every member of the room ends without a proposal. -/
theorem switchConsensus_clears (S : State) (socket : Socket) (consensus : String) (ref : Nat)
    (p : Player) (R : Room) (hp : S.PLAYER_LIST.get socket.sessionId = some ref)
    (hh : S.heap[ref]? = some p) (hR : S.ROOM_LIST.get p.room = some R)
    (hv : roomRefsValid S R) (ha : membersAliased S R) :
    ∃ S', switchConsensus S socket consensus = some S' ∧
      S'.ROOM_LIST.get p.room = some { R with consensus := consensus } ∧
      proposalsCleared S' p.room := by
  have hg : truthyAt S.PLAYER_LIST socket.sessionId = true := by simp [truthyAt, hp]
  obtain ⟨h', h1, h2, h3⟩ := clearGuessProsposals_spec S p.room R hR hv ha
  have hget : (S.ROOM_LIST.set p.room { R with consensus := consensus }).get p.room
      = some { R with consensus := consensus } := Obj.get_set_self _ _ _
  obtain ⟨gs, es, _, _, _, hes⟩ := gameUpdate_some
    { S with heap := h', ROOM_LIST := S.ROOM_LIST.set p.room { R with consensus := consensus } }
    p.room { R with consensus := consensus } hget
    (roomRefsValid_of_eq S _ R _ hv h2 rfl)
    (membersKnown_of_eq S _ R _ (membersKnown_of_aliased S R hv ha) rfl h2 rfl)
  have hres : switchConsensus S socket consensus =
      some { S with heap := h',
                    ROOM_LIST := S.ROOM_LIST.set p.room { R with consensus := consensus },
                    out := S.out ++ es } := by
    simp only [switchConsensus, hg, Bool.not_true, Bool.false_eq_true, if_false, hp, hh, h1, hR,
      State.setRoom]
    exact hes
  exact ⟨_, hres, hget, ⟨{ R with consensus := consensus }, hget, h3⟩⟩

/-- The function `newGame` on a well-formed room whose members all have a registered
connection: it returns, the engine's `init` is called, and every member of the room ends
as a guesser without a proposal. -/
theorem newGame_clears (E : Engine) (S : State) (socket : Socket) (ref : Nat) (p : Player)
    (R : Room) (hp : S.PLAYER_LIST.get socket.sessionId = some ref) (hh : S.heap[ref]? = some p)
    (hR : S.ROOM_LIST.get p.room = some R) (hv : roomRefsValid S R) (ha : membersAliased S R)
    (hc : membersConnected S R) :
    ∃ S', newGame E S socket = some S' ∧ S'.calls = S.calls ++ [(p.room, EngineCall.init)] ∧
      proposalsCleared S' p.room := by
  have hg : truthyAt S.PLAYER_LIST socket.sessionId = true := by simp [truthyAt, hp]
  have hget : (S.ROOM_LIST.set p.room { R with game := E.init R.game }).get p.room
      = some { R with game := E.init R.game } := Obj.get_set_self _ _ _
  obtain ⟨h', es0, h1, h2, _, h4⟩ := newGameLoop_spec R.players.keys
    { S with ROOM_LIST := S.ROOM_LIST.set p.room { R with game := E.init R.game },
             calls := S.calls ++ [(p.room, EngineCall.init)] }
    (fun k hk => by
      obtain ⟨e, he, rfl⟩ := List.mem_map.1 hk
      exact ⟨e.2, ha e he, hv e he⟩)
    hc
  obtain ⟨gs, es, _, _, _, hes⟩ := gameUpdate_some
    { S with ROOM_LIST := S.ROOM_LIST.set p.room { R with game := E.init R.game },
             calls := S.calls ++ [(p.room, EngineCall.init)], heap := h',
             out := S.out ++ es0 }
    p.room { R with game := E.init R.game } hget
    (roomRefsValid_of_eq S _ R _ hv h2 rfl)
    (membersKnown_of_eq S _ R _ (membersKnown_of_aliased S R hv ha) rfl h2 rfl)
  have hres : newGame E S socket =
      some { S with ROOM_LIST := S.ROOM_LIST.set p.room { R with game := E.init R.game },
                    calls := S.calls ++ [(p.room, EngineCall.init)], heap := h',
                    out := S.out ++ es0 ++ es } := by
    simp only [newGame, hg, Bool.not_true, Bool.false_eq_true, if_false, hp, hh, hR,
      State.setRoom]
    rw [h1]
    exact hes
  refine ⟨_, hres, rfl, ⟨{ R with game := E.init R.game }, hget, fun e he => ?_⟩⟩
  obtain ⟨q, hq1, hq2, _⟩ := h4 e.1 (List.mem_map.2 ⟨e, he, rfl⟩) e.2 (ha e he)
  exact ⟨q, hq1, hq2⟩

theorem calls_ne_append (l : List (String × EngineCall)) (x : String × EngineCall) :
    l ≠ l ++ [x] := by
  intro h
  have := congrArg List.length h
  simp at this

/-- A click that calls `flipTile` leaves every member of the room without a proposal. -/
theorem clickTile_flip_clears (E : Engine) (S S' : State) (socket : Socket) (i j ref : Nat)
    (p : Player) (R : Room) (hp : S.PLAYER_LIST.get socket.sessionId = some ref)
    (hh : S.heap[ref]? = some p) (hR : S.ROOM_LIST.get p.room = some R)
    (hv : roomRefsValid S R) (ha : membersAliased S R)
    (hc : clickTile E S socket i j = some S')
    (hcalls : S'.calls = S.calls ++ [(p.room, EngineCall.flipTile i j)]) :
    proposalsCleared S' p.room := by
  have hg : truthyAt S.PLAYER_LIST socket.sessionId = true := by simp [truthyAt, hp]
  have hsame : ∀ T : State, gameUpdate T p.room = some S' → T.calls = S.calls → False := by
    intro T hu hT
    obtain ⟨es, rfl⟩ := gameUpdate_inv T S' p.room hu
    exact calls_ne_append _ _ (hT.symm.trans hcalls)
  have hid : some S = some S' → False := by
    intro h
    cases h
    exact calls_ne_append _ _ hcalls
  simp only [clickTile, hg, Bool.not_true, Bool.false_eq_true, if_false, hp, hh, hR] at hc
  by_cases hturn : p.team = R.game.turn
  · rw [if_pos hturn] at hc
    cases hover : R.game.over with
    | true =>
      simp only [hover, Bool.not_true, Bool.false_eq_true, if_false] at hc
      exact (hid hc).elim
    | false =>
      simp only [hover, Bool.not_false, if_true] at hc
      by_cases hrole : p.role ≠ "spymaster"
      · rw [if_pos hrole] at hc
        by_cases hcons : R.consensus = "consensus"
        · rw [if_pos hcons] at hc
          cases hw : R.game.word i j with
          | none => simp [hw] at hc
          | some w =>
            simp only [hw] at hc
            by_cases hprop : p.guessProposal = some w
            · rw [if_pos hprop] at hc
              exact (hsame _ hc rfl).elim
            · rw [if_neg hprop] at hc
              cases hagree : allAgree (S.setPlayer ref { p with guessProposal := some w })
                  R.game.turn w R.players.keys with
              | none => simp [hagree] at hc
              | some b =>
                simp only [hagree] at hc
                cases b with
                | false =>
                  simp only [flipAndUpdate, Bool.false_eq_true, if_false] at hc
                  exact (hsame _ hc rfl).elim
                | true =>
                  obtain ⟨S'', h1, _, h3⟩ := flipAndUpdate_commit E
                    (S.setPlayer ref { p with guessProposal := some w }) p.room i j R hR
                    (roomRefsValid_of_eq S _ R R hv (by simp [State.setPlayer]) rfl) ha
                  rw [h1] at hc
                  cases hc
                  exact h3
        · rw [if_neg hcons] at hc
          obtain ⟨S'', h1, _, h3⟩ := flipAndUpdate_commit E S p.room i j R hR hv ha
          rw [h1] at hc
          cases hc
          exact h3
      · rw [if_neg hrole] at hc
        exact (hid hc).elim
  · rw [if_neg hturn] at hc
    exact (hid hc).elim

/-- Under the single policy an accepted click flips the tile. -/
theorem clickTile_single_flips (E : Engine) (S : State) (socket : Socket) (i j ref : Nat)
    (p : Player) (R : Room) (hp : S.PLAYER_LIST.get socket.sessionId = some ref)
    (hh : S.heap[ref]? = some p) (hR : S.ROOM_LIST.get p.room = some R)
    (hv : roomRefsValid S R) (ha : membersAliased S R)
    (hturn : p.team = R.game.turn) (hover : R.game.over = false) (hrole : p.role ≠ "spymaster")
    (hcons : R.consensus ≠ "consensus") :
    ∃ S', clickTile E S socket i j = some S' ∧
      S'.calls = S.calls ++ [(p.room, EngineCall.flipTile i j)] := by
  have hg : truthyAt S.PLAYER_LIST socket.sessionId = true := by simp [truthyAt, hp]
  obtain ⟨S', h1, h2, _⟩ := flipAndUpdate_commit E S p.room i j R hR hv ha
  refine ⟨S', ?_, h2⟩
  simp only [clickTile, hg, Bool.not_true, Bool.false_eq_true, if_false, hp, hh, hR]
  rw [if_pos hturn, if_pos hrole, if_neg hcons]
  simp only [hover, Bool.not_false, if_true]
  exact h1

/-- C17. On a room whose member references are valid and whose members are the objects of
`PLAYER_LIST`, each clearing operation sent by a member returns and leaves the guess
proposal of every member of the room null: `endTurn`, `switchConsensus` with any new
policy, `newGame` (when every member has a registered connection), and every click that
commits a flip; under the single policy every accepted click commits a flip. -/
theorem C17_proposals_cleared (E : Engine) (S : State) (socket : Socket) (ref : Nat)
    (p : Player) (R : Room) (hp : S.PLAYER_LIST.get socket.sessionId = some ref)
    (hh : S.heap[ref]? = some p) (hR : S.ROOM_LIST.get p.room = some R)
    (hv : roomRefsValid S R) (ha : membersAliased S R) :
    (∃ S', endTurn E S socket = some S' ∧ proposalsCleared S' p.room) ∧
    (∀ consensus, ∃ S', switchConsensus S socket consensus = some S' ∧
      proposalsCleared S' p.room) ∧
    (membersConnected S R → ∃ S', newGame E S socket = some S' ∧ proposalsCleared S' p.room) ∧
    (∀ i j S', clickTile E S socket i j = some S' →
      S'.calls = S.calls ++ [(p.room, EngineCall.flipTile i j)] → proposalsCleared S' p.room) ∧
    (p.team = R.game.turn → R.game.over = false → p.role ≠ "spymaster" →
      R.consensus ≠ "consensus" → ∀ i j, ∃ S', clickTile E S socket i j = some S' ∧
        S'.calls = S.calls ++ [(p.room, EngineCall.flipTile i j)] ∧
        proposalsCleared S' p.room) := by
  refine ⟨?_, fun consensus => ?_, fun hc => ?_, fun i j S' hc hcalls => ?_,
    fun hturn hover hrole hcons i j => ?_⟩
  · obtain ⟨S', h1, _, h3⟩ := endTurn_clears E S socket ref p R hp hh hR hv ha
    exact ⟨S', h1, h3⟩
  · obtain ⟨S', h1, _, h3⟩ := switchConsensus_clears S socket consensus ref p R hp hh hR hv ha
    exact ⟨S', h1, h3⟩
  · obtain ⟨S', h1, _, h3⟩ := newGame_clears E S socket ref p R hp hh hR hv ha hc
    exact ⟨S', h1, h3⟩
  · exact clickTile_flip_clears E S S' socket i j ref p R hp hh hR hv ha hc hcalls
  · obtain ⟨S', h1, h2⟩ := clickTile_single_flips E S socket i j ref p R hp hh hR hv ha hturn
      hover hrole hcons
    exact ⟨S', h1, h2, clickTile_flip_clears E S S' socket i j ref p R hp hh hR hv ha h1 h2⟩

/-- C17 on the state `exVote`, for the member `tokA`. -/
theorem C17_proposals_cleared_witness :
    (exVote.PLAYER_LIST.get sockA.sessionId = some 0 ∧ exVote.heap[0]? = some exVoterA ∧
      exVote.ROOM_LIST.get exVoterA.room = some exVoteRoom ∧
      roomRefsValid exVote exVoteRoom ∧ membersAliased exVote exVoteRoom) ∧
    ((∃ S', endTurn exEngine exVote sockA = some S' ∧ proposalsCleared S' exVoterA.room) ∧
    (∀ consensus, ∃ S', switchConsensus exVote sockA consensus = some S' ∧
      proposalsCleared S' exVoterA.room) ∧
    (membersConnected exVote exVoteRoom →
      ∃ S', newGame exEngine exVote sockA = some S' ∧ proposalsCleared S' exVoterA.room) ∧
    (∀ i j S', clickTile exEngine exVote sockA i j = some S' →
      S'.calls = exVote.calls ++ [(exVoterA.room, EngineCall.flipTile i j)] →
      proposalsCleared S' exVoterA.room) ∧
    (exVoterA.team = exVoteRoom.game.turn → exVoteRoom.game.over = false →
      exVoterA.role ≠ "spymaster" → exVoteRoom.consensus ≠ "consensus" →
      ∀ i j, ∃ S', clickTile exEngine exVote sockA i j = some S' ∧
        S'.calls = exVote.calls ++ [(exVoterA.room, EngineCall.flipTile i j)] ∧
        proposalsCleared S' exVoterA.room)) :=
  ⟨⟨by decide, by decide, by decide, by unfold roomRefsValid; decide,
      by unfold membersAliased; decide⟩,
    C17_proposals_cleared exEngine exVote sockA 0 exVoterA exVoteRoom (by decide) (by decide)
      (by decide) (by unfold roomRefsValid; decide) (by unfold membersAliased; decide)⟩

/-- The clearing operations on `exVote`, where `tokB` proposes "apple": after each of them
no player object holds a proposal. -/
theorem clearing_exVote :
    (exVote.heap.map (fun q => q.guessProposal) = [none, some "apple", none]) ∧
    ((endTurn exEngine exVote sockA).map (fun S => S.heap.map (fun q => q.guessProposal))
      = some [none, none, none]) ∧
    ((switchConsensus exVote sockA "single").map
        (fun S => S.heap.map (fun q => q.guessProposal)) = some [none, none, none]) ∧
    ((newGame exEngine exVote sockA).map (fun S => S.heap.map (fun q => q.guessProposal))
      = some [none, none, none]) ∧
    ((clickTile exEngine exVote sockA 0 0).map
        (fun S => S.heap.map (fun q => q.guessProposal)) = some [none, none, none]) := by
  refine ⟨by decide, by decide, by decide, by decide, by decide⟩

/-! ## C18, C19, C20: rejections and guards of the game handlers -/

/-- C18. A click by a spymaster, by a player whose team is not in turn, or in a game that
is over returns the state as it is: no player, room or game changes, no proposal is
recorded, no engine call is made and nothing is emitted. -/
theorem C18_clickTile_rejects_silently (E : Engine) (S : State) (socket : Socket) (i j ref : Nat)
    (p : Player) (R : Room)
    (hp : S.PLAYER_LIST.get socket.sessionId = some ref) (hh : S.heap[ref]? = some p)
    (hR : S.ROOM_LIST.get p.room = some R)
    (hrej : p.role = "spymaster" ∨ p.team ≠ R.game.turn ∨ R.game.over = true) :
    clickTile E S socket i j = some S := by
  have hg : truthyAt S.PLAYER_LIST socket.sessionId = true := by simp [truthyAt, hp]
  simp only [clickTile, hg, Bool.not_true, Bool.false_eq_true, if_false, hp, hh, hR]
  rcases hrej with h | h | h
  · simp [h]
  · simp [h]
  · simp [h]

/-- C18 on the state `exVote`: the blue guesser `tokC` clicks while red is in turn. -/
theorem C18_clickTile_rejects_silently_witness :
    (exVote.PLAYER_LIST.get sockC.sessionId = some 2 ∧ exVote.heap[2]? = some exVoterC ∧
      exVote.ROOM_LIST.get exVoterC.room = some exVoteRoom ∧
      (exVoterC.role = "spymaster" ∨ exVoterC.team ≠ exVoteRoom.game.turn ∨
        exVoteRoom.game.over = true)) ∧
    clickTile exEngine exVote sockC 0 0 = some exVote :=
  ⟨⟨by decide, by decide, by decide, by decide⟩,
    C18_clickTile_rejects_silently exEngine exVote sockC 0 0 2 exVoterC exVoteRoom
      (by decide) (by decide) (by decide) (by decide)⟩

/-- C19, counterexample. On `exSpy` the red spymaster `tokA` asks for the role "guesser":
the state is not mutated, but the handler answers on the requesting connection with
`switchRoleResponse` carrying `success: false`, so the request is not silent. -/
theorem C19_counterexample_spymaster_is_answered :
    exSpy.player tokA = some { exVoterA with role := "spymaster" } ∧
    switchRole exSpy sockA "guesser" =
      some (exSpy.emit sockA.conn (Msg.switchRoleResponse false none)) ∧
    (switchRole exSpy sockA "guesser").map (fun S => S.out) ≠ some exSpy.out := by
  refine ⟨by decide, by decide, by decide⟩

/-- C19, amended. A `switchRole` request from a player whose role is already spymaster
mutates no player, room or game and broadcasts nothing, and it is answered by exactly one
`switchRoleResponse` with `success: false` on the requesting connection. -/
theorem C19_spymaster_switch_refused (S : State) (socket : Socket) (role : String) (ref : Nat)
    (p : Player) (hp : S.PLAYER_LIST.get socket.sessionId = some ref)
    (hh : S.heap[ref]? = some p) (hrole : p.role = "spymaster") :
    switchRole S socket role =
      some (S.emit socket.conn (Msg.switchRoleResponse false none)) := by
  have hg : truthyAt S.PLAYER_LIST socket.sessionId = true := by simp [truthyAt, hp]
  simp only [switchRole, hg, Bool.not_true, Bool.false_eq_true, if_false, hp, hh]
  by_cases ht : p.team = "undecided"
  · simp [ht]
  · simp [ht, hrole]

/-- The amended C19 on the state `exSpy`. -/
theorem C19_spymaster_switch_refused_witness :
    (exSpy.PLAYER_LIST.get sockA.sessionId = some 0 ∧
      exSpy.heap[0]? = some { exVoterA with role := "spymaster" }) ∧
    switchRole exSpy sockA "guesser" =
      some (exSpy.emit sockA.conn (Msg.switchRoleResponse false none)) :=
  ⟨⟨by decide, by decide⟩,
    C19_spymaster_switch_refused exSpy sockA "guesser" 0 { exVoterA with role := "spymaster" }
      (by decide) (by decide) (by decide)⟩

/-- For a session without a `Player` whose id is not the name of a property inherited from
`Object.prototype`, every player-scoped handler returns the state as it is, whatever the
payload: no error, no change of a registry, nothing emitted. -/
theorem handlers_noop_without_player (E : Engine) (S : State) (socket : Socket)
    (h : S.PLAYER_LIST.get socket.sessionId = none)
    (hk : socket.sessionId ∉ objectPrototypeKeys) :
    leaveRoom S socket = some S ∧ (∀ team, joinTeam S socket team = some S) ∧
    (∀ coin picks, randomizeTeams S socket coin picks = some S) ∧
    newGame E S socket = some S ∧ (∀ role, switchRole S socket role = some S) ∧
    (∀ difficulty, switchDifficulty S socket difficulty = some S) ∧
    (∀ mode, switchMode S socket mode = some S) ∧
    (∀ consensus, switchConsensus S socket consensus = some S) ∧
    endTurn E S socket = some S ∧ (∀ i j, clickTile E S socket i j = some S) ∧
    (∀ clue, declareClue E S socket clue = some S) ∧
    (∀ pack, changeCards E S socket pack = some S) ∧
    (∀ value, timerSlider S socket value = some S) ∧ wildcard S socket = some S := by
  have hg : truthyAt S.PLAYER_LIST socket.sessionId = false := (truthyAt_false_iff _ _).2 ⟨h, hk⟩
  refine ⟨?_, ?_, ?_, ?_, ?_, ?_, ?_, ?_, ?_, ?_, ?_, ?_, ?_, ?_⟩
  · simp [leaveRoom, hg]
  · intro team; simp [joinTeam, hg]
  · intro coin picks; simp [randomizeTeams, hg]
  · simp [newGame, hg]
  · intro role; simp [switchRole, hg]
  · intro d; simp [switchDifficulty, hg]
  · intro m; simp [switchMode, hg]
  · intro c; simp [switchConsensus, hg]
  · simp [endTurn, hg]
  · intro i j; simp [clickTile, hg]
  · intro clue; simp [declareClue, hg]
  · intro pack; simp [changeCards, hg]
  · intro v; simp [timerSlider, hg]
  · simp [wildcard, hg]

/-- C20, failing input. The session id of `sockIntruder` is "constructor": the session has
no `Player`, yet the guard `!PLAYER_LIST[socket.sessionId]` is false, because the read
yields the inherited `Object.prototype.constructor`. On `exIntruder`, where no room is named
"undefined", each of these handlers then throws instead of returning. -/
theorem C20_guard_passes_for_inherited_session_id :
    exIntruder.PLAYER_LIST.get sockIntruder.sessionId = none ∧
    truthyAt exIntruder.PLAYER_LIST sockIntruder.sessionId = true ∧
    exIntruder.ROOM_LIST.get "undefined" = none ∧
    leaveRoom exIntruder sockIntruder = none ∧
    joinTeam exIntruder sockIntruder "red" = none ∧
    randomizeTeams exIntruder sockIntruder true [] = none ∧
    newGame exEngine exIntruder sockIntruder = none ∧
    switchDifficulty exIntruder sockIntruder "hard" = none ∧
    switchMode exIntruder sockIntruder "timed" = none ∧
    switchConsensus exIntruder sockIntruder "consensus" = none ∧
    endTurn exEngine exIntruder sockIntruder = none ∧
    clickTile exEngine exIntruder sockIntruder 0 0 = none ∧
    declareClue exEngine exIntruder sockIntruder "fruit" = none ∧
    changeCards exEngine exIntruder sockIntruder "duet" = none ∧
    timerSlider exIntruder sockIntruder 5 = none := by
  refine ⟨by decide, by decide, by decide, by decide, by decide, by decide, by decide,
    by decide, by decide, by decide, by decide, by decide, by decide, by decide, by decide⟩

/-! ## Session ids and grace timers -/

theorem isToken_length (k : String) (h : isToken k = true) : k.length = 32 := by
  simp only [isToken, Bool.and_eq_true, decide_eq_true_eq] at h
  exact h.1

theorem isToken_not_inherited (k : String) (h : isToken k = true) :
    k ∉ objectPrototypeKeys := by
  intro hk
  have hl := isToken_length k h
  have hall : ∀ x ∈ objectPrototypeKeys, x.length ≠ 32 := by decide
  exact hall k hk hl

theorem isToken_ne_null (k : String) (h : isToken k = true) : k ≠ "null" := by
  intro hk
  have hl := isToken_length k h
  rw [hk] at hl
  exact absurd hl (by decide)

theorem SessionInv.ses_init : SessionInv State.init :=
  ⟨by simp [State.init], by simp [State.init, Obj.get], by simp [State.init],
    by simp [State.init], by simp [State.init, Obj.get]⟩

/-- A change that keeps the grace timers and their markers keeps the invariant, as long as
new connections and new players bear tokens. -/
theorem SessionInv.ses_congr {S S' : State} (h : SessionInv S)
    (hc : ∀ s ∈ S'.conns, s ∈ S.conns ∨ isToken s.sessionId = true)
    (hp : ∀ k r, S'.PLAYER_LIST.get k = some r →
      (∃ r0, S.PLAYER_LIST.get k = some r0) ∨ isToken k = true)
    (ht : ∀ id s, (id, TimerAction.session s) ∈ S'.timers ↔
      (id, TimerAction.session s) ∈ S.timers)
    (hd : S'.DELETE_SESSION_LIST = S.DELETE_SESSION_LIST) : SessionInv S' := by
  refine ⟨?_, ?_, ?_, ?_, ?_⟩
  · intro s hs
    rcases hc s hs with h1 | h1
    · exact h.1 s h1
    · exact h1
  · intro k r hk
    rcases hp k r hk with ⟨r0, h1⟩ | h1
    · exact h.2 k r0 h1
    · exact h1
  · intro id s hs
    exact h.3 id s ((ht id s).1 hs)
  · intro id s hs
    rw [hd]
    exact h.4 id s ((ht id s).1 hs)
  · intro k id hk
    rw [hd] at hk
    obtain ⟨s, hs1, hs2⟩ := h.5 k id hk
    exact ⟨s, hs1, (ht id s).2 hs2⟩

/-- Starting the grace timer of a session that has none keeps the invariant. -/
theorem SessionInv.ses_start {S : State} (h : SessionInv S) (socket : Socket)
    (htok : isToken socket.sessionId = true)
    (hno : S.DELETE_SESSION_LIST.get socket.sessionId = none) :
    SessionInv (graceStarted S socket) := by
  refine ⟨h.1, h.2, ?_, ?_, ?_⟩
  · intro id s hs
    simp only [graceStarted, setTimeout, List.mem_append, List.mem_singleton, Prod.mk.injEq,
      TimerAction.session.injEq] at hs
    rcases hs with hs | ⟨_, rfl⟩
    · exact h.3 id s hs
    · exact htok
  · intro id s hs
    simp only [graceStarted, setTimeout, List.mem_append, List.mem_singleton, Prod.mk.injEq,
      TimerAction.session.injEq] at hs
    rcases hs with hs | ⟨rfl, rfl⟩
    · have hrec := h.4 id s hs
      have hne : s.sessionId ≠ socket.sessionId := by
        intro he
        rw [he, hno] at hrec
        cases hrec
      simp only [graceStarted, setTimeout]
      rw [Obj.get_set_ne _ _ _ _ hne]
      exact hrec
    · simp only [graceStarted, setTimeout]
      exact Obj.get_set_self _ _ _
  · intro k id hk
    simp only [graceStarted, setTimeout] at hk
    by_cases hks : k = socket.sessionId
    · subst hks
      rw [Obj.get_set_self] at hk
      cases hk
      exact ⟨socket, rfl, by simp [graceStarted, setTimeout]⟩
    · rw [Obj.get_set_ne _ _ _ _ hks] at hk
      obtain ⟨s, hs1, hs2⟩ := h.5 k id hk
      exact ⟨s, hs1, by
        simp only [graceStarted, setTimeout]
        exact List.mem_append_left _ hs2⟩

/-- Cancelling the recorded grace timer of a session keeps the invariant. -/
theorem SessionInv.ses_cancel {S : State} (h : SessionInv S) (hi : Inv S) (k : String)
    (id : Nat) (hk : S.DELETE_SESSION_LIST.get k = some id) :
    SessionInv (graceCancelled S k id) := by
  obtain ⟨s0, hs0, hin0⟩ := h.5 k id hk
  refine ⟨h.1, h.2, ?_, ?_, ?_⟩
  · intro id' s hs
    exact h.3 id' s ((mem_clearTimeout S id _).1 hs).1
  · intro id' s hs
    obtain ⟨hin, hne⟩ := (mem_clearTimeout S id _).1 hs
    have hrec := h.4 id' s hin
    have hks : s.sessionId ≠ k := by
      intro he
      rw [he, hk] at hrec
      exact hne (Option.some.inj hrec).symm
    simp only [graceCancelled, clearTimeout]
    rw [Obj.get_del_ne _ _ _ hks]
    exact hrec
  · intro k' id' hk'
    have hks : k' ≠ k := by
      intro he
      subst he
      simp [graceCancelled, clearTimeout, Obj.get_del_self] at hk'
    simp only [graceCancelled, clearTimeout] at hk'
    rw [Obj.get_del_ne _ _ _ hks] at hk'
    obtain ⟨s, hs1, hs2⟩ := h.5 k' id' hk'
    refine ⟨s, hs1, (mem_clearTimeout S id _).2 ⟨hs2, fun he => ?_⟩⟩
    have he' : id' = id := he
    rw [he'] at hs2
    have := timer_unique S.timers hi.5 id _ _ hs2 hin0
    cases this
    exact hks (hs1.symm.trans hs0)

/-! ## The connections through the room events -/

theorem deleteRoom_wiring (S : State) (n : String) :
    (deleteRoom S n).conns = S.conns ∧ (deleteRoom S n).nextConn = S.nextConn ∧
      (deleteRoom S n).SOCKET_LIST = S.SOCKET_LIST ∧
      (deleteRoom S n).DELETE_SESSION_LIST = S.DELETE_SESSION_LIST ∧
      ∀ id s, (id, TimerAction.session s) ∈ (deleteRoom S n).timers ↔
        (id, TimerAction.session s) ∈ S.timers := by
  unfold deleteRoom
  cases truthyAt S.DELETE_ROOM_LIST n <;> simp [setTimeout]

/-- The removal of a member, the broadcast and the scheduling of the deletion change
neither the connections nor the grace timers. -/
theorem departure_wiring (S2 S3 S3' S4 : State) (room key : String)
    (h2 : removeMember S2 room key = some S3) (h3 : gameUpdate S3 room = some S3')
    (h4 : deleteRoomIfEmpty S3' room = some S4) :
    S4.conns = S2.conns ∧ S4.nextConn = S2.nextConn ∧ S4.SOCKET_LIST = S2.SOCKET_LIST ∧
      S4.DELETE_SESSION_LIST = S2.DELETE_SESSION_LIST ∧
      ∀ id s, (id, TimerAction.session s) ∈ S4.timers ↔
        (id, TimerAction.session s) ∈ S2.timers := by
  unfold removeMember at h2
  cases hR : S2.ROOM_LIST.get room with
  | none => simp [hR] at h2
  | some R =>
    simp only [hR, Option.some.injEq] at h2
    subst h2
    obtain ⟨es, rfl⟩ := gameUpdate_inv _ _ _ h3
    unfold deleteRoomIfEmpty at h4
    split at h4
    · cases h4
    · split at h4
      · cases h4
        exact deleteRoom_wiring _ _
      · cases h4
        exact ⟨rfl, rfl, rfl, rfl, fun _ _ => Iff.rfl⟩

theorem createRoom_wiring (E : Engine) (S S' : State) (socket : Socket) (data : RoomData)
    (h : createRoom E S socket data = some S') :
    S'.conns = S.conns ∧ S'.nextConn = S.nextConn ∧ S'.SOCKET_LIST = S.SOCKET_LIST := by
  cases h1 : truthyAt S.ROOM_LIST (trim data.room) with
  | true =>
    rw [(createRoom_validation E S socket data).1 h1] at h
    cases h
    exact ⟨rfl, rfl, rfl⟩
  | false =>
    by_cases h2 : trim data.room = ""
    · rw [(createRoom_validation E S socket data).2.1 h1 h2] at h
      cases h
      exact ⟨rfl, rfl, rfl⟩
    · by_cases h3 : trim data.nickname = ""
      · rw [(createRoom_validation E S socket data).2.2 h1 h2 h3] at h
        cases h
        exact ⟨rfl, rfl, rfl⟩
      · rw [createRoom_success_eq E S socket data h1 h2 h3] at h
        obtain ⟨es, rfl⟩ := gameUpdate_inv _ _ _ h
        exact ⟨rfl, rfl, rfl⟩

theorem joinRoom_wiring (S S' : State) (socket : Socket) (data : RoomData)
    (h : joinRoom S socket data = some S') :
    S'.conns = S.conns ∧ S'.nextConn = S.nextConn ∧ S'.SOCKET_LIST = S.SOCKET_LIST := by
  cases h1 : truthyAt S.ROOM_LIST (trim data.room) with
  | false =>
    rw [(joinRoom_validation S socket data).1 h1] at h
    cases h
    exact ⟨rfl, rfl, rfl⟩
  | true =>
    cases hR : S.ROOM_LIST.get (trim data.room) with
    | none =>
      have hk : trim data.room ∈ objectPrototypeKeys := by
        simpa [truthyAt, hR] using h1
      rw [(joinRoom_validation S socket data).2.2.2 hR hk] at h
      cases h
      exact ⟨rfl, rfl, rfl⟩
    | some R =>
      by_cases hp : R.password = trim data.password
      · by_cases hn : trim data.nickname = ""
        · rw [(joinRoom_validation S socket data).2.2.1 R hR hp hn] at h
          cases h
          exact ⟨rfl, rfl, rfl⟩
        · rw [joinRoom_success_eq S socket data R hR hp hn] at h
          have hR0 : (cancelDeletion S (trim data.room)).ROOM_LIST.get (trim data.room)
              = some R := by
            rw [(cancelDeletion_fields S (trim data.room)).1]; exact hR
          rw [enterRoom_eq _ _ _ _ R hR0] at h
          cases ht : memberNicknames (cancelDeletion S (trim data.room)) R with
          | none => simp [ht] at h
          | some taken =>
            cases hs : nameSearch taken (trim data.nickname) (taken.length + 1)
                (trim data.nickname) 0 with
            | none => simp [ht, hs] at h
            | some name =>
              simp only [ht, hs, Option.map_some'] at h
              obtain ⟨es, rfl⟩ := gameUpdate_inv _ _ _ h
              have hcd : (cancelDeletion S (trim data.room)).conns = S.conns ∧
                  (cancelDeletion S (trim data.room)).nextConn = S.nextConn ∧
                  (cancelDeletion S (trim data.room)).SOCKET_LIST = S.SOCKET_LIST := by
                unfold cancelDeletion
                cases S.DELETE_ROOM_LIST.get (trim data.room) <;> simp [clearTimeout]
              exact hcd
      · rw [(joinRoom_validation S socket data).2.1 R hR hp] at h
        cases h
        exact ⟨rfl, rfl, rfl⟩

theorem leaveRoom_wiring (S S' : State) (socket : Socket) (h : leaveRoom S socket = some S') :
    S'.conns = S.conns ∧ S'.nextConn = S.nextConn ∧ S'.SOCKET_LIST = S.SOCKET_LIST ∧
      S'.DELETE_SESSION_LIST = S.DELETE_SESSION_LIST ∧
      ∀ id s, (id, TimerAction.session s) ∈ S'.timers ↔
        (id, TimerAction.session s) ∈ S.timers := by
  unfold leaveRoom at h
  split at h
  · cases h
    exact ⟨rfl, rfl, rfl, rfl, fun _ _ => Iff.rfl⟩
  · cases hk : S.PLAYER_LIST.get socket.sessionId with
    | none => simp [hk] at h
    | some r =>
      cases hp : S.heap[r]? with
      | none => simp [hk, hp] at h
      | some p =>
        simp only [hk, hp] at h
        cases h2 : removeMember { S with PLAYER_LIST := S.PLAYER_LIST.del p.id } p.room p.id with
        | none => simp [h2] at h
        | some S3 =>
          cases h3 : gameUpdate S3 p.room with
          | none => simp [h2, h3] at h
          | some S3' =>
            cases h4 : deleteRoomIfEmpty S3' p.room with
            | none => simp [h2, h3, h4] at h
            | some S4 =>
              simp only [h2, h3, h4, Option.some.injEq] at h
              subst h
              exact departure_wiring { S with PLAYER_LIST := S.PLAYER_LIST.del p.id } S3 S3' S4
                p.room p.id h2 h3 h4

theorem socketDisconnect_wiring (S S' : State) (socket : Socket)
    (h : socketDisconnect S socket = some S') :
    S'.conns = S.conns ∧ S'.nextConn = S.nextConn ∧
      S'.SOCKET_LIST = S.SOCKET_LIST.del socket.sessionId ∧
      S'.DELETE_SESSION_LIST = S.DELETE_SESSION_LIST ∧
      ∀ id s, (id, TimerAction.session s) ∈ S'.timers ↔
        (id, TimerAction.session s) ∈ S.timers := by
  unfold socketDisconnect at h
  cases hk : S.PLAYER_LIST.get socket.sessionId with
  | none =>
    simp only [hk, Option.some.injEq] at h
    subst h
    exact ⟨rfl, rfl, rfl, rfl, fun _ _ => Iff.rfl⟩
  | some r =>
    cases hp : S.heap[r]? with
    | none => simp [hk, hp] at h
    | some p =>
      simp only [hk, hp] at h
      cases h2 : removeMember
          { S with SOCKET_LIST := S.SOCKET_LIST.del socket.sessionId,
                   PLAYER_LIST := S.PLAYER_LIST.del socket.sessionId }
          p.room socket.sessionId with
      | none => simp [h2] at h
      | some S3 =>
        cases h3 : gameUpdate S3 p.room with
        | none => simp [h2, h3] at h
        | some S3' =>
          simp only [h2, h3] at h
          exact departure_wiring
            { S with SOCKET_LIST := S.SOCKET_LIST.del socket.sessionId,
                     PLAYER_LIST := S.PLAYER_LIST.del socket.sessionId }
            S3 S3' S' p.room socket.sessionId h2 h3 h

/-! ## Every event keeps the invariant of the sessions -/

theorem Obj.get_of_get_del {α : Type} (o : Obj α) (k k' : String) (v : α)
    (h : (o.del k).get k' = some v) : o.get k' = some v := by
  by_cases hk : k' = k
  · subst hk
    rw [Obj.get_del_self] at h
    cases h
  · rw [Obj.get_del_ne _ _ _ hk] at h
    exact h

theorem socketDisconnect_players (S S' : State) (socket : Socket)
    (h : socketDisconnect S socket = some S') :
    S'.PLAYER_LIST = S.PLAYER_LIST.del socket.sessionId := by
  rcases socketDisconnect_shape S S' socket h with ⟨hk, hs⟩ | ⟨r, p, R, _, _, _, hs | ⟨_, hs⟩⟩
  · rw [hs.1, Obj.del_of_get_none _ _ hk]
  · rw [hs.1]
    rfl
  · rw [hs.1, (deleteRoom_fields _ _).2.1]
    rfl

theorem room_timer_not_session (S : State) (hi : Inv S) (id : Nat) (n : String)
    (hin : (id, TimerAction.room n) ∈ S.timers) (i : Nat) (s : Socket) :
    (i, TimerAction.session s) ∈ (clearTimeout S id).timers ↔
      (i, TimerAction.session s) ∈ S.timers := by
  rw [mem_clearTimeout]
  constructor
  · exact fun h => h.1
  · intro h
    refine ⟨h, fun he => ?_⟩
    have he' : i = id := he
    rw [he'] at h
    have := timer_unique S.timers hi.5 id _ _ h hin
    cases this

theorem cancelDeletion_session_timers (S : State) (hi : Inv S) (n : String) (i : Nat)
    (s : Socket) :
    (i, TimerAction.session s) ∈ (cancelDeletion S n).timers ↔
      (i, TimerAction.session s) ∈ S.timers := by
  unfold cancelDeletion
  cases hm : S.DELETE_ROOM_LIST.get n with
  | none => exact Iff.rfl
  | some id => exact room_timer_not_session S hi id n (hi.4 n id hm) i s

theorem SessionInv.ses_createRoom {S S' : State} (h : SessionInv S) (E : Engine)
    (socket : Socket) (data : RoomData) (hs : socket ∈ S.conns)
    (hc : Codenames.createRoom E S socket data = some S') : SessionInv S' := by
  obtain ⟨w1, _, _⟩ := createRoom_wiring E S S' socket data hc
  rcases createRoom_shape E S S' socket data hc with hsc | ⟨_, hsc⟩
  · exact h.ses_congr (fun s hs' => Or.inl (w1 ▸ hs')) (fun k r hk => Or.inl ⟨r, hsc.1 ▸ hk⟩)
      (fun id s => by rw [hsc.2.2.2.1]) hsc.2.2.2.2.2.1
  · refine h.ses_congr (fun s hs' => Or.inl (w1 ▸ hs')) (fun k r hk => ?_)
      (fun id s => by rw [hsc.2.2.2.1]; exact Iff.rfl) (by rw [hsc.2.2.2.2.2.1]; rfl)
    rw [hsc.1] at hk
    by_cases hks : k = socket.sessionId
    · exact Or.inr (hks ▸ h.1 socket hs)
    · simp only [joinedState, newRoom, State.setRoom] at hk
      rw [Obj.get_set_ne _ _ _ _ hks] at hk
      exact Or.inl ⟨r, hk⟩

theorem SessionInv.ses_joinRoom {S S' : State} (h : SessionInv S) (hi : Inv S)
    (socket : Socket) (data : RoomData) (hs : socket ∈ S.conns)
    (hj : Codenames.joinRoom S socket data = some S') : SessionInv S' := by
  obtain ⟨w1, _, _⟩ := joinRoom_wiring S S' socket data hj
  rcases joinRoom_shape S S' socket data hj with hsc | ⟨R, name, _, hsc⟩
  · exact h.ses_congr (fun s hs' => Or.inl (w1 ▸ hs')) (fun k r hk => Or.inl ⟨r, hsc.1 ▸ hk⟩)
      (fun id s => by rw [hsc.2.2.2.1]) hsc.2.2.2.2.2.1
  · refine h.ses_congr (fun s hs' => Or.inl (w1 ▸ hs')) (fun k r hk => ?_)
      (fun id s => by
        rw [hsc.2.2.2.1]
        exact cancelDeletion_session_timers S hi (trim data.room) id s)
      (by rw [hsc.2.2.2.2.2.1]; exact (cancelDeletion_fields S (trim data.room)).2.2.2.2.2.2.1)
    rw [hsc.1] at hk
    by_cases hks : k = socket.sessionId
    · exact Or.inr (hks ▸ h.1 socket hs)
    · simp only [joinedState] at hk
      rw [Obj.get_set_ne _ _ _ _ hks, (cancelDeletion_fields S (trim data.room)).2.1] at hk
      exact Or.inl ⟨r, hk⟩

theorem SessionInv.ses_leaveRoom {S S' : State} (h : SessionInv S) (socket : Socket)
    (hl : Codenames.leaveRoom S socket = some S') : SessionInv S' := by
  obtain ⟨w1, _, _, w4, w5⟩ := leaveRoom_wiring S S' socket hl
  refine h.ses_congr (fun s hs' => Or.inl (w1 ▸ hs')) (fun k r hk => ?_) w5 w4
  rcases leaveRoom_shape S S' socket hl with rfl | ⟨r0, p, R, _, _, _, hs | ⟨_, hs⟩⟩
  · exact Or.inl ⟨r, hk⟩
  · rw [hs.1] at hk
    exact Or.inl ⟨r, Obj.get_of_get_del _ _ _ _ hk⟩
  · rw [hs.1, (deleteRoom_fields _ _).2.1] at hk
    exact Or.inl ⟨r, Obj.get_of_get_del _ _ _ _ hk⟩

theorem SessionInv.ses_socketDisconnect {S S' : State} (h : SessionInv S) (socket : Socket)
    (hd : Codenames.socketDisconnect S socket = some S') : SessionInv S' := by
  obtain ⟨w1, _, _, w4, w5⟩ := socketDisconnect_wiring S S' socket hd
  refine h.ses_congr (fun s hs' => Or.inl (w1 ▸ hs')) (fun k r hk => ?_) w5 w4
  rw [socketDisconnect_players S S' socket hd] at hk
  exact Or.inl ⟨r, Obj.get_of_get_del _ _ _ _ hk⟩

theorem SessionInv.ses_onDisconnect {S S' : State} (h : SessionInv S) (socket : Socket)
    (hs : socket ∈ S.conns) (hd : Codenames.onDisconnect S socket = some S') :
    SessionInv S' := by
  have h0 : SessionInv { S with conns := S.conns.filter (fun c => decide (c ≠ socket)) } :=
    h.ses_congr (fun s hs' => Or.inl (List.mem_filter.1 hs').1) (fun k r hk => Or.inl ⟨r, hk⟩)
      (fun _ _ => Iff.rfl) rfl
  unfold onDisconnect at hd
  cases hk : hasProperty S.PLAYER_LIST socket.sessionId with
  | false =>
    simp only [hk, Bool.not_false, if_true] at hd
    exact h0.ses_socketDisconnect socket hd
  | true =>
    simp only [hk, Bool.not_true, Bool.false_eq_true, if_false] at hd
    cases ht : truthyAt S.DELETE_SESSION_LIST socket.sessionId with
    | true =>
      simp only [ht, Bool.not_true, Bool.false_eq_true, if_false, Option.some.injEq] at hd
      subst hd
      exact h0
    | false =>
      simp only [ht, Bool.not_false, if_true, Option.some.injEq] at hd
      subst hd
      exact h0.ses_start socket (h.1 socket hs) ((truthyAt_false_iff _ _).1 ht).1

theorem SessionInv.ses_connection {S S' : State} (h : SessionInv S) (hi : Inv S)
    (query : Option String) (fresh : String) (socket : Socket) (hf : isToken fresh = true)
    (hc : Codenames.connection S query fresh = some (S', socket)) : SessionInv S' := by
  unfold connection at hc
  simp only at hc
  split at hc
  · cases hc
  · split at hc
    · simp only [Option.some.injEq, Prod.mk.injEq] at hc
      obtain ⟨hc, _⟩ := hc
      subst hc
      refine h.ses_congr (fun s hs' => ?_) (fun k r hk => Or.inl ⟨r, hk⟩) (fun _ _ => Iff.rfl) rfl
      simp only [State.emit, List.mem_append, List.mem_singleton] at hs'
      rcases hs' with hs' | rfl
      · exact Or.inl hs'
      · exact Or.inr hf
    · rename_i hq
      have htok : isToken (query.getD "undefined") = true := by
        cases hp : S.PLAYER_LIST.get (query.getD "undefined") with
        | none => simp [hp] at hq
        | some r => exact h.2 _ r hp
      cases hm : S.DELETE_SESSION_LIST.get (query.getD "undefined") with
      | none =>
        simp only [hm] at hc
        split at hc
        · cases hc
        · split at hc
          · cases hc
          · simp only [Option.some.injEq, Prod.mk.injEq] at hc
            obtain ⟨hc, _⟩ := hc
            subst hc
            refine h.ses_congr (fun s hs' => ?_) (fun k r hk => Or.inl ⟨r, hk⟩)
              (fun _ _ => Iff.rfl) rfl
            simp only [State.emit, List.mem_append, List.mem_singleton] at hs'
            rcases hs' with hs' | rfl
            · exact Or.inl hs'
            · exact Or.inr htok
      | some id =>
        simp only [hm] at hc
        split at hc
        · cases hc
        · split at hc
          · cases hc
          · simp only [Option.some.injEq, Prod.mk.injEq] at hc
            obtain ⟨hc, _⟩ := hc
            subst hc
            refine (h.ses_cancel hi _ id hm).ses_congr (fun s hs' => ?_)
              (fun k r hk => Or.inl ⟨r, hk⟩) (fun _ _ => Iff.rfl) rfl
            simp only [State.emit, List.mem_append, List.mem_singleton] at hs'
            rcases hs' with hs' | rfl
            · exact Or.inl hs'
            · exact Or.inr htok

theorem SessionInv.ses_fireTimer {S S' : State} (h : SessionInv S) (hi : Inv S) (id : Nat)
    (hf : Codenames.fireTimer S id = some S') : SessionInv S' := by
  rcases fireTimer_shape S S' id hf with ⟨n, hin, rfl⟩ | ⟨socket, S1, hin, hd, rfl⟩
  · exact h.ses_congr (fun s hs' => Or.inl hs') (fun k r hk => Or.inl ⟨r, hk⟩)
      (fun i s => room_timer_not_session S hi id n hin i s) rfl
  · obtain ⟨w1, _, _, w4, w5⟩ := socketDisconnect_wiring _ S1 socket hd
    have hp := socketDisconnect_players _ S1 socket hd
    refine (h.ses_cancel hi socket.sessionId id (h.4 id socket hin)).ses_congr
      (fun s hs' => Or.inl (w1 ▸ hs')) (fun k r hk => ?_) w5 ?_
    · have hk' : S1.PLAYER_LIST.get k = some r := hk
      rw [hp] at hk'
      exact Or.inl ⟨r, Obj.get_of_get_del _ _ _ _ hk'⟩
    · show S1.DELETE_SESSION_LIST.del socket.sessionId = _
      rw [w4]
      rfl

theorem SessionInv.ses_other {S S' : State} (h : SessionInv S) (hs : sameMembership S S') :
    SessionInv S' := by
  obtain ⟨_, e2, _, _, e5, _, e7, _, e9, _⟩ := id hs
  exact h.ses_congr (fun s hs' => Or.inl (e9 ▸ hs')) (fun k r hk => Or.inl ⟨r, e2 ▸ hk⟩)
    (fun _ _ => by rw [e7]) e5

/-- Every event keeps the invariant of the sessions. -/
theorem SessionInv.ses_step {E : Engine} {guard : State → Socket → Prop} {S S' : State}
    (h : SessionInv S) (hi : Inv S) (hs : Step E guard S S') : SessionInv S' := by
  cases hs with
  | connect query fresh socket hf hc => exact h.ses_connection hi query fresh socket hf hc
  | disconnect socket hm hd => exact h.ses_onDisconnect socket hm hd
  | createRoom socket data hm _ hc => exact h.ses_createRoom E socket data hm hc
  | joinRoom socket data hm _ hj => exact h.ses_joinRoom hi socket data hm hj
  | leaveRoom socket _ hl => exact h.ses_leaveRoom socket hl
  | timeout id hf => exact h.ses_fireTimer hi id hf
  | other ho => exact h.ses_other ho

/-- The invariant of the sessions holds in every reachable state. -/
theorem Reachable.reach_sessionInv {E : Engine} {guard : State → Socket → Prop} {S : State}
    (h : Reachable E guard S) : SessionInv S := by
  induction h with
  | init => exact SessionInv.ses_init
  | step hr hs ih => exact ih.ses_step hr.reach_inv hs

/-! ## C11: reconnection within the grace period -/

/-- The reconnect path of the connection handler, in closed form. -/
theorem connection_reconnect (S : State) (t fresh : String) (id ref : Nat) (p : Player)
    (R : Room) (l : Obj Player) (htok : isToken t = true)
    (hP : S.PLAYER_LIST.get t = some ref) (hh : S.heap[ref]? = some p)
    (hR : S.ROOM_LIST.get p.room = some R) (hl : derefPlayers S.heap R.players = some l)
    (hm : S.DELETE_SESSION_LIST.get t = some id) :
    connection S (some t) fresh =
      some ({ graceCancelled S t id with
                SOCKET_LIST := S.SOCKET_LIST.set t { conn := S.nextConn, sessionId := t },
                conns := S.conns ++ [{ conn := S.nextConn, sessionId := t }],
                nextConn := S.nextConn + 1,
                out := S.out ++
                  [{ conn := S.nextConn,
                     msg := Msg.serverStats S.PLAYER_LIST.keys.length S.ROOM_LIST.keys.length t
                       true (some { room := p.room, players := l, game := R.game,
                                    difficulty := R.difficulty, mode := R.mode,
                                    consensus := R.consensus, team := some p.team }) }] },
            { conn := S.nextConn, sessionId := t }) := by
  have h1 : t ∉ objectPrototypeKeys := isToken_not_inherited t htok
  have h2 : t ≠ "null" := isToken_ne_null t htok
  unfold connection
  simp only [Option.getD_some, h1, if_false, hP, Option.isSome_some, Bool.not_true,
    Bool.or_false, Option.some.injEq, h2, decide_False, Bool.false_eq_true, hm]
  simp only [State.player, clearTimeout, hP, hh, getGameState, hR, hl, State.emit,
    graceCancelled]

/-- C11. In every reachable state in which the session `t` has a `Player` and a pending
grace timer, a connection that supplies `t` returns: the new connection bears the session
id `t` and is the one registered for `t`, the grace timer is cancelled and its marker
removed (no grace timer of `t` remains, the other timers are untouched), and the player
table, every player object and every room, hence every member set, are unchanged. -/
theorem C11_reconnect_within_grace (E : Engine) (S : State) (t fresh : String) (id ref : Nat)
    (sock : Socket) (hS : Reachable E anySession S) (hP : S.PLAYER_LIST.get t = some ref)
    (hT : (id, TimerAction.session sock) ∈ S.timers) (hk : sock.sessionId = t) :
    ∃ S' socket, connection S (some t) fresh = some (S', socket) ∧
      socket.sessionId = t ∧ socket ∈ S'.conns ∧ S'.SOCKET_LIST.get t = some socket ∧
      S'.DELETE_SESSION_LIST.get t = none ∧ ¬ pendingGrace S' t ∧
      S'.timers = S.timers.filter (fun x => decide (x.1 ≠ id)) ∧
      S'.PLAYER_LIST = S.PLAYER_LIST ∧ S'.heap = S.heap ∧ S'.ROOM_LIST = S.ROOM_LIST := by
  have hi := hS.reach_inv
  have hs := hS.reach_sessionInv
  have htok : isToken t = true := hs.2 t ref hP
  have hm : S.DELETE_SESSION_LIST.get t = some id := hk ▸ hs.4 id sock hT
  obtain ⟨p, R, hh, _, hR, _⟩ := hi.1 t ref hP
  obtain ⟨l, hl⟩ := derefPlayers_some S.heap R.players (hS.reach_refsInv p.room R hR).2
  have hc := connection_reconnect S t fresh id ref p R l htok hP hh hR hl hm
  have hs' := hs.ses_cancel hi t id hm
  refine ⟨_, _, hc, rfl, by simp, Obj.get_set_self _ _ _, ?_, ?_, rfl, rfl, rfl, rfl⟩
  · simp [graceCancelled, clearTimeout, Obj.get_del_self]
  · rintro ⟨i, s, hin, hsk⟩
    have := hs'.4 i s hin
    rw [hsk] at this
    simp [graceCancelled, clearTimeout, Obj.get_del_self] at this

/-- The state `exGrace` is reachable: `tokA` connects, creates room "R" and disconnects. -/
theorem reachable_exGrace : Reachable exEngine anySession exGrace :=
  Reachable.step (reachable_exOne anySession trivial)
    (Step.disconnect sockA (by decide) (by decide))

/-- C11 on the state `exGrace`: the session `tokA` reconnects. -/
theorem C11_reconnect_within_grace_witness :
    (Reachable exEngine anySession exGrace ∧ exGrace.PLAYER_LIST.get tokA = some 0 ∧
      (0, TimerAction.session sockA) ∈ exGrace.timers ∧ sockA.sessionId = tokA) ∧
    ∃ S' socket, connection exGrace (some tokA) tokB = some (S', socket) ∧
      socket.sessionId = tokA ∧ socket ∈ S'.conns ∧ S'.SOCKET_LIST.get tokA = some socket ∧
      S'.DELETE_SESSION_LIST.get tokA = none ∧ ¬ pendingGrace S' tokA ∧
      S'.timers = exGrace.timers.filter (fun x => decide (x.1 ≠ 0)) ∧
      S'.PLAYER_LIST = exGrace.PLAYER_LIST ∧ S'.heap = exGrace.heap ∧
      S'.ROOM_LIST = exGrace.ROOM_LIST :=
  ⟨⟨reachable_exGrace, by decide, by decide, by decide⟩,
    C11_reconnect_within_grace exEngine exGrace tokA tokB 0 0 sockA reachable_exGrace
      (by decide) (by decide) (by decide)⟩

/-- Disconnecting and reconnecting on `exOne`: the registries of players and rooms, the
player objects and the timers are what they were before the disconnect. -/
theorem reconnect_exOne :
    (connection exGrace (some tokA) tokB).map (fun r => r.1.PLAYER_LIST)
      = some exOne.PLAYER_LIST ∧
    (connection exGrace (some tokA) tokB).map (fun r => r.1.heap) = some exOne.heap ∧
    (connection exGrace (some tokA) tokB).map (fun r => r.1.ROOM_LIST)
      = some exOne.ROOM_LIST ∧
    (connection exGrace (some tokA) tokB).map (fun r => r.1.timers) = some exOne.timers ∧
    (connection exGrace (some tokA) tokB).map (fun r => r.1.DELETE_SESSION_LIST)
      = some exOne.DELETE_SESSION_LIST ∧
    (connection exGrace (some tokA) tokB).map (fun r => r.2.sessionId) = some tokA := by
  refine ⟨by decide, by decide, by decide, by decide, by decide, by decide⟩

/-! ## C12: the disconnect handler -/

/-- In a reachable state a grace timer of a session is pending exactly when the session has
a marker in `DELETE_SESSION_LIST`. -/
theorem pendingGrace_iff_marker (S : State) (h : SessionInv S) (k : String) :
    pendingGrace S k ↔ ∃ id, S.DELETE_SESSION_LIST.get k = some id := by
  constructor
  · rintro ⟨id, s, hin, rfl⟩
    exact ⟨id, h.4 id s hin⟩
  · rintro ⟨id, hid⟩
    obtain ⟨s, hs1, hs2⟩ := h.5 k id hid
    exact ⟨id, s, hs2, hs1⟩

/-- The disconnect handler for a session id that is not the name of an inherited property,
in closed form. Without a `Player` for the session the entry of the session in `SOCKET_LIST`
is removed at once and no timer is started. With a `Player` and no marker in
`DELETE_SESSION_LIST` exactly one grace timer is started and recorded, and nothing else
changes. With a marker nothing changes. (In each case the closed connection leaves the list
of open connections.) -/
theorem onDisconnect_cases (S : State) (socket : Socket)
    (hni : socket.sessionId ∉ objectPrototypeKeys) :
    (S.PLAYER_LIST.get socket.sessionId = none →
      onDisconnect S socket =
        some { S with conns := S.conns.filter (fun c => decide (c ≠ socket)),
                      SOCKET_LIST := S.SOCKET_LIST.del socket.sessionId }) ∧
    (∀ ref, S.PLAYER_LIST.get socket.sessionId = some ref →
      S.DELETE_SESSION_LIST.get socket.sessionId = none →
      onDisconnect S socket =
        some { S with conns := S.conns.filter (fun c => decide (c ≠ socket)),
                      timers := S.timers ++ [(S.nextTimer, TimerAction.session socket)],
                      nextTimer := S.nextTimer + 1,
                      DELETE_SESSION_LIST :=
                        S.DELETE_SESSION_LIST.set socket.sessionId S.nextTimer }) ∧
    (∀ ref id, S.PLAYER_LIST.get socket.sessionId = some ref →
      S.DELETE_SESSION_LIST.get socket.sessionId = some id →
      onDisconnect S socket =
        some { S with conns := S.conns.filter (fun c => decide (c ≠ socket)) }) := by
  refine ⟨fun hp => ?_, fun ref hp hm => ?_, fun ref id hp hid => ?_⟩
  · have hk : hasProperty S.PLAYER_LIST socket.sessionId = false :=
      (hasProperty_false_iff _ _).2 ⟨hp, hni⟩
    simp only [onDisconnect, hk, Bool.not_false, if_true, socketDisconnect, hp,
      Obj.del_of_get_none _ _ hp]
  · have hk : hasProperty S.PLAYER_LIST socket.sessionId = true := by
      simp [hasProperty, hp]
    have ht : truthyAt S.DELETE_SESSION_LIST socket.sessionId = false :=
      (truthyAt_false_iff _ _).2 ⟨hm, hni⟩
    simp only [onDisconnect, hk, Bool.not_true, Bool.false_eq_true, if_false, ht,
      Bool.not_false, if_true, setTimeout]
  · have hk : hasProperty S.PLAYER_LIST socket.sessionId = true := by
      simp [hasProperty, hp]
    have ht : truthyAt S.DELETE_SESSION_LIST socket.sessionId = true := by
      simp [truthyAt, hid]
    simp only [onDisconnect, hk, Bool.not_true, Bool.false_eq_true, if_false, ht]

/-- The disconnect of an open connection in a state reachable in this development, where
every session id is a minted token: the three cases of `onDisconnect_cases`, with "a grace
timer is pending" read on the timer table. -/
theorem onDisconnect_reachable_cases (E : Engine) (S : State) (socket : Socket)
    (hS : Reachable E anySession S) (hs : socket ∈ S.conns) :
    (S.PLAYER_LIST.get socket.sessionId = none →
      onDisconnect S socket =
        some { S with conns := S.conns.filter (fun c => decide (c ≠ socket)),
                      SOCKET_LIST := S.SOCKET_LIST.del socket.sessionId }) ∧
    (∀ ref, S.PLAYER_LIST.get socket.sessionId = some ref →
      ¬ pendingGrace S socket.sessionId →
      onDisconnect S socket =
        some { S with conns := S.conns.filter (fun c => decide (c ≠ socket)),
                      timers := S.timers ++ [(S.nextTimer, TimerAction.session socket)],
                      nextTimer := S.nextTimer + 1,
                      DELETE_SESSION_LIST :=
                        S.DELETE_SESSION_LIST.set socket.sessionId S.nextTimer }) ∧
    (∀ ref, S.PLAYER_LIST.get socket.sessionId = some ref →
      pendingGrace S socket.sessionId →
      onDisconnect S socket =
        some { S with conns := S.conns.filter (fun c => decide (c ≠ socket)) }) := by
  have hsi := hS.reach_sessionInv
  have hni : socket.sessionId ∉ objectPrototypeKeys :=
    isToken_not_inherited _ (hsi.1 socket hs)
  obtain ⟨c1, c2, c3⟩ := onDisconnect_cases S socket hni
  refine ⟨c1, fun ref hp hno => ?_, fun ref hp hpend => ?_⟩
  · refine c2 ref hp ?_
    cases hg : S.DELETE_SESSION_LIST.get socket.sessionId with
    | none => rfl
    | some id => exact absurd ((pendingGrace_iff_marker S hsi _).2 ⟨id, hg⟩) hno
  · obtain ⟨id, hid⟩ := (pendingGrace_iff_marker S hsi _).1 hpend
    exact c3 ref id hp hid

/-- C12, failing input. The session id of `sockIntruder` is "constructor". On `exIntruder`
the session has no `Player`, yet `socket.sessionId in PLAYER_LIST` is true and
`DELETE_SESSION_LIST[socket.sessionId]` is truthy: the disconnect leaves the entry of the
session in `SOCKET_LIST` and starts no timer. On `exIntruderRoom` the session has a `Player`
and no grace timer is pending, yet the disconnect starts no grace timer. In both states the
only effect is that the closed connection leaves the list of open connections. -/
theorem C12_disconnect_skipped_for_inherited_session_id :
    sockIntruder ∈ exIntruder.conns ∧
    exIntruder.PLAYER_LIST.get sockIntruder.sessionId = none ∧
    hasProperty exIntruder.PLAYER_LIST sockIntruder.sessionId = true ∧
    onDisconnect exIntruder sockIntruder = some { exIntruder with conns := [] } ∧
    exIntruder.SOCKET_LIST.get sockIntruder.sessionId = some sockIntruder ∧
    sockIntruder ∈ exIntruderRoom.conns ∧
    (exIntruderRoom.player sockIntruder.sessionId).map (fun p => (p.nickname, p.room))
      = some ("Eve", "R") ∧
    ¬ pendingGrace exIntruderRoom sockIntruder.sessionId ∧
    onDisconnect exIntruderRoom sockIntruder = some { exIntruderRoom with conns := [] } ∧
    exIntruderRoom.timers = [] ∧ exIntruderRoom.DELETE_SESSION_LIST = [] := by
  refine ⟨by decide, by decide, by decide, by decide, by decide, by decide, by decide, ?_,
    by decide, by decide, by decide⟩
  rintro ⟨id, s, hin, _⟩
  have ht : exIntruderRoom.timers = [] := by decide
  rw [ht] at hin
  cases hin

/-- The three cases of the disconnect handler on concrete states: the lobby connection
`tokB` of `exOne` is forgotten at once; the player `tokA` of `exOne` gets the grace timer 0;
a disconnect for the session `tokA` on `exGrace`, where its grace timer is pending, starts no
second timer. -/
theorem onDisconnect_examples :
    (onDisconnect exOne sockB).map (fun S => (S.SOCKET_LIST.keys, S.timers))
      = some ([tokA, tokC], []) ∧
    (onDisconnect exOne sockA).map (fun S => (S.SOCKET_LIST.keys, S.timers, S.PLAYER_LIST))
      = some ([tokA, tokB, tokC], [(0, TimerAction.session sockA)], exOne.PLAYER_LIST) ∧
    (onDisconnect exGrace sockA).map (fun S => (S.timers, S.DELETE_SESSION_LIST))
      = some (exGrace.timers, exGrace.DELETE_SESSION_LIST) := by
  refine ⟨by decide, by decide, by decide⟩

/-! ## C13: expiry of the grace period -/

/-- The function `socketDisconnect` for a session with a `Player`, in closed form: on a
room whose member references are valid and whose members have a `Player`, the connection
and the player are forgotten, the player leaves the member set, the room is broadcast to
the remaining members, and the deletion of the room is scheduled when no member is left. -/
theorem socketDisconnect_player (S : State) (socket : Socket) (ref : Nat) (p : Player)
    (R : Room) (hp : S.PLAYER_LIST.get socket.sessionId = some ref)
    (hh : S.heap[ref]? = some p) (hR : S.ROOM_LIST.get p.room = some R)
    (hv : roomRefsValid S R) (hk : membersKnown S R) :
    ∃ es, socketDisconnect S socket =
      some (if (R.players.del socket.sessionId).keys.length = 0 then
              deleteRoom
                { departed S socket.sessionId p.room R with
                  SOCKET_LIST := S.SOCKET_LIST.del socket.sessionId, out := S.out ++ es } p.room
            else
              { departed S socket.sessionId p.room R with
                SOCKET_LIST := S.SOCKET_LIST.del socket.sessionId, out := S.out ++ es }) := by
  have hget : (S.ROOM_LIST.set p.room { R with players := R.players.del socket.sessionId }).get
      p.room = some { R with players := R.players.del socket.sessionId } :=
    Obj.get_set_self _ _ _
  have hv' : roomRefsValid
      { S with SOCKET_LIST := S.SOCKET_LIST.del socket.sessionId,
               PLAYER_LIST := S.PLAYER_LIST.del socket.sessionId,
               ROOM_LIST := S.ROOM_LIST.set p.room
                 { R with players := R.players.del socket.sessionId } }
      { R with players := R.players.del socket.sessionId } :=
    fun e he => hv e (Obj.mem_del _ _ _ he)
  have hk' : membersKnown
      { S with SOCKET_LIST := S.SOCKET_LIST.del socket.sessionId,
               PLAYER_LIST := S.PLAYER_LIST.del socket.sessionId,
               ROOM_LIST := S.ROOM_LIST.set p.room
                 { R with players := R.players.del socket.sessionId } }
      { R with players := R.players.del socket.sessionId } := by
    intro k hmem
    obtain ⟨hmem', hne⟩ := (Obj.mem_keys_del _ _ _).1 hmem
    obtain ⟨r, hr1, hr2⟩ := (player_isSome_iff S k).1 (hk k hmem')
    exact (player_isSome_iff _ k).2 ⟨r, by rw [← hr1]; exact Obj.get_del_ne _ _ _ hne, hr2⟩
  obtain ⟨gs, es, _, _, _, hes⟩ := gameUpdate_some _ p.room _ hget hv' hk'
  refine ⟨es, ?_⟩
  dsimp only at hes hget
  simp only [socketDisconnect, hp, hh, removeMember, hR, State.setRoom]
  rw [hes]
  simp only [deleteRoomIfEmpty, hget, departed]
  split <;> rfl

/-- The expiry of the pending deletion timer of a room removes the room. -/
theorem room_timer_expiry (T : State) (hi : Inv T) (i : Nat) (n : String)
    (hin : (i, TimerAction.room n) ∈ T.timers) :
    ∃ T', fireTimer T i = some T' ∧ T'.ROOM_LIST.get n = none ∧
      T'.DELETE_ROOM_LIST.get n = none := by
  have hpa := pendingAction_of_mem T.timers hi.5 i _ hin
  refine ⟨{ clearTimeout T i with ROOM_LIST := (clearTimeout T i).ROOM_LIST.del n,
                                  DELETE_ROOM_LIST := (clearTimeout T i).DELETE_ROOM_LIST.del n },
    by simp only [fireTimer, hpa, runTimer], Obj.get_del_self _ _, Obj.get_del_self _ _⟩

/-- C13. In a reachable state, when the grace timer of a session with a `Player` expires
(no reconnect has cancelled it) and the members of the player's room have a `Player`, the
expiry returns: the player leaves `PLAYER_LIST` and the member set of its room, the
connection leaves `SOCKET_LIST`, the marker and the grace timer are gone, the player
objects and every other room are unchanged, and the deletion of the room is scheduled if
and only if the member set is now empty. Whenever a deletion timer of a room is pending in
a reachable state (a join would have cancelled it), its expiry removes the room. -/
theorem C13_grace_expiry (E : Engine) (S : State) (id ref : Nat) (socket : Socket)
    (p : Player) (R : Room) (hS : Reachable E anySession S)
    (hT : (id, TimerAction.session socket) ∈ S.timers)
    (hp : S.PLAYER_LIST.get socket.sessionId = some ref) (hh : S.heap[ref]? = some p)
    (hR : S.ROOM_LIST.get p.room = some R) (hk : membersKnown S R) :
    (∃ S', fireTimer S id = some S' ∧
      S'.PLAYER_LIST = S.PLAYER_LIST.del socket.sessionId ∧
      S'.ROOM_LIST =
        S.ROOM_LIST.set p.room { R with players := R.players.del socket.sessionId } ∧
      S'.SOCKET_LIST = S.SOCKET_LIST.del socket.sessionId ∧
      S'.DELETE_SESSION_LIST = S.DELETE_SESSION_LIST.del socket.sessionId ∧
      ¬ pendingGrace S' socket.sessionId ∧ S'.heap = S.heap ∧
      (R.players.del socket.sessionId = [] →
        S'.timers = S.timers.filter (fun x => decide (x.1 ≠ id)) ++
          [(S.nextTimer, TimerAction.room p.room)] ∧
        S'.DELETE_ROOM_LIST = S.DELETE_ROOM_LIST.set p.room S.nextTimer) ∧
      (R.players.del socket.sessionId ≠ [] →
        S'.timers = S.timers.filter (fun x => decide (x.1 ≠ id)) ∧
        S'.DELETE_ROOM_LIST = S.DELETE_ROOM_LIST) ∧
      ((∃ i, (i, TimerAction.room p.room) ∈ S'.timers) ↔
        R.players.del socket.sessionId = [])) ∧
    ∀ T i n, Reachable E anySession T → (i, TimerAction.room n) ∈ T.timers →
      ∃ T', fireTimer T i = some T' ∧ T'.ROOM_LIST.get n = none := by
  have hi := hS.reach_inv
  have hsi := hS.reach_sessionInv
  have hv := (hS.reach_refsInv p.room R hR).2
  refine ⟨?_, fun T i n hT' hin => ?_⟩
  swap
  · obtain ⟨T', h1, h2, _⟩ := room_timer_expiry T hT'.reach_inv i n hin
    exact ⟨T', h1, h2⟩
  have hpa := pendingAction_of_mem S.timers hi.5 id _ hT
  obtain ⟨es, hsd⟩ := socketDisconnect_player (clearTimeout S id) socket ref p R hp hh hR
    (roomRefsValid_of_eq S _ R R hv rfl rfl) (membersKnown_of_eq S _ R R hk rfl rfl rfl)
  -- the room of the player has a member, so no deletion of it is pending
  obtain ⟨p0, R0, hp0, _, hR0, hmem⟩ := hi.1 _ ref hp
  rw [hh] at hp0
  cases hp0
  rw [hR] at hR0
  cases hR0
  have hnoroom : ∀ i, (i, TimerAction.room p.room) ∉ S.timers := by
    intro i hin
    obtain ⟨R1, hR1, he, _⟩ := hi.2 i p.room hin
    rw [hR] at hR1
    cases hR1
    rw [he] at hmem
    cases hmem
  have hmark : truthyAt S.DELETE_ROOM_LIST p.room = false := by
    refine (truthyAt_false_iff _ _).2 ⟨?_, hi.3 p.room R hR⟩
    cases hg : S.DELETE_ROOM_LIST.get p.room with
    | none => rfl
    | some i => exact absurd (hi.4 p.room i hg) (hnoroom i)
  have hcancel := hsi.ses_cancel hi socket.sessionId id (hsi.4 id socket hT)
  have hnograce : ∀ i s, (i, TimerAction.session s) ∈ (clearTimeout S id).timers →
      s.sessionId ≠ socket.sessionId := by
    intro i s hin hsk
    have := hcancel.4 i s hin
    rw [hsk] at this
    simp [graceCancelled, clearTimeout, Obj.get_del_self] at this
  by_cases hem : (R.players.del socket.sessionId).keys.length = 0
  · have hnil : R.players.del socket.sessionId = [] := by
      have := List.length_eq_zero.1 hem
      simpa [Obj.keys] using this
    rw [if_pos hem] at hsd
    have hf : fireTimer S id =
        some { deleteRoom
                 { departed (clearTimeout S id) socket.sessionId p.room R with
                   SOCKET_LIST := (clearTimeout S id).SOCKET_LIST.del socket.sessionId,
                   out := (clearTimeout S id).out ++ es } p.room with
               DELETE_SESSION_LIST :=
                 (deleteRoom
                   { departed (clearTimeout S id) socket.sessionId p.room R with
                     SOCKET_LIST := (clearTimeout S id).SOCKET_LIST.del socket.sessionId,
                     out := (clearTimeout S id).out ++ es }
                   p.room).DELETE_SESSION_LIST.del socket.sessionId } := by
      simp only [fireTimer, hpa, runTimer, hsd]
    have hmark' : truthyAt (clearTimeout S id).DELETE_ROOM_LIST p.room = false := hmark
    refine ⟨_, hf, ?_, ?_, ?_, ?_, ?_, ?_, ?_, ?_, ?_⟩
    · simp [deleteRoom, departed, clearTimeout, hmark, setTimeout]
    · simp [deleteRoom, departed, clearTimeout, hmark, setTimeout]
    · simp [deleteRoom, departed, clearTimeout, hmark, setTimeout]
    · simp [deleteRoom, departed, clearTimeout, hmark, setTimeout]
    · rintro ⟨i, s, hin, hsk⟩
      simp only [deleteRoom, departed, clearTimeout, hmark, setTimeout, Bool.false_eq_true,
        if_false, List.mem_append, List.mem_singleton, Prod.mk.injEq] at hin
      rcases hin with hin | ⟨_, hc⟩
      · exact hnograce i s (by simpa [clearTimeout] using hin) hsk
      · cases hc
    · simp [deleteRoom, departed, clearTimeout, hmark, setTimeout]
    · intro _
      simp [deleteRoom, departed, clearTimeout, hmark, setTimeout]
    · intro hne
      exact absurd hnil hne
    · constructor
      · intro _
        exact hnil
      · intro _
        exact ⟨S.nextTimer, by simp [deleteRoom, departed, clearTimeout, hmark, setTimeout]⟩
  · have hnil : R.players.del socket.sessionId ≠ [] := by
      intro h
      rw [h] at hem
      exact hem rfl
    rw [if_neg hem] at hsd
    have hf : fireTimer S id =
        some { departed (clearTimeout S id) socket.sessionId p.room R with
               SOCKET_LIST := (clearTimeout S id).SOCKET_LIST.del socket.sessionId,
               out := (clearTimeout S id).out ++ es,
               DELETE_SESSION_LIST :=
                 (clearTimeout S id).DELETE_SESSION_LIST.del socket.sessionId } := by
      simp only [fireTimer, hpa, runTimer, hsd]
      rfl
    refine ⟨_, hf, ?_, ?_, ?_, ?_, ?_, ?_, ?_, ?_, ?_⟩
    · simp [departed, clearTimeout]
    · simp [departed, clearTimeout]
    · simp [departed, clearTimeout]
    · simp [departed, clearTimeout]
    · rintro ⟨i, s, hin, hsk⟩
      exact hnograce i s hin hsk
    · simp [departed, clearTimeout]
    · intro he
      exact absurd he hnil
    · intro _
      simp [departed, clearTimeout]
    · constructor
      · rintro ⟨i, hin⟩
        exact absurd ((mem_clearTimeout S id _).1 hin).1 (hnoroom i)
      · intro he
        exact absurd he hnil

/-- C13 on the state `exGrace`: the grace timer 0 of `tokA`, the only member of room "R",
expires. -/
theorem C13_grace_expiry_witness :
    (Reachable exEngine anySession exGrace ∧
      (0, TimerAction.session sockA) ∈ exGrace.timers ∧
      exGrace.PLAYER_LIST.get sockA.sessionId = some 0 ∧
      exGrace.heap[0]? = some (creatorPlayer sockA "Alice" "R") ∧
      exGrace.ROOM_LIST.get (creatorPlayer sockA "Alice" "R").room = some exOneRoom ∧
      membersKnown exGrace exOneRoom) ∧
    ∃ S', fireTimer exGrace 0 = some S' ∧
      S'.PLAYER_LIST = exGrace.PLAYER_LIST.del sockA.sessionId ∧
      S'.ROOM_LIST.get "R" = some { exOneRoom with players := [] } ∧
      (∃ i, (i, TimerAction.room "R") ∈ S'.timers) := by
  have hyp : Reachable exEngine anySession exGrace ∧
      (0, TimerAction.session sockA) ∈ exGrace.timers ∧
      exGrace.PLAYER_LIST.get sockA.sessionId = some 0 ∧
      exGrace.heap[0]? = some (creatorPlayer sockA "Alice" "R") ∧
      exGrace.ROOM_LIST.get (creatorPlayer sockA "Alice" "R").room = some exOneRoom ∧
      membersKnown exGrace exOneRoom :=
    ⟨reachable_exGrace, by decide, by decide, by decide, by decide,
      by unfold membersKnown; decide⟩
  obtain ⟨⟨S', h1, h2, h3, _, _, _, _, _, _, h10⟩, _⟩ :=
    C13_grace_expiry exEngine exGrace 0 0 sockA (creatorPlayer sockA "Alice" "R") exOneRoom
      hyp.1 hyp.2.1 hyp.2.2.1 hyp.2.2.2.1 hyp.2.2.2.2.1 hyp.2.2.2.2.2
  refine ⟨hyp, S', h1, h2, ?_, h10.2 (by decide)⟩
  rw [h3]
  decide

/-- The expiry of the grace period on `exGrace`, followed by the expiry of the deletion
timer of room "R": the player and then the room are gone. -/
theorem grace_expiry_exGrace :
    (fireTimer exGrace 0).map (fun S => (S.PLAYER_LIST, S.SOCKET_LIST.keys, S.timers))
      = some ([], [tokB, tokC], [(1, TimerAction.room "R")]) ∧
    ((fireTimer exGrace 0).bind (fun S => fireTimer S 1)).map
        (fun S => (S.ROOM_LIST.keys, S.timers)) = some ([], []) := by
  refine ⟨by decide, by decide⟩

/-! ## C21: the card packs -/

/-- The toggle and the fallback of `changeCards` on the five flags: a recognised name
toggles its flag and no other, an unrecognised name toggles nothing, the fallback sets
`base` exactly when all five flags are false and touches nothing else, and at least one
flag is true in the end. -/
theorem pack_flags (g : Game) (pack : String) :
    anyPack (ensurePack (togglePack g pack)) = true ∧
    (pack = "base" → togglePack g pack = { g with base := !g.base }) ∧
    (pack = "duet" → togglePack g pack = { g with duet := !g.duet }) ∧
    (pack = "undercover" → togglePack g pack = { g with undercover := !g.undercover }) ∧
    (pack = "custom" → togglePack g pack = { g with custom := !g.custom }) ∧
    (pack = "nsfw" → togglePack g pack = { g with nsfw := !g.nsfw }) ∧
    (pack ∉ ["base", "duet", "undercover", "custom", "nsfw"] → togglePack g pack = g) ∧
    ensurePack (togglePack g pack) =
      { togglePack g pack with
        base := (togglePack g pack).base || !anyPack (togglePack g pack) } := by
  refine ⟨?_, ?_, ?_, ?_, ?_, ?_, ?_, ?_⟩
  · generalize togglePack g pack = t
    obtain ⟨a1, a2, a3, a4, a5, b, d, u, c, n, e⟩ := t
    cases b <;> cases d <;> cases u <;> cases c <;> cases n <;> simp [ensurePack, anyPack]
  · intro h; subst h; simp [togglePack]
  · intro h; subst h; simp [togglePack]
  · intro h; subst h; simp [togglePack]
  · intro h; subst h; simp [togglePack]
  · intro h; subst h; simp [togglePack]
  · intro h
    simp only [List.mem_cons, List.mem_singleton, not_or, List.not_mem_nil, or_false] at h
    simp [togglePack, h.1, h.2.1, h.2.2.1, h.2.2.2.1, h.2.2.2.2]
  · generalize togglePack g pack = t
    obtain ⟨a1, a2, a3, a4, a5, b, d, u, c, n, e⟩ := t
    cases b <;> cases d <;> cases u <;> cases c <;> cases n <;> simp [ensurePack, anyPack]

/-- C21. A `changeCards` request of a player on a well-formed room returns, whatever the
pack name and the prior flags: the game handed to the engine's `updateWordPool`, whose
result becomes the game of the room, is the prior game with the flag of a recognised name
toggled (nothing toggled for an unrecognised name) and with `base` set to true exactly when
all five flags would otherwise be false; at least one of its five flags is true. -/
theorem C21_pack_flag_invariant (E : Engine) (S : State) (socket : Socket) (pack : String)
    (ref : Nat) (p : Player) (R : Room)
    (hp : S.PLAYER_LIST.get socket.sessionId = some ref) (hh : S.heap[ref]? = some p)
    (hR : S.ROOM_LIST.get p.room = some R) (hv : roomRefsValid S R) (hk : membersKnown S R) :
    (∃ S', changeCards E S socket pack = some S' ∧
      S'.ROOM_LIST.get p.room =
        some { R with game := E.updateWordPool (ensurePack (togglePack R.game pack)) } ∧
      S'.calls = S.calls ++ [(p.room, EngineCall.updateWordPool)]) ∧
    anyPack (ensurePack (togglePack R.game pack)) = true ∧
    (pack = "base" → togglePack R.game pack = { R.game with base := !R.game.base }) ∧
    (pack = "duet" → togglePack R.game pack = { R.game with duet := !R.game.duet }) ∧
    (pack = "undercover" →
      togglePack R.game pack = { R.game with undercover := !R.game.undercover }) ∧
    (pack = "custom" → togglePack R.game pack = { R.game with custom := !R.game.custom }) ∧
    (pack = "nsfw" → togglePack R.game pack = { R.game with nsfw := !R.game.nsfw }) ∧
    (pack ∉ ["base", "duet", "undercover", "custom", "nsfw"] →
      togglePack R.game pack = R.game) ∧
    ensurePack (togglePack R.game pack) =
      { togglePack R.game pack with
        base := (togglePack R.game pack).base || !anyPack (togglePack R.game pack) } := by
  refine ⟨?_, pack_flags R.game pack⟩
  have hg : truthyAt S.PLAYER_LIST socket.sessionId = true := by simp [truthyAt, hp]
  have hget : (S.ROOM_LIST.set p.room
      { R with game := E.updateWordPool (ensurePack (togglePack R.game pack)) }).get p.room
      = some { R with game := E.updateWordPool (ensurePack (togglePack R.game pack)) } :=
    Obj.get_set_self _ _ _
  obtain ⟨gs, es, _, _, _, hes⟩ := gameUpdate_some
    { S with ROOM_LIST := S.ROOM_LIST.set p.room
               { R with game := E.updateWordPool (ensurePack (togglePack R.game pack)) },
             calls := S.calls ++ [(p.room, EngineCall.updateWordPool)] }
    p.room { R with game := E.updateWordPool (ensurePack (togglePack R.game pack)) } hget
    (roomRefsValid_of_eq S _ R _ hv rfl rfl) (membersKnown_of_eq S _ R _ hk rfl rfl rfl)
  have hres : changeCards E S socket pack =
      some { S with ROOM_LIST := S.ROOM_LIST.set p.room
                      { R with game := E.updateWordPool (ensurePack (togglePack R.game pack)) },
                    calls := S.calls ++ [(p.room, EngineCall.updateWordPool)],
                    out := S.out ++ es } := by
    simp only [changeCards, hg, Bool.not_true, Bool.false_eq_true, if_false, hp, hh, hR,
      State.setRoom]
    exact hes
  exact ⟨_, hres, hget, rfl⟩

/-- C21 on the state `exVote`, whose room has only the base pack enabled: `tokA` toggles
the base pack. -/
theorem C21_pack_flag_invariant_witness :
    (exVote.PLAYER_LIST.get sockA.sessionId = some 0 ∧ exVote.heap[0]? = some exVoterA ∧
      exVote.ROOM_LIST.get exVoterA.room = some exVoteRoom ∧
      roomRefsValid exVote exVoteRoom ∧ membersKnown exVote exVoteRoom) ∧
    (∃ S', changeCards exEngine exVote sockA "base" = some S' ∧
      (S'.ROOM_LIST.get "R").map (fun R => anyPack R.game) = some true) := by
  refine ⟨⟨by decide, by decide, by decide, by unfold roomRefsValid; decide,
    by unfold membersKnown; decide⟩, ?_⟩
  obtain ⟨⟨S', h1, h2, _⟩, _⟩ :=
    C21_pack_flag_invariant exEngine exVote sockA "base" 0 exVoterA exVoteRoom (by decide)
      (by decide) (by decide) (by unfold roomRefsValid; decide) (by unfold membersKnown; decide)
  refine ⟨S', h1, ?_⟩
  have h3 : S'.ROOM_LIST.get "R" = _ := h2
  rw [h3]
  decide

/-- Toggling the only enabled pack on `exVote`: the base pack stays enabled; toggling
another pack enables it. -/
theorem changeCards_exVote :
    (changeCards exEngine exVote sockA "base").map
        (fun S => S.ROOM_LIST.map (fun e => (e.2.game.base, e.2.game.duet)))
      = some [(true, false)] ∧
    (changeCards exEngine exVote sockA "duet").map
        (fun S => S.ROOM_LIST.map (fun e => (e.2.game.base, e.2.game.duet)))
      = some [(true, true)] ∧
    (changeCards exEngine exVote sockA "unknown").map
        (fun S => S.ROOM_LIST.map (fun e => (e.2.game.base, e.2.game.duet)))
      = some [(true, false)] := by
  refine ⟨by decide, by decide, by decide⟩

/-! ## C22: the broadcast -/

/-- When every session of the list has a `Player`, the loop of `gameUpdate` emits the
message of each session that has a registered connection, in the order of the list. -/
theorem gameStateEmits_eq (S : State) (gs : GameState) (ks : List String)
    (h : ∀ k ∈ ks, (S.player k).isSome = true) :
    gameStateEmits S gs ks = some (ks.filterMap (memberMessage S gs)) := by
  induction ks with
  | nil => rfl
  | cons k t ih =>
    have iht := ih (fun k' hk' => h k' (List.mem_cons_of_mem _ hk'))
    obtain ⟨p, hp⟩ := Option.isSome_iff_exists.1 (h k (List.mem_cons_self _ _))
    cases hs : S.SOCKET_LIST.get k with
    | none => simp [gameStateEmits, hs, iht, memberMessage, List.filterMap_cons]
    | some sock => simp [gameStateEmits, hs, hp, iht, memberMessage, List.filterMap_cons]

/-- C22. On a room whose members all have a `Player` (and whose member references are
valid) `gameUpdate` returns and extends the output log by one `gameState` message for each
member that has a registered connection, sent on that connection, in the order of the
member keys, and by nothing for a member without one. All messages carry the same snapshot
(the room name passed, the member set, the game, the difficulty, the mode and the consensus
policy of the room) and differ only in `team`, which is the recipient's own team. -/
theorem C22_broadcast_personalises_team (S : State) (room : String) (R : Room)
    (hR : S.ROOM_LIST.get room = some R) (hv : roomRefsValid S R) (hk : membersKnown S R) :
    ∃ ps gs, derefPlayers S.heap R.players = some ps ∧ getGameState S room = some gs ∧
      gs.room = room ∧ gs.players = ps ∧ gs.game = R.game ∧ gs.difficulty = R.difficulty ∧
      gs.mode = R.mode ∧ gs.consensus = R.consensus ∧
      gameUpdate S room =
        some { S with out := S.out ++ R.players.keys.filterMap (memberMessage S gs) } ∧
      ∀ k, (S.SOCKET_LIST.get k = none → memberMessage S gs k = none) ∧
        (∀ sock p, S.SOCKET_LIST.get k = some sock → S.player k = some p →
          memberMessage S gs k =
            some { conn := sock.conn, msg := Msg.gameState { gs with team := some p.team } }) := by
  obtain ⟨ps, hps⟩ := derefPlayers_some S.heap R.players hv
  have hgs : getGameState S room =
      some { room := room, players := ps, game := R.game, difficulty := R.difficulty,
             mode := R.mode, consensus := R.consensus, team := none } := by
    simp only [getGameState, hR, hps]
  refine ⟨ps, _, hps, hgs, rfl, rfl, rfl, rfl, rfl, rfl, ?_, fun k => ⟨fun h => ?_,
    fun sock p h1 h2 => ?_⟩⟩
  · simp only [gameUpdate, hgs, hR, gameStateEmits_eq S _ R.players.keys hk]
  · simp [memberMessage, h]
  · simp [memberMessage, h1, h2]

/-- C22 on the room "R" of the state `exVote`. -/
theorem C22_broadcast_personalises_team_witness :
    (exVote.ROOM_LIST.get "R" = some exVoteRoom ∧ roomRefsValid exVote exVoteRoom ∧
      membersKnown exVote exVoteRoom) ∧
    ∃ S' gs, gameUpdate exVote "R" = some S' ∧ getGameState exVote "R" = some gs ∧
      S'.out = exVote.out ++ exVoteRoom.players.keys.filterMap (memberMessage exVote gs) := by
  refine ⟨⟨by decide, by unfold roomRefsValid; decide, by unfold membersKnown; decide⟩, ?_⟩
  obtain ⟨ps, gs, _, hgs, _, _, _, _, _, _, h, _⟩ :=
    C22_broadcast_personalises_team exVote "R" exVoteRoom (by decide)
      (by unfold roomRefsValid; decide) (by unfold membersKnown; decide)
  exact ⟨_, gs, h, hgs, rfl⟩

/-- The broadcast of room "R" on `exVote`: one message per member, each with the team of
its recipient; on `exGrace`, whose only member is still registered, one message. -/
theorem gameUpdate_examples :
    (gameUpdate exVote "R").map (fun S => S.out.map (fun e =>
        match e.msg with
        | Msg.gameState gs => (e.conn, gs.room, gs.team, gs.players.keys)
        | _ => (e.conn, "", none, [])))
      = some [(0, "R", some "red", [tokA, tokB, tokC]), (1, "R", some "red", [tokA, tokB, tokC]),
              (2, "R", some "blue", [tokA, tokB, tokC])] := by
  decide

/-! ## C23: randomizeTeams -/

theorem Obj.get_of_mem_nodup {α : Type} (o : Obj α) (h : o.keys.Nodup) (k : String) (v : α)
    (hm : (k, v) ∈ o) : o.get k = some v := by
  induction o with
  | nil => cases hm
  | cons e t ih =>
    obtain ⟨k', v'⟩ := e
    simp only [Obj.keys, List.map_cons, List.nodup_cons] at h
    rcases List.mem_cons.1 hm with he | he
    · cases he
      simp [Obj.get]
    · have hne : k' ≠ k := by
        intro hk
        exact h.1 (hk ▸ List.mem_map.2 ⟨(k, v), he, rfl⟩)
      simp only [Obj.get, hne, if_false]
      exact ih h.2 he

/-- The sampling loop keeps the placed keys distinct and among the keys, and ends only when
as many keys are placed as there are keys. -/
theorem placeLoop_spec (keys : List String) (picks : List Nat) :
    ∀ placed0 placed, placed0.Nodup → placed0 ⊆ keys →
      placeLoop keys picks placed0 = some placed →
      placed.Nodup ∧ placed ⊆ keys ∧ keys.length ≤ placed.length := by
  induction picks with
  | nil =>
    intro placed0 placed hn hs h
    simp only [placeLoop] at h
    split at h
    · cases h
    · rename_i hlt
      cases h
      exact ⟨hn, hs, Nat.le_of_not_lt hlt⟩
  | cons i picks ih =>
    intro placed0 placed hn hs h
    simp only [placeLoop] at h
    split at h
    · cases hk : keys[i]? with
      | none => simp [hk] at h
      | some sel =>
        simp only [hk] at h
        have hsel : sel ∈ keys := List.getElem?_mem hk
        by_cases hin : sel ∈ placed0
        · rw [if_pos hin] at h
          exact ih placed0 placed hn hs h
        · rw [if_neg hin] at h
          refine ih (placed0 ++ [sel]) placed ?_ ?_ h
          · refine List.Nodup.append hn (List.nodup_singleton _) ?_
            intro a ha hb
            rw [List.mem_singleton.1 hb] at ha
            exact hin ha
          · intro x hx
            rcases List.mem_append.1 hx with hx | hx
            · exact hs hx
            · rw [List.mem_singleton.1 hx]
              exact hsel
    · rename_i hlt
      cases h
      exact ⟨hn, hs, Nat.le_of_not_lt hlt⟩

/-- When the sampling loop terminates, the placed order is a permutation of the keys. -/
theorem placeLoop_perm (keys : List String) (picks : List Nat) (placed : List String)
    (h : placeLoop keys picks [] = some placed) : List.Perm placed keys := by
  obtain ⟨h1, h2, h3⟩ := placeLoop_spec keys picks [] placed List.nodup_nil
    (List.nil_subset _) h
  exact (List.subperm_of_subset h1 h2).perm_of_length_le h3

/-- The placement loop returns; the object of the key at position `i` ends on the team at
position `i` of the alternating list and is otherwise unchanged, and no other object is
touched. -/
theorem assignLoop_spec (players : Obj Nat)
    (hinj : ∀ k k' r, players.get k = some r → players.get k' = some r → k = k') :
    ∀ (ks : List String) (S : State) (c : Nat), ks.Nodup →
      (∀ k ∈ ks, ∃ r, players.get k = some r ∧ r < S.heap.length) →
      ∃ h', assignLoop S players ks c = some { S with heap := h' } ∧
        h'.length = S.heap.length ∧
        (∀ r : Nat, (∀ k ∈ ks, players.get k ≠ some r) → h'[r]? = S.heap[r]?) ∧
        ∀ (i : Nat) (k : String) (r : Nat), ks[i]? = some k → players.get k = some r →
          ∃ (q : Player) (tm : String), S.heap[r]? = some q ∧
            (alternating c ks.length)[i]? = some tm ∧ h'[r]? = some { q with team := tm } := by
  intro ks
  induction ks with
  | nil =>
    intro S c _ _
    exact ⟨S.heap, rfl, rfl, fun _ _ => rfl, by simp⟩
  | cons k0 t ih =>
    intro S c hn hv
    obtain ⟨hk0, hnt⟩ := List.nodup_cons.1 hn
    obtain ⟨r0, hr0, hlt⟩ := hv k0 (List.mem_cons_self _ _)
    have hq0 : S.heap[r0]? = some S.heap[r0] := List.getElem?_eq_getElem hlt
    have hnot : ∀ k ∈ t, players.get k ≠ some r0 := by
      intro k hk hget
      exact hk0 (hinj k k0 r0 hget hr0 ▸ hk)
    obtain ⟨h', h1, h2, h3, h4⟩ := ih
      (S.setPlayer r0 { S.heap[r0] with team := if c = 0 then "red" else "blue" })
      (if c = 0 then 1 else 0) hnt
      (fun k hk => by
        obtain ⟨r, hr1, hr2⟩ := hv k (List.mem_cons_of_mem _ hk)
        exact ⟨r, hr1, by simpa [State.setPlayer] using hr2⟩)
    have hres : assignLoop S players (k0 :: t) c = some { S with heap := h' } := by
      simp only [assignLoop, hr0, hq0]
      by_cases hc : c = 0
      · simp only [hc, if_true] at h1 ⊢
        rw [h1]
        rfl
      · simp only [hc, if_false] at h1 ⊢
        rw [h1]
        rfl
    refine ⟨h', hres, by simpa [State.setPlayer] using h2, ?_, ?_⟩
    · intro r hr
      have hne : r ≠ r0 := fun h => hr k0 (List.mem_cons_self _ _) (h ▸ hr0)
      rw [h3 r (fun k hk => hr k (List.mem_cons_of_mem _ hk))]
      simp [State.setPlayer, List.getElem?_set_ne (Ne.symm hne)]
    · intro i k r hi hget
      cases i with
      | zero =>
        simp only [List.getElem?_cons_zero, Option.some.injEq] at hi
        subst hi
        rw [hr0] at hget
        cases hget
        refine ⟨S.heap[r0], if c = 0 then "red" else "blue", hq0, by simp [alternating], ?_⟩
        rw [h3 r0 hnot]
        simp [State.setPlayer, List.getElem?_set, hlt]
      | succ i =>
        simp only [List.getElem?_cons_succ] at hi
        have hk : k ∈ t := List.getElem?_mem hi
        have hne : r ≠ r0 := fun h => hnot k hk (h ▸ hget)
        obtain ⟨q, tm, hq, htm, hq'⟩ := h4 i k r hi hget
        refine ⟨q, tm, ?_, by simpa [alternating] using htm, hq'⟩
        simpa [State.setPlayer, List.getElem?_set_ne (Ne.symm hne)] using hq

theorem alternating_length (c n : Nat) : (alternating c n).length = n := by
  induction n generalizing c with
  | zero => rfl
  | succ n ih => simp [alternating, ih]

theorem alternating_mem (c n : Nat) : ∀ x ∈ alternating c n, x = "red" ∨ x = "blue" := by
  induction n generalizing c with
  | zero => intro x hx; cases hx
  | succ n ih =>
    intro x hx
    simp only [alternating, List.mem_cons] at hx
    rcases hx with rfl | hx
    · by_cases hc : c = 0
      · simp [hc]
      · simp [hc]
    · exact ih _ x hx

/-- The alternating list is balanced: the numbers of "red" and of "blue" differ by at most
1, the starting colour having at least as many. -/
theorem alternating_balanced (n : Nat) : ∀ c : Nat,
    (alternating c n).countP (fun x => decide (x = "red")) ≤
        (alternating c n).countP (fun x => decide (x = "blue")) + 1 ∧
      (alternating c n).countP (fun x => decide (x = "blue")) ≤
        (alternating c n).countP (fun x => decide (x = "red")) + 1 ∧
      (c = 0 → (alternating c n).countP (fun x => decide (x = "blue")) ≤
        (alternating c n).countP (fun x => decide (x = "red"))) ∧
      (c ≠ 0 → (alternating c n).countP (fun x => decide (x = "red")) ≤
        (alternating c n).countP (fun x => decide (x = "blue"))) := by
  induction n with
  | zero => intro c; simp [alternating]
  | succ n ih =>
    intro c
    by_cases hc : c = 0
    · obtain ⟨h1, h2, _, h4⟩ := ih 1
      have h4' := h4 (by decide)
      refine ⟨?_, ?_, fun _ => ?_, fun h => absurd hc h⟩ <;>
        simp only [alternating, hc, if_true, List.countP_cons, decide_True,
          decide_eq_true_eq, show ("red" = "blue") = False from by decide, if_false] <;>
        omega
    · obtain ⟨h1, h2, h3, _⟩ := ih 0
      have h3' := h3 rfl
      refine ⟨?_, ?_, fun h => absurd h hc, fun _ => ?_⟩ <;>
        simp only [alternating, hc, if_false, List.countP_cons, decide_True,
          decide_eq_true_eq, show ("blue" = "red") = False from by decide, if_true] <;>
        omega

theorem countP_pointwise {α β : Type} (p : α → Bool) (q : β → Bool) :
    ∀ (l : List α) (m : List β), l.length = m.length →
      (∀ (i : Nat) (a : α) (b : β), l[i]? = some a → m[i]? = some b → p a = q b) →
      l.countP p = m.countP q := by
  intro l
  induction l with
  | nil =>
    intro m hl _
    cases m with
    | nil => rfl
    | cons b m => simp at hl
  | cons a l ih =>
    intro m hl h
    cases m with
    | nil => simp at hl
    | cons b m =>
      have h0 : p a = q b := h 0 a b (by simp) (by simp)
      have ht := ih m (by simpa using hl)
        (fun i a' b' ha hb => h (i + 1) a' b' (by simpa using ha) (by simpa using hb))
      simp only [List.countP_cons, h0, ht]

/-- C23. On a room with pairwise distinct member keys and member objects, valid member
references and a `Player` for every member, whenever the sampling loop terminates on the
draws given, the placed order is a permutation of the member keys and `randomizeTeams`
returns: every member ends on team "red" or "blue" and is otherwise unchanged (nickname,
role and guess proposal included), no other player object, no room and no registry entry
changes, and the numbers of red and of blue members differ by at most 1. -/
theorem C23_randomizeTeams_balanced (S : State) (socket : Socket) (coin : Bool)
    (picks : List Nat) (ref : Nat) (p : Player) (R : Room) (placed : List String)
    (hp : S.PLAYER_LIST.get socket.sessionId = some ref) (hh : S.heap[ref]? = some p)
    (hR : S.ROOM_LIST.get p.room = some R) (hn : R.players.keys.Nodup)
    (hd : (R.players.map Prod.snd).Nodup) (hv : roomRefsValid S R) (hk : membersKnown S R)
    (hpl : placeLoop R.players.keys picks [] = some placed) :
    List.Perm placed R.players.keys ∧
    ∃ S', randomizeTeams S socket coin picks = some S' ∧
      S'.ROOM_LIST = S.ROOM_LIST ∧ S'.PLAYER_LIST = S.PLAYER_LIST ∧
      (∀ e ∈ R.players, ∃ (q : Player) (tm : String), S.heap[e.2]? = some q ∧
        (tm = "red" ∨ tm = "blue") ∧ S'.heap[e.2]? = some { q with team := tm }) ∧
      (∀ r : Nat, (∀ e ∈ R.players, e.2 ≠ r) → S'.heap[r]? = S.heap[r]?) ∧
      teamCount S' R "red" ≤ teamCount S' R "blue" + 1 ∧
      teamCount S' R "blue" ≤ teamCount S' R "red" + 1 := by
  have hperm := placeLoop_perm R.players.keys picks placed hpl
  refine ⟨hperm, ?_⟩
  have hg : truthyAt S.PLAYER_LIST socket.sessionId = true := by simp [truthyAt, hp]
  have hinj : ∀ k k' r, R.players.get k = some r → R.players.get k' = some r → k = k' := by
    intro k k' r h1 h2
    have := List.inj_on_of_nodup_map hd (Obj.mem_of_get _ _ _ h1) (Obj.mem_of_get _ _ _ h2) rfl
    exact (Prod.mk.inj this).1
  have hvalid : ∀ k ∈ placed, ∃ r, R.players.get k = some r ∧ r < S.heap.length := by
    intro k hkp
    obtain ⟨r, hr⟩ := (Obj.mem_keys_iff _ _).1 (hperm.subset hkp)
    exact ⟨r, hr, hv (k, r) (Obj.mem_of_get _ _ _ hr)⟩
  obtain ⟨h', h1, h2, h3, h4⟩ := assignLoop_spec R.players hinj placed S (if coin then 1 else 0)
    (hperm.nodup_iff.2 hn) hvalid
  obtain ⟨gs, es, _, _, _, hes⟩ := gameUpdate_some { S with heap := h' } p.room R hR
    (roomRefsValid_of_eq S _ R R hv h2 rfl) (membersKnown_of_eq S _ R R hk rfl h2 rfl)
  have hres : randomizeTeams S socket coin picks =
      some { S with heap := h', out := S.out ++ es } := by
    simp only [randomizeTeams, hg, Bool.not_true, Bool.false_eq_true, if_false, hp, hh, hR, hpl,
      h1]
    exact hes
  have hmember : ∀ e ∈ R.players, ∃ (i : Nat) (q : Player) (tm : String),
      placed[i]? = some e.1 ∧ S.heap[e.2]? = some q ∧
      (alternating (if coin then 1 else 0) placed.length)[i]? = some tm ∧
      h'[e.2]? = some { q with team := tm } := by
    intro e he
    have hkey : e.1 ∈ placed := hperm.mem_iff.2 (List.mem_map.2 ⟨e, he, rfl⟩)
    obtain ⟨i, hi⟩ := List.mem_iff_getElem?.1 hkey
    obtain ⟨q, tm, hq, htm, hq'⟩ := h4 i e.1 e.2 hi
      (Obj.get_of_mem_nodup _ hn e.1 e.2 he)
    exact ⟨i, q, tm, hi, hq, htm, hq'⟩
  have hcount : ∀ tm : String, teamCount { S with heap := h', out := S.out ++ es } R tm =
      (alternating (if coin then 1 else 0) placed.length).countP
        (fun x => decide (x = tm)) := by
    intro tm
    have e1 : teamCount { S with heap := h', out := S.out ++ es } R tm =
        R.players.keys.countP (fun k => decide
          (((R.players.get k).bind (fun r => (h'[r]?).map (fun q => q.team))) = some tm)) := by
      simp only [teamCount, Obj.keys, List.countP_map]
      apply List.countP_congr
      intro e he
      simp [Function.comp, Obj.get_of_mem_nodup _ hn e.1 e.2 he]
    rw [e1, ← hperm.countP_eq]
    apply countP_pointwise
    · rw [alternating_length]
    · intro i k t hi ht
      obtain ⟨r, hr, _⟩ := hvalid k (List.getElem?_mem hi)
      obtain ⟨q, tm', _, htm', hq'⟩ := h4 i k r hi hr
      rw [ht] at htm'
      cases htm'
      simp [hr, hq']
  refine ⟨_, hres, rfl, rfl, fun e he => ?_, fun r hr => ?_, ?_, ?_⟩
  · obtain ⟨i, q, tm, _, hq, htm, hq'⟩ := hmember e he
    exact ⟨q, tm, hq, alternating_mem _ _ tm (List.getElem?_mem htm), hq'⟩
  · exact h3 r (fun k _ hget => hr (k, r) (Obj.mem_of_get _ _ _ hget) rfl)
  · rw [hcount "red", hcount "blue"]
    exact (alternating_balanced _ _).1
  · rw [hcount "red", hcount "blue"]
    exact (alternating_balanced _ _).2.1

/-- C23 on the state `exVote` with the draws 2, 2, 0, 1, 0 and a first draw below 0.5. -/
theorem C23_randomizeTeams_balanced_witness :
    (exVote.PLAYER_LIST.get sockA.sessionId = some 0 ∧ exVote.heap[0]? = some exVoterA ∧
      exVote.ROOM_LIST.get exVoterA.room = some exVoteRoom ∧
      exVoteRoom.players.keys.Nodup ∧ (exVoteRoom.players.map Prod.snd).Nodup ∧
      roomRefsValid exVote exVoteRoom ∧ membersKnown exVote exVoteRoom ∧
      placeLoop exVoteRoom.players.keys [2, 2, 0, 1, 0] [] = some [tokC, tokA, tokB]) ∧
    (List.Perm [tokC, tokA, tokB] exVoteRoom.players.keys ∧
    ∃ S', randomizeTeams exVote sockA true [2, 2, 0, 1, 0] = some S' ∧
      S'.ROOM_LIST = exVote.ROOM_LIST ∧ S'.PLAYER_LIST = exVote.PLAYER_LIST ∧
      (∀ e ∈ exVoteRoom.players, ∃ (q : Player) (tm : String), exVote.heap[e.2]? = some q ∧
        (tm = "red" ∨ tm = "blue") ∧ S'.heap[e.2]? = some { q with team := tm }) ∧
      (∀ r : Nat, (∀ e ∈ exVoteRoom.players, e.2 ≠ r) → S'.heap[r]? = exVote.heap[r]?) ∧
      teamCount S' exVoteRoom "red" ≤ teamCount S' exVoteRoom "blue" + 1 ∧
      teamCount S' exVoteRoom "blue" ≤ teamCount S' exVoteRoom "red" + 1) :=
  ⟨⟨by decide, by decide, by decide, by decide, by decide, by unfold roomRefsValid; decide,
      by unfold membersKnown; decide, by decide⟩,
    C23_randomizeTeams_balanced exVote sockA true [2, 2, 0, 1, 0] 0 exVoterA exVoteRoom
      [tokC, tokA, tokB] (by decide) (by decide) (by decide) (by decide) (by decide)
      (by unfold roomRefsValid; decide) (by unfold membersKnown; decide) (by decide)⟩

/-- The same run evaluated: `tokC` is placed first and ends blue, `tokA` red, `tokB` blue;
the draws 0, 0 alone do not complete the loop. -/
theorem randomizeTeams_exVote :
    (randomizeTeams exVote sockA true [2, 2, 0, 1, 0]).map
        (fun S => S.heap.map (fun q => (q.nickname, q.team, q.role, q.guessProposal)))
      = some [("Alice", "red", "guesser", none), ("Bob", "blue", "guesser", some "apple"),
              ("Carol", "blue", "guesser", none)] ∧
    placeLoop exVoteRoom.players.keys [0, 0] [] = none := by
  refine ⟨by decide, by decide⟩

/-! ## C24: players and registered connections -/

theorem reachable_exShared1 : Reachable exEngine lobbySession exShared1 :=
  Reachable.step
    (Reachable.step Reachable.init
      (@Step.connect exEngine lobbySession State.init exConn1 none tokA sockA (by decide)
        (by decide)))
    (@Step.createRoom exEngine lobbySession exConn1 exShared1 sockA
      { room := "R", password := "", nickname := "Alice" } (by decide)
      (by unfold lobbySession; decide) (by decide))

theorem reachable_exShared3 : Reachable exEngine lobbySession exShared3 :=
  Reachable.step
    (Reachable.step reachable_exShared1
      (@Step.connect exEngine lobbySession exShared1 exShared2 (some tokA) tokB sockA2
        (by decide) (by decide)))
    (@Step.leaveRoom exEngine lobbySession exShared2 exShared3 sockA (by decide) (by decide))

/-- The state `exShared5` is reachable, even when only sessions without a `Player` send
`createRoom`: `tokA` connects and creates room "R", a second client connects with the
session id `tokA`, the first connection leaves the room and closes, and the second
connection creates room "B". -/
theorem reachable_exShared5 : Reachable exEngine lobbySession exShared5 :=
  Reachable.step
    (Reachable.step reachable_exShared3
      (@Step.disconnect exEngine lobbySession exShared3 exShared4 sockA (by decide)
        (by decide)))
    (@Step.createRoom exEngine lobbySession exShared4 exShared5 sockA2
      { room := "B", password := "", nickname := "Bob" } (by decide)
      (by unfold lobbySession; decide) (by decide))

/-- C24, failing input. In the reachable state `exShared5` the session `tokA` has a
`Player` and an open connection, but no entry in `SOCKET_LIST`: the entry was deleted when
the first connection of the session closed. The unguarded `emit` of `newGame` then throws,
and so does the tick once the room is in timed mode. -/
theorem C24_player_without_registered_connection :
    Reachable exEngine lobbySession exShared5 ∧
    (exShared5.PLAYER_LIST.get tokA).isSome = true ∧ sockA2 ∈ exShared5.conns ∧
    exShared5.SOCKET_LIST.get tokA = none ∧
    newGame exEngine exShared5 sockA2 = none ∧
    switchMode exShared5 sockA2 "timed" = some exShared6 ∧
    (∀ time, tick exEngine exShared6 time = none) := by
  refine ⟨reachable_exShared5, by decide, by decide, by decide, by decide, by decide,
    fun time => ?_⟩
  rw [tick_skips_afkLoop]
  decide

/-! ## C25: the timer slider -/

/-- When the configured duration minus 1 differs from `value * 60 + 1`, `timerSlider` sets
the configured duration and the countdown to `value * 60 + 1` and broadcasts the room. -/
theorem timerSlider_updates (S : State) (socket : Socket) (value : Int) (ref : Nat)
    (p : Player) (R : Room) (hp : S.PLAYER_LIST.get socket.sessionId = some ref)
    (hh : S.heap[ref]? = some p) (hR : S.ROOM_LIST.get p.room = some R)
    (hv : roomRefsValid S R) (hk : membersKnown S R)
    (hne : R.game.timerAmount - 1 ≠ value * 60 + 1) :
    ∃ es, timerSlider S socket value =
      some { S with ROOM_LIST := S.ROOM_LIST.set p.room
                      { R with game := { R.game with timerAmount := value * 60 + 1,
                                                     timer := value * 60 + 1 } },
                    out := S.out ++ es } := by
  have hg : truthyAt S.PLAYER_LIST socket.sessionId = true := by simp [truthyAt, hp]
  have hget : (S.ROOM_LIST.set p.room
      { R with game := { R.game with timerAmount := value * 60 + 1,
                                     timer := value * 60 + 1 } }).get p.room
      = some { R with game := { R.game with timerAmount := value * 60 + 1,
                                            timer := value * 60 + 1 } } :=
    Obj.get_set_self _ _ _
  obtain ⟨gs, es, _, _, _, hes⟩ := gameUpdate_some
    { S with ROOM_LIST := S.ROOM_LIST.set p.room
               { R with game := { R.game with timerAmount := value * 60 + 1,
                                              timer := value * 60 + 1 } } }
    p.room { R with game := { R.game with timerAmount := value * 60 + 1,
                                          timer := value * 60 + 1 } } hget
    (roomRefsValid_of_eq S _ R _ hv rfl rfl) (membersKnown_of_eq S _ R _ hk rfl rfl rfl)
  refine ⟨es, ?_⟩
  dsimp only at hes
  simp only [timerSlider, hg, Bool.not_true, Bool.false_eq_true, if_false, hp, hh, hR,
    State.setRoom]
  rw [if_pos hne]
  exact hes

/-- When the configured duration is `value * 60 + 2`, `timerSlider` changes nothing and
emits nothing. -/
theorem timerSlider_skips (S : State) (socket : Socket) (value : Int) (ref : Nat)
    (p : Player) (R : Room) (hp : S.PLAYER_LIST.get socket.sessionId = some ref)
    (hh : S.heap[ref]? = some p) (hR : S.ROOM_LIST.get p.room = some R)
    (he : R.game.timerAmount = value * 60 + 2) :
    timerSlider S socket value = some S := by
  have hg : truthyAt S.PLAYER_LIST socket.sessionId = true := by simp [truthyAt, hp]
  have heq : R.game.timerAmount - 1 = value * 60 + 1 := by rw [he]; ring
  simp only [timerSlider, hg, Bool.not_true, Bool.false_eq_true, if_false, hp, hh, hR]
  rw [if_neg (not_not.2 heq)]

/-- C25, failing input. On `exSlider 62` (configured duration 62 s, countdown 7 s) the
player `tokA` sends the slider value 1: the new amount 61 differs from the current amount,
yet the handler changes nothing and emits nothing, so the duration stays 62 and the
countdown 7. On `exSlider 61` the same request, whose amount 61 is the current amount,
resets the countdown to 61 and broadcasts the room to its three members. -/
theorem C25_slider_compares_off_by_two :
    timerSlider (exSlider 62) sockA 1 = some (exSlider 62) ∧
    (exSlider 62).ROOM_LIST.map (fun e => (e.2.game.timerAmount, e.2.game.timer))
      = [(62, 7)] ∧
    (timerSlider (exSlider 61) sockA 1).map
        (fun S => (S.ROOM_LIST.map (fun e => (e.2.game.timerAmount, e.2.game.timer)),
          S.out.length)) = some ([(61, 61)], 3) := by
  refine ⟨by decide, by decide, by decide⟩

/-! ## The game handlers and the clock keep the membership frame -/

theorem sameMembership_refl (S : State) : sameMembership S S :=
  ⟨rfl, rfl, rfl, rfl, rfl, rfl, rfl, rfl, rfl, rfl⟩

theorem sameMembership_trans {S S1 S2 : State} (h1 : sameMembership S S1)
    (h2 : sameMembership S1 S2) : sameMembership S S2 := by
  obtain ⟨a1, a2, a3, a4, a5, a6, a7, a8, a9, a10⟩ := h1
  obtain ⟨b1, b2, b3, b4, b5, b6, b7, b8, b9, b10⟩ := h2
  exact ⟨b1.trans a1, b2.trans a2, b3.trans a3, b4.trans a4, b5.trans a5, b6.trans a6,
    b7.trans a7, b8.trans a8, b9.trans a9, b10.trans a10⟩

theorem sameMembership_out (S : State) (o : List Emit) :
    sameMembership S { S with out := o } :=
  ⟨rfl, rfl, rfl, rfl, rfl, rfl, rfl, rfl, rfl, rfl⟩

theorem sameMembership_calls (S : State) (c : List (String × EngineCall)) :
    sameMembership S { S with calls := c } :=
  ⟨rfl, rfl, rfl, rfl, rfl, rfl, rfl, rfl, rfl, rfl⟩

theorem sameMembership_emit (S : State) (conn : Nat) (m : Msg) :
    sameMembership S (S.emit conn m) :=
  ⟨rfl, rfl, rfl, rfl, rfl, rfl, rfl, rfl, rfl, rfl⟩

theorem map_set_of_eq {α β : Type} (f : α → β) : ∀ (l : List α) (i : Nat) (a b : α),
    l[i]? = some a → f b = f a → (l.set i b).map f = l.map f := by
  intro l
  induction l with
  | nil => intro i a b h _; simp at h
  | cons x t ih =>
    intro i a b h hf
    cases i with
    | zero =>
      simp only [List.getElem?_cons_zero, Option.some.injEq] at h
      subst h
      simp [hf]
    | succ i =>
      simp only [List.getElem?_cons_succ] at h
      simp only [List.set_cons_succ, List.map_cons, List.cons.injEq, true_and]
      exact ih i a b h hf

theorem Obj.map_set_same {α β : Type} (f : String × α → β) (k : String) (v v0 : α)
    (hf : f (k, v) = f (k, v0)) : ∀ (o : Obj α), o.get k = some v0 →
    (o.set k v).map f = o.map f := by
  intro o
  induction o with
  | nil => intro h; simp [Obj.get] at h
  | cons e t ih =>
    obtain ⟨k', v'⟩ := e
    intro h
    by_cases hk : k' = k
    · subst hk
      simp only [Obj.get, if_true, Option.some.injEq] at h
      subst h
      simp [Obj.set, hf]
    · simp only [Obj.get, if_neg hk] at h
      simp only [Obj.set, if_neg hk, List.map_cons, List.cons.injEq, true_and]
      exact ih h

/-- A write to a `Player` object that keeps its `id` and `room`. -/
theorem sameMembership_setPlayer (S : State) (ref : Nat) (p q : Player)
    (h : S.heap[ref]? = some p) (hid : q.id = p.id) (hroom : q.room = p.room) :
    sameMembership S (S.setPlayer ref q) := by
  refine ⟨rfl, rfl, ?_, rfl, rfl, rfl, rfl, rfl, rfl, rfl⟩
  exact map_set_of_eq _ S.heap ref p q h (by simp [hid, hroom])

/-- A write to a room that keeps its name, password and member set. -/
theorem sameMembership_setRoom (S : State) (n : String) (R R' : Room)
    (h : S.ROOM_LIST.get n = some R) (hr : R'.room = R.room)
    (hp : R'.password = R.password) (hpl : R'.players = R.players) :
    sameMembership S (S.setRoom n R') := by
  refine ⟨?_, rfl, rfl, rfl, rfl, rfl, rfl, rfl, rfl, rfl⟩
  exact Obj.map_set_same _ n R' R (by simp [hr, hp, hpl]) S.ROOM_LIST h

theorem gameUpdate_frame (S S' : State) (room : String) (h : gameUpdate S room = some S') :
    sameMembership S S' := by
  unfold gameUpdate at h
  split at h
  · split at h
    · exact absurd h (by simp)
    · simp only [Option.some.injEq] at h
      subst h
      exact sameMembership_out S _
  · exact absurd h (by simp)

theorem clearLoop_frame (ks : List String) : ∀ (S S' : State),
    clearLoop S ks = some S' → sameMembership S S' := by
  induction ks with
  | nil =>
    intro S S' h
    simp only [clearLoop, Option.some.injEq] at h
    subst h
    exact sameMembership_refl S
  | cons k rest ih =>
    intro S S' h
    simp only [clearLoop] at h
    split at h
    · exact absurd h (by simp)
    · rename_i ref hp
      split at h
      · exact absurd h (by simp)
      · rename_i p hh
        have h2 := ih _ _ h
        refine sameMembership_trans ?_ h2
        exact sameMembership_setPlayer S ref p _ hh rfl rfl

theorem clearGuessProsposals_frame (S S' : State) (room : String)
    (h : clearGuessProsposals S room = some S') : sameMembership S S' := by
  unfold clearGuessProsposals at h
  split at h
  · exact absurd h (by simp)
  · exact clearLoop_frame _ _ _ h

theorem assignLoop_frame (players : Obj Nat) (ks : List String) : ∀ (S S' : State) (c : Nat),
    assignLoop S players ks c = some S' → sameMembership S S' := by
  induction ks with
  | nil =>
    intro S S' c h
    simp only [assignLoop, Option.some.injEq] at h
    subst h
    exact sameMembership_refl S
  | cons k rest ih =>
    intro S S' c h
    simp only [assignLoop] at h
    split at h
    · exact absurd h (by simp)
    · rename_i ref hp
      split at h
      · exact absurd h (by simp)
      · rename_i p hh
        split at h
        · have h2 := ih _ _ _ h
          refine sameMembership_trans ?_ h2
          exact sameMembership_setPlayer S ref p _ hh rfl rfl
        · have h2 := ih _ _ _ h
          refine sameMembership_trans ?_ h2
          exact sameMembership_setPlayer S ref p _ hh rfl rfl

theorem newGameLoop_frame (ks : List String) : ∀ (S S' : State),
    newGameLoop S ks = some S' → sameMembership S S' := by
  induction ks with
  | nil =>
    intro S S' h
    simp only [newGameLoop, Option.some.injEq] at h
    subst h
    exact sameMembership_refl S
  | cons k rest ih =>
    intro S S' h
    simp only [newGameLoop] at h
    split at h
    · exact absurd h (by simp)
    · rename_i ref hp
      split at h
      · exact absurd h (by simp)
      · rename_i p hh
        split at h
        · exact absurd h (by simp)
        · rename_i sock hs
          have h2 := ih _ _ h
          refine sameMembership_trans ?_ h2
          refine sameMembership_trans ?_ (sameMembership_emit _ _ _)
          refine sameMembership_trans ?_ (sameMembership_emit _ _ _)
          exact sameMembership_setPlayer S ref p _ hh rfl rfl

theorem timerUpdates_frame (timer : Int) (ks : List String) : ∀ (S S' : State),
    timerUpdates S timer ks = some S' → sameMembership S S' := by
  induction ks with
  | nil =>
    intro S S' h
    simp only [timerUpdates, Option.some.injEq] at h
    subst h
    exact sameMembership_refl S
  | cons k rest ih =>
    intro S S' h
    simp only [timerUpdates] at h
    split at h
    · exact absurd h (by simp)
    · exact sameMembership_trans (sameMembership_emit _ _ _) (ih _ _ h)

theorem flipAndUpdate_frame (E : Engine) (S S' : State) (room : String) (i j : Nat)
    (doFlip : Bool) (h : flipAndUpdate E S room i j doFlip = some S') :
    sameMembership S S' := by
  unfold flipAndUpdate at h
  split at h
  · split at h
    · exact absurd h (by simp)
    · rename_i R hR
      dsimp only at h
      split at h
      · exact absurd h (by simp)
      · rename_i S2 hc
        have h3 := gameUpdate_frame _ _ _ h
        have h2 := clearGuessProsposals_frame _ _ _ hc
        have h1 : sameMembership S (S.setRoom room { R with game := E.flipTile R.game i j }) :=
          sameMembership_setRoom S room R _ hR rfl rfl rfl
        exact sameMembership_trans (sameMembership_trans h1 ⟨h2.1, h2.2.1, h2.2.2.1, h2.2.2.2.1,
          h2.2.2.2.2.1, h2.2.2.2.2.2.1, h2.2.2.2.2.2.2.1, h2.2.2.2.2.2.2.2.1,
          h2.2.2.2.2.2.2.2.2.1, h2.2.2.2.2.2.2.2.2.2⟩) h3
  · exact gameUpdate_frame _ _ _ h

/-! ### The handlers -/

theorem joinTeam_frame (S S' : State) (socket : Socket) (team : String)
    (h : joinTeam S socket team = some S') : sameMembership S S' := by
  unfold joinTeam at h
  split at h
  · simp only [Option.some.injEq] at h; subst h; exact sameMembership_refl S
  · split at h
    · exact absurd h (by simp)
    · rename_i ref hp
      split at h
      · exact absurd h (by simp)
      · rename_i p hh
        have h2 := gameUpdate_frame _ _ _ h
        refine sameMembership_trans ?_ h2
        exact sameMembership_setPlayer S ref p _ hh rfl rfl

theorem randomizeTeams_frame (S S' : State) (socket : Socket) (coin : Bool) (picks : List Nat)
    (h : randomizeTeams S socket coin picks = some S') : sameMembership S S' := by
  unfold randomizeTeams at h
  split at h
  · simp only [Option.some.injEq] at h; subst h; exact sameMembership_refl S
  · split at h
    · exact absurd h (by simp)
    · rename_i ref hp
      split at h
      · exact absurd h (by simp)
      · rename_i p hh
        split at h
        · exact absurd h (by simp)
        · rename_i R hR
          dsimp only at h
          split at h
          · exact absurd h (by simp)
          · split at h
            · exact absurd h (by simp)
            · rename_i S1 ha
              exact sameMembership_trans (assignLoop_frame _ _ _ _ _ ha)
                (gameUpdate_frame _ _ _ h)

theorem newGame_frame (E : Engine) (S S' : State) (socket : Socket)
    (h : newGame E S socket = some S') : sameMembership S S' := by
  unfold newGame at h
  split at h
  · simp only [Option.some.injEq] at h; subst h; exact sameMembership_refl S
  · split at h
    · exact absurd h (by simp)
    · rename_i ref hp
      split at h
      · exact absurd h (by simp)
      · rename_i p hh
        split at h
        · exact absurd h (by simp)
        · rename_i R hR
          dsimp only at h
          split at h
          · exact absurd h (by simp)
          · rename_i S2 hl
            have h3 := gameUpdate_frame _ _ _ h
            have h2 := newGameLoop_frame _ _ _ hl
            have h1 : sameMembership S (S.setRoom p.room { R with game := E.init R.game }) :=
              sameMembership_setRoom S p.room R _ hR rfl rfl rfl
            exact sameMembership_trans (sameMembership_trans h1 h2) h3

theorem switchRole_frame (S S' : State) (socket : Socket) (role : String)
    (h : switchRole S socket role = some S') : sameMembership S S' := by
  unfold switchRole at h
  split at h
  · simp only [Option.some.injEq] at h; subst h; exact sameMembership_refl S
  · split at h
    · exact absurd h (by simp)
    · rename_i ref hp
      split at h
      · exact absurd h (by simp)
      · rename_i p hh
        split at h
        · simp only [Option.some.injEq] at h; subst h; exact sameMembership_emit _ _ _
        · split at h
          · simp only [Option.some.injEq] at h; subst h; exact sameMembership_emit _ _ _
          · have h2 := gameUpdate_frame _ _ _ h
            refine sameMembership_trans ?_ h2
            refine sameMembership_trans ?_ (sameMembership_emit _ _ _)
            exact sameMembership_setPlayer S ref p _ hh rfl rfl

theorem switchDifficulty_frame (S S' : State) (socket : Socket) (difficulty : String)
    (h : switchDifficulty S socket difficulty = some S') : sameMembership S S' := by
  unfold switchDifficulty at h
  split at h
  · simp only [Option.some.injEq] at h; subst h; exact sameMembership_refl S
  · split at h
    · exact absurd h (by simp)
    · rename_i ref hp
      split at h
      · exact absurd h (by simp)
      · rename_i p hh
        split at h
        · exact absurd h (by simp)
        · rename_i R hR
          have h2 := gameUpdate_frame _ _ _ h
          refine sameMembership_trans ?_ h2
          exact sameMembership_setRoom S p.room R _ hR rfl rfl rfl

theorem switchMode_frame (S S' : State) (socket : Socket) (mode : String)
    (h : switchMode S socket mode = some S') : sameMembership S S' := by
  unfold switchMode at h
  split at h
  · simp only [Option.some.injEq] at h; subst h; exact sameMembership_refl S
  · split at h
    · exact absurd h (by simp)
    · rename_i ref hp
      split at h
      · exact absurd h (by simp)
      · rename_i p hh
        split at h
        · exact absurd h (by simp)
        · rename_i R hR
          have h2 := gameUpdate_frame _ _ _ h
          refine sameMembership_trans ?_ h2
          exact sameMembership_setRoom S p.room R _ hR rfl rfl rfl

theorem switchConsensus_frame (S S' : State) (socket : Socket) (consensus : String)
    (h : switchConsensus S socket consensus = some S') : sameMembership S S' := by
  unfold switchConsensus at h
  split at h
  · simp only [Option.some.injEq] at h; subst h; exact sameMembership_refl S
  · split at h
    · exact absurd h (by simp)
    · rename_i ref hp
      split at h
      · exact absurd h (by simp)
      · rename_i p hh
        split at h
        · exact absurd h (by simp)
        · rename_i S1 hc
          split at h
          · exact absurd h (by simp)
          · rename_i R hR
            have h3 := gameUpdate_frame _ _ _ h
            have h1 := clearGuessProsposals_frame _ _ _ hc
            refine sameMembership_trans (sameMembership_trans h1 ?_) h3
            exact sameMembership_setRoom S1 p.room R _ hR rfl rfl rfl

theorem endTurn_frame (E : Engine) (S S' : State) (socket : Socket)
    (h : endTurn E S socket = some S') : sameMembership S S' := by
  unfold endTurn at h
  split at h
  · simp only [Option.some.injEq] at h; subst h; exact sameMembership_refl S
  · split at h
    · exact absurd h (by simp)
    · rename_i ref hp
      split at h
      · exact absurd h (by simp)
      · rename_i p hh
        split at h
        · exact absurd h (by simp)
        · rename_i R hR
          dsimp only at h
          split at h
          · exact absurd h (by simp)
          · rename_i S2 hc
            have h3 := gameUpdate_frame _ _ _ h
            have h2 := clearGuessProsposals_frame _ _ _ hc
            have h1 : sameMembership S
                (S.setRoom p.room { R with game := E.switchTurn R.game (some true) }) :=
              sameMembership_setRoom S p.room R _ hR rfl rfl rfl
            exact sameMembership_trans (sameMembership_trans h1 h2) h3

theorem clickTile_frame (E : Engine) (S S' : State) (socket : Socket) (i j : Nat)
    (h : clickTile E S socket i j = some S') : sameMembership S S' := by
  unfold clickTile at h
  split at h
  · simp only [Option.some.injEq] at h; subst h; exact sameMembership_refl S
  · split at h
    · exact absurd h (by simp)
    · rename_i ref hp
      split at h
      · exact absurd h (by simp)
      · rename_i p hh
        split at h
        · exact absurd h (by simp)
        · rename_i R hR
          split at h
          · split at h
            · split at h
              · split at h
                · split at h
                  · exact absurd h (by simp)
                  · rename_i guess hw
                    split at h
                    · have h2 := gameUpdate_frame _ _ _ h
                      refine sameMembership_trans ?_ h2
                      exact sameMembership_setPlayer S ref p _ hh rfl rfl
                    · dsimp only at h
                      split at h
                      · exact absurd h (by simp)
                      · have h2 := flipAndUpdate_frame _ _ _ _ _ _ _ h
                        refine sameMembership_trans ?_ h2
                        exact sameMembership_setPlayer S ref p _ hh rfl rfl
                · exact flipAndUpdate_frame _ _ _ _ _ _ _ h
              · simp only [Option.some.injEq] at h; subst h; exact sameMembership_refl S
            · simp only [Option.some.injEq] at h; subst h; exact sameMembership_refl S
          · simp only [Option.some.injEq] at h; subst h; exact sameMembership_refl S

theorem declareClue_frame (E : Engine) (S S' : State) (socket : Socket) (clue : String)
    (h : declareClue E S socket clue = some S') : sameMembership S S' := by
  unfold declareClue at h
  split at h
  · simp only [Option.some.injEq] at h; subst h; exact sameMembership_refl S
  · split at h
    · exact absurd h (by simp)
    · rename_i ref hp
      split at h
      · exact absurd h (by simp)
      · rename_i p hh
        split at h
        · exact absurd h (by simp)
        · rename_i R hR
          have h1 : sameMembership S
              { S.setRoom p.room { R with game := (E.declareClue R.game clue).1 } with
                calls := S.calls ++ [(p.room, EngineCall.declareClue clue)] } :=
            sameMembership_trans
              (sameMembership_setRoom S p.room R
                { R with game := (E.declareClue R.game clue).1 } hR rfl rfl rfl)
              (sameMembership_calls _ _)
          split at h
          · split at h
            · split at h
              · dsimp only at h
                split at h
                · exact sameMembership_trans h1 (gameUpdate_frame _ _ _ h)
                · simp only [Option.some.injEq] at h; subst h; exact h1
              · simp only [Option.some.injEq] at h; subst h; exact sameMembership_refl S
            · simp only [Option.some.injEq] at h; subst h; exact sameMembership_refl S
          · simp only [Option.some.injEq] at h; subst h; exact sameMembership_refl S

theorem changeCards_frame (E : Engine) (S S' : State) (socket : Socket) (pack : String)
    (h : changeCards E S socket pack = some S') : sameMembership S S' := by
  unfold changeCards at h
  split at h
  · simp only [Option.some.injEq] at h; subst h; exact sameMembership_refl S
  · split at h
    · exact absurd h (by simp)
    · rename_i ref hp
      split at h
      · exact absurd h (by simp)
      · rename_i p hh
        split at h
        · exact absurd h (by simp)
        · rename_i R hR
          have h2 := gameUpdate_frame _ _ _ h
          have h1 : sameMembership S (S.setRoom p.room
              { R with game := E.updateWordPool (ensurePack (togglePack R.game pack)) }) :=
            sameMembership_setRoom S p.room R _ hR rfl rfl rfl
          exact sameMembership_trans h1 h2

theorem timerSlider_frame (S S' : State) (socket : Socket) (value : Int)
    (h : timerSlider S socket value = some S') : sameMembership S S' := by
  unfold timerSlider at h
  split at h
  · simp only [Option.some.injEq] at h; subst h; exact sameMembership_refl S
  · split at h
    · exact absurd h (by simp)
    · rename_i ref hp
      split at h
      · exact absurd h (by simp)
      · rename_i p hh
        split at h
        · exact absurd h (by simp)
        · rename_i R hR
          dsimp only at h
          split at h
          · have h2 := gameUpdate_frame _ _ _ h
            refine sameMembership_trans ?_ h2
            exact sameMembership_setRoom S p.room R _ hR rfl rfl rfl
          · simp only [Option.some.injEq] at h; subst h; exact sameMembership_refl S

theorem wildcard_frame (S S' : State) (socket : Socket)
    (h : wildcard S socket = some S') : sameMembership S S' := by
  unfold wildcard at h
  split at h
  · simp only [Option.some.injEq] at h; subst h; exact sameMembership_refl S
  · split at h
    · exact absurd h (by simp)
    · rename_i ref hp
      split at h
      · exact absurd h (by simp)
      · rename_i p hh
        simp only [Option.some.injEq] at h
        subst h
        exact sameMembership_setPlayer S ref p _ hh rfl rfl

/-! ### The clock -/

theorem sweepRoom_frame (E : Engine) (S S' : State) (room : String)
    (h : sweepRoom E S room = some S') : sameMembership S S' := by
  unfold sweepRoom at h
  split at h
  · exact absurd h (by simp)
  · rename_i R hR
    split at h
    · dsimp only at h
      have h1 : sameMembership S
          (S.setRoom room { R with game := { R.game with timer := R.game.timer - 1 } }) :=
        sameMembership_setRoom S room R _ hR rfl rfl rfl
      split at h
      · exact absurd h (by simp)
      · rename_i S2 hs
        have h2 : sameMembership S S2 := by
          split at hs
          · have hg := gameUpdate_frame _ _ _ hs
            refine sameMembership_trans (sameMembership_trans h1 ?_) hg
            refine sameMembership_trans ?_ (sameMembership_calls _ _)
            exact sameMembership_setRoom _ room
              { R with game := { R.game with timer := R.game.timer - 1 } } _
              (Obj.get_set_self _ _ _) rfl rfl rfl
          · simp only [Option.some.injEq] at hs
            subst hs
            exact h1
        split at h
        · exact absurd h (by simp)
        · exact sameMembership_trans h2 (timerUpdates_frame _ _ _ _ h)
    · simp only [Option.some.injEq] at h
      subst h
      exact sameMembership_refl S

theorem timedLoop_frame (E : Engine) (ks : List String) : ∀ (S S' : State),
    timedLoop E S ks = some S' → sameMembership S S' := by
  induction ks with
  | nil =>
    intro S S' h
    simp only [timedLoop, Option.some.injEq] at h
    subst h
    exact sameMembership_refl S
  | cons k rest ih =>
    intro S S' h
    simp only [timedLoop] at h
    split at h
    · exact absurd h (by simp)
    · rename_i S1 hs
      exact sameMembership_trans (sweepRoom_frame E S S1 k hs) (ih _ _ h)

theorem tick_frame (E : Engine) (S S' : State) (time : Time)
    (h : tick E S time = some S') : sameMembership S S' := by
  rw [tick_skips_afkLoop] at h
  exact timedLoop_frame E _ _ _ h

/-- The events that are not constructors of `Step` are instances of `Step.other`: from a
reachable state, each game handler and each tick of the clock that returns leads to a
reachable state. -/
theorem Reachable.reach_game_events (E : Engine) (guard : State → Socket → Prop)
    (S S' : State) (hr : Reachable E guard S) :
    (∀ socket team, joinTeam S socket team = some S' → Reachable E guard S') ∧
    (∀ socket coin picks, randomizeTeams S socket coin picks = some S' →
      Reachable E guard S') ∧
    (∀ socket, newGame E S socket = some S' → Reachable E guard S') ∧
    (∀ socket role, switchRole S socket role = some S' → Reachable E guard S') ∧
    (∀ socket difficulty, switchDifficulty S socket difficulty = some S' →
      Reachable E guard S') ∧
    (∀ socket mode, switchMode S socket mode = some S' → Reachable E guard S') ∧
    (∀ socket consensus, switchConsensus S socket consensus = some S' →
      Reachable E guard S') ∧
    (∀ socket, endTurn E S socket = some S' → Reachable E guard S') ∧
    (∀ socket i j, clickTile E S socket i j = some S' → Reachable E guard S') ∧
    (∀ socket clue, declareClue E S socket clue = some S' → Reachable E guard S') ∧
    (∀ socket pack, changeCards E S socket pack = some S' → Reachable E guard S') ∧
    (∀ socket value, timerSlider S socket value = some S' → Reachable E guard S') ∧
    (∀ socket, wildcard S socket = some S' → Reachable E guard S') ∧
    (∀ time, tick E S time = some S' → Reachable E guard S') := by
  have key : sameMembership S S' → Reachable E guard S' :=
    fun hs => Reachable.step hr (Step.other hs)
  refine ⟨?_, ?_, ?_, ?_, ?_, ?_, ?_, ?_, ?_, ?_, ?_, ?_, ?_, ?_⟩
  · exact fun socket team h => key (joinTeam_frame S S' socket team h)
  · exact fun socket coin picks h => key (randomizeTeams_frame S S' socket coin picks h)
  · exact fun socket h => key (newGame_frame E S S' socket h)
  · exact fun socket role h => key (switchRole_frame S S' socket role h)
  · exact fun socket d h => key (switchDifficulty_frame S S' socket d h)
  · exact fun socket m h => key (switchMode_frame S S' socket m h)
  · exact fun socket c h => key (switchConsensus_frame S S' socket c h)
  · exact fun socket h => key (endTurn_frame E S S' socket h)
  · exact fun socket i j h => key (clickTile_frame E S S' socket i j h)
  · exact fun socket clue h => key (declareClue_frame E S S' socket clue h)
  · exact fun socket pack h => key (changeCards_frame E S S' socket pack h)
  · exact fun socket v h => key (timerSlider_frame S S' socket v h)
  · exact fun socket h => key (wildcard_frame S S' socket h)
  · exact fun time h => key (tick_frame E S S' time h)

end Codenames
